import Mathlib

/-!
# UPL front end (`upl.c`): lexer, diagnostic collector, symbol table, parser

A shallow embedding of `src/upl.c`.  The C globals (`token_list`, `symbol_table`,
`current_token`, `line`, `errors`/`error_count`, `token_index`, `last_error_line`)
become the fields of one record `State` that every operation takes and returns.
The input file is the list of characters still to be read (`fgetc` takes the head,
`ungetc` puts one character back).  C strings are lists of characters; `c_string`
cuts a buffer at its first NUL and at the capacity of the destination.
Integers (`line`, counts) are unbounded: no input of fewer than 2^31 lines or
tokens makes the C `int`s overflow.  Allocation never fails.
Recursive-descent functions and loops take a fuel argument and return `none`
when it runs out; `some` carries the C function's result and the new globals.
-/

namespace Upl

set_option linter.unusedTactic false
set_option linter.unreachableTactic false
set_option linter.unusedVariables false
set_option linter.unnecessarySeqFocus false

/-! ## Data model -/

/-- C strings as character lists. -/
abbrev Str := List Char

def MAX_TOKEN_LEN : Nat := 100
def MAX_STMTS : Nat := 100
def MAX_ERRORS : Nat := 100
def MAX_TOKENS : Nat := 2000
def MAX_SYMBOLS : Nat := 100

inductive TokenType where
  | TOK_BEGIN | TOK_END | TOK_IF | TOK_THEN | TOK_ELSE | TOK_DO | TOK_WHILE | TOK_FOR
  | TOK_PRINT | TOK_INT | TOK_BOOL | TOK_TRUE | TOK_FALSE | TOK_ID | TOK_NUM | TOK_EQ
  | TOK_GT | TOK_GTE | TOK_PLUS | TOK_MUL | TOK_ASSIGN | TOK_LPAREN | TOK_RPAREN
  | TOK_LBRACE | TOK_RBRACE | TOK_SEMICOLON | TOK_EOF | TOK_ERROR
  deriving DecidableEq, Repr

open TokenType

structure Token where
  type : TokenType
  text : Str
  line : Nat
  deriving DecidableEq, Repr

/-- The tree `struct Node`: a label and the child pointers, each of which may be NULL. -/
inductive Node where
  | mk (label : Str) (children : List (Option Node)) : Node

structure Error where
  line : Nat
  message : Str
  deriving DecidableEq, Repr

structure Symbol where
  name : Str
  type : Str
  line : Nat
  deriving DecidableEq, Repr

/-- The globals of `upl.c`. `errors.length` is `error_count`, `token_list.length` is
`token_list.count`, `symbol_table.length` is `symbol_table.count`.

The line counter `line` and the lines stored in tokens, diagnostics and symbols are C
`int`s, held here as natural numbers. The counter starts at 1 and `line++` runs once
per newline character read, so the natural number is the value of the `int` as long as
the input has fewer than 2147483647 (`INT_MAX`) newline characters; the increment that
would pass `INT_MAX` overflows in C and is outside this embedding. -/
structure State where
  token_list : List Token
  symbol_table : List Symbol
  current_token : Token
  line : Nat
  errors : List Error
  last_error_line : Nat
  token_index : Int

/-- The globals as the C initialisers leave them, after `init_token_list` and
`init_symbol_table` (`current_token` is zero-initialised: kind 0, empty text, line 0). -/
def initial_state : State :=
  { token_list := [], symbol_table := [], current_token := ⟨TOK_BEGIN, [], 0⟩,
    line := 1, errors := [], last_error_line := 0, token_index := -1 }

/-- What a C string function sees of a buffer written with `s`: the characters before
the first NUL, at most `n` of them. -/
def c_string (n : Nat) (s : Str) : Str :=
  (s.takeWhile (fun c => c ≠ '\x00')).take n

/-! ## `ctype.h` in the "C" locale -/

def isdigit (c : Char) : Bool := 48 ≤ c.toNat && c.toNat ≤ 57

def isalpha (c : Char) : Bool :=
  (65 ≤ c.toNat && c.toNat ≤ 90) || (97 ≤ c.toNat && c.toNat ≤ 122)

def isalnum (c : Char) : Bool := isalpha c || isdigit c

def isspace (c : Char) : Bool := c.toNat = 32 || (9 ≤ c.toNat && c.toNat ≤ 13)

/-! ## Diagnostic collector -/

/-- `add_error(line, format, ...)`; `message` is the expansion of the format, which
`vsnprintf` writes into `char message[256]`, so that `c_string 255 message` is the C
string the function compares and stores. -/
def add_error (line : Nat) (message : Str) (s : State) : State :=
  if s.errors.length ≥ MAX_ERRORS then s
  else if line = s.last_error_line then s
  else if s.errors.any (fun e => e.line = line && e.message = c_string 255 message) then s
  else { s with errors := s.errors ++ [⟨line, c_string 255 message⟩], last_error_line := line }

/-! ## Token list and symbol table -/

/-- `add_token`: the buffer doubles when full, which no result depends on. -/
def add_token (type : TokenType) (text : Str) (line : Nat) (s : State) : State :=
  { s with token_list := s.token_list ++ [⟨type, c_string (MAX_TOKEN_LEN - 1) text, line⟩] }

def add_symbol (name : Str) (type : Str) (line : Nat) (s : State) : State :=
  if s.symbol_table.length ≥ MAX_SYMBOLS then
    add_error line "Too many variables declared".toList s
  else if s.symbol_table.any (fun sym => sym.name = name) then
    add_error line ("Variable ".toList ++ name ++ " already declared".toList) s
  else
    { s with symbol_table := s.symbol_table ++ [⟨name, type, line⟩] }

def is_variable_declared (name : Str) (s : State) : Bool :=
  s.symbol_table.any (fun sym => sym.name = name)

/-- The token `next_token` and `skip_to_sync` make up when the cursor is past the list. -/
def eof_token (s : State) : Token := ⟨TOK_EOF, [], s.line⟩

def next_token (s : State) : State :=
  if s.token_index + 1 < (s.token_list.length : Int) then
    { s with token_index := s.token_index + 1,
             current_token := s.token_list.getD (s.token_index + 1).toNat (eof_token s) }
  else
    { s with current_token := eof_token s }

/-! ## Lexer -/

/-- The scanning loop `while ((c = fgetc(file)) != EOF && p(c)) if (i < MAX_TOKEN_LEN - 1)
text[i++] = c;` followed by `ungetc(c, file)`: returns the buffer and the unread input. -/
def scan_run (p : Char → Bool) : Str → List Char → Str × List Char
  | text, [] => (text, [])
  | text, c :: file =>
    if p c then
      scan_run p (if text.length < MAX_TOKEN_LEN - 1 then text ++ [c] else text) file
    else (text, c :: file)

/-- The line-comment loop `while ((c = fgetc(file)) != '\n' && c != EOF);`: the unread
input and whether the loop stopped on a newline. -/
def skip_line_comment : List Char → List Char × Bool
  | [] => ([], false)
  | c :: file => if c = '\n' then (file, true) else skip_line_comment file

/-- The block-comment loop: the unread input, the line counter, and whether `*/` was
found (otherwise the loop ended on EOF). -/
def skip_block_comment : Char → List Char → Nat → List Char × Nat × Bool
  | _, [], line => ([], line, false)
  | prev, c :: file, line =>
    if prev = '*' && c = '/' then (file, line, true)
    else skip_block_comment c file (if c = '\n' then line + 1 else line)

/-- The keyword chain of the identifier branch (`strcmp(text, "begin") == 0` ...). -/
def keyword_type (text : Str) : Option TokenType :=
  if text = "begin".toList then some TOK_BEGIN
  else if text = "end".toList then some TOK_END
  else if text = "if".toList then some TOK_IF
  else if text = "then".toList then some TOK_THEN
  else if text = "else".toList then some TOK_ELSE
  else if text = "do".toList then some TOK_DO
  else if text = "while".toList then some TOK_WHILE
  else if text = "for".toList then some TOK_FOR
  else if text = "print".toList then some TOK_PRINT
  else if text = "int".toList then some TOK_INT
  else if text = "bool".toList then some TOK_BOOL
  else if text = "true".toList then some TOK_TRUE
  else if text = "false".toList then some TOK_FALSE
  else none

/-- The loop `for (int j = 1; text[j]; j++)` of the identifier check, over `text[1..]`,
carrying `valid` and `hasNum`; returns the final `valid`. -/
def ident_check_loop : Str → Bool → Bool → Bool
  | [], valid, _ => valid
  | c :: text, valid, hasNum =>
    if isdigit c then ident_check_loop text valid true
    else if !isalpha c then ident_check_loop text false hasNum
    else if hasNum then ident_check_loop text false hasNum
    else ident_check_loop text valid hasNum

/-- The identifier check: `valid` after `if (!text[0] || !isalpha(text[0])) valid = 0;`
and the loop. -/
def ident_valid (text : Str) : Bool :=
  match text with
  | [] => false
  | c :: rest => ident_check_loop rest (isalpha c) false

/-- The error branch shared by `<`, a lone `/` and any other character:
`add_token(TOK_ERROR, text, line); add_error(line, "Unsupported operator: %c", c);`. -/
def unsupported (c : Char) (s : State) : State :=
  add_error s.line ("Unsupported operator: ".toList ++ [c]) (add_token TOK_ERROR [c] s.line s)

/-- One iteration of the `while ((c = fgetc(file)) != EOF)` loop of `tokenize_file`:
`c` has been read, `file` is the input after it. `line + 1` is `line++` on the `int`
counter, which is exact while the counter is below `INT_MAX` (see `State`). -/
def lex_step (c : Char) (file : List Char) (s : State) : List Char × State :=
  if c = '\n' then (file, { s with line := s.line + 1 })
  else if isspace c then (file, s)
  else if c = '/' then
    match file with
    | '/' :: file1 =>
      let r := skip_line_comment file1
      (r.1, if r.2 then { s with line := s.line + 1 } else s)
    | '*' :: file1 =>
      let r := skip_block_comment '\x00' file1 s.line
      let s1 := { s with line := r.2.1 }
      (r.1, if r.2.2 then s1 else add_error s1.line "Unterminated block comment".toList s1)
    | _ => (file, unsupported c s)
  else if isalpha c then
    let r := scan_run isalnum [c] file
    let text := r.1
    match keyword_type text with
    | some k => (r.2, add_token k text s.line s)
    | none =>
      if ident_valid text then (r.2, add_token TOK_ID text s.line s)
      else (r.2, add_error s.line ("Invalid identifier: ".toList ++ text)
                    (add_token TOK_ERROR text s.line s))
  else if isdigit c then
    let r := scan_run isdigit [c] file
    (r.2, add_token TOK_NUM r.1 s.line s)
  else if c = '=' then
    match file with
    | '=' :: file1 => (file1, add_token TOK_EQ "==".toList s.line s)
    | _ => (file, add_token TOK_ASSIGN "=".toList s.line s)
  else if c = '>' then
    match file with
    | '=' :: file1 => (file1, add_token TOK_GTE ">=".toList s.line s)
    | _ => (file, add_token TOK_GT ">".toList s.line s)
  else if c = '+' then (file, add_token TOK_PLUS "+".toList s.line s)
  else if c = '*' then (file, add_token TOK_MUL "*".toList s.line s)
  else if c = '(' then (file, add_token TOK_LPAREN "(".toList s.line s)
  else if c = ')' then (file, add_token TOK_RPAREN ")".toList s.line s)
  else if c = '\x7b' then (file, add_token TOK_LBRACE ['\x7b'] s.line s)
  else if c = '\x7d' then (file, add_token TOK_RBRACE ['\x7d'] s.line s)
  else if c = ';' then (file, add_token TOK_SEMICOLON ";".toList s.line s)
  else if c = '<' then (file, unsupported c s)
  else (file, unsupported c s)

/-- The main loop of `tokenize_file`; `none` when the fuel runs out before EOF. -/
def tokenize_loop : Nat → List Char → State → Option State
  | _, [], s => some s
  | 0, _ :: _, _ => none
  | fuel + 1, c :: file, s => tokenize_loop fuel (lex_step c file s).1 (lex_step c file s).2

/-- `tokenize_file`: the loop, then `add_token(TOK_EOF, "", line)`. Every iteration reads
at least one character, so the length of the input is enough fuel. -/
def tokenize_file (file : List Char) (s : State) : Option State :=
  match tokenize_loop file.length file s with
  | none => none
  | some s1 => some (add_token TOK_EOF [] s1.line s1)

/-! ## Parser: cursor and recovery -/

/-- The loop `while (token_index < token_list.count &&
token_list.tokens[token_index].line == current_line) token_index++;` of `skip_to_sync`,
over the tokens from `token_index` on; returns the final `token_index`. -/
def skip_same_line (current_line : Nat) : List Token → Int → Int
  | [], token_index => token_index
  | t :: tokens, token_index =>
    if t.line = current_line then skip_same_line current_line tokens (token_index + 1)
    else token_index

def skip_to_sync (s : State) : State :=
  let token_index :=
    skip_same_line s.current_token.line (s.token_list.drop s.token_index.toNat) s.token_index
  if token_index < (s.token_list.length : Int) then
    { s with token_index := token_index,
             current_token := s.token_list.getD token_index.toNat (eof_token s) }
  else
    { s with token_index := token_index, current_token := eof_token s }

/-- The guarded report `if (line != last_error_line) add_error(line, msg);`. -/
def report (line : Nat) (msg : Str) (s : State) : State :=
  if line ≠ s.last_error_line then add_error line msg s else s

/-- The failure exit that recurs in every parse function:
`if (current_token.line != last_error_line) add_error(current_token.line, msg);
skip_to_sync(); return NULL;`. -/
def fail_here (msg : String) (s : State) : Option Node × State :=
  (none, skip_to_sync (report s.current_token.line msg.toList s))

/-- `make_node(label, n, ...)` with non-NULL children. -/
def make_node (label : String) (children : List Node) : Node :=
  Node.mk label.toList (children.map some)

/-- A leaf whose label is a lexeme: `make_node(id, 0)`. -/
def leaf (text : Str) : Node := Node.mk text []

/-- The argument `stmts ? stmts : make_node("Stmts", 0)`. -/
def stmts_or_empty (stmts : Option Node) : Node :=
  match stmts with
  | some n => n
  | none => make_node "Stmts" []

/-- Result of a parse function: `none` when the fuel ran out, otherwise the returned
pointer (`none` for NULL) and the globals. -/
abbrev PResult := Option (Option Node × State)

/-! ## Parser: expressions -/

def parse_lit (s : State) : Option Node × State :=
  if s.current_token.type = TOK_NUM then
    (some (make_node "Num" [leaf s.current_token.text]), next_token s)
  else if s.current_token.type = TOK_TRUE then (some (make_node "True" []), next_token s)
  else if s.current_token.type = TOK_FALSE then (some (make_node "False" []), next_token s)
  else fail_here "Expected literal" s

mutual

def parse_expr : Nat → State → PResult
  | 0, _ => none
  | fuel + 1, s => parse_eq_expr fuel s

def parse_eq_expr : Nat → State → PResult
  | 0, _ => none
  | fuel + 1, s =>
    match parse_rel_expr fuel s with
    | none => none
    | some (none, s1) => some (none, s1)
    | some (some rel, s1) => parse_eq_loop fuel rel s1

/-- The loop `while (current_token.type == TOK_EQ)` of `parse_eq_expr`. -/
def parse_eq_loop : Nat → Node → State → PResult
  | 0, _, _ => none
  | fuel + 1, rel, s =>
    if s.current_token.type = TOK_EQ then
      match parse_rel_expr fuel (next_token s) with
      | none => none
      | some (none, s1) => some (none, skip_to_sync s1)
      | some (some rel2, s1) => parse_eq_loop fuel (make_node "EqExpr" [rel, rel2]) s1
    else some (some rel, s)

def parse_rel_expr : Nat → State → PResult
  | 0, _ => none
  | fuel + 1, s =>
    match parse_add_expr fuel s with
    | none => none
    | some (none, s1) => some (none, s1)
    | some (some add, s1) => parse_rel_loop fuel add s1

/-- The loop `while (current_token.type == TOK_GT || current_token.type == TOK_GTE)`. -/
def parse_rel_loop : Nat → Node → State → PResult
  | 0, _, _ => none
  | fuel + 1, add, s =>
    if s.current_token.type = TOK_GT ∨ s.current_token.type = TOK_GTE then
      let op := s.current_token.type
      match parse_add_expr fuel (next_token s) with
      | none => none
      | some (none, s1) => some (none, skip_to_sync s1)
      | some (some add2, s1) =>
        parse_rel_loop fuel (make_node (if op = TOK_GT then "Gt" else "Gte") [add, add2]) s1
    else some (some add, s)

def parse_add_expr : Nat → State → PResult
  | 0, _ => none
  | fuel + 1, s =>
    match parse_mul_expr fuel s with
    | none => none
    | some (none, s1) => some (none, s1)
    | some (some mul, s1) => parse_add_loop fuel mul s1

/-- The loop `while (current_token.type == TOK_PLUS)`. -/
def parse_add_loop : Nat → Node → State → PResult
  | 0, _, _ => none
  | fuel + 1, mul, s =>
    if s.current_token.type = TOK_PLUS then
      match parse_mul_expr fuel (next_token s) with
      | none => none
      | some (none, s1) => some (none, skip_to_sync s1)
      | some (some mul2, s1) => parse_add_loop fuel (make_node "AddExpr" [mul, mul2]) s1
    else some (some mul, s)

def parse_mul_expr : Nat → State → PResult
  | 0, _ => none
  | fuel + 1, s =>
    match parse_prim_expr fuel s with
    | none => none
    | some (none, s1) => some (none, s1)
    | some (some prim, s1) => parse_mul_loop fuel prim s1

/-- The loop `while (current_token.type == TOK_MUL)`. -/
def parse_mul_loop : Nat → Node → State → PResult
  | 0, _, _ => none
  | fuel + 1, prim, s =>
    if s.current_token.type = TOK_MUL then
      match parse_prim_expr fuel (next_token s) with
      | none => none
      | some (none, s1) => some (none, skip_to_sync s1)
      | some (some prim2, s1) => parse_mul_loop fuel (make_node "MulExpr" [prim, prim2]) s1
    else some (some prim, s)

def parse_prim_expr : Nat → State → PResult
  | 0, _ => none
  | fuel + 1, s =>
    if s.current_token.type = TOK_ID then
      if !is_variable_declared s.current_token.text s then
        some (none, skip_to_sync (report s.current_token.line
          ("Undeclared variable: ".toList ++ s.current_token.text) s))
      else
        some (some (make_node "Id" [leaf s.current_token.text]), next_token s)
    else if s.current_token.type = TOK_NUM ∨ s.current_token.type = TOK_TRUE
        ∨ s.current_token.type = TOK_FALSE then
      some (parse_lit s)
    else if s.current_token.type = TOK_LPAREN then
      match parse_expr fuel (next_token s) with
      | none => none
      | some (none, s1) => some (none, skip_to_sync s1)
      | some (some expr, s1) =>
        if s1.current_token.type ≠ TOK_RPAREN then some (fail_here "Expected ')'" s1)
        else some (some expr, next_token s1)
    else some (fail_here "Invalid primary expression" s)

end

/-! ## Parser: statements without a block -/

def parse_print_stmt (fuel : Nat) (s : State) : PResult :=
  if s.current_token.type ≠ TOK_PRINT then some (fail_here "Expected 'print'" s)
  else
    let s1 := next_token s
    if s1.current_token.type ≠ TOK_LPAREN then some (fail_here "Expected '('" s1)
    else
      match parse_expr fuel (next_token s1) with
      | none => none
      | some (none, s2) => some (none, skip_to_sync s2)
      | some (some expr, s2) =>
        if s2.current_token.type ≠ TOK_RPAREN then some (fail_here "Expected ')'" s2)
        else
          let s3 := next_token s2
          if s3.current_token.type ≠ TOK_SEMICOLON then some (fail_here "Expected ';'" s3)
          else some (some (make_node "PrintStmt" [expr]), next_token s3)

def parse_type (s : State) : Option Node × State :=
  if s.current_token.type = TOK_INT then (some (make_node "Type_int" []), next_token s)
  else if s.current_token.type = TOK_BOOL then (some (make_node "Type_bool" []), next_token s)
  else fail_here "Expected 'int' or 'bool'" s

def Node.label : Node → Str
  | Node.mk label _ => label

def Node.children : Node → List (Option Node)
  | Node.mk _ children => children

/-- The argument `type_str` that `parse_decl_stmt` and `parse_for_stmt` compute from the
node of `parse_type`: `strcmp(type->label, "Type_int") == 0 ? "int" : "bool"`. -/
def type_str (type : Node) : Str :=
  if type.label = "Type_int".toList then "int".toList else "bool".toList

/-- `parse_init_decl(&line, type)`: the middle component is `*line` (the C variable is
left unwritten on the first failure exit, where 0 stands for it; no caller reads it
after a NULL result). -/
def parse_init_decl (fuel : Nat) (type : Str) (s : State) : Option (Option Node × Nat × State) :=
  if s.current_token.type ≠ TOK_ID then some (none, 0, (fail_here "Expected identifier" s).2)
  else
    let line := s.current_token.line
    let id := s.current_token.text
    let s1 := next_token s
    if s1.current_token.type = TOK_ASSIGN then
      match parse_expr fuel (next_token s1) with
      | none => none
      | some (none, s2) => some (none, line, skip_to_sync s2)
      | some (some expr, s2) =>
        some (some (make_node "InitDecl" [leaf id, expr]), line, add_symbol id type line s2)
    else some (some (make_node "InitDecl" [leaf id]), line, add_symbol id type line s1)

def parse_decl_stmt (fuel : Nat) (s : State) : PResult :=
  match parse_type s with
  | (none, s1) => some (none, skip_to_sync s1)
  | (some type, s1) =>
    match parse_init_decl fuel (type_str type) s1 with
    | none => none
    | some (none, _, s2) => some (none, skip_to_sync s2)
    | some (some init_decl, decl_line, s2) =>
      if s2.current_token.type ≠ TOK_SEMICOLON then
        some (none, skip_to_sync (report decl_line "Expected ';'".toList s2))
      else some (some (make_node "DeclStmt" [type, init_decl]), next_token s2)

def parse_assign_stmt (fuel : Nat) (s : State) : PResult :=
  if s.current_token.type ≠ TOK_ID then some (fail_here "Expected identifier" s)
  else
    let id := s.current_token.text
    let assign_line := s.current_token.line
    if !is_variable_declared id s then
      some (none, skip_to_sync (report assign_line ("Undeclared variable: ".toList ++ id) s))
    else
      let s1 := next_token s
      if s1.current_token.type ≠ TOK_ASSIGN then some (fail_here "Expected '='" s1)
      else
        match parse_expr fuel (next_token s1) with
        | none => none
        | some (none, s2) => some (none, skip_to_sync s2)
        | some (some expr, s2) =>
          if s2.current_token.type ≠ TOK_SEMICOLON then some (fail_here "Expected ';'" s2)
          else some (some (make_node "AssignStmt" [leaf id, expr]), next_token s2)

/-- The part of `parse_for_stmt` that computes `init` (from `Node *init = NULL;` to the
end of its three-way `if`); a NULL result is a `return NULL` of `parse_for_stmt`. -/
def for_init (fuel : Nat) (s : State) : PResult :=
  if s.current_token.type = TOK_INT ∨ s.current_token.type = TOK_BOOL then
    match parse_type s with
    | (none, s1) => some (none, skip_to_sync s1)
    | (some type, s1) =>
      match parse_init_decl fuel (type_str type) s1 with
      | none => none
      | some (none, _, s2) => some (none, skip_to_sync s2)
      | some (some init_decl, _, s2) => some (some (make_node "ForInit" [type, init_decl]), s2)
  else if s.current_token.type = TOK_ID then
    let id := s.current_token.text
    let assign_line := s.current_token.line
    if !is_variable_declared id s then
      some (none, skip_to_sync (report assign_line ("Undeclared variable: ".toList ++ id) s))
    else
      let s1 := next_token s
      if s1.current_token.type ≠ TOK_ASSIGN then some (fail_here "Expected '='" s1)
      else
        match parse_expr fuel (next_token s1) with
        | none => none
        | some (none, s2) => some (none, skip_to_sync s2)
        | some (some expr, s2) => some (some (make_node "ForInit" [leaf id, expr]), s2)
  else some (fail_here "Expected 'int', 'bool', or identifier for for-loop initialization" s)

/-- The part of `parse_for_stmt` that computes `update` (from `Node *update = NULL;` to
the end of its `if`); a NULL result is a `return NULL` of `parse_for_stmt`. -/
def for_update (fuel : Nat) (s : State) : PResult :=
  if s.current_token.type = TOK_ID then
    let id := s.current_token.text
    let update_line := s.current_token.line
    if !is_variable_declared id s then
      some (none, skip_to_sync (report update_line ("Undeclared variable: ".toList ++ id) s))
    else
      let s1 := next_token s
      if s1.current_token.type ≠ TOK_ASSIGN then
        some (fail_here "Expected '=' in for-loop update" s1)
      else
        match parse_expr fuel (next_token s1) with
        | none => none
        | some (none, s2) => some (none, skip_to_sync s2)
        | some (some expr, s2) => some (some (make_node "Update" [leaf id, expr]), s2)
  else some (fail_here "Expected identifier in for-loop update" s)

/-- The peeked token of `parse_stmt`:
`token_index + 1 < token_list.count ? token_list.tokens[token_index + 1] : current_token`. -/
def peek_token (s : State) : Token :=
  if s.token_index + 1 < (s.token_list.length : Int) then
    s.token_list.getD (s.token_index + 1).toNat s.current_token
  else s.current_token

/-- The head of `parse_stmt`: `if (current_token.line != last_error_line)
last_error_line = 0;`. -/
def reset_last_error_line (s : State) : State :=
  if s.current_token.line ≠ s.last_error_line then { s with last_error_line := 0 } else s

/-! ## Parser: blocks and compound statements -/

mutual

def parse_stmts : Nat → State → PResult
  | 0, _ => none
  | fuel + 1, s =>
    match parse_stmts_loop fuel [] s with
    | none => none
    | some (stmt_list, s1) =>
      if stmt_list.length = 0 then some (none, s1)
      else some (some (make_node "Stmts" stmt_list), s1)

/-- The `while` loop of `parse_stmts`; `stmt_list` holds the `stmt_count` nodes stored
so far. -/
def parse_stmts_loop : Nat → List Node → State → Option (List Node × State)
  | 0, _, _ => none
  | fuel + 1, stmt_list, s =>
    if s.current_token.type ≠ TOK_END ∧ s.current_token.type ≠ TOK_RBRACE
        ∧ s.current_token.type ≠ TOK_EOF then
      if stmt_list.length ≥ MAX_STMTS then
        some (stmt_list, (fail_here "Too many statements" s).2)
      else
        match parse_stmt fuel s with
        | none => none
        | some (some stmt, s1) => parse_stmts_loop fuel (stmt_list ++ [stmt]) s1
        | some (none, s1) =>
          parse_stmts_loop fuel stmt_list
            (if s1.current_token.line ≠ s1.last_error_line then skip_to_sync s1 else s1)
    else some (stmt_list, s)

def parse_stmt : Nat → State → PResult
  | 0, _ => none
  | fuel + 1, s0 =>
    let s := reset_last_error_line s0
    if s.current_token.type = TOK_IF then parse_if_stmt fuel s
    else if s.current_token.type = TOK_DO then parse_do_while_stmt fuel s
    else if s.current_token.type = TOK_PRINT then parse_print_stmt fuel s
    else if s.current_token.type = TOK_INT ∨ s.current_token.type = TOK_BOOL then
      parse_decl_stmt fuel s
    else if s.current_token.type = TOK_FOR then parse_for_stmt fuel s
    else if s.current_token.type = TOK_ID then
      if (peek_token s).type = TOK_ASSIGN then parse_assign_stmt fuel s
      else some (fail_here "Expected 'int' or 'bool' for declaration or '=' for assignment" s)
    else some (fail_here "Expected 'int', 'bool', identifier, or statement keyword" s)

def parse_if_stmt : Nat → State → PResult
  | 0, _ => none
  | fuel + 1, s =>
    match parse_if_then fuel s with
    | none => none
    | some (none, s1) => some (none, s1)
    | some (some if_then, s1) =>
      match parse_else_opt fuel s1 with
      | none => none
      | some (else_opt, s2) => some (some (Node.mk "IfStmt".toList [some if_then, else_opt]), s2)

def parse_if_then : Nat → State → PResult
  | 0, _ => none
  | fuel + 1, s =>
    if s.current_token.type ≠ TOK_IF then some (fail_here "Expected 'if'" s)
    else
      let s1 := next_token s
      if s1.current_token.type ≠ TOK_LPAREN then some (fail_here "Expected '('" s1)
      else
        match parse_expr fuel (next_token s1) with
        | none => none
        | some (none, s2) => some (none, skip_to_sync s2)
        | some (some expr, s2) =>
          if s2.current_token.type ≠ TOK_RPAREN then some (fail_here "Expected ')'" s2)
          else
            let s3 := next_token s2
            if s3.current_token.type ≠ TOK_THEN then some (fail_here "Expected 'then'" s3)
            else
              let s4 := next_token s3
              if s4.current_token.type ≠ TOK_LBRACE then some (fail_here "Expected '\x7b'" s4)
              else
                match parse_stmts fuel (next_token s4) with
                | none => none
                | some (stmts, s5) =>
                  if s5.current_token.type ≠ TOK_RBRACE then
                    some (fail_here "Expected '\x7d'" s5)
                  else
                    some (some (make_node "IfThen" [expr, stmts_or_empty stmts]), next_token s5)

def parse_else_opt : Nat → State → PResult
  | 0, _ => none
  | fuel + 1, s =>
    if s.current_token.type = TOK_ELSE then
      let s1 := next_token s
      if s1.current_token.type ≠ TOK_LBRACE then some (fail_here "Expected '\x7b'" s1)
      else
        match parse_stmts fuel (next_token s1) with
        | none => none
        | some (stmts, s2) =>
          if s2.current_token.type ≠ TOK_RBRACE then some (fail_here "Expected '\x7d'" s2)
          else some (some (make_node "ElseOpt" [stmts_or_empty stmts]), next_token s2)
    else some (none, s)

def parse_do_while_stmt : Nat → State → PResult
  | 0, _ => none
  | fuel + 1, s =>
    if s.current_token.type ≠ TOK_DO then some (fail_here "Expected 'do'" s)
    else
      let s1 := next_token s
      if s1.current_token.type ≠ TOK_LBRACE then some (fail_here "Expected '\x7b'" s1)
      else
        match parse_stmts fuel (next_token s1) with
        | none => none
        | some (stmts, s2) =>
          if s2.current_token.type ≠ TOK_RBRACE then some (fail_here "Expected '\x7d'" s2)
          else
            let s3 := next_token s2
            if s3.current_token.type ≠ TOK_WHILE then some (fail_here "Expected 'while'" s3)
            else
              let s4 := next_token s3
              if s4.current_token.type ≠ TOK_LPAREN then some (fail_here "Expected '('" s4)
              else
                match parse_expr fuel (next_token s4) with
                | none => none
                | some (none, s5) => some (none, skip_to_sync s5)
                | some (some expr, s5) =>
                  if s5.current_token.type ≠ TOK_RPAREN then
                    some (fail_here "Expected ')'" s5)
                  else
                    let s6 := next_token s5
                    if s6.current_token.type ≠ TOK_SEMICOLON then
                      some (fail_here "Expected ';'" s6)
                    else
                      some (some (make_node "DoWhileStmt" [stmts_or_empty stmts, expr]),
                        next_token s6)

def parse_for_stmt : Nat → State → PResult
  | 0, _ => none
  | fuel + 1, s =>
    if s.current_token.type ≠ TOK_FOR then some (fail_here "Expected 'for'" s)
    else
      let s1 := next_token s
      if s1.current_token.type ≠ TOK_LPAREN then some (fail_here "Expected '('" s1)
      else
        match for_init fuel (next_token s1) with
        | none => none
        | some (none, s2) => some (none, s2)
        | some (some init, s2) =>
          if s2.current_token.type ≠ TOK_SEMICOLON then
            some (fail_here "Expected ';' after for-loop initialization" s2)
          else
            match parse_expr fuel (next_token s2) with
            | none => none
            | some (none, s3) => some (none, skip_to_sync s3)
            | some (some cond, s3) =>
              if s3.current_token.type ≠ TOK_SEMICOLON then
                some (fail_here "Expected ';' after for-loop condition" s3)
              else
                match for_update fuel (next_token s3) with
                | none => none
                | some (none, s4) => some (none, s4)
                | some (some update, s4) =>
                  if s4.current_token.type ≠ TOK_RPAREN then
                    some (fail_here "Expected ')' after for-loop update" s4)
                  else
                    let s5 := next_token s4
                    if s5.current_token.type ≠ TOK_LBRACE then
                      some (fail_here "Expected '\x7b' for for-loop body" s5)
                    else
                      match parse_stmts fuel (next_token s5) with
                      | none => none
                      | some (stmts, s6) =>
                        if s6.current_token.type ≠ TOK_RBRACE then
                          some (fail_here "Expected '\x7d' after for-loop body" s6)
                        else
                          some (some (make_node "ForStmt"
                            [init, cond, update, stmts_or_empty stmts]), next_token s6)

end

def parse_prog (fuel : Nat) (s : State) : PResult :=
  if s.current_token.type ≠ TOK_BEGIN then
    some (none, skip_to_sync (add_error s.current_token.line "Expected 'begin'".toList s))
  else
    match parse_stmts fuel (next_token s) with
    | none => none
    | some (stmts, s1) =>
      if s1.current_token.type ≠ TOK_END then some (fail_here "Expected 'end'" s1)
      else some (some (make_node "Prog" [stmts_or_empty stmts]), next_token s1)

/-! ## `main` -/

/-- What a run of `main` on a readable file leaves: the tree, the globals, whether the
first line printed is `- source code has correct syntax: yes`, and the exit code. -/
structure Run where
  root : Option Node
  state : State
  syntax_yes : Bool
  exit_code : Nat

/-- Fuel for `parse_prog`: nested calls between two consumed tokens are fewer than 8. -/
def parse_fuel (s : State) : Nat := 8 * s.token_list.length + 16

/-- `main` from `tokenize_file()` on, for a file that opened: `file` is its content. -/
def main (file : List Char) : Option Run :=
  match tokenize_file file initial_state with
  | none => none
  | some s0 =>
    let s1 := next_token { s0 with token_index := -1 }
    match parse_prog (parse_fuel s1) s1 with
    | none => none
    | some (root, s2) =>
      if s2.errors.length > 0 ∨ root.isNone ∨ s2.current_token.type ≠ TOK_EOF then
        some ⟨root, s2, false, if s2.errors.length > 0 then 1 else 0⟩
      else
        some ⟨root, s2, true, if s2.errors.length > 0 then 1 else 0⟩

/-! ## Presentation of the diagnostics and the symbol table's entry points -/

/-- `init_symbol_table`: `symbol_table.count = 0` (the array is allocated for
`MAX_SYMBOLS` entries). -/
def init_symbol_table (s : State) : State := { s with symbol_table := [] }

/-- The characters written by `printf("- Error at line %d: %s\n", line, message)` for an
`int line`. -/
def printf_error (line : Int) (message : Str) : Str :=
  "- Error at line ".toList ++ (Int.repr line).toList ++ ": ".toList ++ message ++ ['\n']

/-- The loop of `print_errors` over the entries of `errors` not yet visited, each given
by its `int line` and its message; `printed_lines` is the local array
`int printed_lines[MAX_ERRORS]`. The result is the text written to the standard output,
or `none` when `printed_lines[line]` is an access outside the array: `line` is negative,
or it is `MAX_ERRORS` or more. -/
def print_errors_loop : List (Int × Str) → List Bool → Option Str
  | [], _ => some []
  | (line, message) :: errors, printed_lines =>
    if line < 0 then none
    else
      match printed_lines[line.toNat]? with
      | none => none
      | some true => print_errors_loop errors printed_lines
      | some false =>
        (print_errors_loop errors (printed_lines.set line.toNat true)).map
          (fun out => printf_error line message ++ out)

/-- `print_errors` on the collector; a recorded line is read as the `int` it is. -/
def print_errors (s : State) : Option Str :=
  print_errors_loop (s.errors.map (fun e => ((e.line : Int), e.message)))
    (List.replicate MAX_ERRORS false)

/-! ## Specification-side definitions -/

/-- The reserved words of the language, with their token kinds. -/
def reserved_words : List (String × TokenType) :=
  [("begin", TOK_BEGIN), ("end", TOK_END), ("if", TOK_IF), ("then", TOK_THEN),
   ("else", TOK_ELSE), ("do", TOK_DO), ("while", TOK_WHILE), ("for", TOK_FOR),
   ("print", TOK_PRINT), ("int", TOK_INT), ("bool", TOK_BOOL), ("true", TOK_TRUE),
   ("false", TOK_FALSE)]

/-- The kind of a reserved word, found by exact (case-sensitive) comparison. -/
def reserved_kind (r : Str) : Option TokenType :=
  (reserved_words.find? (fun p => p.1.toList = r)).map (fun p => p.2)

/-- The identifier shape of the specification: one or more letters followed by zero or
more digits. -/
def letters_then_digits (r : Str) : Prop :=
  ∃ a b, r = a ++ b ∧ a ≠ [] ∧ (∀ x ∈ a, isalpha x = true) ∧ (∀ x ∈ b, isdigit x = true)

/-- The ways one iteration of the lexer loop changes the globals. -/
inductive LexStep (s : State) : State → Prop
  | skip (l : Nat) (h : s.line ≤ l) : LexStep s { s with line := l }
  | unterminated (l : Nat) (h : s.line ≤ l) :
      LexStep s (add_error l "Unterminated block comment".toList { s with line := l })
  | token (k : TokenType) (text : Str) (hk : k ≠ TOK_EOF) (hk2 : k ≠ TOK_ERROR) :
      LexStep s (add_token k text s.line s)
  | error (text msg : Str) :
      LexStep s (add_error s.line msg (add_token TOK_ERROR text s.line s))

/-- The tokens a state has beyond those of an earlier state are not end-of-input tokens. -/
def ExtendsNoEof (s s1 : State) : Prop :=
  ∃ toks, s1.token_list = s.token_list ++ toks ∧ ∀ t ∈ toks, t.type ≠ TOK_EOF

/-- The condition under which `add_error` records the diagnostic. -/
def Accepts (line : Nat) (message : Str) (s : State) : Prop :=
  s.errors.length < MAX_ERRORS ∧ line ≠ s.last_error_line ∧
    ∀ e ∈ s.errors, ¬ (e.line = line ∧ e.message = c_string 255 message)

/-! ## Invariants of the parser -/

/-- A property of the globals that every primitive operation of the parser keeps. -/
structure Stable (P : State → Prop) : Prop where
  next : ∀ s, P s → P (next_token s)
  skip : ∀ s, P s → P (skip_to_sync s)
  error : ∀ line msg s, P s → P (add_error line msg s)
  symbol : ∀ sym s, P s → P { s with symbol_table := s.symbol_table ++ [sym] }
  reset : ∀ s, P s → P { s with last_error_line := 0 }

/-- A parse function keeps a property of the globals. -/
def Keeps {α : Type} (P : State → Prop) (f : State → Option (α × State)) : Prop :=
  ∀ s r s1, f s = some (r, s1) → P s → P s1

/-- The expression functions at one fuel keep a property. -/
structure KeepsExpr (P : State → Prop) (fuel : Nat) : Prop where
  expr : Keeps P (parse_expr fuel)
  eq : Keeps P (parse_eq_expr fuel)
  eq_loop : ∀ n, Keeps P (parse_eq_loop fuel n)
  rel : Keeps P (parse_rel_expr fuel)
  rel_loop : ∀ n, Keeps P (parse_rel_loop fuel n)
  add : Keeps P (parse_add_expr fuel)
  add_loop : ∀ n, Keeps P (parse_add_loop fuel n)
  mul : Keeps P (parse_mul_expr fuel)
  mul_loop : ∀ n, Keeps P (parse_mul_loop fuel n)
  prim : Keeps P (parse_prim_expr fuel)

/-- The block functions at one fuel keep a property. -/
structure KeepsStmt (P : State → Prop) (fuel : Nat) : Prop where
  stmts : Keeps P (parse_stmts fuel)
  loop : ∀ l, Keeps P (parse_stmts_loop fuel l)
  stmt : Keeps P (parse_stmt fuel)
  if_stmt : Keeps P (parse_if_stmt fuel)
  if_then : Keeps P (parse_if_then fuel)
  else_opt : Keeps P (parse_else_opt fuel)
  do_while : Keeps P (parse_do_while_stmt fuel)
  for_stmt : Keeps P (parse_for_stmt fuel)

/-- The nonterminals of the EBNF grammar. `Stmts n` is a block `Stmt*` of exactly `n`
statements; `Ty` is the rule `Type`; `EqTail`, `RelTail`, `AddTail` and `MulTail` are
the starred groups `('==' RelExpr)*`, `(('>' | '>=') AddExpr)*`, `('+' MulExpr)*` and
`('*' PrimExpr)*`. -/
inductive NT where
  | Prog | Stmts (n : Nat) | Stmt | IfStmt | IfThen | ElseOpt | DoWhileStmt | PrintStmt
  | DeclStmt | Ty | InitDecl | AssignStmt | ForStmt | ForInit | Update
  | Expr | EqExpr | EqTail | RelExpr | RelTail | AddExpr | AddTail | MulExpr | MulTail
  | PrimExpr

/-- Derivability in the EBNF grammar, over token kinds: `Derives B nt ks` says that the
kinds `ks` are derivable from `nt` with at most `B` statements in every block. -/
inductive Derives (B : Nat) : NT → List TokenType → Prop
  | prog {n : Nat} {w : List TokenType} : n ≤ B → Derives B (NT.Stmts n) w →
      Derives B NT.Prog ([TOK_BEGIN] ++ w ++ [TOK_END])
  | stmts_nil : Derives B (NT.Stmts 0) []
  | stmts_cons {n : Nat} {a b : List TokenType} : Derives B NT.Stmt a →
      Derives B (NT.Stmts n) b → Derives B (NT.Stmts (n + 1)) (a ++ b)
  | stmt_if {w : List TokenType} : Derives B NT.IfStmt w → Derives B NT.Stmt w
  | stmt_do {w : List TokenType} : Derives B NT.DoWhileStmt w → Derives B NT.Stmt w
  | stmt_print {w : List TokenType} : Derives B NT.PrintStmt w → Derives B NT.Stmt w
  | stmt_decl {w : List TokenType} : Derives B NT.DeclStmt w → Derives B NT.Stmt w
  | stmt_for {w : List TokenType} : Derives B NT.ForStmt w → Derives B NT.Stmt w
  | stmt_assign {w : List TokenType} : Derives B NT.AssignStmt w → Derives B NT.Stmt w
  | if_only {a : List TokenType} : Derives B NT.IfThen a → Derives B NT.IfStmt a
  | if_else {a b : List TokenType} : Derives B NT.IfThen a → Derives B NT.ElseOpt b →
      Derives B NT.IfStmt (a ++ b)
  | if_then {n : Nat} {e w : List TokenType} : n ≤ B → Derives B NT.Expr e →
      Derives B (NT.Stmts n) w →
      Derives B NT.IfThen
        ([TOK_IF, TOK_LPAREN] ++ e ++ [TOK_RPAREN, TOK_THEN, TOK_LBRACE] ++ w ++ [TOK_RBRACE])
  | else_opt {n : Nat} {w : List TokenType} : n ≤ B → Derives B (NT.Stmts n) w →
      Derives B NT.ElseOpt ([TOK_ELSE, TOK_LBRACE] ++ w ++ [TOK_RBRACE])
  | do_while {n : Nat} {w e : List TokenType} : n ≤ B → Derives B (NT.Stmts n) w →
      Derives B NT.Expr e →
      Derives B NT.DoWhileStmt
        ([TOK_DO, TOK_LBRACE] ++ w ++ [TOK_RBRACE, TOK_WHILE, TOK_LPAREN] ++ e
          ++ [TOK_RPAREN, TOK_SEMICOLON])
  | print {e : List TokenType} : Derives B NT.Expr e →
      Derives B NT.PrintStmt ([TOK_PRINT, TOK_LPAREN] ++ e ++ [TOK_RPAREN, TOK_SEMICOLON])
  | decl {t d : List TokenType} : Derives B NT.Ty t → Derives B NT.InitDecl d →
      Derives B NT.DeclStmt (t ++ d ++ [TOK_SEMICOLON])
  | ty_int : Derives B NT.Ty [TOK_INT]
  | ty_bool : Derives B NT.Ty [TOK_BOOL]
  | init_plain : Derives B NT.InitDecl [TOK_ID]
  | init_expr {e : List TokenType} : Derives B NT.Expr e →
      Derives B NT.InitDecl ([TOK_ID, TOK_ASSIGN] ++ e)
  | assign {e : List TokenType} : Derives B NT.Expr e →
      Derives B NT.AssignStmt ([TOK_ID, TOK_ASSIGN] ++ e ++ [TOK_SEMICOLON])
  | for_stmt {n : Nat} {i c u w : List TokenType} : n ≤ B → Derives B NT.ForInit i →
      Derives B NT.Expr c → Derives B NT.Update u → Derives B (NT.Stmts n) w →
      Derives B NT.ForStmt
        ([TOK_FOR, TOK_LPAREN] ++ i ++ [TOK_SEMICOLON] ++ c ++ [TOK_SEMICOLON] ++ u
          ++ [TOK_RPAREN, TOK_LBRACE] ++ w ++ [TOK_RBRACE])
  | for_init_decl {t d : List TokenType} : Derives B NT.Ty t → Derives B NT.InitDecl d →
      Derives B NT.ForInit (t ++ d)
  | for_init_assign {e : List TokenType} : Derives B NT.Expr e →
      Derives B NT.ForInit ([TOK_ID, TOK_ASSIGN] ++ e)
  | update {e : List TokenType} : Derives B NT.Expr e →
      Derives B NT.Update ([TOK_ID, TOK_ASSIGN] ++ e)
  | expr {w : List TokenType} : Derives B NT.EqExpr w → Derives B NT.Expr w
  | eq_expr {a b : List TokenType} : Derives B NT.RelExpr a → Derives B NT.EqTail b →
      Derives B NT.EqExpr (a ++ b)
  | eq_nil : Derives B NT.EqTail []
  | eq_cons {a b : List TokenType} : Derives B NT.RelExpr a → Derives B NT.EqTail b →
      Derives B NT.EqTail ([TOK_EQ] ++ a ++ b)
  | rel_expr {a b : List TokenType} : Derives B NT.AddExpr a → Derives B NT.RelTail b →
      Derives B NT.RelExpr (a ++ b)
  | rel_nil : Derives B NT.RelTail []
  | rel_gt {a b : List TokenType} : Derives B NT.AddExpr a → Derives B NT.RelTail b →
      Derives B NT.RelTail ([TOK_GT] ++ a ++ b)
  | rel_gte {a b : List TokenType} : Derives B NT.AddExpr a → Derives B NT.RelTail b →
      Derives B NT.RelTail ([TOK_GTE] ++ a ++ b)
  | add_expr {a b : List TokenType} : Derives B NT.MulExpr a → Derives B NT.AddTail b →
      Derives B NT.AddExpr (a ++ b)
  | add_nil : Derives B NT.AddTail []
  | add_cons {a b : List TokenType} : Derives B NT.MulExpr a → Derives B NT.AddTail b →
      Derives B NT.AddTail ([TOK_PLUS] ++ a ++ b)
  | mul_expr {a b : List TokenType} : Derives B NT.PrimExpr a → Derives B NT.MulTail b →
      Derives B NT.MulExpr (a ++ b)
  | mul_nil : Derives B NT.MulTail []
  | mul_cons {a b : List TokenType} : Derives B NT.PrimExpr a → Derives B NT.MulTail b →
      Derives B NT.MulTail ([TOK_MUL] ++ a ++ b)
  | prim_id : Derives B NT.PrimExpr [TOK_ID]
  | prim_num : Derives B NT.PrimExpr [TOK_NUM]
  | prim_true : Derives B NT.PrimExpr [TOK_TRUE]
  | prim_false : Derives B NT.PrimExpr [TOK_FALSE]
  | prim_paren {e : List TokenType} : Derives B NT.Expr e →
      Derives B NT.PrimExpr ([TOK_LPAREN] ++ e ++ [TOK_RPAREN])

/-- The kinds of a token list. -/
def kinds (w : List Token) : List TokenType := w.map (fun t => t.type)

/-! ## Declarations and uses, read off the token sequence -/

/-- What a left-to-right scan of the tokens knows: the names whose declaration has been
completed, the name of a declaration that is still open (its `;` has not been read),
and whether the previous token is `int` or `bool`. -/
structure Scope where
  declared : List Str
  pending : Option Str
  after_type : Bool

/-- One token of the scan. An identifier right after `int` or `bool` is a declaration:
it must be new, and it stays open until the next `;`. Every other identifier (an
assignment target, a for-initializer or for-update target, a primary expression) is
a use: its name must have been declared, by a declaration completed earlier. -/
def scope_step (sc : Scope) (t : Token) : Option Scope :=
  if t.type = TOK_INT ∨ t.type = TOK_BOOL then some { sc with after_type := true }
  else if t.type = TOK_ID then
    if sc.after_type then
      if t.text ∈ sc.declared ∨ sc.pending = some t.text then none
      else some { sc with pending := some t.text, after_type := false }
    else if t.text ∈ sc.declared then some sc
    else none
  else if t.type = TOK_SEMICOLON then
    some { declared := sc.declared ++ sc.pending.toList, pending := none, after_type := false }
  else some { sc with after_type := false }

/-- The scan of a token list; `none` when a name is declared twice or an identifier is
used before its declaration is complete. -/
def scope_scan : Scope → List Token → Option Scope
  | sc, [] => some sc
  | sc, t :: ts =>
    match scope_step sc t with
    | none => none
    | some sc1 => scope_scan sc1 ts

/-- The scan that starts with nothing declared. -/
def scope_start : Scope := { declared := [], pending := none, after_type := false }

/-! ## Token-level derivations with scoping -/

/-- `Parses B M nt G w G1`: the tokens `w` are derivable from `nt` with at most `B`
statements in every block, when the names `G` are declared before `w`; `G1` are the
names declared after it. A declaration needs a new name and room in a table of `M`
symbols, and takes effect after its initializer; a use needs a declared name. -/
inductive Parses (B M : Nat) : NT → List Str → List Token → List Str → Prop
  | prog {n : Nat} {G G1 : List Str} {w : List Token} {b e : Token} :
      b.type = TOK_BEGIN → e.type = TOK_END → n ≤ B → Parses B M (NT.Stmts n) G w G1 →
      Parses B M NT.Prog G ([b] ++ w ++ [e]) G1
  | stmts_nil {G : List Str} : Parses B M (NT.Stmts 0) G [] G
  | stmts_cons {n : Nat} {G G1 G2 : List Str} {a b : List Token} :
      Parses B M NT.Stmt G a G1 → Parses B M (NT.Stmts n) G1 b G2 →
      Parses B M (NT.Stmts (n + 1)) G (a ++ b) G2
  | stmt_if {G G1 : List Str} {w : List Token} :
      Parses B M NT.IfStmt G w G1 → Parses B M NT.Stmt G w G1
  | stmt_do {G G1 : List Str} {w : List Token} :
      Parses B M NT.DoWhileStmt G w G1 → Parses B M NT.Stmt G w G1
  | stmt_print {G G1 : List Str} {w : List Token} :
      Parses B M NT.PrintStmt G w G1 → Parses B M NT.Stmt G w G1
  | stmt_decl {G G1 : List Str} {w : List Token} :
      Parses B M NT.DeclStmt G w G1 → Parses B M NT.Stmt G w G1
  | stmt_for {G G1 : List Str} {w : List Token} :
      Parses B M NT.ForStmt G w G1 → Parses B M NT.Stmt G w G1
  | stmt_assign {G G1 : List Str} {w : List Token} :
      Parses B M NT.AssignStmt G w G1 → Parses B M NT.Stmt G w G1
  | if_only {G G1 : List Str} {a : List Token} :
      Parses B M NT.IfThen G a G1 → Parses B M NT.IfStmt G a G1
  | if_else {G G1 G2 : List Str} {a b : List Token} :
      Parses B M NT.IfThen G a G1 → Parses B M NT.ElseOpt G1 b G2 →
      Parses B M NT.IfStmt G (a ++ b) G2
  | if_then {n : Nat} {G G1 : List Str} {e w : List Token} {t1 t2 t3 t4 t5 t6 : Token} :
      t1.type = TOK_IF → t2.type = TOK_LPAREN → t3.type = TOK_RPAREN → t4.type = TOK_THEN →
      t5.type = TOK_LBRACE → t6.type = TOK_RBRACE → n ≤ B →
      Parses B M NT.Expr G e G → Parses B M (NT.Stmts n) G w G1 →
      Parses B M NT.IfThen G ([t1, t2] ++ e ++ [t3, t4, t5] ++ w ++ [t6]) G1
  | else_opt {n : Nat} {G G1 : List Str} {w : List Token} {t1 t2 t3 : Token} :
      t1.type = TOK_ELSE → t2.type = TOK_LBRACE → t3.type = TOK_RBRACE → n ≤ B →
      Parses B M (NT.Stmts n) G w G1 →
      Parses B M NT.ElseOpt G ([t1, t2] ++ w ++ [t3]) G1
  | do_while {n : Nat} {G G1 : List Str} {w e : List Token} {t1 t2 t3 t4 t5 t6 t7 : Token} :
      t1.type = TOK_DO → t2.type = TOK_LBRACE → t3.type = TOK_RBRACE → t4.type = TOK_WHILE →
      t5.type = TOK_LPAREN → t6.type = TOK_RPAREN → t7.type = TOK_SEMICOLON → n ≤ B →
      Parses B M (NT.Stmts n) G w G1 → Parses B M NT.Expr G1 e G1 →
      Parses B M NT.DoWhileStmt G ([t1, t2] ++ w ++ [t3, t4, t5] ++ e ++ [t6, t7]) G1
  | print {G : List Str} {e : List Token} {t1 t2 t3 t4 : Token} :
      t1.type = TOK_PRINT → t2.type = TOK_LPAREN → t3.type = TOK_RPAREN →
      t4.type = TOK_SEMICOLON → Parses B M NT.Expr G e G →
      Parses B M NT.PrintStmt G ([t1, t2] ++ e ++ [t3, t4]) G
  | decl {G G1 : List Str} {t d : List Token} {t1 : Token} :
      t1.type = TOK_SEMICOLON → Parses B M NT.Ty G t G → Parses B M NT.InitDecl G d G1 →
      Parses B M NT.DeclStmt G (t ++ d ++ [t1]) G1
  | ty_int {G : List Str} {t1 : Token} : t1.type = TOK_INT → Parses B M NT.Ty G [t1] G
  | ty_bool {G : List Str} {t1 : Token} : t1.type = TOK_BOOL → Parses B M NT.Ty G [t1] G
  | init_plain {G : List Str} {x : Token} :
      x.type = TOK_ID → x.text ∉ G → G.length < M →
      Parses B M NT.InitDecl G [x] (G ++ [x.text])
  | init_expr {G : List Str} {e : List Token} {x t1 : Token} :
      x.type = TOK_ID → t1.type = TOK_ASSIGN → Parses B M NT.Expr G e G →
      x.text ∉ G → G.length < M →
      Parses B M NT.InitDecl G ([x, t1] ++ e) (G ++ [x.text])
  | assign {G : List Str} {e : List Token} {x t1 t2 : Token} :
      x.type = TOK_ID → x.text ∈ G → t1.type = TOK_ASSIGN → t2.type = TOK_SEMICOLON →
      Parses B M NT.Expr G e G →
      Parses B M NT.AssignStmt G ([x, t1] ++ e ++ [t2]) G
  | for_stmt {n : Nat} {G G1 G2 : List Str} {i c u w : List Token}
      {t1 t2 t3 t4 t5 t6 t7 : Token} :
      t1.type = TOK_FOR → t2.type = TOK_LPAREN → t3.type = TOK_SEMICOLON →
      t4.type = TOK_SEMICOLON → t5.type = TOK_RPAREN → t6.type = TOK_LBRACE →
      t7.type = TOK_RBRACE → n ≤ B →
      Parses B M NT.ForInit G i G1 → Parses B M NT.Expr G1 c G1 →
      Parses B M NT.Update G1 u G1 → Parses B M (NT.Stmts n) G1 w G2 →
      Parses B M NT.ForStmt G
        ([t1, t2] ++ i ++ [t3] ++ c ++ [t4] ++ u ++ [t5, t6] ++ w ++ [t7]) G2
  | for_init_decl {G G1 : List Str} {t d : List Token} :
      Parses B M NT.Ty G t G → Parses B M NT.InitDecl G d G1 →
      Parses B M NT.ForInit G (t ++ d) G1
  | for_init_assign {G : List Str} {e : List Token} {x t1 : Token} :
      x.type = TOK_ID → x.text ∈ G → t1.type = TOK_ASSIGN → Parses B M NT.Expr G e G →
      Parses B M NT.ForInit G ([x, t1] ++ e) G
  | update {G : List Str} {e : List Token} {x t1 : Token} :
      x.type = TOK_ID → x.text ∈ G → t1.type = TOK_ASSIGN → Parses B M NT.Expr G e G →
      Parses B M NT.Update G ([x, t1] ++ e) G
  | expr {G : List Str} {w : List Token} :
      Parses B M NT.EqExpr G w G → Parses B M NT.Expr G w G
  | eq_expr {G : List Str} {a b : List Token} :
      Parses B M NT.RelExpr G a G → Parses B M NT.EqTail G b G →
      Parses B M NT.EqExpr G (a ++ b) G
  | eq_nil {G : List Str} : Parses B M NT.EqTail G [] G
  | eq_cons {G : List Str} {a b : List Token} {t1 : Token} :
      t1.type = TOK_EQ → Parses B M NT.RelExpr G a G → Parses B M NT.EqTail G b G →
      Parses B M NT.EqTail G ([t1] ++ a ++ b) G
  | rel_expr {G : List Str} {a b : List Token} :
      Parses B M NT.AddExpr G a G → Parses B M NT.RelTail G b G →
      Parses B M NT.RelExpr G (a ++ b) G
  | rel_nil {G : List Str} : Parses B M NT.RelTail G [] G
  | rel_cons {G : List Str} {a b : List Token} {t1 : Token} :
      t1.type = TOK_GT ∨ t1.type = TOK_GTE → Parses B M NT.AddExpr G a G →
      Parses B M NT.RelTail G b G → Parses B M NT.RelTail G ([t1] ++ a ++ b) G
  | add_expr {G : List Str} {a b : List Token} :
      Parses B M NT.MulExpr G a G → Parses B M NT.AddTail G b G →
      Parses B M NT.AddExpr G (a ++ b) G
  | add_nil {G : List Str} : Parses B M NT.AddTail G [] G
  | add_cons {G : List Str} {a b : List Token} {t1 : Token} :
      t1.type = TOK_PLUS → Parses B M NT.MulExpr G a G → Parses B M NT.AddTail G b G →
      Parses B M NT.AddTail G ([t1] ++ a ++ b) G
  | mul_expr {G : List Str} {a b : List Token} :
      Parses B M NT.PrimExpr G a G → Parses B M NT.MulTail G b G →
      Parses B M NT.MulExpr G (a ++ b) G
  | mul_nil {G : List Str} : Parses B M NT.MulTail G [] G
  | mul_cons {G : List Str} {a b : List Token} {t1 : Token} :
      t1.type = TOK_MUL → Parses B M NT.PrimExpr G a G → Parses B M NT.MulTail G b G →
      Parses B M NT.MulTail G ([t1] ++ a ++ b) G
  | prim_id {G : List Str} {x : Token} :
      x.type = TOK_ID → x.text ∈ G → Parses B M NT.PrimExpr G [x] G
  | prim_lit {G : List Str} {t1 : Token} :
      t1.type = TOK_NUM ∨ t1.type = TOK_TRUE ∨ t1.type = TOK_FALSE →
      Parses B M NT.PrimExpr G [t1] G
  | prim_paren {G : List Str} {e : List Token} {t1 t2 : Token} :
      t1.type = TOK_LPAREN → t2.type = TOK_RPAREN → Parses B M NT.Expr G e G →
      Parses B M NT.PrimExpr G ([t1] ++ e ++ [t2]) G

/-! ## The cursor -/

/-- The tokens from the cursor on. -/
def rest (s : State) : List Token := s.token_list.drop s.token_index.toNat

/-- The names in the symbol table, in order of insertion. -/
def names (s : State) : List Str := s.symbol_table.map (fun sym => sym.name)

/-- The globals as the lexer leaves them for the parser and as the parser keeps them:
the token list ends with the only end-of-input token, whose line is the line counter;
lines are positive; the cursor is inside the list or just past it and `current_token`
is the token under it (the made-up end-of-input token past the list); and
`last_error_line` is 0 while no diagnostic is recorded. -/
structure WellFormed (s : State) : Prop where
  ends : ∃ toks, s.token_list = toks ++ [eof_token s] ∧ ∀ t ∈ toks, t.type ≠ TOK_EOF
  lines : ∀ t ∈ s.token_list, 1 ≤ t.line
  index : 0 ≤ s.token_index ∧ s.token_index ≤ (s.token_list.length : Int)
  cursor : s.current_token = (rest s).head?.getD (eof_token s)
  marker : s.errors = [] → s.last_error_line = 0

/-- The collector holds a diagnostic. -/
def HasError (s : State) : Prop := s.errors ≠ []

/-- NULL from `parse_else_opt` at an `else` comes with a diagnostic. -/
def FailsElse (f : State → PResult) : Prop :=
  ∀ s s1, WellFormed s → f s = some (none, s1) → s.current_token.type = TOK_ELSE → HasError s1

/-- A NULL result of a parse function comes with a recorded diagnostic. -/
def FailsBad (f : State → PResult) : Prop :=
  ∀ s s1, WellFormed s → f s = some (none, s1) → HasError s1

/-- The expression functions at one fuel: NULL comes with a diagnostic. -/
structure FailsExpr (fuel : Nat) : Prop where
  expr : FailsBad (parse_expr fuel)
  eq : FailsBad (parse_eq_expr fuel)
  eq_loop : ∀ n, FailsBad (parse_eq_loop fuel n)
  rel : FailsBad (parse_rel_expr fuel)
  rel_loop : ∀ n, FailsBad (parse_rel_loop fuel n)
  add : FailsBad (parse_add_expr fuel)
  add_loop : ∀ n, FailsBad (parse_add_loop fuel n)
  mul : FailsBad (parse_mul_expr fuel)
  mul_loop : ∀ n, FailsBad (parse_mul_loop fuel n)
  prim : FailsBad (parse_prim_expr fuel)

/-- The block functions at one fuel: NULL comes with a diagnostic. -/
structure FailsStmt (fuel : Nat) : Prop where
  stmt : FailsBad (parse_stmt fuel)
  if_stmt : FailsBad (parse_if_stmt fuel)
  if_then : FailsBad (parse_if_then fuel)
  do_while : FailsBad (parse_do_while_stmt fuel)
  for_stmt : FailsBad (parse_for_stmt fuel)

/-- What an error-free call of an expression function has done: no diagnostic was
there before, the symbol table is untouched, and the tokens it moved the cursor over
are derivable from `nt` with the names of the table declared. -/
def GoodE (nt : NT) (s s1 : State) : Prop :=
  s.errors = [] ∧ s1.symbol_table = s.symbol_table ∧
    ∃ w, rest s = w ++ rest s1 ∧ Parses MAX_STMTS MAX_SYMBOLS nt (names s) w (names s)

/-- What an error-free call of a statement function has done: no diagnostic was there
before, and the tokens it moved the cursor over are derivable from `nt`, taking the
names of the table before the call to the names after it. -/
def GoodS (nt : NT) (s s1 : State) : Prop :=
  s.errors = [] ∧
    ∃ w, rest s = w ++ rest s1 ∧ Parses MAX_STMTS MAX_SYMBOLS nt (names s) w (names s1)

/-- An expression function is sound for `nt`: a non-NULL result with no diagnostic
recorded afterwards means the tokens consumed are derivable from `nt`. -/
def SoundE (nt : NT) (f : State → PResult) : Prop :=
  ∀ s n s1, WellFormed s → f s = some (some n, s1) → s1.errors = [] → GoodE nt s s1

/-- A statement function is sound for `nt`. -/
def SoundS (nt : NT) (f : State → PResult) : Prop :=
  ∀ s n s1, WellFormed s → f s = some (some n, s1) → s1.errors = [] → GoodS nt s s1

/-- Soundness of the expression functions at one fuel. -/
structure SoundExpr (fuel : Nat) : Prop where
  expr : SoundE NT.Expr (parse_expr fuel)
  eq : SoundE NT.EqExpr (parse_eq_expr fuel)
  eq_loop : ∀ n, SoundE NT.EqTail (parse_eq_loop fuel n)
  rel : SoundE NT.RelExpr (parse_rel_expr fuel)
  rel_loop : ∀ n, SoundE NT.RelTail (parse_rel_loop fuel n)
  add : SoundE NT.AddExpr (parse_add_expr fuel)
  add_loop : ∀ n, SoundE NT.AddTail (parse_add_loop fuel n)
  mul : SoundE NT.MulExpr (parse_mul_expr fuel)
  mul_loop : ∀ n, SoundE NT.MulTail (parse_mul_loop fuel n)
  prim : SoundE NT.PrimExpr (parse_prim_expr fuel)

/-- What an error-free run of the statement loop has done, starting with `c` statements
stored: the tokens it moved the cursor over are a block of `k` statements, and
`c + k` is at most the limit. -/
def GoodL (c : Nat) (s s1 : State) : Prop :=
  s.errors = [] ∧
    ∃ k w, c + k ≤ MAX_STMTS ∧ rest s = w ++ rest s1 ∧
      Parses MAX_STMTS MAX_SYMBOLS (NT.Stmts k) (names s) w (names s1)

/-- Soundness of the block functions at one fuel. -/
structure SoundStmt (fuel : Nat) : Prop where
  stmts : ∀ s r s1, WellFormed s → parse_stmts fuel s = some (r, s1) → s1.errors = [] →
    GoodL 0 s s1
  loop : ∀ acc s l s1, WellFormed s → acc.length ≤ MAX_STMTS →
    parse_stmts_loop fuel acc s = some (l, s1) → s1.errors = [] → GoodL acc.length s s1
  stmt : SoundS NT.Stmt (parse_stmt fuel)
  if_stmt : SoundS NT.IfStmt (parse_if_stmt fuel)
  if_then : SoundS NT.IfThen (parse_if_then fuel)
  else_opt : SoundS NT.ElseOpt (parse_else_opt fuel)
  do_while : SoundS NT.DoWhileStmt (parse_do_while_stmt fuel)
  for_stmt : SoundS NT.ForStmt (parse_for_stmt fuel)

/-- The globals while the lexer runs, as far as the parser depends on them: positive
lines, `last_error_line` still 0 while no diagnostic is recorded, an empty symbol
table and the cursor before the first token. -/
def LexReady (s : State) : Prop :=
  1 ≤ s.line ∧ (∀ t ∈ s.token_list, 1 ≤ t.line) ∧ (s.errors = [] → s.last_error_line = 0) ∧
    s.symbol_table = [] ∧ s.token_index = -1

/-! ## Completeness: the success path -/

/-- The cursor stands at the tokens `r`, of which there is at least one, the names `G`
are declared and the collector is empty. -/
structure Ready (s : State) (G : List Str) (r : List Token) : Prop where
  index : 0 ≤ s.token_index
  rest : rest s = r
  current : r.head? = some s.current_token
  names : names s = G
  errors : s.errors = []

/-- The list `q` starts with a token whose kind satisfies `P`. -/
def HeadIs (P : TokenType → Prop) (q : List Token) : Prop :=
  ∃ t r, q = t :: r ∧ P t.type

/-- The list `w` is empty or starts with a token whose kind satisfies `P`. -/
def EmptyOrHead (P : TokenType → Prop) (w : List Token) : Prop :=
  w = [] ∨ HeadIs P w

/-- The kinds that start a statement. -/
def StartsStmt (k : TokenType) : Prop :=
  k = TOK_IF ∨ k = TOK_DO ∨ k = TOK_PRINT ∨ k = TOK_INT ∨ k = TOK_BOOL ∨ k = TOK_FOR ∨ k = TOK_ID

/-- What the first tokens of a string derived from a nonterminal look like, as far as
the parser's decisions depend on it. -/
def First : NT → List Token → Prop
  | NT.Stmts _, w => EmptyOrHead StartsStmt w
  | NT.Stmt, w => HeadIs StartsStmt w
  | NT.IfStmt, w => HeadIs (fun k => k = TOK_IF) w
  | NT.IfThen, w => HeadIs (fun k => k = TOK_IF) w
  | NT.ElseOpt, w => HeadIs (fun k => k = TOK_ELSE) w
  | NT.DoWhileStmt, w => HeadIs (fun k => k = TOK_DO) w
  | NT.PrintStmt, w => HeadIs (fun k => k = TOK_PRINT) w
  | NT.DeclStmt, w => HeadIs (fun k => k = TOK_INT ∨ k = TOK_BOOL) w
  | NT.Ty, w => HeadIs (fun k => k = TOK_INT ∨ k = TOK_BOOL) w
  | NT.ForStmt, w => HeadIs (fun k => k = TOK_FOR) w
  | NT.AssignStmt, w => ∃ x t r, w = x :: t :: r ∧ x.type = TOK_ID ∧ t.type = TOK_ASSIGN
  | NT.EqTail, w => EmptyOrHead (fun k => k = TOK_EQ) w
  | NT.RelTail, w => EmptyOrHead (fun k => k = TOK_GT ∨ k = TOK_GTE) w
  | NT.AddTail, w => EmptyOrHead (fun k => k = TOK_PLUS) w
  | NT.MulTail, w => EmptyOrHead (fun k => k = TOK_MUL) w
  | _, _ => True

/-- The kinds that may not follow a string derived from a nonterminal if the parser,
which decides on the current token alone, is to stop where the string stops. -/
def Follow : NT → TokenType → Prop
  | NT.MulExpr, k => k ≠ TOK_MUL
  | NT.MulTail, k => k ≠ TOK_MUL
  | NT.AddExpr, k => k ≠ TOK_MUL ∧ k ≠ TOK_PLUS
  | NT.AddTail, k => k ≠ TOK_MUL ∧ k ≠ TOK_PLUS
  | NT.RelExpr, k => k ≠ TOK_MUL ∧ k ≠ TOK_PLUS ∧ k ≠ TOK_GT ∧ k ≠ TOK_GTE
  | NT.RelTail, k => k ≠ TOK_MUL ∧ k ≠ TOK_PLUS ∧ k ≠ TOK_GT ∧ k ≠ TOK_GTE
  | NT.EqExpr, k => k ≠ TOK_MUL ∧ k ≠ TOK_PLUS ∧ k ≠ TOK_GT ∧ k ≠ TOK_GTE ∧ k ≠ TOK_EQ
  | NT.EqTail, k => k ≠ TOK_MUL ∧ k ≠ TOK_PLUS ∧ k ≠ TOK_GT ∧ k ≠ TOK_GTE ∧ k ≠ TOK_EQ
  | NT.Expr, k => k ≠ TOK_MUL ∧ k ≠ TOK_PLUS ∧ k ≠ TOK_GT ∧ k ≠ TOK_GTE ∧ k ≠ TOK_EQ
  | NT.Update, k => k ≠ TOK_MUL ∧ k ≠ TOK_PLUS ∧ k ≠ TOK_GT ∧ k ≠ TOK_GTE ∧ k ≠ TOK_EQ
  | NT.InitDecl, k =>
      k ≠ TOK_MUL ∧ k ≠ TOK_PLUS ∧ k ≠ TOK_GT ∧ k ≠ TOK_GTE ∧ k ≠ TOK_EQ ∧ k ≠ TOK_ASSIGN
  | NT.ForInit, k =>
      k ≠ TOK_MUL ∧ k ≠ TOK_PLUS ∧ k ≠ TOK_GT ∧ k ≠ TOK_GTE ∧ k ≠ TOK_EQ ∧ k ≠ TOK_ASSIGN
  | NT.Stmts _, k => k = TOK_END ∨ k = TOK_RBRACE ∨ k = TOK_EOF
  | NT.Stmt, k => k ≠ TOK_ELSE
  | NT.IfStmt, k => k ≠ TOK_ELSE
  | _, _ => True

/-- Fuel a parse function needs beyond four units for each token it consumes. -/
def rank : NT → Nat
  | NT.Stmts _ => 4
  | NT.Stmt => 3
  | NT.IfStmt => 2
  | NT.IfThen => 1
  | NT.ElseOpt => 1
  | NT.DoWhileStmt => 1
  | NT.ForStmt => 1
  | NT.Expr => 6
  | NT.EqExpr => 5
  | NT.RelExpr => 4
  | NT.AddExpr => 3
  | NT.MulExpr => 2
  | NT.PrimExpr => 1
  | NT.EqTail => 1
  | NT.RelTail => 1
  | NT.AddTail => 1
  | NT.MulTail => 1
  | _ => 0

/-- The call `f` in state `s` returns a non-NULL node and leaves the cursor at `q`, the
names `G1` declared and the collector empty. -/
def Ok (f : State → PResult) (s : State) (G1 : List Str) (q : List Token) : Prop :=
  ∃ n s1, f s = some (some n, s1) ∧ Ready s1 G1 q

/-- What the function for a nonterminal does on a state whose cursor stands at a string
derived from it. -/
def Target : NT → Nat → State → List Str → List Token → Prop
  | NT.Prog, fuel, s, G1, q => Ok (parse_prog fuel) s G1 q
  | NT.Stmts n, fuel, s, G1, q => ∀ l : List Node, l.length + n ≤ MAX_STMTS →
      ∃ l1 s1, parse_stmts_loop fuel l s = some (l1, s1) ∧ l1.length = l.length + n ∧
        Ready s1 G1 q
  | NT.Stmt, fuel, s, G1, q => Ok (parse_stmt fuel) s G1 q
  | NT.IfStmt, fuel, s, G1, q => Ok (parse_if_stmt fuel) s G1 q
  | NT.IfThen, fuel, s, G1, q => Ok (parse_if_then fuel) s G1 q
  | NT.ElseOpt, fuel, s, G1, q => Ok (parse_else_opt fuel) s G1 q
  | NT.DoWhileStmt, fuel, s, G1, q => Ok (parse_do_while_stmt fuel) s G1 q
  | NT.PrintStmt, fuel, s, G1, q => Ok (parse_print_stmt fuel) s G1 q
  | NT.DeclStmt, fuel, s, G1, q => Ok (parse_decl_stmt fuel) s G1 q
  | NT.Ty, _, s, G1, q => Ok (fun s0 => some (parse_type s0)) s G1 q
  | NT.InitDecl, fuel, s, G1, q => ∀ ty : Str,
      ∃ n line s1, parse_init_decl fuel ty s = some (some n, line, s1) ∧ Ready s1 G1 q
  | NT.AssignStmt, fuel, s, G1, q => Ok (parse_assign_stmt fuel) s G1 q
  | NT.ForStmt, fuel, s, G1, q => Ok (parse_for_stmt fuel) s G1 q
  | NT.ForInit, fuel, s, G1, q => Ok (for_init fuel) s G1 q
  | NT.Update, fuel, s, G1, q => Ok (for_update fuel) s G1 q
  | NT.Expr, fuel, s, G1, q => Ok (parse_expr fuel) s G1 q
  | NT.EqExpr, fuel, s, G1, q => Ok (parse_eq_expr fuel) s G1 q
  | NT.EqTail, fuel, s, G1, q => ∀ acc : Node, Ok (parse_eq_loop fuel acc) s G1 q
  | NT.RelExpr, fuel, s, G1, q => Ok (parse_rel_expr fuel) s G1 q
  | NT.RelTail, fuel, s, G1, q => ∀ acc : Node, Ok (parse_rel_loop fuel acc) s G1 q
  | NT.AddExpr, fuel, s, G1, q => Ok (parse_add_expr fuel) s G1 q
  | NT.AddTail, fuel, s, G1, q => ∀ acc : Node, Ok (parse_add_loop fuel acc) s G1 q
  | NT.MulExpr, fuel, s, G1, q => Ok (parse_mul_expr fuel) s G1 q
  | NT.MulTail, fuel, s, G1, q => ∀ acc : Node, Ok (parse_mul_loop fuel acc) s G1 q
  | NT.PrimExpr, fuel, s, G1, q => Ok (parse_prim_expr fuel) s G1 q

/-- The function for `nt` accepts the string `w` derived from `nt`, whatever follows it
within the follow condition, given four units of fuel for each token and `rank nt`. -/
def Complete (nt : NT) (G : List Str) (w : List Token) (G1 : List Str) : Prop :=
  ∀ fuel s q, Ready s G (w ++ q) → HeadIs (Follow nt) q → 4 * w.length + rank nt ≤ fuel →
    Target nt fuel s G1 q

/-- The names a scan has seen declared: the completed declarations and the open one. -/
def Scope.count (sc : Scope) : Nat := sc.declared.length + sc.pending.toList.length

/-- What the grammar and the scan together give for tokens `w` of kinds derivable from
`nt`: when the scan passes over `w`, starting where a string of `nt` can start, `w` has
a token-level derivation that declares and uses the names as the scan saw them. -/
def Bridge (B M : Nat) (nt : NT) (w : List Token) : Prop :=
  match nt with
  | NT.Ty => ∀ G sc1, scope_scan ⟨G, none, false⟩ w = some sc1 → sc1.count ≤ M →
      sc1 = ⟨G, none, true⟩ ∧ Parses B M nt G w G
  | NT.InitDecl => ∀ G sc1, scope_scan ⟨G, none, true⟩ w = some sc1 → sc1.count ≤ M →
      ∃ x, sc1 = ⟨G, some x, false⟩ ∧ Parses B M nt G w (G ++ [x])
  | NT.ForInit => ∀ G sc1, scope_scan ⟨G, none, false⟩ w = some sc1 → sc1.count ≤ M →
      ∃ p, sc1 = ⟨G, p, false⟩ ∧ Parses B M nt G w (G ++ p.toList)
  | NT.Prog | NT.Stmts _ | NT.Stmt | NT.IfStmt | NT.IfThen | NT.ElseOpt | NT.DoWhileStmt
  | NT.PrintStmt | NT.DeclStmt | NT.AssignStmt | NT.ForStmt =>
      ∀ G sc1, scope_scan ⟨G, none, false⟩ w = some sc1 → sc1.count ≤ M →
        ∃ G1, sc1 = ⟨G1, none, false⟩ ∧ Parses B M nt G w G1
  | NT.Update | NT.Expr | NT.EqExpr | NT.EqTail | NT.RelExpr | NT.RelTail | NT.AddExpr
  | NT.AddTail | NT.MulExpr | NT.MulTail | NT.PrimExpr =>
      ∀ G p sc1, scope_scan ⟨G, p, false⟩ w = some sc1 →
        sc1 = ⟨G, p, false⟩ ∧ Parses B M nt G w G

/-- A sequence of calls `add_symbol(name, type, line)`. -/
def add_symbols (calls : List (Str × Str × Nat)) (s : State) : State :=
  calls.foldl (fun s1 c => add_symbol c.1 c.2.1 c.2.2 s1) s

/-- What one iteration of the lexer loop does, whatever the globals are: it reads the
characters `consumed` from the input `c :: file` and leaves `rest`, the line counter
advances by the newlines read, and it appends one token of kind `k`, whose lexeme is
the C string of the characters read, when `tok = some k`, and no token otherwise. -/
def StepEffect (c : Char) (file consumed rest : List Char) (tok : Option TokenType) : Prop :=
  c :: file = consumed ++ rest ∧ consumed ≠ [] ∧ (tok ≠ none → '\n' ∉ consumed) ∧
    ∀ s : State, (lex_step c file s).1 = rest ∧
      (lex_step c file s).2.line = s.line + consumed.count '\n' ∧
      (lex_step c file s).2.token_list = s.token_list ++
        tok.toList.map (fun k => (⟨k, c_string (MAX_TOKEN_LEN - 1) consumed, s.line⟩ : Token))

/-- The token `t` starts at offset `o` of the input: its line is one more than the number
of newlines before the offset, and its lexeme is the C string of the `n` characters from
the offset on, none of which is a newline. -/
def TokenAt (input : List Char) (t : Token) (o : Nat) : Prop :=
  t.line = 1 + (input.take o).count '\n' ∧
    ∃ n, 0 < n ∧ o + n ≤ input.length ∧
      t.text = c_string (MAX_TOKEN_LEN - 1) ((input.drop o).take n) ∧
      '\n' ∉ (input.drop o).take n

/-- The lexer has read the prefix `pre` of `input`: the line counter is one more than the
newlines of `pre`, and the tokens start at the offsets `offs`, which increase and lie in
`pre`. -/
def LexedTo (input pre : List Char) (s : State) (offs : List Nat) : Prop :=
  s.line = 1 + pre.count '\n' ∧ List.Forall₂ (TokenAt input) s.token_list offs ∧
    (∀ o ∈ offs, o < pre.length) ∧ offs.Pairwise (fun a b => a < b)

mutual

/-- A node in a block position: a node labelled `Stmts` whose children are non-NULL
statement nodes. -/
inductive BlockTree : Node → Prop
  | mk (stmts : List Node) : (∀ n ∈ stmts, StmtTree n) → BlockTree (make_node "Stmts" stmts)

/-- A statement node; the bodies of `if`, `else`, `do`-`while` and `for` are block
positions. -/
inductive StmtTree : Node → Prop
  | if_stmt (cond block : Node) (else_opt : Option Node) :
      BlockTree block → ElseTree else_opt →
      StmtTree (Node.mk "IfStmt".toList [some (make_node "IfThen" [cond, block]), else_opt])
  | do_while (block cond : Node) : BlockTree block →
      StmtTree (make_node "DoWhileStmt" [block, cond])
  | for_stmt (init cond update block : Node) : BlockTree block →
      StmtTree (make_node "ForStmt" [init, cond, update, block])
  | print (expr : Node) : StmtTree (make_node "PrintStmt" [expr])
  | decl (type init_decl : Node) : StmtTree (make_node "DeclStmt" [type, init_decl])
  | assign (id : Str) (expr : Node) : StmtTree (make_node "AssignStmt" [leaf id, expr])

/-- The second child slot of an `IfStmt` node: NULL, or an `ElseOpt` node over a block. -/
inductive ElseTree : Option Node → Prop
  | absent : ElseTree none
  | present (block : Node) : BlockTree block →
      ElseTree (some (make_node "ElseOpt" [block]))

end

/-- The tree of a program: `Prog` over the block of the program body. -/
inductive ProgTree : Node → Prop
  | mk (block : Node) : BlockTree block → ProgTree (make_node "Prog" [block])

/-- The nodes built by the block functions at one fuel have the shape of `StmtTree`. -/
structure TreeStmt (fuel : Nat) : Prop where
  stmts : ∀ s r s1, parse_stmts fuel s = some (r, s1) → BlockTree (stmts_or_empty r)
  loop : ∀ acc s l s1, (∀ n ∈ acc, StmtTree n) →
    parse_stmts_loop fuel acc s = some (l, s1) → ∀ n ∈ l, StmtTree n
  stmt : ∀ s n s1, parse_stmt fuel s = some (some n, s1) → StmtTree n
  if_stmt : ∀ s n s1, parse_if_stmt fuel s = some (some n, s1) → StmtTree n
  if_then : ∀ s n s1, parse_if_then fuel s = some (some n, s1) →
    ∃ cond block, n = make_node "IfThen" [cond, block] ∧ BlockTree block
  else_opt : ∀ s e s1, parse_else_opt fuel s = some (e, s1) → ElseTree e
  do_while : ∀ s n s1, parse_do_while_stmt fuel s = some (some n, s1) → StmtTree n
  for_stmt : ∀ s n s1, parse_for_stmt fuel s = some (some n, s1) → StmtTree n

/-! ## Calls on the diagnostic collector -/

/-- What the lexer and the parser do to the collector: a call of `add_error`, or the
assignment `last_error_line = 0` at the head of `parse_stmt`. -/
inductive CollectorStep
  | add (line : Nat) (message : Str)
  | reset

/-- The effect of one collector step on the globals. -/
def collector_step : CollectorStep → State → State
  | CollectorStep.add line message, s => add_error line message s
  | CollectorStep.reset, s => { s with last_error_line := 0 }

/-- The globals after a sequence of collector steps. -/
def collector_run (steps : List CollectorStep) (s : State) : State :=
  steps.foldl (fun s c => collector_step c s) s

/-- A property of the globals kept by the primitive operations that the expression
functions use: they move the cursor and report, and never touch the symbol table. -/
structure ExprStable (P : State → Prop) : Prop where
  next : ∀ s, P s → P (next_token s)
  skip : ∀ s, P s → P (skip_to_sync s)
  error : ∀ line msg s, P s → P (add_error line msg s)

/-! ## Expression trees -/

/-- Binding strength of the binary operators: `==` lowest, then `>` and `>=`, then `+`,
then `*`; 0 for every other token kind. -/
def op_level : TokenType → Nat
  | TOK_EQ => 1
  | TOK_GT => 2
  | TOK_GTE => 2
  | TOK_PLUS => 3
  | TOK_MUL => 4
  | _ => 0

/-- The tree `Op(left, right)` of a binary operator token. -/
def op_node (op : TokenType) (left right : Node) : Node :=
  match op with
  | TOK_EQ => make_node "EqExpr" [left, right]
  | TOK_GT => make_node "Gt" [left, right]
  | TOK_GTE => make_node "Gte" [left, right]
  | TOK_PLUS => make_node "AddExpr" [left, right]
  | _ => make_node "MulExpr" [left, right]

/-- The tree of an operand token: a literal or an identifier. -/
def operand_node (t : Token) : Node :=
  match t.type with
  | TOK_NUM => make_node "Num" [leaf t.text]
  | TOK_TRUE => make_node "True" []
  | TOK_FALSE => make_node "False" []
  | _ => make_node "Id" [leaf t.text]

/-- The token is an operand that `parse_prim_expr` accepts: a literal, or an identifier
in the symbol table. -/
def IsOperand (s : State) (t : Token) : Prop :=
  t.type = TOK_NUM ∨ t.type = TOK_TRUE ∨ t.type = TOK_FALSE
    ∨ (t.type = TOK_ID ∧ is_variable_declared t.text s = true)

/-! ## Progress of the cursor -/

/-- The cursor is well-formed over the token list `tokens` and at most `bound` tokens
remain from it on. -/
def Within (tokens : List Token) (bound : Nat) (s : State) : Prop :=
  WellFormed s ∧ s.token_list = tokens ∧ (rest s).length ≤ bound

/-- The cursor has moved on by at least one token from a state with at most `bound`
tokens left. -/
def Strict (tokens : List Token) (bound : Nat) (s : State) : Prop :=
  Within tokens (bound - 1) s ∧ 1 ≤ bound

/-- With enough fuel for `bound` remaining tokens the function returns. -/
def Total {α : Type} (f : Nat → State → Option α) (rank fuel : Nat) : Prop :=
  ∀ tokens bound s, Within tokens bound s → 8 * bound + rank ≤ fuel + 8 → f fuel s ≠ none

/-- The function moves the cursor on by at least one token unless it starts at the end
of the input. -/
def Advances {α : Type} (f : State → Option (α × State)) : Prop :=
  ∀ tokens bound s r s1, f s = some (r, s1) → Within tokens bound s →
    s.current_token.type ≠ TOK_EOF → Strict tokens bound s1

/-! ## A block of `print(1);` statements -/

theorem add_error_token_list (line : Nat) (message : Str) (s : State) :
    (add_error line message s).token_list = s.token_list := by
  unfold add_error; split_ifs <;> rfl

theorem add_error_line (line : Nat) (message : Str) (s : State) :
    (add_error line message s).line = s.line := by
  unfold add_error; split_ifs <;> rfl

theorem add_error_symbol_table (line : Nat) (message : Str) (s : State) :
    (add_error line message s).symbol_table = s.symbol_table := by
  unfold add_error; split_ifs <;> rfl

theorem add_error_current_token (line : Nat) (message : Str) (s : State) :
    (add_error line message s).current_token = s.current_token := by
  unfold add_error; split_ifs <;> rfl

theorem add_error_token_index (line : Nat) (message : Str) (s : State) :
    (add_error line message s).token_index = s.token_index := by
  unfold add_error; split_ifs <;> rfl

theorem add_error_of_accepts (line : Nat) (message : Str) (s : State)
    (h : Accepts line message s) :
    add_error line message s =
      { s with errors := s.errors ++ [⟨line, c_string 255 message⟩],
               last_error_line := line } := by
  obtain ⟨h1, h2, h3⟩ := h
  unfold add_error
  rw [if_neg (by omega), if_neg h2, if_neg]
  intro hany
  obtain ⟨e, he, hc⟩ := List.any_eq_true.mp hany
  simp only [Bool.and_eq_true, decide_eq_true_eq] at hc
  exact h3 e he hc

theorem add_error_of_not_accepts (line : Nat) (message : Str) (s : State)
    (h : ¬ Accepts line message s) : add_error line message s = s := by
  unfold add_error
  by_cases h1 : s.errors.length ≥ MAX_ERRORS
  · rw [if_pos h1]
  rw [if_neg h1]
  by_cases h2 : line = s.last_error_line
  · rw [if_pos h2]
  rw [if_neg h2]
  by_cases h3 : (s.errors.any fun e =>
      decide (e.line = line) && decide (e.message = c_string 255 message)) = true
  · rw [if_pos h3]
  exfalso
  apply h
  refine ⟨by omega, h2, ?_⟩
  intro e he hc
  apply h3
  exact List.any_eq_true.mpr ⟨e, he, by simpa using hc⟩

theorem c_string_eq_self (n : Nat) (m : Str) (hlen : m.length ≤ n)
    (hnul : ∀ c ∈ m, c ≠ '\x00') : c_string n m = m := by
  unfold c_string
  have : m.takeWhile (fun c => decide (c ≠ '\x00')) = m := by
    apply List.takeWhile_eq_self_iff.mpr
    intro c hc
    simpa using hnul c hc
  rw [this]
  exact List.take_of_length_le hlen

/-! ## Lexer lemmas -/

theorem scan_run_length (p : Char → Bool) (text : Str) (file : List Char) :
    (scan_run p text file).2.length ≤ file.length := by
  induction file generalizing text with
  | nil => simp [scan_run]
  | cons c file ih =>
    simp only [scan_run]
    split
    · exact Nat.le_succ_of_le (ih _)
    · exact Nat.le_refl _

theorem skip_line_comment_length (file : List Char) :
    (skip_line_comment file).1.length ≤ file.length := by
  induction file with
  | nil => simp [skip_line_comment]
  | cons c file ih =>
    unfold skip_line_comment
    split_ifs
    · simp
    · exact Nat.le_succ_of_le ih

theorem skip_block_comment_length (prev : Char) (file : List Char) (line : Nat) :
    (skip_block_comment prev file line).1.length ≤ file.length := by
  induction file generalizing prev line with
  | nil => simp [skip_block_comment]
  | cons c file ih =>
    unfold skip_block_comment
    split
    · simp
    · exact Nat.le_succ_of_le (ih _ _)

theorem skip_block_comment_line (prev : Char) (file : List Char) (line : Nat) :
    line ≤ (skip_block_comment prev file line).2.1 := by
  induction file generalizing prev line with
  | nil => simp [skip_block_comment]
  | cons c file ih =>
    unfold skip_block_comment
    split
    · exact Nat.le_refl _
    · refine Nat.le_trans ?_ (ih _ _)
      split <;> omega

theorem keyword_chain_step (text : Str) (w : String) (k : TokenType)
    (rest : Option TokenType) (l : List (String × TokenType))
    (h : rest = (l.find? (fun p => p.1.toList = text)).map (fun p => p.2)) :
    (if text = w.toList then some k else rest)
      = (((w, k) :: l).find? (fun p => p.1.toList = text)).map (fun p => p.2) := by
  by_cases hw : text = w.toList
  · rw [if_pos hw, List.find?_cons]
    have : decide ((w, k).1.toList = text) = true := decide_eq_true hw.symm
    rw [this]
    rfl
  · rw [if_neg hw, h, List.find?_cons]
    have : decide ((w, k).1.toList = text) = false := decide_eq_false (fun e => hw e.symm)
    rw [this]

theorem keyword_type_eq_reserved (text : Str) : keyword_type text = reserved_kind text := by
  unfold keyword_type reserved_kind reserved_words
  repeat (refine keyword_chain_step _ _ _ _ _ ?_)
  rfl

theorem keyword_type_kind (text : Str) (k : TokenType) (h : keyword_type text = some k) :
    k ≠ TOK_EOF ∧ k ≠ TOK_ERROR := by
  rw [keyword_type_eq_reserved, reserved_kind] at h
  simp only [Option.map_eq_some'] at h
  obtain ⟨p, hp, rfl⟩ := h
  have hm := List.mem_of_find?_eq_some hp
  have : ∀ q ∈ reserved_words, q.2 ≠ TOK_EOF ∧ q.2 ≠ TOK_ERROR := by decide
  exact this p hm

theorem lex_step_length (c : Char) (file : List Char) (s : State) :
    (lex_step c file s).1.length ≤ file.length := by
  unfold lex_step
  by_cases h1 : c = '\n'
  · rw [if_pos h1]
  rw [if_neg h1]
  by_cases h2 : isspace c = true
  · rw [if_pos h2]
  rw [if_neg h2]
  by_cases h3 : c = '/'
  · rw [if_pos h3]
    split
    · exact Nat.le_succ_of_le (skip_line_comment_length _)
    · exact Nat.le_succ_of_le (skip_block_comment_length _ _ _)
    · exact Nat.le_refl _
  rw [if_neg h3]
  by_cases h4 : isalpha c = true
  · rw [if_pos h4]
    dsimp only
    split
    · exact scan_run_length _ _ _
    · split <;> exact scan_run_length _ _ _
  rw [if_neg h4]
  by_cases h5 : isdigit c = true
  · rw [if_pos h5]
    exact scan_run_length _ _ _
  rw [if_neg h5]
  by_cases h6 : c = '='
  · rw [if_pos h6]
    split
    · exact Nat.le_succ _
    · exact Nat.le_refl _
  rw [if_neg h6]
  by_cases h7 : c = '>'
  · rw [if_pos h7]
    split
    · exact Nat.le_succ _
    · exact Nat.le_refl _
  rw [if_neg h7]
  repeat (first | exact Nat.le_refl _ | split)

theorem lex_step_shape (c : Char) (file : List Char) (s : State) :
    LexStep s (lex_step c file s).2 := by
  have hskip : LexStep s s := LexStep.skip s.line (Nat.le_refl _)
  have hunsup : LexStep s (unsupported c s) := LexStep.error _ _
  have htok : ∀ k text, k ≠ TOK_EOF → k ≠ TOK_ERROR → LexStep s (add_token k text s.line s) :=
    fun k text a b => LexStep.token k text a b
  unfold lex_step
  by_cases h1 : c = '\n'
  · rw [if_pos h1]; exact LexStep.skip _ (Nat.le_succ _)
  rw [if_neg h1]
  by_cases h2 : isspace c = true
  · rw [if_pos h2]; exact hskip
  rw [if_neg h2]
  by_cases h3 : c = '/'
  · rw [if_pos h3]
    split
    · dsimp only
      split
      · exact LexStep.skip _ (Nat.le_succ _)
      · exact hskip
    · dsimp only
      split
      · exact LexStep.skip _ (skip_block_comment_line _ _ _)
      · exact LexStep.unterminated _ (skip_block_comment_line _ _ _)
    · exact hunsup
  rw [if_neg h3]
  by_cases h4 : isalpha c = true
  · rw [if_pos h4]
    dsimp only
    split
    · next k hk =>
      exact htok _ _ (keyword_type_kind _ _ hk).1 (keyword_type_kind _ _ hk).2
    · split
      · exact htok _ _ (by decide) (by decide)
      · exact LexStep.error _ _
  rw [if_neg h4]
  by_cases h5 : isdigit c = true
  · rw [if_pos h5]; exact htok _ _ (by decide) (by decide)
  rw [if_neg h5]
  by_cases h6 : c = '='
  · rw [if_pos h6]
    split <;> exact htok _ _ (by decide) (by decide)
  rw [if_neg h6]
  by_cases h7 : c = '>'
  · rw [if_pos h7]
    split <;> exact htok _ _ (by decide) (by decide)
  rw [if_neg h7]
  repeat (first | exact hunsup | exact htok _ _ (by decide) (by decide) | split)

theorem tokenize_loop_total (fuel : Nat) (file : List Char) (s : State)
    (h : file.length ≤ fuel) : ∃ s1, tokenize_loop fuel file s = some s1 := by
  induction fuel generalizing file s with
  | zero =>
    cases file with
    | nil => exact ⟨s, rfl⟩
    | cons c file => simp at h
  | succ fuel ih =>
    cases file with
    | nil => exact ⟨s, rfl⟩
    | cons c file =>
      simp only [tokenize_loop]
      apply ih
      have := lex_step_length c file s
      simp at h
      omega

/-- Induction over the iterations of the lexer loop: a relation that holds between a
state and itself, and is carried along one `LexStep`, holds between the initial and
the final state of `tokenize_loop`. -/
theorem tokenize_loop_induction (R : State → State → Prop)
    (hstep : ∀ s s1 s2, R s s1 → LexStep s1 s2 → R s s2)
    (fuel : Nat) (file : List Char) (s0 s s1 : State) (h0 : R s0 s)
    (h : tokenize_loop fuel file s = some s1) : R s0 s1 := by
  induction fuel generalizing file s with
  | zero =>
    cases file with
    | nil => simp only [tokenize_loop, Option.some.injEq] at h; subst h; exact h0
    | cons c file => simp [tokenize_loop] at h
  | succ fuel ih =>
    cases file with
    | nil => simp only [tokenize_loop, Option.some.injEq] at h; subst h; exact h0
    | cons c file =>
      simp only [tokenize_loop] at h
      exact ih _ _ (hstep _ _ _ h0 (lex_step_shape c file s)) h

theorem ExtendsNoEof.refl (s : State) : ExtendsNoEof s s := ⟨[], by simp, by simp⟩

theorem ExtendsNoEof.trans {a b c : State} (h1 : ExtendsNoEof a b) (h2 : ExtendsNoEof b c) :
    ExtendsNoEof a c := by
  obtain ⟨t1, e1, n1⟩ := h1
  obtain ⟨t2, e2, n2⟩ := h2
  refine ⟨t1 ++ t2, by rw [e2, e1, List.append_assoc], ?_⟩
  intro t ht
  rcases List.mem_append.mp ht with h | h
  · exact n1 t h
  · exact n2 t h

theorem lex_step_extends (s s1 : State) (h : LexStep s s1) : ExtendsNoEof s s1 := by
  cases h with
  | skip l h => exact ⟨[], by simp, by simp⟩
  | unterminated l h => exact ⟨[], by simp [add_error_token_list], by simp⟩
  | token k text hk hk2 => exact ⟨[_], rfl, by simpa using hk⟩
  | error text msg =>
    exact ⟨[⟨TOK_ERROR, c_string (MAX_TOKEN_LEN - 1) text, s.line⟩],
      by rw [add_error_token_list]; rfl, by simp⟩

theorem tokenize_loop_extends (fuel : Nat) (file : List Char) (s s1 : State)
    (h : tokenize_loop fuel file s = some s1) : ExtendsNoEof s s1 :=
  tokenize_loop_induction ExtendsNoEof
    (fun _ _ _ h1 h2 => h1.trans (lex_step_extends _ _ h2)) fuel file s s s1
    (ExtendsNoEof.refl s) h

/-- C3: for every input, `tokenize_file` returns (the fuel never runs out), and the token
list it leaves is some tokens, none of them of the end-of-input kind, followed by one
end-of-input token: the list is non-empty and has exactly one end-of-input token, at
the end. -/
theorem tokenize_file_ends_with_eof (file : List Char) :
    ∃ s toks, tokenize_file file initial_state = some s ∧
      s.token_list = toks ++ [⟨TOK_EOF, [], s.line⟩] ∧ ∀ t ∈ toks, t.type ≠ TOK_EOF := by
  obtain ⟨s1, h1⟩ := tokenize_loop_total file.length file initial_state (Nat.le_refl _)
  obtain ⟨toks, e, n⟩ := tokenize_loop_extends _ _ _ _ h1
  refine ⟨add_token TOK_EOF [] s1.line s1, toks, ?_, ?_, n⟩
  · simp [tokenize_file, h1]
  · simp [add_token, e, initial_state, c_string]

theorem scan_run_append (p : Char → Bool) (cs file : List Char) (text : Str)
    (hcs : ∀ x ∈ cs, p x = true) (hlen : text.length + cs.length ≤ MAX_TOKEN_LEN - 1)
    (hmax : ∀ x ∈ file.head?, p x = false) :
    scan_run p text (cs ++ file) = (text ++ cs, file) := by
  induction cs generalizing text with
  | nil =>
    cases file with
    | nil => simp [scan_run]
    | cons x file =>
      have hx : p x = false := hmax x (by simp)
      simp [scan_run, hx]
  | cons x cs ih =>
    have hx : p x = true := hcs x (by simp)
    have hl : text.length < MAX_TOKEN_LEN - 1 := by simp at hlen; omega
    have e : scan_run p text (x :: cs ++ file) = scan_run p (text ++ [x]) (cs ++ file) := by
      show scan_run p text (x :: (cs ++ file)) = _
      simp only [scan_run, hx, if_true, hl]
    rw [e, ih (text ++ [x]) (fun y hy => hcs y (by simp [hy])) (by simp at hlen ⊢; omega)]
    simp

theorem isalpha_not_isdigit (c : Char) (h : isalpha c = true) : isdigit c = false := by
  unfold isalpha at h
  unfold isdigit
  simp only [Bool.or_eq_true, Bool.and_eq_true, decide_eq_true_eq] at h
  simp only [Bool.and_eq_false_iff, decide_eq_false_iff_not]
  omega

theorem isalnum_cases (c : Char) (h : isalnum c = true) :
    (isalpha c = true ∧ isdigit c = false) ∨ (isalpha c = false ∧ isdigit c = true) := by
  unfold isalnum at h
  by_cases ha : isalpha c = true
  · exact Or.inl ⟨ha, isalpha_not_isdigit c ha⟩
  · simp only [Bool.not_eq_true] at ha
    rw [ha] at h
    exact Or.inr ⟨ha, by simpa using h⟩

theorem isalnum_ne_nul (c : Char) (h : isalnum c = true) : c ≠ '\x00' := by
  intro e
  subst e
  revert h
  decide

theorem ident_check_loop_digits (cs : Str) (valid : Bool)
    (hcs : ∀ x ∈ cs, isalnum x = true) :
    ident_check_loop cs valid true = true ↔ valid = true ∧ ∀ x ∈ cs, isdigit x = true := by
  induction cs generalizing valid with
  | nil => simp [ident_check_loop]
  | cons x cs ih =>
    have hx := isalnum_cases x (hcs x (by simp))
    have hcs1 : ∀ y ∈ cs, isalnum y = true := fun y hy => hcs y (by simp [hy])
    rcases hx with ⟨ha, hd⟩ | ⟨ha, hd⟩
    · simp only [ident_check_loop, hd, ha]
      simp only [Bool.false_eq_true, if_false, Bool.not_true, if_true]
      rw [ih false hcs1]
      simp [hd]
    · simp only [ident_check_loop, hd, if_true]
      rw [ih valid hcs1]
      simp [hd]

theorem ident_check_loop_letters (cs : Str) (valid : Bool)
    (hcs : ∀ x ∈ cs, isalnum x = true) :
    ident_check_loop cs valid false = true ↔
      valid = true ∧ ∃ a b, cs = a ++ b ∧ (∀ x ∈ a, isalpha x = true)
        ∧ (∀ x ∈ b, isdigit x = true) := by
  induction cs generalizing valid with
  | nil =>
    simp only [ident_check_loop]
    constructor
    · intro h; exact ⟨h, [], [], by simp, by simp, by simp⟩
    · intro h; exact h.1
  | cons x cs ih =>
    have hx := isalnum_cases x (hcs x (by simp))
    have hcs1 : ∀ y ∈ cs, isalnum y = true := fun y hy => hcs y (by simp [hy])
    rcases hx with ⟨ha, hd⟩ | ⟨ha, hd⟩
    · simp only [ident_check_loop, hd, ha]
      simp only [Bool.false_eq_true, if_false, Bool.not_true]
      rw [ih valid hcs1]
      constructor
      · rintro ⟨hv, a, b, rfl, h1, h2⟩
        refine ⟨hv, x :: a, b, by simp, ?_, h2⟩
        intro y hy
        rcases List.mem_cons.mp hy with e | e
        · rw [e]; exact ha
        · exact h1 y e
      · rintro ⟨hv, a, b, e, h1, h2⟩
        refine ⟨hv, ?_⟩
        cases a with
        | nil =>
          exfalso
          simp only [List.nil_append] at e
          have := h2 x (by rw [← e]; simp)
          rw [hd] at this
          exact Bool.false_ne_true this
        | cons y a =>
          simp only [List.cons_append, List.cons.injEq] at e
          exact ⟨a, b, e.2, fun z hz => h1 z (by simp [hz]), h2⟩
    · simp only [ident_check_loop, hd, if_true]
      rw [ident_check_loop_digits cs valid hcs1]
      constructor
      · rintro ⟨hv, h⟩
        refine ⟨hv, [], x :: cs, by simp, by simp, ?_⟩
        intro y hy
        rcases List.mem_cons.mp hy with e | e
        · rw [e]; exact hd
        · exact h y e
      · rintro ⟨hv, a, b, e, h1, h2⟩
        refine ⟨hv, ?_⟩
        cases a with
        | nil =>
          simp only [List.nil_append] at e
          intro y hy
          exact h2 y (by rw [← e]; simp [hy])
        | cons y a =>
          exfalso
          simp only [List.cons_append, List.cons.injEq] at e
          have := h1 y (by simp)
          rw [← e.1, ha] at this
          exact Bool.false_ne_true this

theorem ident_valid_iff (c : Char) (cs : Str) (hc : isalpha c = true)
    (hcs : ∀ x ∈ cs, isalnum x = true) :
    ident_valid (c :: cs) = true ↔ letters_then_digits (c :: cs) := by
  simp only [ident_valid]
  rw [ident_check_loop_letters cs (isalpha c) hcs]
  constructor
  · rintro ⟨_, a, b, rfl, h1, h2⟩
    refine ⟨c :: a, b, by simp, by simp, ?_, h2⟩
    intro y hy
    rcases List.mem_cons.mp hy with e | e
    · rw [e]; exact hc
    · exact h1 y e
  · rintro ⟨a, b, e, hne, h1, h2⟩
    refine ⟨hc, ?_⟩
    cases a with
    | nil => exact absurd rfl hne
    | cons y a =>
      simp only [List.cons_append, List.cons.injEq] at e
      exact ⟨a, b, e.2, fun z hz => h1 z (by simp [hz]), h2⟩

theorem isalpha_branch (c : Char) (h : isalpha c = true) :
    c ≠ '\n' ∧ isspace c = false ∧ c ≠ '/' := by
  unfold isalpha at h
  simp only [Bool.or_eq_true, Bool.and_eq_true, decide_eq_true_eq] at h
  refine ⟨?_, ?_, ?_⟩
  · intro e; subst e; revert h; decide
  · unfold isspace
    simp only [Bool.or_eq_false_iff, decide_eq_false_iff_not, Bool.and_eq_false_iff]
    omega
  · intro e; subst e; revert h; decide

/-- The identifier and keyword branch of the lexer loop on a maximal run `c :: cs` of
letters and digits that starts with a letter and fits the buffer. -/
theorem lex_step_word (c : Char) (cs file : List Char) (s : State)
    (hc : isalpha c = true) (hcs : ∀ x ∈ cs, isalnum x = true)
    (hlen : (c :: cs).length ≤ 99) (hmax : ∀ x ∈ file.head?, isalnum x = false) :
    lex_step c (cs ++ file) s =
      (file,
        match keyword_type (c :: cs) with
        | some k => add_token k (c :: cs) s.line s
        | none =>
          if ident_valid (c :: cs) then add_token TOK_ID (c :: cs) s.line s
          else add_error s.line ("Invalid identifier: ".toList ++ (c :: cs))
                (add_token TOK_ERROR (c :: cs) s.line s)) := by
  obtain ⟨h1, h2, h3⟩ := isalpha_branch c hc
  have hscan : scan_run isalnum [c] (cs ++ file) = (c :: cs, file) := by
    rw [scan_run_append isalnum cs file [c] hcs (by simp [MAX_TOKEN_LEN] at hlen ⊢; omega) hmax]
    rfl
  unfold lex_step
  rw [if_neg h1, if_neg (by simp [h2]), if_neg h3, if_pos hc]
  simp only [hscan]
  cases keyword_type (c :: cs) with
  | some k => rfl
  | none =>
    by_cases hv : ident_valid (c :: cs) = true
    · simp only [hv, if_true]
    · simp only [hv]
      rfl

/-- C8: `add_error(line, message)` appends the diagnostic (line, message) at the end of the
collector and sets `last_error_line` to `line` exactly when the collector holds fewer
than 100 diagnostics, `line` differs from `last_error_line`, and no recorded diagnostic
has both that line and that message (`Accepts`); in every other case no global changes.
The message compared and stored is the C string in the 256-byte buffer, which is the
formatted text itself whenever that has at most 255 characters and no NUL. -/
theorem add_error_spec (line : Nat) (message : Str) (s : State) :
    (Accepts line message s →
      add_error line message s =
        { s with errors := s.errors ++ [⟨line, c_string 255 message⟩],
                 last_error_line := line }) ∧
    (¬ Accepts line message s → add_error line message s = s) ∧
    (Accepts line message s ↔
      (s.errors.length < 100 ∧ line ≠ s.last_error_line ∧
        ∀ e ∈ s.errors, ¬ (e.line = line ∧ e.message = c_string 255 message))) ∧
    (message.length ≤ 255 ∧ (∀ c ∈ message, c ≠ '\x00') → c_string 255 message = message) :=
  ⟨add_error_of_accepts line message s, add_error_of_not_accepts line message s, Iff.rfl,
    fun h => c_string_eq_self 255 message h.1 h.2⟩

/-- C4 (amended): a maximal run `c :: cs` of ASCII letters and digits that starts with a
letter and has at most 99 characters is consumed whole by one iteration of the lexer
loop, which appends exactly one token whose lexeme is the run, on the current line: the
keyword token if the run is one of the 13 reserved words; otherwise an identifier
token, the collector untouched, if the run is letters followed by digits; otherwise an
error token, with `add_error(line, "Invalid identifier: <run>")`. That call records the
diagnostic when the collector accepts it (fewer than 100 diagnostics, the line differs
from `last_error_line`, no identical diagnostic recorded) and leaves the collector as
it is in every other case. -/
theorem lex_identifier_or_keyword (c : Char) (cs file : List Char) (s : State)
    (hc : isalpha c = true) (hcs : ∀ x ∈ cs, isalnum x = true)
    (hlen : (c :: cs).length ≤ 99) (hmax : ∀ x ∈ file.head?, isalnum x = false) :
    (lex_step c (cs ++ file) s).1 = file ∧
    (∀ k, reserved_kind (c :: cs) = some k →
      (lex_step c (cs ++ file) s).2 =
        { s with token_list := s.token_list ++ [⟨k, c :: cs, s.line⟩] }) ∧
    (reserved_kind (c :: cs) = none → letters_then_digits (c :: cs) →
      (lex_step c (cs ++ file) s).2 =
        { s with token_list := s.token_list ++ [⟨TOK_ID, c :: cs, s.line⟩] }) ∧
    (reserved_kind (c :: cs) = none → ¬ letters_then_digits (c :: cs) →
      (lex_step c (cs ++ file) s).2 =
        add_error s.line ("Invalid identifier: ".toList ++ (c :: cs))
          { s with token_list := s.token_list ++ [⟨TOK_ERROR, c :: cs, s.line⟩] } ∧
      (s.errors.length < 100 → s.line ≠ s.last_error_line →
        (∀ e ∈ s.errors, ¬ (e.line = s.line ∧
          e.message = "Invalid identifier: ".toList ++ (c :: cs))) →
        (lex_step c (cs ++ file) s).2 =
          { s with token_list := s.token_list ++ [⟨TOK_ERROR, c :: cs, s.line⟩],
                   errors := s.errors ++
                     [⟨s.line, "Invalid identifier: ".toList ++ (c :: cs)⟩],
                   last_error_line := s.line }) ∧
      (¬ (s.errors.length < 100 ∧ s.line ≠ s.last_error_line ∧
          ∀ e ∈ s.errors, ¬ (e.line = s.line ∧
            e.message = "Invalid identifier: ".toList ++ (c :: cs))) →
        (lex_step c (cs ++ file) s).2 =
          { s with token_list := s.token_list ++ [⟨TOK_ERROR, c :: cs, s.line⟩] })) := by
  have hnul : ∀ x ∈ c :: cs, x ≠ '\x00' := by
    intro x hx
    rcases List.mem_cons.mp hx with e | e
    · rw [e]; exact isalnum_ne_nul c (by simp [isalnum, hc])
    · exact isalnum_ne_nul x (hcs x e)
  have htext : c_string (MAX_TOKEN_LEN - 1) (c :: cs) = c :: cs :=
    c_string_eq_self _ _ (by simpa [MAX_TOKEN_LEN] using hlen) hnul
  have hmsg : c_string 255 ("Invalid identifier: ".toList ++ (c :: cs))
      = "Invalid identifier: ".toList ++ (c :: cs) := by
    apply c_string_eq_self
    · have : ("Invalid identifier: ".toList).length = 20 := by decide
      rw [List.length_append, this]
      omega
    · intro x hx
      rcases List.mem_append.mp hx with e | e
      · have : ∀ y ∈ "Invalid identifier: ".toList, y ≠ '\x00' := by decide
        exact this x e
      · exact hnul x e
  have hstep := lex_step_word c cs file s hc hcs hlen hmax
  rw [keyword_type_eq_reserved] at hstep
  refine ⟨by rw [hstep], ?_, ?_, ?_⟩
  · intro k hk
    rw [hstep, hk]
    simp only [add_token, htext]
  · intro hk hv
    rw [hstep, hk]
    simp only [(ident_valid_iff c cs hc hcs).mpr hv, if_true, add_token, htext]
  · intro hk hv
    have hv1 : ¬ ident_valid (c :: cs) = true := fun h => hv ((ident_valid_iff c cs hc hcs).mp h)
    have e : (lex_step c (cs ++ file) s).2 =
        add_error s.line ("Invalid identifier: ".toList ++ (c :: cs))
          { s with token_list := s.token_list ++ [⟨TOK_ERROR, c :: cs, s.line⟩] } := by
      rw [hstep, hk]
      simp only [hv1, add_token, htext]
      rfl
    refine ⟨e, ?_, ?_⟩
    · intro h1 h2 h3
      rw [e, add_error_of_accepts _ _ _ (by exact ⟨h1, h2, by rw [hmsg]; exact h3⟩), hmsg]
    · intro hna
      rw [e]
      apply add_error_of_not_accepts
      intro ha
      have h3 := ha.2.2
      rw [hmsg] at h3
      exact hna ⟨ha.1, ha.2.1, h3⟩

theorem lex_identifier_or_keyword_witness :
    (lex_step 'a' (['1', 'b'] ++ [' ', 'x']) initial_state).1 = [' ', 'x'] :=
  (lex_identifier_or_keyword 'a' ['1', 'b'] [' ', 'x'] initial_state (by decide) (by decide)
    (by decide) (by decide)).1

/-- C4 (counterexample): on the input `a1b c2d` both runs become error tokens, but the
collector holds the diagnostic of `a1b` only: the report for `c2d` is on
`last_error_line` and is dropped. -/
theorem invalid_identifier_not_recorded :
    (tokenize_file "a1b c2d".toList initial_state).map (fun s => (s.token_list, s.errors))
      = some ([⟨TOK_ERROR, "a1b".toList, 1⟩, ⟨TOK_ERROR, "c2d".toList, 1⟩, ⟨TOK_EOF, [], 1⟩],
          [⟨1, "Invalid identifier: a1b".toList⟩]) := by
  rfl

/-! ## Properties kept by every parse function -/

theorem Stable.report {P : State → Prop} (hP : Stable P) (line : Nat) (msg : Str) (s : State) (h : P s) :
    P (report line msg s) := by
  unfold Upl.report
  split
  · exact hP.error _ _ _ h
  · exact h

theorem Stable.fail_here {P : State → Prop} (hP : Stable P) (msg : String) (s : State) (h : P s) :
    P (fail_here msg s).2 := hP.skip _ (hP.report _ _ _ h)

theorem Stable.add_symbol {P : State → Prop} (hP : Stable P) (name type : Str) (line : Nat) (s : State) (h : P s) :
    P (add_symbol name type line s) := by
  unfold Upl.add_symbol
  split_ifs
  · exact hP.error _ _ _ h
  · exact hP.error _ _ _ h
  · exact hP.symbol _ _ h

theorem Stable.reset_last_error_line {P : State → Prop} (hP : Stable P) (s : State) (h : P s) :
    P (reset_last_error_line s) := by
  unfold Upl.reset_last_error_line
  split
  · exact hP.reset _ h
  · exact h

theorem Stable.parse_lit {P : State → Prop} (hP : Stable P) (s : State) (h : P s) : P (parse_lit s).2 := by
  unfold Upl.parse_lit
  split_ifs
  · exact hP.next _ h
  · exact hP.next _ h
  · exact hP.next _ h
  · exact hP.fail_here _ _ h

theorem Stable.keeps_expr {P : State → Prop} (hP : Stable P) (fuel : Nat) : KeepsExpr P fuel := by
  induction fuel with
  | zero =>
    constructor <;> intros <;> intro s r s1 h <;>
      simp [parse_expr, parse_eq_expr, parse_eq_loop, parse_rel_expr, parse_rel_loop,
        parse_add_expr, parse_add_loop, parse_mul_expr, parse_mul_loop, parse_prim_expr] at h
  | succ fuel ih =>
    obtain ⟨i1, i2, i3, i4, i5, i6, i7, i8, i9, i10⟩ := ih
    constructor
    all_goals
      intros
      intro s r s1 h hs
      simp only [parse_expr, parse_eq_expr, parse_eq_loop, parse_rel_expr, parse_rel_loop,
        parse_add_expr, parse_add_loop, parse_mul_expr, parse_mul_loop, parse_prim_expr] at h
      repeat' split at h
    all_goals try (first
      | cases h
      | (have e := congrArg Prod.snd (Option.some.inj h); subst e))
    all_goals
      repeat (first
        | assumption
        | apply hP.next
        | apply hP.skip
        | apply hP.fail_here
        | apply hP.report
        | apply hP.parse_lit
        | refine i1 _ _ _ (by assumption) ?_
        | refine i2 _ _ _ (by assumption) ?_
        | refine i3 _ _ _ _ (by assumption) ?_
        | refine i4 _ _ _ (by assumption) ?_
        | refine i5 _ _ _ _ (by assumption) ?_
        | refine i6 _ _ _ (by assumption) ?_
        | refine i7 _ _ _ _ (by assumption) ?_
        | refine i8 _ _ _ (by assumption) ?_
        | refine i9 _ _ _ _ (by assumption) ?_
        | refine i10 _ _ _ (by assumption) ?_)

theorem Stable.parse_type {P : State → Prop} (hP : Stable P) (s : State) (r : Option Node) (s1 : State)
    (h : parse_type s = (r, s1)) (hs : P s) : P s1 := by
  have e := congrArg Prod.snd h
  simp only at e
  subst e
  unfold Upl.parse_type
  split_ifs
  · exact hP.next _ hs
  · exact hP.next _ hs
  · exact hP.fail_here _ _ hs

theorem Stable.parse_init_decl {P : State → Prop} (hP : Stable P) (fuel : Nat) (type : Str) (s : State)
    (r : Option Node) (line : Nat) (s1 : State)
    (h : parse_init_decl fuel type s = some (r, line, s1)) (hs : P s) : P s1 := by
  have i1 := (hP.keeps_expr fuel).expr
  simp only [Upl.parse_init_decl] at h
  repeat' split at h
  all_goals try cases h
  all_goals
    repeat (first
      | assumption
      | apply hP.next
      | apply hP.skip
      | apply hP.fail_here
      | apply hP.report
      | apply hP.add_symbol
      | refine i1 _ _ _ (by assumption) ?_)

/-- The statement functions without a block keep a property. -/
theorem Stable.keeps_simple {P : State → Prop} (hP : Stable P) (fuel : Nat) :
    Keeps P (parse_print_stmt fuel) ∧ Keeps P (parse_decl_stmt fuel) ∧
    Keeps P (parse_assign_stmt fuel) ∧ Keeps P (for_init fuel) ∧ Keeps P (for_update fuel) := by
  have i1 := (hP.keeps_expr fuel).expr
  have i2 := hP.parse_init_decl fuel
  refine ⟨?_, ?_, ?_, ?_, ?_⟩
  all_goals
    intro s r s1 h hs
    simp only [parse_print_stmt, parse_decl_stmt, parse_assign_stmt, for_init, for_update] at h
    repeat' split at h
  all_goals try cases h
  all_goals
    repeat (first
      | assumption
      | apply hP.next
      | apply hP.skip
      | apply hP.fail_here
      | apply hP.report
      | refine hP.parse_type _ _ _ (by assumption) ?_
      | refine i1 _ _ _ (by assumption) ?_
      | refine i2 _ _ _ _ _ (by assumption) ?_)

set_option maxHeartbeats 4000000 in
theorem Stable.keeps_stmt {P : State → Prop} (hP : Stable P) (fuel : Nat) : KeepsStmt P fuel := by
  induction fuel with
  | zero =>
    constructor <;> intros <;> intro s r s1 h <;>
      simp [parse_stmts, parse_stmts_loop, parse_stmt, parse_if_stmt, parse_if_then,
        parse_else_opt, parse_do_while_stmt, parse_for_stmt] at h
  | succ fuel ih =>
    obtain ⟨i1, i2, i3, i4, i5, i6, i7, i8⟩ := ih
    have e1 := (hP.keeps_expr fuel).expr
    obtain ⟨p1, p2, p3, p4, p5⟩ := hP.keeps_simple fuel
    constructor
    all_goals
      intros
      intro s r s1 h hs
      simp only [parse_stmts, parse_stmts_loop, parse_stmt, parse_if_stmt, parse_if_then,
        parse_else_opt, parse_do_while_stmt, parse_for_stmt] at h
      repeat' split at h
    all_goals try cases h
    all_goals
      repeat (first
        | assumption
        | apply hP.next
        | apply hP.skip
        | apply hP.fail_here
        | apply hP.report
        | apply hP.reset_last_error_line
        | refine e1 _ _ _ (by assumption) ?_
        | refine p1 _ _ _ (by assumption) ?_
        | refine p2 _ _ _ (by assumption) ?_
        | refine p3 _ _ _ (by assumption) ?_
        | refine p4 _ _ _ (by assumption) ?_
        | refine p5 _ _ _ (by assumption) ?_
        | refine i1 _ _ _ (by assumption) ?_
        | refine i2 _ _ _ _ (by assumption) ?_
        | refine i3 _ _ _ (by assumption) ?_
        | refine i4 _ _ _ (by assumption) ?_
        | refine i5 _ _ _ (by assumption) ?_
        | refine i6 _ _ _ (by assumption) ?_
        | refine i7 _ _ _ (by assumption) ?_
        | refine i8 _ _ _ (by assumption) ?_)

theorem Stable.parse_prog {P : State → Prop} (hP : Stable P) (fuel : Nat) : Keeps P (parse_prog fuel) := by
  have i1 := (hP.keeps_stmt fuel).stmts
  intro s r s1 h hs
  simp only [Upl.parse_prog] at h
  repeat' split at h
  all_goals try cases h
  all_goals
    repeat (first
      | assumption
      | apply hP.next
      | apply hP.skip
      | apply hP.error
      | apply hP.fail_here
      | apply hP.report
      | refine i1 _ _ _ (by assumption) ?_)

/-! ## Recovery, undeclared uses, duplicate declarations, exit code -/

/-- C5 (the code departs from the claim): in the five-line program
`begin / print(y); / int a; / int b; / end` the statement on line 2 fails at `y`
(line 2). When `parse_stmt` returns NULL the cursor is already at the first token of
line 4: the tokens of line 3 were discarded by the second `skip_to_sync`, in
`parse_print_stmt`. The statement loop then discards line 4 as well, so the run
records only the diagnostic of line 2 and declares neither `a` nor `b`, while the
same program without line 2 declares both. -/
theorem recovery_discards_later_lines :
    ((tokenize_file "begin\nprint(y);\nint a;\nint b;\nend".toList initial_state).bind
      (fun s0 => (parse_stmt 20 (next_token (next_token { s0 with token_index := -1 }))).map
        (fun p => (p.1.isSome, p.2.token_index, p.2.current_token))))
      = some (false, 9, ⟨TOK_INT, "int".toList, 4⟩) ∧
    (main "begin\nprint(y);\nint a;\nint b;\nend".toList).map
        (fun r => (r.state.errors, r.state.symbol_table.map (fun sym => sym.name)))
      = some ([⟨2, "Undeclared variable: y".toList⟩], []) ∧
    (main "begin\nint a;\nint b;\nend".toList).map
        (fun r => (r.state.errors, r.state.symbol_table.map (fun sym => sym.name)))
      = some ([], [['a'], ['b']]) := by
  refine ⟨?_, ?_, ?_⟩ <;> rfl

/-- C6 (counterexample): in `begin / y = 1; @ / end` the lexer records
"Unsupported operator: @" on line 2, so `last_error_line` is 2 when the parser reaches
the undeclared `y` on line 2 in `parse_assign_stmt`; the site fails, and the collector
afterwards holds no "Undeclared variable: y" diagnostic. -/
theorem undeclared_use_not_recorded :
    (tokenize_file "begin\ny = 1; @\nend".toList initial_state).map
      (fun s0 =>
        (((next_token (next_token { s0 with token_index := -1 })).current_token,
          is_variable_declared ['y'] (next_token (next_token { s0 with token_index := -1 }))),
         (parse_assign_stmt 10 (next_token (next_token { s0 with token_index := -1 }))).map
          (fun p => (p.1.isSome, p.2.errors))))
      = some ((⟨TOK_ID, ['y'], 2⟩, false),
          some (false, [⟨2, "Unsupported operator: @".toList⟩])) ∧
    (main "begin\ny = 1; @\nend".toList).map (fun r => r.state.errors)
      = some [⟨2, "Unsupported operator: @".toList⟩, ⟨3, "Expected 'end'".toList⟩] := by
  refine ⟨?_, ?_⟩ <;> rfl

/-- C7 (counterexample): in the one-line program `begin int x; int x; @ end` the lexer
records "Unsupported operator: @" on line 1 and the parser never resets
`last_error_line`, so the second declaration of `x` adds no diagnostic: the run ends
with the lexer's diagnostic alone, and `add_symbol` on the present name `x` leaves
the collector as it is. -/
theorem redeclaration_not_recorded :
    (main "begin int x; int x; @ end".toList).map
      (fun r => (r.state.errors, r.state.symbol_table,
        (add_symbol ['x'] "int".toList 1 r.state).errors))
      = some ([⟨1, "Unsupported operator: @".toList⟩], [⟨['x'], "int".toList, 1⟩],
          [⟨1, "Unsupported operator: @".toList⟩]) := by
  rfl

/-- C10 (the code departs from the claim): on `begin end x` the run prints
`- source code has correct syntax: no` (a token is left over after `end`), records no
diagnostic, and exits with code 0. -/
theorem failed_run_exits_zero :
    (main "begin end x".toList).map
      (fun r => (r.syntax_yes, r.exit_code, r.state.errors, r.root.isSome,
        r.state.current_token))
      = some (false, 0, [], true, ⟨TOK_ID, ['x'], 1⟩) := by
  rfl

theorem skip_to_sync_errors (s : State) : (skip_to_sync s).errors = s.errors := by
  unfold skip_to_sync
  dsimp only
  split <;> rfl

theorem skip_to_sync_last_error_line (s : State) :
    (skip_to_sync s).last_error_line = s.last_error_line := by
  unfold skip_to_sync
  dsimp only
  split <;> rfl

theorem skip_to_sync_symbol_table (s : State) :
    (skip_to_sync s).symbol_table = s.symbol_table := by
  unfold skip_to_sync
  dsimp only
  split <;> rfl

theorem next_token_errors (s : State) : (next_token s).errors = s.errors := by
  unfold next_token
  split <;> rfl

theorem next_token_symbol_table (s : State) :
    (next_token s).symbol_table = s.symbol_table := by
  unfold next_token
  split <;> rfl

/-- What the guarded report records: the diagnostic is in the collector afterwards when
the collector has room and the line is not `last_error_line`; otherwise nothing
changes. -/
theorem report_errors (line : Nat) (msg : Str) (s : State) :
    (s.errors.length < 100 → line ≠ s.last_error_line →
      ⟨line, c_string 255 msg⟩ ∈ (report line msg s).errors) ∧
    (¬ (s.errors.length < 100 ∧ line ≠ s.last_error_line) → report line msg s = s) := by
  constructor
  · intro h1 h2
    unfold report
    rw [if_pos h2]
    by_cases h3 : ∀ e ∈ s.errors, ¬ (e.line = line ∧ e.message = c_string 255 msg)
    · rw [add_error_of_accepts line msg s ⟨h1, h2, h3⟩]
      simp
    · rw [add_error_of_not_accepts line msg s (fun h => h3 h.2.2)]
      push_neg at h3
      obtain ⟨e, he, h4, h5⟩ := h3
      have : e = ⟨line, c_string 255 msg⟩ := by
        cases e
        simp only at h4 h5
        rw [h4, h5]
      rw [← this]
      exact he
  · intro h
    unfold report
    split
    · next h2 =>
      exact add_error_of_not_accepts line msg s (fun ha => h ⟨ha.1, h2⟩)
    · rfl

/-- C6 (amended): at each of the four sites that require a declared identifier
(`parse_assign_stmt`, the identifier arm of the for-initializer, the for-update
target, and the identifier case of `parse_prim_expr`), when the current token is an
identifier that is not in the symbol table, the declaredness check is the first one
made: whatever follows, the site reports "Undeclared variable: <name>" at the
identifier's line under the guard `line != last_error_line`, calls `skip_to_sync`
and yields NULL. The diagnostic is in the collector afterwards whenever the collector
holds fewer than 100 diagnostics and the identifier's line differs from
`last_error_line`; otherwise the collector is left unchanged. -/
theorem undeclared_use_reported (fuel : Nat) (s : State)
    (hid : s.current_token.type = TOK_ID)
    (hun : is_variable_declared s.current_token.text s = false) :
    parse_assign_stmt fuel s = some (none, skip_to_sync (report s.current_token.line
      ("Undeclared variable: ".toList ++ s.current_token.text) s)) ∧
    for_init fuel s = some (none, skip_to_sync (report s.current_token.line
      ("Undeclared variable: ".toList ++ s.current_token.text) s)) ∧
    for_update fuel s = some (none, skip_to_sync (report s.current_token.line
      ("Undeclared variable: ".toList ++ s.current_token.text) s)) ∧
    parse_prim_expr (fuel + 1) s = some (none, skip_to_sync (report s.current_token.line
      ("Undeclared variable: ".toList ++ s.current_token.text) s)) ∧
    (s.errors.length < 100 → s.current_token.line ≠ s.last_error_line →
      ⟨s.current_token.line,
          c_string 255 ("Undeclared variable: ".toList ++ s.current_token.text)⟩ ∈
        (skip_to_sync (report s.current_token.line
          ("Undeclared variable: ".toList ++ s.current_token.text) s)).errors) ∧
    (¬ (s.errors.length < 100 ∧ s.current_token.line ≠ s.last_error_line) →
      (skip_to_sync (report s.current_token.line
          ("Undeclared variable: ".toList ++ s.current_token.text) s)).errors = s.errors
      ∧ (skip_to_sync (report s.current_token.line
          ("Undeclared variable: ".toList ++ s.current_token.text) s)).last_error_line
        = s.last_error_line) := by
  have hr := report_errors s.current_token.line
    ("Undeclared variable: ".toList ++ s.current_token.text) s
  refine ⟨?_, ?_, ?_, ?_, ?_, ?_⟩
  · simp [parse_assign_stmt, hid, hun]
  · simp [for_init, hid, hun]
  · simp [for_update, hid, hun]
  · simp [parse_prim_expr, hid, hun]
  · intro h1 h2
    rw [skip_to_sync_errors]
    exact hr.1 h1 h2
  · intro h
    rw [skip_to_sync_errors, skip_to_sync_last_error_line, hr.2 h]
    exact ⟨rfl, rfl⟩

theorem undeclared_use_reported_witness :
    parse_assign_stmt 0 { initial_state with current_token := ⟨TOK_ID, ['y'], 2⟩ }
      = some (none, skip_to_sync (report 2 ("Undeclared variable: ".toList ++ ['y'])
          { initial_state with current_token := ⟨TOK_ID, ['y'], 2⟩ })) :=
  (undeclared_use_reported 0 { initial_state with current_token := ⟨TOK_ID, ['y'], 2⟩ }
    rfl rfl).1

/-- C7 (amended): `add_symbol` on a name that is already in the table never changes the
table, so the first declaration's type and line are retained. While the table holds
fewer than 100 symbols the call is exactly `add_error(line, "Variable <name> already
declared")` with the second declaration's line: one diagnostic is appended when the
collector accepts it (fewer than 100 diagnostics, `line` not `last_error_line`, no
identical diagnostic recorded), and nothing changes otherwise. With 100 symbols in the
table the call is `add_error(line, "Too many variables declared")` instead. -/
theorem redeclaration_reported (name type : Str) (line : Nat) (s : State)
    (h : is_variable_declared name s = true) :
    (add_symbol name type line s).symbol_table = s.symbol_table ∧
    (s.symbol_table.length < 100 →
      add_symbol name type line s
        = add_error line ("Variable ".toList ++ name ++ " already declared".toList) s ∧
      (Accepts line ("Variable ".toList ++ name ++ " already declared".toList) s →
        (add_symbol name type line s).errors = s.errors ++
          [⟨line, c_string 255 ("Variable ".toList ++ name ++ " already declared".toList)⟩]) ∧
      (¬ Accepts line ("Variable ".toList ++ name ++ " already declared".toList) s →
        add_symbol name type line s = s)) ∧
    (100 ≤ s.symbol_table.length →
      add_symbol name type line s = add_error line "Too many variables declared".toList s) := by
  unfold is_variable_declared at h
  refine ⟨?_, ?_, ?_⟩
  · unfold add_symbol
    rw [h]
    split
    · exact add_error_symbol_table _ _ _
    · exact add_error_symbol_table _ _ _
  · intro hlt
    have e : add_symbol name type line s
        = add_error line ("Variable ".toList ++ name ++ " already declared".toList) s := by
      unfold add_symbol
      rw [if_neg (by simp only [MAX_SYMBOLS]; omega), h]
      rfl
    refine ⟨e, ?_, ?_⟩
    · intro ha
      rw [e, add_error_of_accepts _ _ _ ha]
    · intro ha
      rw [e, add_error_of_not_accepts _ _ _ ha]
  · intro hge
    unfold add_symbol
    rw [if_pos (by simp only [MAX_SYMBOLS]; omega)]

theorem redeclaration_reported_witness :
    (add_symbol ['x'] "bool".toList 2
      { initial_state with symbol_table := [⟨['x'], "int".toList, 1⟩] }).symbol_table
      = [⟨['x'], "int".toList, 1⟩] :=
  (redeclaration_reported ['x'] "bool".toList 2
    { initial_state with symbol_table := [⟨['x'], "int".toList, 1⟩] } rfl).1

/-! ## Distinct diagnostics -/

theorem stable_errors_nodup : Stable (fun s => s.errors.Nodup) where
  next := fun s h => by rw [next_token_errors]; exact h
  skip := fun s h => by rw [skip_to_sync_errors]; exact h
  error := fun line msg s h => by
    by_cases ha : Accepts line msg s
    · rw [add_error_of_accepts _ _ _ ha]
      show (s.errors ++ [_]).Nodup
      rw [List.nodup_append]
      refine ⟨h, List.nodup_singleton _, ?_⟩
      intro e he hb
      simp only [List.mem_singleton] at hb
      exact ha.2.2 e he (by rw [hb]; exact ⟨rfl, rfl⟩)
    · rw [add_error_of_not_accepts _ _ _ ha]
      exact h
  symbol := fun _ _ h => h
  reset := fun _ h => h

theorem getD_eq_head_drop (l : List Token) (n : Nat) (d : Token) :
    l.getD n d = (l.drop n).head?.getD d := by
  rw [List.head?_drop, List.getD_eq_getElem?_getD]

theorem next_token_eq (s : State) :
    next_token s =
      if s.token_index + 1 < (s.token_list.length : Int) then
        { s with token_index := s.token_index + 1,
                 current_token := (s.token_list.drop (s.token_index + 1).toNat).head?.getD
                   (eof_token s) }
      else { s with current_token := eof_token s } := by
  unfold next_token
  rw [getD_eq_head_drop]

theorem eof_token_mem (s : State) (h : WellFormed s) : eof_token s ∈ s.token_list := by
  obtain ⟨toks, e, _⟩ := h.ends
  rw [e]
  simp

theorem WellFormed.line_pos (s : State) (h : WellFormed s) : 1 ≤ s.line :=
  h.lines _ (eof_token_mem s h)

theorem WellFormed.current_line_pos (s : State) (h : WellFormed s) :
    1 ≤ s.current_token.line := by
  rw [h.cursor]
  cases hr : (rest s).head? with
  | none => exact h.line_pos
  | some t =>
    simp only [Option.getD_some]
    apply h.lines
    have : t ∈ rest s := List.mem_of_mem_head? hr
    exact List.mem_of_mem_drop this

theorem WellFormed.length_pos (s : State) (h : WellFormed s) : 0 < s.token_list.length := by
  obtain ⟨toks, e, _⟩ := h.ends
  rw [e]
  simp

/-- The last token of a well-formed list is the end-of-input token. -/
theorem WellFormed.drop_last (s : State) (h : WellFormed s) :
    s.token_list.drop (s.token_list.length - 1) = [eof_token s] := by
  obtain ⟨toks, e, _⟩ := h.ends
  rw [e]
  simp

theorem skip_same_line_bounds (line : Nat) (l : List Token) (i : Int) :
    i ≤ skip_same_line line l i ∧ skip_same_line line l i ≤ i + l.length := by
  induction l generalizing i with
  | nil => simp [skip_same_line]
  | cons t l ih =>
    simp only [skip_same_line]
    split
    · have := ih (i + 1)
      simp only [List.length_cons, Nat.cast_add, Nat.cast_one]
      omega
    · simp only [List.length_cons, Nat.cast_add, Nat.cast_one]
      omega

theorem skip_to_sync_eq (s : State) :
    skip_to_sync s =
      { s with
        token_index := skip_same_line s.current_token.line
          (s.token_list.drop s.token_index.toNat) s.token_index,
        current_token := (s.token_list.drop (skip_same_line s.current_token.line
          (s.token_list.drop s.token_index.toNat) s.token_index).toNat).head?.getD
            (eof_token s) } := by
  unfold skip_to_sync
  dsimp only
  split
  · rw [getD_eq_head_drop]
  · next hge =>
    have : s.token_list.drop (skip_same_line s.current_token.line
        (s.token_list.drop s.token_index.toNat) s.token_index).toNat = [] := by
      apply List.drop_eq_nil_of_le
      omega
    rw [this]
    rfl

theorem wellFormed_stable : Stable WellFormed where
  next := by
    intro s h
    rw [next_token_eq]
    obtain ⟨hi0, hi1⟩ := h.index
    split
    · next hlt =>
      exact ⟨h.ends, h.lines, ⟨by dsimp only; omega, by dsimp only; omega⟩, rfl, h.marker⟩
    · next hge =>
      refine ⟨h.ends, h.lines, h.index, ?_, h.marker⟩
      show eof_token s = (s.token_list.drop s.token_index.toNat).head?.getD (eof_token s)
      have hlen := h.length_pos
      by_cases he : s.token_index = (s.token_list.length : Int)
      · have : s.token_list.drop s.token_index.toNat = [] := by
          apply List.drop_eq_nil_of_le
          omega
        rw [this]
        rfl
      · have e1 : s.token_index.toNat = s.token_list.length - 1 := by omega
        rw [e1, h.drop_last]
        rfl
  skip := by
    intro s h
    rw [skip_to_sync_eq]
    obtain ⟨hi0, hi1⟩ := h.index
    have hb := skip_same_line_bounds s.current_token.line
      (s.token_list.drop s.token_index.toNat) s.token_index
    have hl : ((s.token_list.drop s.token_index.toNat).length : Int)
        = (s.token_list.length : Int) - s.token_index := by
      rw [List.length_drop]
      omega
    exact ⟨h.ends, h.lines, ⟨by dsimp only; omega, by dsimp only; omega⟩, rfl, h.marker⟩
  error := by
    intro line msg s h
    by_cases ha : Accepts line msg s
    · rw [add_error_of_accepts _ _ _ ha]
      exact ⟨h.ends, h.lines, h.index, h.cursor, fun e => by simp at e⟩
    · rw [add_error_of_not_accepts _ _ _ ha]
      exact h
  symbol := fun _ s h => ⟨h.ends, h.lines, h.index, h.cursor, h.marker⟩
  reset := fun s h => ⟨h.ends, h.lines, h.index, h.cursor, fun _ => rfl⟩

/-! ## Failure records a diagnostic -/

theorem add_error_errors_ne (line : Nat) (msg : Str) (s : State) (h : s.errors ≠ []) :
    (add_error line msg s).errors ≠ [] := by
  by_cases ha : Accepts line msg s
  · rw [add_error_of_accepts _ _ _ ha]
    simp
  · rw [add_error_of_not_accepts _ _ _ ha]
    exact h

theorem bad_stable : Stable (fun s => s.errors ≠ []) where
  next := fun s h => by rw [next_token_errors]; exact h
  skip := fun s h => by rw [skip_to_sync_errors]; exact h
  error := fun line msg s h => add_error_errors_ne line msg s h
  symbol := fun _ _ h => h
  reset := fun _ h => h

theorem add_error_bad (line : Nat) (msg : Str) (s : State) (h : WellFormed s)
    (hl : 1 ≤ line) : (add_error line msg s).errors ≠ [] := by
  by_cases he : s.errors = []
  · have hm := h.marker he
    have ha : Accepts line msg s := by
      refine ⟨by rw [he]; simp [MAX_ERRORS], by omega, ?_⟩
      intro e hmem
      rw [he] at hmem
      simp at hmem
    rw [add_error_of_accepts _ _ _ ha]
    simp
  · exact add_error_errors_ne line msg s he

theorem report_bad (line : Nat) (msg : Str) (s : State) (h : WellFormed s)
    (hl : 1 ≤ line) : (report line msg s).errors ≠ [] := by
  unfold report
  split
  · exact add_error_bad line msg s h hl
  · next heq =>
    intro he
    have := h.marker he
    simp only [ne_eq, not_not] at heq
    omega

theorem report_current_bad (msg : Str) (s : State) (h : WellFormed s) :
    (report s.current_token.line msg s).errors ≠ [] :=
  report_bad _ msg s h h.current_line_pos

theorem fail_here_bad (msg : String) (s : State) (h : WellFormed s) :
    (fail_here msg s).2.errors ≠ [] := by
  show (skip_to_sync _).errors ≠ []
  rw [skip_to_sync_errors]
  exact report_current_bad _ s h

theorem skip_bad (s : State) (h : s.errors ≠ []) : (skip_to_sync s).errors ≠ [] := by
  rw [skip_to_sync_errors]; exact h

theorem parse_lit_bad (s s1 : State) (h : WellFormed s) (he : parse_lit s = (none, s1)) :
    s1.errors ≠ [] := by
  unfold parse_lit at he
  split_ifs at he
  · cases he
  · cases he
  · cases he
  · have e := congrArg Prod.snd he
    simp only at e
    subst e
    exact fail_here_bad _ s h

theorem parse_type_bad (s s1 : State) (h : WellFormed s) (he : parse_type s = (none, s1)) :
    s1.errors ≠ [] := by
  unfold parse_type at he
  split_ifs at he
  · cases he
  · cases he
  · have e := congrArg Prod.snd he
    simp only at e
    subst e
    exact fail_here_bad _ s h

theorem fails_expr (fuel : Nat) : FailsExpr fuel := by
  induction fuel with
  | zero =>
    constructor <;> intros <;> intro s s1 _ h <;>
      simp [parse_expr, parse_eq_expr, parse_eq_loop, parse_rel_expr, parse_rel_loop,
        parse_add_expr, parse_add_loop, parse_mul_expr, parse_mul_loop, parse_prim_expr] at h
  | succ fuel ih =>
    obtain ⟨i1, i2, i3, i4, i5, i6, i7, i8, i9, i10⟩ := ih
    obtain ⟨k1, k2, k3, k4, k5, k6, k7, k8, k9, k10⟩ := wellFormed_stable.keeps_expr fuel
    have hW := wellFormed_stable
    constructor
    all_goals
      intros
      intro s s1 hs h
      simp only [parse_expr, parse_eq_expr, parse_eq_loop, parse_rel_expr, parse_rel_loop,
        parse_add_expr, parse_add_loop, parse_mul_expr, parse_mul_loop, parse_prim_expr] at h
      repeat' split at h
    all_goals try (first
      | cases h
      | (have e := congrArg Prod.snd (Option.some.inj h); subst e))
    all_goals
      repeat (first
        | assumption
        | apply skip_bad
        | apply fail_here_bad
        | apply report_current_bad
        | (refine parse_lit_bad _ _ ?_ (Option.some.inj (by assumption)))
        | apply hW.next
        | apply hW.skip
        | refine i1 _ _ ?_ (by assumption)
        | refine i2 _ _ ?_ (by assumption)
        | refine i3 _ _ _ ?_ (by assumption)
        | refine i4 _ _ ?_ (by assumption)
        | refine i5 _ _ _ ?_ (by assumption)
        | refine i6 _ _ ?_ (by assumption)
        | refine i7 _ _ _ ?_ (by assumption)
        | refine i8 _ _ ?_ (by assumption)
        | refine i9 _ _ _ ?_ (by assumption)
        | refine i10 _ _ ?_ (by assumption)
        | refine k1 _ _ _ (by assumption) ?_
        | refine k2 _ _ _ (by assumption) ?_
        | refine k3 _ _ _ _ (by assumption) ?_
        | refine k4 _ _ _ (by assumption) ?_
        | refine k5 _ _ _ _ (by assumption) ?_
        | refine k6 _ _ _ (by assumption) ?_
        | refine k7 _ _ _ _ (by assumption) ?_
        | refine k8 _ _ _ (by assumption) ?_
        | refine k9 _ _ _ _ (by assumption) ?_
        | refine k10 _ _ _ (by assumption) ?_)

theorem parse_init_decl_line (fuel : Nat) (type : Str) (s : State) (n : Node) (line : Nat)
    (s1 : State) (h : parse_init_decl fuel type s = some (some n, line, s1)) :
    line = s.current_token.line := by
  simp only [parse_init_decl] at h
  repeat' split at h
  all_goals cases h
  all_goals rfl

theorem parse_init_decl_bad (fuel : Nat) (type : Str) (s : State) (line : Nat) (s1 : State)
    (hs : WellFormed s) (h : parse_init_decl fuel type s = some (none, line, s1)) :
    HasError s1 := by
  have i1 := (fails_expr fuel).expr
  have hW := wellFormed_stable
  simp only [parse_init_decl] at h
  repeat' split at h
  all_goals cases h
  all_goals
    repeat (first
      | assumption
      | apply skip_bad
      | apply fail_here_bad
      | apply report_current_bad
      | apply hW.next
      | refine i1 _ _ ?_ (by assumption))

theorem decl_line_pos (fuel : Nat) (ts : Str) (s s1 s2 : State) (type n : Node) (line : Nat)
    (h1 : parse_type s = (some type, s1))
    (h2 : parse_init_decl fuel ts s1 = some (some n, line, s2)) (hs : WellFormed s) :
    1 ≤ line := by
  rw [parse_init_decl_line _ _ _ _ _ _ h2]
  exact WellFormed.current_line_pos _ (wellFormed_stable.parse_type _ _ _ h1 hs)

theorem fails_simple (fuel : Nat) :
    FailsBad (parse_print_stmt fuel) ∧ FailsBad (parse_decl_stmt fuel) ∧
    FailsBad (parse_assign_stmt fuel) ∧ FailsBad (for_init fuel) ∧
    FailsBad (for_update fuel) := by
  have i1 := (fails_expr fuel).expr
  have k1 := (wellFormed_stable.keeps_expr fuel).expr
  have k2 := wellFormed_stable.parse_init_decl fuel
  have k3 := wellFormed_stable.parse_type
  have hW := wellFormed_stable
  refine ⟨?_, ?_, ?_, ?_, ?_⟩
  all_goals
    intro s s1 hs h
    simp only [parse_print_stmt, parse_decl_stmt, parse_assign_stmt, for_init, for_update] at h
    repeat' split at h
  all_goals try cases h
  all_goals
    repeat (first
      | assumption
      | apply skip_bad
      | apply fail_here_bad
      | apply report_current_bad
      | (refine report_bad _ _ _ ?_
          (decl_line_pos _ _ _ _ _ _ _ _ (by assumption) (by assumption) (by assumption)))
      | apply hW.next
      | apply hW.skip
      | refine parse_type_bad _ _ ?_ (by assumption)
      | refine parse_init_decl_bad _ _ _ _ _ ?_ (by assumption)
      | refine i1 _ _ ?_ (by assumption)
      | refine k1 _ _ _ (by assumption) ?_
      | refine k2 _ _ _ _ _ (by assumption) ?_
      | refine k3 _ _ _ (by assumption) ?_)


set_option maxHeartbeats 4000000 in
theorem fails_stmt (fuel : Nat) : FailsStmt fuel := by
  induction fuel with
  | zero =>
    constructor <;> intro s s1 _ h <;>
      simp [parse_stmt, parse_if_stmt, parse_if_then, parse_do_while_stmt, parse_for_stmt] at h
  | succ fuel ih =>
    obtain ⟨i1, i2, i3, i5, i6⟩ := ih
    obtain ⟨k1, k2, k3, k4, k5, k6, k7, k8⟩ := wellFormed_stable.keeps_stmt fuel
    have e1 := (fails_expr fuel).expr
    have ke := (wellFormed_stable.keeps_expr fuel).expr
    obtain ⟨p1, p2, p3, p4, p5⟩ := fails_simple fuel
    obtain ⟨q1, q2, q3, q4, q5⟩ := wellFormed_stable.keeps_simple fuel
    have hW := wellFormed_stable
    constructor
    all_goals
      intro s s1 hs h
      simp only [parse_stmt, parse_if_stmt, parse_if_then, parse_do_while_stmt,
        parse_for_stmt] at h
      repeat' split at h
    all_goals try cases h
    all_goals
      repeat (first
        | assumption
        | apply skip_bad
        | apply fail_here_bad
        | apply report_current_bad
        | apply hW.next
        | apply hW.skip
        | apply hW.reset_last_error_line
        | refine e1 _ _ ?_ (by assumption)
        | refine p1 _ _ ?_ (by assumption)
        | refine p2 _ _ ?_ (by assumption)
        | refine p3 _ _ ?_ (by assumption)
        | refine p4 _ _ ?_ (by assumption)
        | refine p5 _ _ ?_ (by assumption)
        | refine i1 _ _ ?_ (by assumption)
        | refine i2 _ _ ?_ (by assumption)
        | refine i3 _ _ ?_ (by assumption)
        | refine i5 _ _ ?_ (by assumption)
        | refine i6 _ _ ?_ (by assumption)
        | refine ke _ _ _ (by assumption) ?_
        | refine q1 _ _ _ (by assumption) ?_
        | refine q2 _ _ _ (by assumption) ?_
        | refine q3 _ _ _ (by assumption) ?_
        | refine q4 _ _ _ (by assumption) ?_
        | refine q5 _ _ _ (by assumption) ?_
        | refine k1 _ _ _ (by assumption) ?_
        | refine k2 _ _ _ _ (by assumption) ?_
        | refine k3 _ _ _ (by assumption) ?_
        | refine k4 _ _ _ (by assumption) ?_
        | refine k5 _ _ _ (by assumption) ?_
        | refine k6 _ _ _ (by assumption) ?_
        | refine k7 _ _ _ (by assumption) ?_
        | refine k8 _ _ _ (by assumption) ?_)

theorem parse_else_opt_bad (fuel : Nat) : FailsElse (parse_else_opt fuel) := by
  cases fuel with
  | zero => intro s s1 _ h; simp [parse_else_opt] at h
  | succ fuel =>
    have k1 := (wellFormed_stable.keeps_stmt fuel).stmts
    have hW := wellFormed_stable
    intro s s1 hs h helse
    simp only [parse_else_opt] at h
    repeat' split at h
    all_goals try cases h
    all_goals
      repeat (first
        | assumption
        | contradiction
        | apply skip_bad
        | apply fail_here_bad
        | apply report_current_bad
        | apply hW.next
        | refine k1 _ _ _ (by assumption) ?_)

theorem parse_prog_bad (fuel : Nat) : FailsBad (parse_prog fuel) := by
  have k1 := (wellFormed_stable.keeps_stmt fuel).stmts
  have hW := wellFormed_stable
  intro s s1 hs h
  simp only [parse_prog] at h
  repeat' split at h
  all_goals try cases h
  all_goals
    repeat (first
      | assumption
      | apply skip_bad
      | apply fail_here_bad
      | apply report_current_bad
      | (refine add_error_bad _ _ _ ?_ (WellFormed.current_line_pos _ (by assumption)))
      | apply hW.next
      | refine k1 _ _ _ (by assumption) ?_)

/-! ## Soundness of the parser -/

theorem names_next (s : State) : names (next_token s) = names s := by
  unfold names; rw [next_token_symbol_table]

/-- Consuming the current token, which is not the end of input, moves the cursor over
exactly that token. -/
theorem rest_next (s : State) (h : WellFormed s) (hk : s.current_token.type ≠ TOK_EOF) :
    rest s = s.current_token :: rest (next_token s) := by
  obtain ⟨toks, e, hne⟩ := h.ends
  obtain ⟨hi0, hi1⟩ := h.index
  have hc := h.cursor
  have hlen : s.token_list.length = toks.length + 1 := by rw [e]; simp
  -- the cursor is on a token that is not the last one
  cases hr : rest s with
  | nil =>
    rw [hr] at hc
    simp only [List.head?_nil, Option.getD_none] at hc
    rw [hc] at hk
    exact absurd rfl hk
  | cons t tl =>
    rw [hr] at hc
    simp only [List.head?_cons, Option.getD_some] at hc
    have hlt : s.token_index.toNat < s.token_list.length := by
      by_contra hge
      have : rest s = [] := List.drop_eq_nil_of_le (by omega)
      rw [this] at hr
      cases hr
    have hnl : s.token_index.toNat ≠ toks.length := by
      intro heq
      have : rest s = [eof_token s] := by
        unfold rest
        rw [heq, e]
        simp
      rw [this] at hr
      cases hr
      rw [hc] at hk
      exact absurd rfl hk
    have hidx : s.token_index + 1 < (s.token_list.length : Int) := by omega
    rw [hc]
    have e2 : rest (next_token s) = s.token_list.drop (s.token_index.toNat + 1) := by
      rw [next_token_eq, if_pos hidx]
      unfold rest
      dsimp only
      congr 1
      omega
    rw [e2]
    have e3 : rest s = s.token_list.drop s.token_index.toNat := rfl
    rw [e3] at hr
    have := List.drop_eq_getElem_cons hlt
    rw [this] at hr
    simp only [List.cons.injEq] at hr
    rw [← hr.2]

theorem is_declared_iff (name : Str) (s : State) :
    is_variable_declared name s = true ↔ name ∈ names s := by
  unfold is_variable_declared names
  simp only [List.any_eq_true, decide_eq_true_eq, List.mem_map]

theorem GoodE.stay (nt : NT) (s : State) (he : s.errors = [])
    (hp : Parses MAX_STMTS MAX_SYMBOLS nt (names s) [] (names s)) : GoodE nt s s :=
  ⟨he, rfl, [], by simp, hp⟩

/-- The shape of an operator loop: one operand after the operator token, then the rest
of the loop. -/
theorem GoodE.loop_step (ntOp ntTail : NT) (s s2 s1 : State) (h : WellFormed s)
    (hk : s.current_token.type ≠ TOK_EOF)
    (hcons : ∀ G a b, Parses MAX_STMTS MAX_SYMBOLS ntOp G a G →
      Parses MAX_STMTS MAX_SYMBOLS ntTail G b G →
      Parses MAX_STMTS MAX_SYMBOLS ntTail G ([s.current_token] ++ a ++ b) G)
    (h1 : s2.errors = [] → GoodE ntOp (next_token s) s2) (h2 : GoodE ntTail s2 s1) :
    GoodE ntTail s s1 := by
  obtain ⟨e2, t2, w2, r2, p2⟩ := h2
  obtain ⟨e1, t1, w1, r1, p1⟩ := h1 e2
  rw [next_token_errors] at e1
  rw [next_token_symbol_table] at t1
  rw [names_next] at p1
  have hn : names s2 = names s := by unfold names; rw [t1]
  rw [hn] at p2
  refine ⟨e1, by rw [t2, t1], [s.current_token] ++ w1 ++ w2, ?_, hcons _ _ _ p1 p2⟩
  rw [rest_next s h hk, r1, r2]
  simp

/-- The shape of `parse_eq_expr` and its siblings: the first operand, then the loop. -/
theorem GoodE.operand_then_loop (ntOp ntTail nt : NT) (s s2 s1 : State)
    (hcons : ∀ G a b, Parses MAX_STMTS MAX_SYMBOLS ntOp G a G →
      Parses MAX_STMTS MAX_SYMBOLS ntTail G b G →
      Parses MAX_STMTS MAX_SYMBOLS nt G (a ++ b) G)
    (h1 : s2.errors = [] → GoodE ntOp s s2) (h2 : GoodE ntTail s2 s1) :
    GoodE nt s s1 := by
  obtain ⟨e2, t2, w2, r2, p2⟩ := h2
  obtain ⟨e1, t1, w1, r1, p1⟩ := h1 e2
  have hn : names s2 = names s := by unfold names; rw [t1]
  rw [hn] at p2
  refine ⟨e1, by rw [t2, t1], w1 ++ w2, ?_, hcons _ _ _ p1 p2⟩
  rw [r1, r2]
  simp

theorem sound_expr (fuel : Nat) : SoundExpr fuel := by
  induction fuel with
  | zero =>
    constructor <;> intros <;> intro s n s1 _ h <;>
      simp [parse_expr, parse_eq_expr, parse_eq_loop, parse_rel_expr, parse_rel_loop,
        parse_add_expr, parse_add_loop, parse_mul_expr, parse_mul_loop, parse_prim_expr] at h
  | succ fuel ih =>
    obtain ⟨i1, i2, i3, i4, i5, i6, i7, i8, i9, i10⟩ := ih
    obtain ⟨k1, k2, k3, k4, k5, k6, k7, k8, k9, k10⟩ := wellFormed_stable.keeps_expr fuel
    have hW := wellFormed_stable
    constructor
    · -- parse_expr
      intro s n s1 hs h hfin
      simp only [parse_expr] at h
      obtain ⟨e, t, w, r, p⟩ := i2 s n s1 hs h hfin
      exact ⟨e, t, w, r, Parses.expr p⟩
    · -- parse_eq_expr
      intro s n s1 hs h hfin
      simp only [parse_eq_expr] at h
      split at h
      · cases h
      · cases h
      · next rel s2 heq =>
        exact GoodE.operand_then_loop NT.RelExpr NT.EqTail NT.EqExpr s s2 s1
          (fun _ _ _ pa pb => Parses.eq_expr pa pb)
          (fun e2 => i4 s rel s2 hs heq e2)
          (i3 rel s2 n s1 (k4 _ _ _ heq hs) h hfin)
    · -- parse_eq_loop
      intro acc s n s1 hs h hfin
      simp only [parse_eq_loop] at h
      split at h
      · next hk =>
        split at h
        · cases h
        · cases h
        · next rel2 s2 heq =>
          exact GoodE.loop_step NT.RelExpr NT.EqTail s s2 s1 hs (by rw [hk]; decide)
            (fun _ _ _ pa pb => Parses.eq_cons hk pa pb)
            (fun e2 => i4 _ rel2 s2 (hW.next _ hs) heq e2)
            (i3 _ s2 n s1 (k4 _ _ _ heq (hW.next _ hs)) h hfin)
      · cases h
        exact GoodE.stay _ _ hfin Parses.eq_nil
    · -- parse_rel_expr
      intro s n s1 hs h hfin
      simp only [parse_rel_expr] at h
      split at h
      · cases h
      · cases h
      · next add s2 heq =>
        exact GoodE.operand_then_loop NT.AddExpr NT.RelTail NT.RelExpr s s2 s1
          (fun _ _ _ pa pb => Parses.rel_expr pa pb)
          (fun e2 => i6 s add s2 hs heq e2)
          (i5 add s2 n s1 (k6 _ _ _ heq hs) h hfin)
    · -- parse_rel_loop
      intro acc s n s1 hs h hfin
      simp only [parse_rel_loop] at h
      split at h
      · next hk =>
        split at h
        · cases h
        · cases h
        · next add2 s2 heq =>
          exact GoodE.loop_step NT.AddExpr NT.RelTail s s2 s1 hs
            (by rcases hk with hk | hk <;> (rw [hk]; decide))
            (fun _ _ _ pa pb => Parses.rel_cons hk pa pb)
            (fun e2 => i6 _ add2 s2 (hW.next _ hs) heq e2)
            (i5 _ s2 n s1 (k6 _ _ _ heq (hW.next _ hs)) h hfin)
      · cases h
        exact GoodE.stay _ _ hfin Parses.rel_nil
    · -- parse_add_expr
      intro s n s1 hs h hfin
      simp only [parse_add_expr] at h
      split at h
      · cases h
      · cases h
      · next mul s2 heq =>
        exact GoodE.operand_then_loop NT.MulExpr NT.AddTail NT.AddExpr s s2 s1
          (fun _ _ _ pa pb => Parses.add_expr pa pb)
          (fun e2 => i8 s mul s2 hs heq e2)
          (i7 mul s2 n s1 (k8 _ _ _ heq hs) h hfin)
    · -- parse_add_loop
      intro acc s n s1 hs h hfin
      simp only [parse_add_loop] at h
      split at h
      · next hk =>
        split at h
        · cases h
        · cases h
        · next mul2 s2 heq =>
          exact GoodE.loop_step NT.MulExpr NT.AddTail s s2 s1 hs (by rw [hk]; decide)
            (fun _ _ _ pa pb => Parses.add_cons hk pa pb)
            (fun e2 => i8 _ mul2 s2 (hW.next _ hs) heq e2)
            (i7 _ s2 n s1 (k8 _ _ _ heq (hW.next _ hs)) h hfin)
      · cases h
        exact GoodE.stay _ _ hfin Parses.add_nil
    · -- parse_mul_expr
      intro s n s1 hs h hfin
      simp only [parse_mul_expr] at h
      split at h
      · cases h
      · cases h
      · next prim s2 heq =>
        exact GoodE.operand_then_loop NT.PrimExpr NT.MulTail NT.MulExpr s s2 s1
          (fun _ _ _ pa pb => Parses.mul_expr pa pb)
          (fun e2 => i10 s prim s2 hs heq e2)
          (i9 prim s2 n s1 (k10 _ _ _ heq hs) h hfin)
    · -- parse_mul_loop
      intro acc s n s1 hs h hfin
      simp only [parse_mul_loop] at h
      split at h
      · next hk =>
        split at h
        · cases h
        · cases h
        · next prim2 s2 heq =>
          exact GoodE.loop_step NT.PrimExpr NT.MulTail s s2 s1 hs (by rw [hk]; decide)
            (fun _ _ _ pa pb => Parses.mul_cons hk pa pb)
            (fun e2 => i10 _ prim2 s2 (hW.next _ hs) heq e2)
            (i9 _ s2 n s1 (k10 _ _ _ heq (hW.next _ hs)) h hfin)
      · cases h
        exact GoodE.stay _ _ hfin Parses.mul_nil
    · -- parse_prim_expr
      intro s n s1 hs h hfin
      simp only [parse_prim_expr] at h
      split at h
      · next hk =>
        split at h
        · cases h
        · next hd =>
          cases h
          rw [next_token_errors] at hfin
          simp only [Bool.not_eq_true, Bool.not_eq_false, Bool.not_eq_eq_eq_not,
            Bool.not_true, Bool.not_false] at hd
          refine ⟨hfin, next_token_symbol_table s, [s.current_token], ?_,
            Parses.prim_id hk ((is_declared_iff _ _).mp (by simpa using hd))⟩
          rw [rest_next s hs (by rw [hk]; decide)]
          rfl
      · split at h
        · next hk =>
          have hl := Option.some.inj h
          unfold parse_lit at hl
          have hne : s.current_token.type ≠ TOK_EOF := by
            rcases hk with hk | hk | hk <;> (rw [hk]; decide)
          have : s1 = next_token s := by
            split_ifs at hl <;> first
              | exact (congrArg Prod.snd hl).symm
              | (exfalso; rcases hk with hk | hk | hk <;> contradiction)
          subst this
          rw [next_token_errors] at hfin
          refine ⟨hfin, next_token_symbol_table s, [s.current_token], ?_,
            Parses.prim_lit hk⟩
          rw [rest_next s hs hne]
          rfl
        · split at h
          · next hk =>
            split at h
            · cases h
            · cases h
            · next e s2 heq =>
              split at h
              · cases h
              · next hr =>
                cases h
                simp only [ne_eq, not_not] at hr
                rw [next_token_errors] at hfin
                have hs2 := k1 _ _ _ heq (hW.next _ hs)
                obtain ⟨e1, t1, w1, r1, p1⟩ := i1 _ _ s2 (hW.next _ hs) heq hfin
                rw [next_token_errors] at e1
                rw [next_token_symbol_table] at t1
                rw [names_next] at p1
                refine ⟨e1, by rw [next_token_symbol_table, t1],
                  [s.current_token] ++ w1 ++ [s2.current_token], ?_,
                  Parses.prim_paren hk hr p1⟩
                rw [rest_next s hs (by rw [hk]; decide), r1,
                  rest_next s2 hs2 (by rw [hr]; decide)]
                simp
          · cases h

/-- An insertion that leaves the collector empty found room and a new name. -/
theorem add_symbol_good (name type : Str) (line : Nat) (s : State) (hs : WellFormed s)
    (hl : 1 ≤ line) (hfin : (add_symbol name type line s).errors = []) :
    s.errors = [] ∧ name ∉ names s ∧ s.symbol_table.length < MAX_SYMBOLS ∧
      names (add_symbol name type line s) = names s ++ [name] ∧
      rest (add_symbol name type line s) = rest s := by
  unfold add_symbol at hfin ⊢
  split at hfin
  · exact absurd hfin (add_error_bad _ _ _ hs hl)
  · split at hfin
    · exact absurd hfin (add_error_bad _ _ _ hs hl)
    · next hlen hdup =>
      rw [if_neg hlen, if_neg hdup]
      refine ⟨hfin, ?_, by omega, ?_, rfl⟩
      · intro hmem
        apply hdup
        exact (is_declared_iff name s).mpr hmem
      · simp [names]

theorem parse_type_good (s s1 : State) (n : Node) (hs : WellFormed s)
    (h : parse_type s = (some n, s1)) :
    s1 = next_token s ∧ rest s = s.current_token :: rest s1 ∧
      Parses MAX_STMTS MAX_SYMBOLS NT.Ty (names s) [s.current_token] (names s) := by
  unfold parse_type at h
  split at h
  · next hk =>
    have e := (congrArg Prod.snd h).symm
    simp only at e
    subst e
    exact ⟨rfl, rest_next s hs (by rw [hk]; decide), Parses.ty_int hk⟩
  · split at h
    · next hk =>
      have e := (congrArg Prod.snd h).symm
      simp only at e
      subst e
      exact ⟨rfl, rest_next s hs (by rw [hk]; decide), Parses.ty_bool hk⟩
    · cases h

theorem parse_init_decl_good (fuel : Nat) (type : Str) (s : State) (n : Node) (line : Nat)
    (s1 : State) (hs : WellFormed s)
    (h : parse_init_decl fuel type s = some (some n, line, s1)) (hfin : s1.errors = []) :
    GoodS NT.InitDecl s s1 := by
  have i1 := (sound_expr fuel).expr
  have k1 := (wellFormed_stable.keeps_expr fuel).expr
  have hW := wellFormed_stable
  have hl := hs.current_line_pos
  simp only [parse_init_decl] at h
  split at h
  · cases h
  · next hk =>
    simp only [ne_eq, not_not] at hk
    have hne : s.current_token.type ≠ TOK_EOF := by rw [hk]; decide
    have r0 := rest_next s hs hne
    split at h
    · next hk2 =>
      have hne2 : (next_token s).current_token.type ≠ TOK_EOF := by rw [hk2]; decide
      have r1 := rest_next _ (hW.next _ hs) hne2
      split at h
      · cases h
      · cases h
      · next e s2 heq =>
        cases h
        have hs2 := k1 _ _ _ heq (hW.next _ (hW.next _ hs))
        obtain ⟨e2, hnew, hlen, hn, hr⟩ := add_symbol_good _ _ _ s2 hs2 hl hfin
        obtain ⟨e1, t1, w1, r2, p1⟩ := i1 _ _ s2 (hW.next _ (hW.next _ hs)) heq e2
        simp only [next_token_errors, next_token_symbol_table, names_next] at e1 t1 p1
        have hn2 : names s2 = names s := by unfold names; rw [t1]
        rw [hn2] at hnew hn
        refine ⟨e1, [s.current_token, (next_token s).current_token] ++ w1, ?_, ?_⟩
        · rw [hr, r0, r1, r2]
          simp
        · rw [hn]
          exact Parses.init_expr hk hk2 p1 hnew
            (by rw [← hn2]; simpa [names] using hlen)
    · cases h
      obtain ⟨e2, hnew, hlen, hn, hr⟩ := add_symbol_good _ _ _ _ (hW.next _ hs) hl hfin
      simp only [next_token_errors, names_next] at e2 hnew hn
      refine ⟨e2, [s.current_token], ?_, ?_⟩
      · rw [hr, r0]
        rfl
      · rw [hn]
        exact Parses.init_plain hk hnew
          (by simpa [names, next_token_symbol_table] using hlen)


theorem sound_print (fuel : Nat) : SoundS NT.PrintStmt (parse_print_stmt fuel) := by
  have i1 := (sound_expr fuel).expr
  have k1 := (wellFormed_stable.keeps_expr fuel).expr
  have hW := wellFormed_stable
  intro s n s1 hs h hfin
  simp only [parse_print_stmt] at h
  split at h
  · cases h
  · next hk1 =>
    simp only [ne_eq, not_not] at hk1
    split at h
    · cases h
    · next hk2 =>
      simp only [ne_eq, not_not] at hk2
      split at h
      · cases h
      · cases h
      · next e s2 heq =>
        have hs2 := k1 _ _ _ heq (hW.next _ (hW.next _ hs))
        split at h
        · cases h
        · next hk3 =>
          simp only [ne_eq, not_not] at hk3
          split at h
          · cases h
          · next hk4 =>
            simp only [ne_eq, not_not] at hk4
            cases h
            simp only [next_token_errors] at hfin
            obtain ⟨e1, t1, w1, r2, p1⟩ := i1 _ _ s2 (hW.next _ (hW.next _ hs)) heq hfin
            simp only [next_token_errors, next_token_symbol_table, names_next] at e1 t1 p1
            refine ⟨e1, [s.current_token, (next_token s).current_token] ++ w1 ++
              [s2.current_token, (next_token s2).current_token], ?_, ?_⟩
            · rw [rest_next s hs (by rw [hk1]; decide),
                rest_next _ (hW.next _ hs) (by rw [hk2]; decide), r2,
                rest_next s2 hs2 (by rw [hk3]; decide),
                rest_next _ (hW.next _ hs2) (by rw [hk4]; decide)]
              simp
            · have hn : names (next_token (next_token s2)) = names s := by
                simp only [names_next]; unfold names; rw [t1]
              rw [hn]
              exact Parses.print hk1 hk2 hk3 hk4 p1

theorem sound_assign (fuel : Nat) : SoundS NT.AssignStmt (parse_assign_stmt fuel) := by
  have i1 := (sound_expr fuel).expr
  have k1 := (wellFormed_stable.keeps_expr fuel).expr
  have hW := wellFormed_stable
  intro s n s1 hs h hfin
  simp only [parse_assign_stmt] at h
  split at h
  · cases h
  · next hk1 =>
    simp only [ne_eq, not_not] at hk1
    split at h
    · cases h
    · next hd =>
      split at h
      · cases h
      · next hk2 =>
        simp only [ne_eq, not_not] at hk2
        split at h
        · cases h
        · cases h
        · next e s2 heq =>
          have hs2 := k1 _ _ _ heq (hW.next _ (hW.next _ hs))
          split at h
          · cases h
          · next hk3 =>
            simp only [ne_eq, not_not] at hk3
            cases h
            simp only [next_token_errors] at hfin
            obtain ⟨e1, t1, w1, r2, p1⟩ := i1 _ _ s2 (hW.next _ (hW.next _ hs)) heq hfin
            simp only [next_token_errors, next_token_symbol_table, names_next] at e1 t1 p1
            refine ⟨e1, [s.current_token, (next_token s).current_token] ++ w1 ++
              [s2.current_token], ?_, ?_⟩
            · rw [rest_next s hs (by rw [hk1]; decide),
                rest_next _ (hW.next _ hs) (by rw [hk2]; decide), r2,
                rest_next s2 hs2 (by rw [hk3]; decide)]
              simp
            · have hn : names (next_token s2) = names s := by
                simp only [names_next]; unfold names; rw [t1]
              rw [hn]
              exact Parses.assign hk1 ((is_declared_iff _ _).mp (by simpa using hd))
                hk2 hk3 p1

theorem sound_for_update (fuel : Nat) : SoundS NT.Update (for_update fuel) := by
  have i1 := (sound_expr fuel).expr
  have k1 := (wellFormed_stable.keeps_expr fuel).expr
  have hW := wellFormed_stable
  intro s n s1 hs h hfin
  simp only [for_update] at h
  split at h
  · next hk1 =>
    split at h
    · cases h
    · next hd =>
      split at h
      · cases h
      · next hk2 =>
        simp only [ne_eq, not_not] at hk2
        split at h
        · cases h
        · cases h
        · next e s2 heq =>
          cases h
          obtain ⟨e1, t1, w1, r2, p1⟩ := i1 _ _ _ (hW.next _ (hW.next _ hs)) heq hfin
          simp only [next_token_errors, next_token_symbol_table, names_next] at e1 t1 p1
          refine ⟨e1, [s.current_token, (next_token s).current_token] ++ w1, ?_, ?_⟩
          · rw [rest_next s hs (by rw [hk1]; decide),
              rest_next _ (hW.next _ hs) (by rw [hk2]; decide), r2]
            simp
          · have hn : names s1 = names s := by unfold names; rw [t1]
            rw [hn]
            exact Parses.update hk1 ((is_declared_iff _ _).mp (by simpa using hd)) hk2 p1
  · cases h

theorem sound_for_init (fuel : Nat) : SoundS NT.ForInit (for_init fuel) := by
  have i1 := (sound_expr fuel).expr
  have k1 := (wellFormed_stable.keeps_expr fuel).expr
  have hW := wellFormed_stable
  intro s n s1 hs h hfin
  simp only [for_init] at h
  split at h
  · split at h
    · cases h
    · next ty s2 hty =>
      obtain ⟨es2, r0, pt⟩ := parse_type_good s s2 ty hs hty
      have hs2 : WellFormed s2 := by rw [es2]; exact hW.next _ hs
      split at h
      · cases h
      · cases h
      · next d line s3 hd =>
        cases h
        obtain ⟨e1, w1, r1, p1⟩ := parse_init_decl_good _ _ _ _ _ _ hs2 hd hfin
        have hn : names s2 = names s := by rw [es2, names_next]
        rw [hn] at p1
        refine ⟨by rw [es2, next_token_errors] at e1; exact e1,
          [s.current_token] ++ w1, ?_, Parses.for_init_decl pt p1⟩
        rw [r0, r1]
        simp
  · split at h
    · next hk1 =>
      split at h
      · cases h
      · next hd =>
        split at h
        · cases h
        · next hk2 =>
          simp only [ne_eq, not_not] at hk2
          split at h
          · cases h
          · cases h
          · next e s2 heq =>
            cases h
            obtain ⟨e1, t1, w1, r2, p1⟩ := i1 _ _ _ (hW.next _ (hW.next _ hs)) heq hfin
            simp only [next_token_errors, next_token_symbol_table, names_next] at e1 t1 p1
            refine ⟨e1, [s.current_token, (next_token s).current_token] ++ w1, ?_, ?_⟩
            · rw [rest_next s hs (by rw [hk1]; decide),
                rest_next _ (hW.next _ hs) (by rw [hk2]; decide), r2]
              simp
            · have hn : names s1 = names s := by unfold names; rw [t1]
              rw [hn]
              exact Parses.for_init_assign hk1 ((is_declared_iff _ _).mp (by simpa using hd))
                hk2 p1
    · cases h

theorem sound_decl (fuel : Nat) : SoundS NT.DeclStmt (parse_decl_stmt fuel) := by
  have hW := wellFormed_stable
  intro s n s1 hs h hfin
  simp only [parse_decl_stmt] at h
  split at h
  · cases h
  · next ty s2 hty =>
    obtain ⟨es2, r0, pt⟩ := parse_type_good s s2 ty hs hty
    have hs2 : WellFormed s2 := by rw [es2]; exact hW.next _ hs
    split at h
    · cases h
    · cases h
    · next d line s3 hd =>
      have hs3 := hW.parse_init_decl _ _ _ _ _ _ hd hs2
      split at h
      · cases h
      · next hk =>
        simp only [ne_eq, not_not] at hk
        cases h
        simp only [next_token_errors] at hfin
        obtain ⟨e1, w1, r1, p1⟩ := parse_init_decl_good _ _ _ _ _ _ hs2 hd hfin
        have hn : names s2 = names s := by rw [es2, names_next]
        rw [hn] at p1
        refine ⟨by rw [es2, next_token_errors] at e1; exact e1,
          [s.current_token] ++ w1 ++ [s3.current_token], ?_, ?_⟩
        · rw [r0, r1, rest_next s3 hs3 (by rw [hk]; decide)]
          simp
        · rw [names_next]
          exact Parses.decl hk pt p1

/-- The rule `Update` declares nothing. -/
theorem Parses.update_names {B M : Nat} {G G1 : List Str} {w : List Token}
    (h : Parses B M NT.Update G w G1) : G = G1 := by
  cases h
  rfl
theorem reset_errors (s : State) : (reset_last_error_line s).errors = s.errors := by
  unfold reset_last_error_line; split <;> rfl

theorem reset_rest (s : State) : rest (reset_last_error_line s) = rest s := by
  unfold reset_last_error_line; split <;> rfl

theorem reset_names (s : State) : names (reset_last_error_line s) = names s := by
  unfold reset_last_error_line; split <;> rfl

theorem reset_current (s : State) :
    (reset_last_error_line s).current_token = s.current_token := by
  unfold reset_last_error_line; split <;> rfl

theorem GoodS.of_reset (nt nt1 : NT) (s s1 : State)
    (h : GoodS nt (reset_last_error_line s) s1)
    (hp : ∀ G w G1, Parses MAX_STMTS MAX_SYMBOLS nt G w G1 →
      Parses MAX_STMTS MAX_SYMBOLS nt1 G w G1) : GoodS nt1 s s1 := by
  obtain ⟨e, w, r, p⟩ := h
  rw [reset_errors] at e
  rw [reset_rest] at r
  rw [reset_names] at p
  exact ⟨e, w, r, hp _ _ _ p⟩

/-- Without a diagnostic, a NULL from `parse_else_opt` means that there was no `else`
and nothing was done. -/
theorem else_opt_none (fuel : Nat) (s s1 : State) (hs : WellFormed s)
    (h : parse_else_opt fuel s = some (none, s1)) (hfin : s1.errors = []) : s1 = s := by
  by_cases hk : s.current_token.type = TOK_ELSE
  · exact absurd hfin (parse_else_opt_bad fuel s s1 hs h hk)
  · cases fuel with
    | zero => simp [parse_else_opt] at h
    | succ fuel =>
      simp only [parse_else_opt, if_neg hk] at h
      cases h
      rfl

set_option maxHeartbeats 1000000 in
theorem sound_stmt (fuel : Nat) : SoundStmt fuel := by
  induction fuel with
  | zero =>
    constructor
    all_goals first
      | (intro s n s1 _ h
         simp [parse_stmts, parse_stmt, parse_if_stmt, parse_if_then,
           parse_else_opt, parse_do_while_stmt, parse_for_stmt] at h)
      | (intro acc s l s1 _ _ h
         simp [parse_stmts_loop] at h)
  | succ fuel ih =>
    obtain ⟨i1, i2, i3, i4, i5, i6, i7, i8⟩ := ih
    obtain ⟨k1, k2, k3, k4, k5, k6, k7, k8⟩ := wellFormed_stable.keeps_stmt fuel
    obtain ⟨b1, b2, b3, b4, b5, b6, b7, b8⟩ := bad_stable.keeps_stmt fuel
    have ie := (sound_expr fuel).expr
    have ke := (wellFormed_stable.keeps_expr fuel).expr
    have hW := wellFormed_stable
    constructor
    · -- parse_stmts
      intro s r s1 hs h hfin
      simp only [parse_stmts] at h
      split at h
      · cases h
      · next l s2 heq =>
        have hg := i2 [] s l s2 hs (by simp) heq
        split at h <;> cases h <;> exact hg hfin
    · -- parse_stmts_loop
      intro acc s l s1 hs hacc h hfin
      simp only [parse_stmts_loop] at h
      split at h
      · next hk =>
        split at h
        · cases h
          exact absurd hfin (fail_here_bad _ s hs)
        · next hlen =>
          split at h
          · cases h
          · next stmt s2 heq =>
            have hs2 := k3 _ _ _ heq hs
            obtain ⟨e2, k, w2, hk2, r2, p2⟩ :=
              i2 _ s2 l s1 hs2 (by simp only [List.length_append, List.length_singleton]; omega)
                h hfin
            obtain ⟨e1, w1, r1, p1⟩ := i3 s stmt s2 hs heq e2
            refine ⟨e1, k + 1, w1 ++ w2, ?_, ?_, Parses.stmts_cons p1 p2⟩
            · simp only [List.length_append, List.length_singleton] at hk2
              omega
            · rw [r1, r2]
              simp
          · next s2 heq =>
            exfalso
            have hb : s2.errors ≠ [] := (fails_stmt fuel).stmt s s2 hs heq
            have hb2 : (if s2.current_token.line ≠ s2.last_error_line then skip_to_sync s2
                else s2).errors ≠ [] := by
              split
              · exact skip_bad _ hb
              · exact hb
            exact b2 _ _ _ _ h hb2 hfin
      · cases h
        exact ⟨hfin, 0, [], by omega, by simp, Parses.stmts_nil⟩
    · -- parse_stmt
      intro s n s1 hs h hfin
      simp only [parse_stmt] at h
      have hsr := hW.reset_last_error_line s hs
      split at h
      · exact GoodS.of_reset _ _ _ _ (i4 _ _ _ hsr h hfin) (fun _ _ _ p => Parses.stmt_if p)
      · split at h
        · exact GoodS.of_reset _ _ _ _ (i7 _ _ _ hsr h hfin)
            (fun _ _ _ p => Parses.stmt_do p)
        · split at h
          · exact GoodS.of_reset _ _ _ _ (sound_print fuel _ _ _ hsr h hfin)
              (fun _ _ _ p => Parses.stmt_print p)
          · split at h
            · exact GoodS.of_reset _ _ _ _ (sound_decl fuel _ _ _ hsr h hfin)
                (fun _ _ _ p => Parses.stmt_decl p)
            · split at h
              · exact GoodS.of_reset _ _ _ _ (i8 _ _ _ hsr h hfin)
                  (fun _ _ _ p => Parses.stmt_for p)
              · split at h
                · split at h
                  · exact GoodS.of_reset _ _ _ _ (sound_assign fuel _ _ _ hsr h hfin)
                      (fun _ _ _ p => Parses.stmt_assign p)
                  · cases h
                · cases h
    · -- parse_if_stmt
      intro s n s1 hs h hfin
      simp only [parse_if_stmt] at h
      split at h
      · cases h
      · cases h
      · next it s2 heq =>
        have hs2 := k5 _ _ _ heq hs
        split at h
        · cases h
        · next eo s3 heq2 =>
          cases h
          cases eo with
          | none =>
            have e3 := else_opt_none fuel s2 _ hs2 heq2 hfin
            subst e3
            obtain ⟨e1, w1, r1, p1⟩ := i5 s it _ hs heq hfin
            exact ⟨e1, w1, r1, Parses.if_only p1⟩
          | some en =>
            obtain ⟨e2, w2, r2, p2⟩ := i6 s2 en _ hs2 heq2 hfin
            obtain ⟨e1, w1, r1, p1⟩ := i5 s it s2 hs heq e2
            exact ⟨e1, w1 ++ w2, by rw [r1, r2]; simp, Parses.if_else p1 p2⟩
    · -- parse_if_then
      intro s n s1 hs h hfin
      simp only [parse_if_then] at h
      split at h
      · cases h
      · next hk1 =>
        simp only [ne_eq, not_not] at hk1
        split at h
        · cases h
        · next hk2 =>
          simp only [ne_eq, not_not] at hk2
          split at h
          · cases h
          · cases h
          · next e s2 heq =>
            have hs2 := ke _ _ _ heq (hW.next _ (hW.next _ hs))
            split at h
            · cases h
            · next hk3 =>
              simp only [ne_eq, not_not] at hk3
              split at h
              · cases h
              · next hk4 =>
                simp only [ne_eq, not_not] at hk4
                split at h
                · cases h
                · next hk5 =>
                  simp only [ne_eq, not_not] at hk5
                  split at h
                  · cases h
                  · next st s5 heq5 =>
                    have hs4 := hW.next _ (hW.next _ (hW.next _ hs2))
                    have hs5 := k1 _ _ _ heq5 hs4
                    split at h
                    · cases h
                    · next hk6 =>
                      simp only [ne_eq, not_not] at hk6
                      cases h
                      simp only [next_token_errors] at hfin
                      obtain ⟨e5, k, w5, hkb, r5, p5⟩ := i1 _ _ s5 hs4 heq5 hfin
                      simp only [next_token_errors, names_next] at e5 p5
                      obtain ⟨e1, t1, w1, r2, p1⟩ :=
                        ie _ _ s2 (hW.next _ (hW.next _ hs)) heq e5
                      simp only [next_token_errors, next_token_symbol_table, names_next]
                        at e1 t1 p1
                      have hn : names s2 = names s := by unfold names; rw [t1]
                      rw [hn] at p5
                      refine ⟨e1, [s.current_token, (next_token s).current_token] ++ w1 ++
                        [s2.current_token, (next_token s2).current_token,
                          (next_token (next_token s2)).current_token] ++ w5 ++
                        [s5.current_token], ?_, ?_⟩
                      · rw [rest_next s hs (by rw [hk1]; decide),
                          rest_next _ (hW.next _ hs) (by rw [hk2]; decide), r2,
                          rest_next s2 hs2 (by rw [hk3]; decide),
                          rest_next _ (hW.next _ hs2) (by rw [hk4]; decide),
                          rest_next _ (hW.next _ (hW.next _ hs2)) (by rw [hk5]; decide), r5,
                          rest_next s5 hs5 (by rw [hk6]; decide)]
                        simp
                      · rw [names_next]
                        exact Parses.if_then hk1 hk2 hk3 hk4 hk5 hk6 (by omega) p1 p5
    · -- parse_else_opt
      intro s n s1 hs h hfin
      simp only [parse_else_opt] at h
      split at h
      · next hk1 =>
        split at h
        · cases h
        · next hk2 =>
          simp only [ne_eq, not_not] at hk2
          split at h
          · cases h
          · next st s2 heq =>
            have hs1 := hW.next _ (hW.next _ hs)
            have hs2 := k1 _ _ _ heq hs1
            split at h
            · cases h
            · next hk3 =>
              simp only [ne_eq, not_not] at hk3
              cases h
              simp only [next_token_errors] at hfin
              obtain ⟨e2, k, w2, hkb, r2, p2⟩ := i1 _ _ s2 hs1 heq hfin
              simp only [next_token_errors, names_next] at e2 p2
              refine ⟨e2, [s.current_token, (next_token s).current_token] ++ w2 ++
                [s2.current_token], ?_, ?_⟩
              · rw [rest_next s hs (by rw [hk1]; decide),
                  rest_next _ (hW.next _ hs) (by rw [hk2]; decide), r2,
                  rest_next s2 hs2 (by rw [hk3]; decide)]
                simp
              · rw [names_next]
                exact Parses.else_opt hk1 hk2 hk3 (by omega) p2
      · cases h
    · -- parse_do_while_stmt
      intro s n s1 hs h hfin
      simp only [parse_do_while_stmt] at h
      split at h
      · cases h
      · next hk1 =>
        simp only [ne_eq, not_not] at hk1
        split at h
        · cases h
        · next hk2 =>
          simp only [ne_eq, not_not] at hk2
          split at h
          · cases h
          · next st s2 heq =>
            have hs1 := hW.next _ (hW.next _ hs)
            have hs2 := k1 _ _ _ heq hs1
            split at h
            · cases h
            · next hk3 =>
              simp only [ne_eq, not_not] at hk3
              split at h
              · cases h
              · next hk4 =>
                simp only [ne_eq, not_not] at hk4
                split at h
                · cases h
                · next hk5 =>
                  simp only [ne_eq, not_not] at hk5
                  have hs4 := hW.next _ (hW.next _ (hW.next _ hs2))
                  split at h
                  · cases h
                  · cases h
                  · next e s5 heq5 =>
                    have hs5 := ke _ _ _ heq5 hs4
                    split at h
                    · cases h
                    · next hk6 =>
                      simp only [ne_eq, not_not] at hk6
                      split at h
                      · cases h
                      · next hk7 =>
                        simp only [ne_eq, not_not] at hk7
                        cases h
                        simp only [next_token_errors] at hfin
                        obtain ⟨e5, t5, w5, r5, p5⟩ := ie _ _ s5 hs4 heq5 hfin
                        simp only [next_token_errors, next_token_symbol_table, names_next]
                          at e5 t5 p5
                        obtain ⟨e2, k, w2, hkb, r2, p2⟩ := i1 _ _ s2 hs1 heq e5
                        simp only [next_token_errors, names_next] at e2 p2
                        refine ⟨e2, [s.current_token, (next_token s).current_token] ++ w2 ++
                          [s2.current_token, (next_token s2).current_token,
                            (next_token (next_token s2)).current_token] ++ w5 ++
                          [s5.current_token, (next_token s5).current_token], ?_, ?_⟩
                        · rw [rest_next s hs (by rw [hk1]; decide),
                            rest_next _ (hW.next _ hs) (by rw [hk2]; decide), r2,
                            rest_next s2 hs2 (by rw [hk3]; decide),
                            rest_next _ (hW.next _ hs2) (by rw [hk4]; decide),
                            rest_next _ (hW.next _ (hW.next _ hs2)) (by rw [hk5]; decide), r5,
                            rest_next s5 hs5 (by rw [hk6]; decide),
                            rest_next _ (hW.next _ hs5) (by rw [hk7]; decide)]
                          simp
                        · have hn : names (next_token (next_token s5)) = names s2 := by
                            simp only [names_next]; unfold names; rw [t5]
                          rw [hn]
                          exact Parses.do_while hk1 hk2 hk3 hk4 hk5 hk6 hk7 (by omega) p2 p5
    · -- parse_for_stmt
      intro s n s1 hs h hfin
      simp only [parse_for_stmt] at h
      split at h
      · cases h
      · next hk1 =>
        simp only [ne_eq, not_not] at hk1
        split at h
        · cases h
        · next hk2 =>
          simp only [ne_eq, not_not] at hk2
          have hs1 := hW.next _ (hW.next _ hs)
          split at h
          · cases h
          · cases h
          · next init s2 heq2 =>
            have hs2 := (wellFormed_stable.keeps_simple fuel).2.2.2.1 _ _ _ heq2 hs1
            split at h
            · cases h
            · next hk3 =>
              simp only [ne_eq, not_not] at hk3
              split at h
              · cases h
              · cases h
              · next cond s3 heq3 =>
                have hs3 := ke _ _ _ heq3 (hW.next _ hs2)
                split at h
                · cases h
                · next hk4 =>
                  simp only [ne_eq, not_not] at hk4
                  split at h
                  · cases h
                  · cases h
                  · next upd s4 heq4 =>
                    have hs4 :=
                      (wellFormed_stable.keeps_simple fuel).2.2.2.2 _ _ _ heq4 (hW.next _ hs3)
                    split at h
                    · cases h
                    · next hk5 =>
                      simp only [ne_eq, not_not] at hk5
                      split at h
                      · cases h
                      · next hk6 =>
                        simp only [ne_eq, not_not] at hk6
                        have hs5 := hW.next _ (hW.next _ hs4)
                        split at h
                        · cases h
                        · next st s6 heq6 =>
                          have hs6 := k1 _ _ _ heq6 hs5
                          split at h
                          · cases h
                          · next hk7 =>
                            simp only [ne_eq, not_not] at hk7
                            cases h
                            simp only [next_token_errors] at hfin
                            obtain ⟨e6, k, w6, hkb, r6, p6⟩ := i1 _ _ s6 hs5 heq6 hfin
                            simp only [next_token_errors, names_next] at e6 p6
                            obtain ⟨e4, w4, r4, p4⟩ :=
                              sound_for_update fuel _ _ s4 (hW.next _ hs3) heq4 e6
                            simp only [next_token_errors, names_next] at e4 p4
                            obtain ⟨e3, t3, w3, r3, p3⟩ := ie _ _ s3 (hW.next _ hs2) heq3 e4
                            simp only [next_token_errors, next_token_symbol_table, names_next]
                              at e3 t3 p3
                            obtain ⟨e2, w2, r2, p2⟩ := sound_for_init fuel _ _ s2 hs1 heq2 e3
                            simp only [next_token_errors, names_next] at e2 p2
                            have hn3 : names s3 = names s2 := by unfold names; rw [t3]
                            have hn4 : names s4 = names s2 := by
                              have := Parses.update_names p4
                              rw [← this, hn3]
                            rw [hn3] at p4
                            rw [hn4] at p4 p6
                            refine ⟨e2, [s.current_token, (next_token s).current_token] ++ w2
                              ++ [s2.current_token] ++ w3 ++ [s3.current_token] ++ w4 ++
                              [s4.current_token, (next_token s4).current_token] ++ w6 ++
                              [s6.current_token], ?_, ?_⟩
                            · rw [rest_next s hs (by rw [hk1]; decide),
                                rest_next _ (hW.next _ hs) (by rw [hk2]; decide), r2,
                                rest_next s2 hs2 (by rw [hk3]; decide), r3,
                                rest_next s3 hs3 (by rw [hk4]; decide), r4,
                                rest_next s4 hs4 (by rw [hk5]; decide),
                                rest_next _ (hW.next _ hs4) (by rw [hk6]; decide), r6,
                                rest_next s6 hs6 (by rw [hk7]; decide)]
                              simp
                            · rw [names_next]
                              exact Parses.for_stmt hk1 hk2 hk3 hk4 hk5 hk6 hk7 (by omega)
                                p2 p3 p4 p6

/-! ## From token-level derivations to the grammar and the scan -/

theorem scope_scan_append (sc : Scope) (a b : List Token) :
    scope_scan sc (a ++ b) = (scope_scan sc a).bind (fun sc1 => scope_scan sc1 b) := by
  induction a generalizing sc with
  | nil => simp [scope_scan]
  | cons t a ih =>
    simp only [List.cons_append, scope_scan]
    cases scope_step sc t with
    | none => rfl
    | some sc1 => exact ih sc1

theorem add_error_marker (line : Nat) (msg : Str) (s : State)
    (h : s.errors = [] → s.last_error_line = 0) :
    (add_error line msg s).errors = [] → (add_error line msg s).last_error_line = 0 := by
  by_cases ha : Accepts line msg s
  · rw [add_error_of_accepts _ _ _ ha]
    intro e
    simp at e
  · rw [add_error_of_not_accepts _ _ _ ha]
    exact h

theorem lex_step_ready (s s1 : State) (h : LexReady s) (hs : LexStep s s1) : LexReady s1 := by
  obtain ⟨h1, h2, h3, h4, h5⟩ := h
  cases hs with
  | skip l hl => exact ⟨Nat.le_trans h1 hl, h2, h3, h4, h5⟩
  | unterminated l hl =>
    refine ⟨?_, ?_, add_error_marker _ _ _ h3, ?_, ?_⟩
    · rw [add_error_line]; exact Nat.le_trans h1 hl
    · rw [add_error_token_list]; exact h2
    · rw [add_error_symbol_table]; exact h4
    · rw [add_error_token_index]; exact h5
  | token k text hk hk2 =>
    refine ⟨h1, ?_, h3, h4, h5⟩
    intro t ht
    simp only [add_token, List.mem_append, List.mem_singleton] at ht
    rcases ht with ht | ht
    · exact h2 t ht
    · rw [ht]; exact h1
  | error text msg =>
    refine ⟨?_, ?_, add_error_marker _ _ _ h3, ?_, ?_⟩
    · rw [add_error_line]; exact h1
    · rw [add_error_token_list]
      intro t ht
      simp only [add_token, List.mem_append, List.mem_singleton] at ht
      rcases ht with ht | ht
      · exact h2 t ht
      · rw [ht]; exact h1
    · rw [add_error_symbol_table]; exact h4
    · rw [add_error_token_index]; exact h5

/-- The state in which `main` calls `parse_prog`, for the state `s0` the lexer left. -/
theorem lexed_start (file : List Char) (s0 : State)
    (h : tokenize_file file initial_state = some s0) :
    WellFormed (next_token { s0 with token_index := -1 }) ∧
      rest (next_token { s0 with token_index := -1 }) = s0.token_list ∧
      names (next_token { s0 with token_index := -1 }) = [] ∧
      (next_token { s0 with token_index := -1 }).errors = s0.errors ∧
      (next_token { s0 with token_index := -1 }).token_list = s0.token_list ∧
      ∃ toks, s0.token_list = toks ++ [eof_token s0] ∧ ∀ t ∈ toks, t.type ≠ TOK_EOF := by
  unfold tokenize_file at h
  split at h
  · cases h
  · next s1 h1 =>
    cases h
    have h0 : LexReady initial_state := by
      refine ⟨?_, ?_, ?_, ?_, ?_⟩ <;> simp [initial_state]
    have hr : LexReady s1 := tokenize_loop_induction (fun _ b => LexReady b)
      (fun _ _ _ ha hb => lex_step_ready _ _ ha hb) _ _ initial_state _ _ h0 h1
    obtain ⟨toks, e, hn⟩ := tokenize_loop_extends _ _ _ _ h1
    obtain ⟨r1, r2, r3, r4, r5⟩ := hr
    have etoks : (add_token TOK_EOF [] s1.line s1).token_list
        = toks ++ [eof_token (add_token TOK_EOF [] s1.line s1)] := by
      simp [add_token, e, initial_state, c_string, eof_token]
    have hends : ∃ toks, (add_token TOK_EOF [] s1.line s1).token_list
        = toks ++ [eof_token (add_token TOK_EOF [] s1.line s1)]
        ∧ ∀ t ∈ toks, t.type ≠ TOK_EOF := ⟨toks, etoks, hn⟩
    have hlines : ∀ t ∈ (add_token TOK_EOF [] s1.line s1).token_list, 1 ≤ t.line := by
      intro t ht
      simp only [add_token, List.mem_append, List.mem_singleton] at ht
      rcases ht with ht | ht
      · exact r2 t ht
      · rw [ht]; exact r1
    have hlen : 0 < (add_token TOK_EOF [] s1.line s1).token_list.length := by
      rw [etoks]; simp
    have hnext : next_token { add_token TOK_EOF [] s1.line s1 with token_index := -1 }
        = { add_token TOK_EOF [] s1.line s1 with
            token_index := 0,
            current_token := ((add_token TOK_EOF [] s1.line s1).token_list.drop 0).head?.getD
              (eof_token (add_token TOK_EOF [] s1.line s1)) } := by
      rw [next_token_eq]
      dsimp only
      rw [if_pos (by omega)]
      rfl
    rw [hnext]
    refine ⟨⟨hends, hlines, ⟨by simp, by dsimp only; omega⟩, rfl, r3⟩, rfl, ?_, rfl, rfl, hends⟩
    simp [names, add_token, r4]

theorem Ready.cur {s : State} {G : List Str} {a : Token} {r : List Token}
    (h : Ready s G (a :: r)) : s.current_token = a := by
  have := h.current
  simp only [List.head?_cons, Option.some.injEq] at this
  exact this.symm

theorem Ready.next {s : State} {G : List Str} {a : Token} {r : List Token}
    (h : Ready s G (a :: r)) (hr : r ≠ []) : Ready (next_token s) G r := by
  obtain ⟨hi, hrest, hc, hn, he⟩ := h
  unfold Upl.rest at hrest
  have hlen : s.token_index.toNat + 1 < s.token_list.length := by
    have h1 : (s.token_list.drop s.token_index.toNat).length = (a :: r).length := by rw [hrest]
    rw [List.length_drop, List.length_cons] at h1
    have : 0 < r.length := List.length_pos.2 hr
    omega
  have hd : s.token_list.drop (s.token_index.toNat + 1) = r := by
    rw [← List.drop_drop, hrest]
    rfl
  have hidx : (s.token_index + 1).toNat = s.token_index.toNat + 1 := by omega
  rw [next_token_eq, if_pos (by omega)]
  refine ⟨by dsimp only; omega, ?_, ?_, ?_, he⟩
  · show List.drop (s.token_index + 1).toNat s.token_list = r
    rw [hidx, hd]
  · dsimp only
    rw [hidx, hd]
    cases r with
    | nil => exact absurd rfl hr
    | cons b r2 => rfl
  · exact hn

theorem Ready.peek {s : State} {G : List Str} {a b : Token} {r : List Token}
    (h : Ready s G (a :: b :: r)) : peek_token s = b := by
  obtain ⟨hi, hrest, hc, hn, he⟩ := h
  unfold Upl.rest at hrest
  have hlen : s.token_index.toNat + 1 < s.token_list.length := by
    have h1 : (s.token_list.drop s.token_index.toNat).length = (a :: b :: r).length := by
      rw [hrest]
    rw [List.length_drop] at h1
    simp only [List.length_cons] at h1
    omega
  have hd : s.token_list.drop (s.token_index.toNat + 1) = b :: r := by
    rw [← List.drop_drop, hrest]
    rfl
  have hidx : (s.token_index + 1).toNat = s.token_index.toNat + 1 := by omega
  unfold peek_token
  rw [if_pos (by omega), getD_eq_head_drop, hidx, hd]
  rfl

theorem Ready.reset {s : State} {G : List Str} {r : List Token} (h : Ready s G r) :
    Ready (reset_last_error_line s) G r := by
  unfold reset_last_error_line
  split
  · exact ⟨h.index, h.rest, h.current, h.names, h.errors⟩
  · exact h

theorem Ready.declared {s : State} {G : List Str} {r : List Token} (h : Ready s G r)
    {x : Str} (hx : x ∈ G) : is_variable_declared x s = true :=
  (is_declared_iff x s).2 (h.names.symm ▸ hx)

theorem Ready.declare {s : State} {G : List Str} {r : List Token} (h : Ready s G r)
    {x : Str} (hx : x ∉ G) (hlen : G.length < MAX_SYMBOLS) (ty : Str) (line : Nat) :
    Ready (add_symbol x ty line s) (G ++ [x]) r := by
  have hn := h.names
  have h1 : ¬ s.symbol_table.length ≥ MAX_SYMBOLS := by
    have : s.symbol_table.length = G.length := by rw [← hn]; simp [Upl.names]
    omega
  have h2 : ¬ (s.symbol_table.any (fun sym => sym.name = x) = true) := by
    intro hc
    exact hx (hn ▸ (is_declared_iff x s).1 hc)
  unfold Upl.add_symbol
  rw [if_neg h1, if_neg h2]
  refine ⟨h.index, h.rest, h.current, ?_, h.errors⟩
  simp [Upl.names, ← hn]

theorem HeadIs.ne_nil {P : TokenType → Prop} {q : List Token} (h : HeadIs P q) : q ≠ [] := by
  obtain ⟨t, r, rfl, _⟩ := h
  simp

theorem HeadIs.mono {P Q : TokenType → Prop} {q : List Token} (h : HeadIs P q)
    (hpq : ∀ k, P k → Q k) : HeadIs Q q := by
  obtain ⟨t, r, e, hp⟩ := h
  exact ⟨t, r, e, hpq _ hp⟩

theorem HeadIs.append {P : TokenType → Prop} {w : List Token} (h : HeadIs P w)
    (q : List Token) : HeadIs P (w ++ q) := by
  obtain ⟨t, r, rfl, hp⟩ := h
  exact ⟨t, r ++ q, rfl, hp⟩

/-- What follows `a` in `a ++ b ++ q`, when `b` is empty or starts as `P` says. -/
theorem EmptyOrHead.follow {P Q R : TokenType → Prop} {b q : List Token}
    (hb : EmptyOrHead P b) (hq : HeadIs Q q) (hP : ∀ k, P k → R k) (hQ : ∀ k, Q k → R k) :
    HeadIs R (b ++ q) := by
  rcases hb with rfl | hb
  · exact hq.mono hQ
  · exact (hb.mono hP).append q

theorem parses_first {B M : Nat} {nt : NT} {G G1 : List Str} {w : List Token}
    (h : Parses B M nt G w G1) : First nt w := by
  induction h
  all_goals try simp only [First] at *
  case stmts_nil => exact Or.inl rfl
  case stmts_cons iha ihb => exact Or.inr (HeadIs.append iha _)
  case stmt_if ih => exact ih.mono (fun k hk => by simp [StartsStmt, hk])
  case stmt_do ih => exact ih.mono (fun k hk => by simp [StartsStmt, hk])
  case stmt_print ih => exact ih.mono (fun k hk => by simp [StartsStmt, hk])
  case stmt_decl ih =>
    exact ih.mono (fun k hk => by rcases hk with hk | hk <;> simp [StartsStmt, hk])
  case stmt_for ih => exact ih.mono (fun k hk => by simp [StartsStmt, hk])
  case stmt_assign ih =>
    obtain ⟨x, t, r, rfl, hx, ht⟩ := ih
    exact ⟨x, _, rfl, by simp [StartsStmt, hx]⟩
  case if_only ih => exact ih
  case if_else iha ihb => exact HeadIs.append iha _
  case if_then h1 _ _ _ _ _ _ _ _ _ _ => exact ⟨_, _, rfl, h1⟩
  case else_opt h1 _ _ _ _ _ => exact ⟨_, _, rfl, h1⟩
  case do_while h1 _ _ _ _ _ _ _ _ _ _ _ => exact ⟨_, _, rfl, h1⟩
  case print h1 _ _ _ _ _ => exact ⟨_, _, rfl, h1⟩
  case decl iht _ => exact HeadIs.append (HeadIs.append iht _) _
  case ty_int h1 => exact ⟨_, _, rfl, Or.inl h1⟩
  case ty_bool h1 => exact ⟨_, _, rfl, Or.inr h1⟩
  case assign hx _ h1 _ _ _ => exact ⟨_, _, _, rfl, hx, h1⟩
  case for_stmt h1 _ _ _ _ _ _ _ _ _ _ _ _ _ _ _ => exact ⟨_, _, rfl, h1⟩
  case eq_nil => exact Or.inl rfl
  case eq_cons h1 _ _ _ _ => exact Or.inr ⟨_, _, rfl, h1⟩
  case rel_nil => exact Or.inl rfl
  case rel_cons h1 _ _ _ _ => exact Or.inr ⟨_, _, rfl, h1⟩
  case add_nil => exact Or.inl rfl
  case add_cons h1 _ _ _ _ => exact Or.inr ⟨_, _, rfl, h1⟩
  case mul_nil => exact Or.inl rfl
  case mul_cons h1 _ _ _ _ => exact Or.inr ⟨_, _, rfl, h1⟩

theorem HeadIs.of_ne_nil {q : List Token} (h : q ≠ []) : HeadIs (fun _ => True) q := by
  cases q with
  | nil => exact absurd rfl h
  | cons t r => exact ⟨t, r, rfl, trivial⟩

/-- The call of `parse_stmts` on a block of at most 100 statements. -/
theorem complete_block (n : Nat) (G G1 : List Str) (w : List Token)
    (ih : Complete (NT.Stmts n) G w G1) (hn : n ≤ MAX_STMTS) (fuel : Nat) (s : State)
    (q : List Token) (hs : Ready s G (w ++ q)) (hq : HeadIs (Follow (NT.Stmts n)) q)
    (hfuel : 4 * w.length + 5 ≤ fuel) :
    ∃ x s1, parse_stmts fuel s = some (x, s1) ∧ Ready s1 G1 q := by
  obtain ⟨f, rfl⟩ : ∃ f, fuel = f + 1 := ⟨fuel - 1, by omega⟩
  obtain ⟨l1, s1, e1, hl1, h1⟩ := ih f s q hs hq (by simp only [rank]; omega) []
    (by simp only [List.length_nil]; omega)
  simp only [parse_stmts, e1]
  split
  · exact ⟨_, _, rfl, h1⟩
  · exact ⟨_, _, rfl, h1⟩

theorem complete_all {nt : NT} {G G1 : List Str} {w : List Token}
    (h : Parses MAX_STMTS MAX_SYMBOLS nt G w G1) : Complete nt G w G1 := by
  induction h
  case prog b te hb hte hn hw ihw =>
    intro fuel s q hs hq hfuel
    have hs0 := hs
    simp only [List.append_assoc, List.cons_append, List.nil_append] at hs0
    have c0 := hs0.cur
    have hs1 := hs0.next (by simp)
    obtain ⟨x, s1, e1, h1⟩ := complete_block _ _ _ _ ihw hn fuel _ (te :: q) hs1
      ⟨te, q, rfl, Or.inl hte⟩
      (by simp only [rank, List.length_append, List.length_cons, List.length_nil] at hfuel ⊢
          omega)
    have c1 := h1.cur
    have h2 := h1.next hq.ne_nil
    simp only [Target, Ok, parse_prog, c0, hb, c1, hte, e1, ne_eq, not_true_eq_false,
      ↓reduceIte]
    exact ⟨_, _, rfl, h2⟩
  case stmts_nil =>
    intro fuel s q hs hq hfuel l hl
    obtain ⟨f, rfl⟩ : ∃ f, fuel = f + 1 := ⟨fuel - 1, by simp only [rank] at hfuel; omega⟩
    obtain ⟨t, r, rfl, hk⟩ := hq
    have hs0 := hs
    simp only [List.append_assoc, List.cons_append, List.nil_append] at hs0
    have c0 := hs0.cur
    have hc : ¬ (s.current_token.type ≠ TOK_END ∧ s.current_token.type ≠ TOK_RBRACE
        ∧ s.current_token.type ≠ TOK_EOF) := by
      rw [c0]
      rcases hk with hk | hk | hk <;> simp [hk]
    simp only [parse_stmts_loop, if_neg hc]
    exact ⟨_, _, rfl, rfl, hs0⟩
  case stmts_cons a b ha hb iha ihb =>
    intro fuel s q hs hq hfuel l hl
    obtain ⟨f, rfl⟩ : ∃ f, fuel = f + 1 := ⟨fuel - 1, by simp only [rank] at hfuel; omega⟩
    obtain ⟨t, r, rfl, hk⟩ := parses_first ha
    have hs0 := hs
    simp only [List.append_assoc, List.cons_append, List.nil_append] at hs0
    have c0 := hs0.cur
    have hc : s.current_token.type ≠ TOK_END ∧ s.current_token.type ≠ TOK_RBRACE
        ∧ s.current_token.type ≠ TOK_EOF := by
      rw [c0]
      rcases hk with hk | hk | hk | hk | hk | hk | hk <;> simp [hk]
    have hl1 : ¬ l.length ≥ MAX_STMTS := by
      simp only [MAX_STMTS] at hl ⊢
      omega
    obtain ⟨st, s1, e1, h1⟩ := iha f s (b ++ q) (by rw [← List.append_assoc]; exact hs)
      ((parses_first hb).follow hq
        (fun k hk => by
          rcases hk with hk | hk | hk | hk | hk | hk | hk <;> simp [Follow, hk])
        (fun k hk => by rcases hk with hk | hk | hk <;> simp [Follow, hk]))
      (by simp only [rank, List.length_append, List.length_cons, List.length_nil] at hfuel ⊢
          omega)
    obtain ⟨l2, s2, e2, hl2, h2⟩ := ihb f s1 q h1 hq
      (by simp only [rank, List.length_append, List.length_cons, List.length_nil] at hfuel ⊢
          omega)
      (l ++ [st])
      (by simp only [List.length_append, List.length_cons, List.length_nil]; omega)
    simp only [parse_stmts_loop, if_pos hc, if_neg hl1, e1, e2]
    refine ⟨_, _, rfl, ?_, h2⟩
    simp only [List.length_append, List.length_cons, List.length_nil] at hl2
    omega
  case stmt_if hw ih =>
    intro fuel s q hs hq hfuel
    obtain ⟨f, rfl⟩ : ∃ f, fuel = f + 1 := ⟨fuel - 1, by simp only [rank] at hfuel; omega⟩
    obtain ⟨t, r, rfl, hk⟩ := parses_first hw
    have hr := hs.reset
    have hr0 := hr
    simp only [List.append_assoc, List.cons_append, List.nil_append] at hr0
    have c0 := hr0.cur
    obtain ⟨n, s1, e1, h1⟩ := ih f _ q hr (hq.mono (fun k hk => hk))
      (by simp only [rank] at hfuel ⊢; omega)
    simp only [Target, Ok, parse_stmt, c0, hk, e1, ↓reduceIte, reduceCtorEq]
    exact ⟨_, _, rfl, h1⟩
  case stmt_do hw ih =>
    intro fuel s q hs hq hfuel
    obtain ⟨f, rfl⟩ : ∃ f, fuel = f + 1 := ⟨fuel - 1, by simp only [rank] at hfuel; omega⟩
    obtain ⟨t, r, rfl, hk⟩ := parses_first hw
    have hr := hs.reset
    have hr0 := hr
    simp only [List.append_assoc, List.cons_append, List.nil_append] at hr0
    have c0 := hr0.cur
    obtain ⟨n, s1, e1, h1⟩ := ih f _ q hr (hq.mono (fun k hk => trivial))
      (by simp only [rank] at hfuel ⊢; omega)
    simp only [Target, Ok, parse_stmt, c0, hk, e1, ↓reduceIte, reduceCtorEq]
    exact ⟨_, _, rfl, h1⟩
  case stmt_print hw ih =>
    intro fuel s q hs hq hfuel
    obtain ⟨f, rfl⟩ : ∃ f, fuel = f + 1 := ⟨fuel - 1, by simp only [rank] at hfuel; omega⟩
    obtain ⟨t, r, rfl, hk⟩ := parses_first hw
    have hr := hs.reset
    have hr0 := hr
    simp only [List.append_assoc, List.cons_append, List.nil_append] at hr0
    have c0 := hr0.cur
    obtain ⟨n, s1, e1, h1⟩ := ih f _ q hr (hq.mono (fun k hk => trivial))
      (by simp only [rank] at hfuel ⊢; omega)
    simp only [Target, Ok, parse_stmt, c0, hk, e1, ↓reduceIte, reduceCtorEq]
    exact ⟨_, _, rfl, h1⟩
  case stmt_decl hw ih =>
    intro fuel s q hs hq hfuel
    obtain ⟨f, rfl⟩ : ∃ f, fuel = f + 1 := ⟨fuel - 1, by simp only [rank] at hfuel; omega⟩
    obtain ⟨t, r, rfl, hk⟩ := parses_first hw
    have hr := hs.reset
    have hr0 := hr
    simp only [List.append_assoc, List.cons_append, List.nil_append] at hr0
    have c0 := hr0.cur
    obtain ⟨n, s1, e1, h1⟩ := ih f _ q hr (hq.mono (fun k hk => trivial))
      (by simp only [rank] at hfuel ⊢; omega)
    rcases hk with hk | hk
    · simp only [Target, Ok, parse_stmt, c0, hk, e1, ↓reduceIte, reduceCtorEq, true_or]
      exact ⟨_, _, rfl, h1⟩
    · simp only [Target, Ok, parse_stmt, c0, hk, e1, ↓reduceIte, reduceCtorEq, or_true]
      exact ⟨_, _, rfl, h1⟩
  case stmt_for hw ih =>
    intro fuel s q hs hq hfuel
    obtain ⟨f, rfl⟩ : ∃ f, fuel = f + 1 := ⟨fuel - 1, by simp only [rank] at hfuel; omega⟩
    obtain ⟨t, r, rfl, hk⟩ := parses_first hw
    have hr := hs.reset
    have hr0 := hr
    simp only [List.append_assoc, List.cons_append, List.nil_append] at hr0
    have c0 := hr0.cur
    obtain ⟨n, s1, e1, h1⟩ := ih f _ q hr (hq.mono (fun k hk => trivial))
      (by simp only [rank] at hfuel ⊢; omega)
    simp only [Target, Ok, parse_stmt, c0, hk, e1, ↓reduceIte, reduceCtorEq, or_self]
    exact ⟨_, _, rfl, h1⟩
  case stmt_assign hw ih =>
    intro fuel s q hs hq hfuel
    obtain ⟨f, rfl⟩ : ∃ f, fuel = f + 1 := ⟨fuel - 1, by simp only [rank] at hfuel; omega⟩
    obtain ⟨x, t, r, rfl, hx, ht⟩ := parses_first hw
    have hr := hs.reset
    have hr0 := hr
    simp only [List.append_assoc, List.cons_append, List.nil_append] at hr0
    have c0 := hr0.cur
    have pk := hr0.peek
    obtain ⟨n, s1, e1, h1⟩ := ih f _ q hr (hq.mono (fun k hk => trivial))
      (by simp only [rank] at hfuel ⊢; omega)
    simp only [Target, Ok, parse_stmt, c0, hx, pk, ht, e1, ↓reduceIte, reduceCtorEq, or_self]
    exact ⟨_, _, rfl, h1⟩
  case if_only a ha iha =>
    intro fuel s q hs hq hfuel
    obtain ⟨f, rfl⟩ : ∃ f, fuel = f + 2 := ⟨fuel - 2, by simp only [rank] at hfuel; omega⟩
    obtain ⟨n, s1, e1, h1⟩ := iha (f + 1) s q hs (hq.mono (fun k hk => trivial))
      (by simp only [rank] at hfuel ⊢; omega)
    obtain ⟨t, r, rfl, hk⟩ := hq
    have c1 := h1.cur
    have hk1 : t.type ≠ TOK_ELSE := hk
    have e2 : parse_else_opt (f + 1) s1 = some (none, s1) := by
      simp only [parse_else_opt, c1, hk1, ↓reduceIte]
    simp only [Target, Ok, parse_if_stmt, e1, e2]
    exact ⟨_, _, rfl, h1⟩
  case if_else a b ha hb iha ihb =>
    intro fuel s q hs hq hfuel
    obtain ⟨f, rfl⟩ : ∃ f, fuel = f + 1 := ⟨fuel - 1, by simp only [rank] at hfuel; omega⟩
    obtain ⟨n, s1, e1, h1⟩ := iha f s (b ++ q) (by rw [← List.append_assoc]; exact hs)
      ((HeadIs.append (P := fun k => k = TOK_ELSE) (parses_first hb) q).mono
        (fun k hk => trivial))
      (by simp only [rank, List.length_append, List.length_cons, List.length_nil] at hfuel ⊢
          omega)
    obtain ⟨n2, s2, e2, h2⟩ := ihb f s1 q h1 (hq.mono (fun k hk => trivial))
      (by simp only [rank, List.length_append, List.length_cons, List.length_nil] at hfuel ⊢
          omega)
    simp only [Target, Ok, parse_if_stmt, e1, e2]
    exact ⟨_, _, rfl, h2⟩
  case if_then e w t1 t2 t3 t4 t5 t6 ht1 ht2 ht3 ht4 ht5 ht6 hn he hw ihe ihw =>
    intro fuel s q hs hq hfuel
    obtain ⟨f, rfl⟩ : ∃ f, fuel = f + 1 := ⟨fuel - 1, by simp only [rank] at hfuel; omega⟩
    have hs0 := hs
    simp only [List.append_assoc, List.cons_append, List.nil_append] at hs0
    have c0 := hs0.cur
    have hs1 := hs0.next (by simp)
    have c1 := hs1.cur
    have hs2 := hs1.next (by simp)
    obtain ⟨n, s2, e2, h2⟩ := ihe f _ _ hs2 ⟨t3, _, rfl, by simp [Follow, ht3]⟩
      (by simp only [rank, List.length_append, List.length_cons, List.length_nil] at hfuel ⊢
          omega)
    have c2 := h2.cur
    have h3 := h2.next (by simp)
    have c3 := h3.cur
    have h4 := h3.next (by simp)
    have c4 := h4.cur
    have h5 := h4.next (by simp)
    obtain ⟨x, s5, e5, h6⟩ := complete_block _ _ _ _ ihw hn f _ (t6 :: q) h5
      ⟨t6, q, rfl, Or.inr (Or.inl ht6)⟩
      (by simp only [rank, List.length_append, List.length_cons, List.length_nil] at hfuel ⊢
          omega)
    have c6 := h6.cur
    have h7 := h6.next hq.ne_nil
    simp only [Target, Ok, parse_if_then, c0, ht1, c1, ht2, e2, c2, ht3, c3, ht4, c4, ht5, e5,
      c6, ht6, ne_eq, not_true_eq_false, ↓reduceIte]
    exact ⟨_, _, rfl, h7⟩
  case else_opt w t1 t2 t3 ht1 ht2 ht3 hn hw ihw =>
    intro fuel s q hs hq hfuel
    obtain ⟨f, rfl⟩ : ∃ f, fuel = f + 1 := ⟨fuel - 1, by simp only [rank] at hfuel; omega⟩
    have hs0 := hs
    simp only [List.append_assoc, List.cons_append, List.nil_append] at hs0
    have c0 := hs0.cur
    have hs1 := hs0.next (by simp)
    have c1 := hs1.cur
    have hs2 := hs1.next (by simp)
    obtain ⟨x, s2, e2, h2⟩ := complete_block _ _ _ _ ihw hn f _ (t3 :: q) hs2
      ⟨t3, q, rfl, Or.inr (Or.inl ht3)⟩
      (by simp only [rank, List.length_append, List.length_cons, List.length_nil] at hfuel ⊢
          omega)
    have c2 := h2.cur
    have h3 := h2.next hq.ne_nil
    simp only [Target, Ok, parse_else_opt, c0, ht1, c1, ht2, e2, c2, ht3, ne_eq,
      not_true_eq_false, ↓reduceIte]
    exact ⟨_, _, rfl, h3⟩
  case do_while w e t1 t2 t3 t4 t5 t6 t7 ht1 ht2 ht3 ht4 ht5 ht6 ht7 hn hw he ihw ihe =>
    intro fuel s q hs hq hfuel
    obtain ⟨f, rfl⟩ : ∃ f, fuel = f + 1 := ⟨fuel - 1, by simp only [rank] at hfuel; omega⟩
    have hs0 := hs
    simp only [List.append_assoc, List.cons_append, List.nil_append] at hs0
    have c0 := hs0.cur
    have hs1 := hs0.next (by simp)
    have c1 := hs1.cur
    have hs2 := hs1.next (by simp)
    obtain ⟨x, s2, e2, h2⟩ := complete_block _ _ _ _ ihw hn f _ _ hs2
      ⟨t3, _, rfl, Or.inr (Or.inl ht3)⟩
      (by simp only [rank, List.length_append, List.length_cons, List.length_nil] at hfuel ⊢
          omega)
    have c2 := h2.cur
    have h3 := h2.next (by simp)
    have c3 := h3.cur
    have h4 := h3.next (by simp)
    have c4 := h4.cur
    have h5 := h4.next (by simp)
    obtain ⟨n, s5, e5, h6⟩ := ihe f _ _ h5 ⟨t6, _, rfl, by simp [Follow, ht6]⟩
      (by simp only [rank, List.length_append, List.length_cons, List.length_nil] at hfuel ⊢
          omega)
    have c6 := h6.cur
    have h7 := h6.next (by simp)
    have c7 := h7.cur
    have h8 := h7.next hq.ne_nil
    simp only [Target, Ok, parse_do_while_stmt, c0, ht1, c1, ht2, e2, c2, ht3, c3, ht4, c4, ht5,
      e5, c6, ht6, c7, ht7, ne_eq, not_true_eq_false, ↓reduceIte]
    exact ⟨_, _, rfl, h8⟩
  case print e t1 t2 t3 t4 ht1 ht2 ht3 ht4 he ihe =>
    intro fuel s q hs hq hfuel
    have hs0 := hs
    simp only [List.append_assoc, List.cons_append, List.nil_append] at hs0
    have c0 := hs0.cur
    have hs1 := hs0.next (by simp)
    have c1 := hs1.cur
    have hs2 := hs1.next (by simp)
    obtain ⟨n, s2, e2, h2⟩ := ihe fuel _ _ hs2 ⟨t3, _, rfl, by simp [Follow, ht3]⟩
      (by simp only [rank, List.length_append, List.length_cons, List.length_nil] at hfuel ⊢
          omega)
    have c2 := h2.cur
    have h3 := h2.next (by simp)
    have c3 := h3.cur
    have h4 := h3.next hq.ne_nil
    simp only [Target, Ok, parse_print_stmt, c0, ht1, c1, ht2, e2, c2, ht3, c3, ht4, ne_eq,
      not_true_eq_false, ↓reduceIte]
    exact ⟨_, _, rfl, h4⟩
  case decl t d t1 ht1 ht hd iht ihd =>
    intro fuel s q hs hq hfuel
    have hs0 := hs
    simp only [List.append_assoc, List.cons_append, List.nil_append] at hs0
    obtain ⟨ty, s1, e1, h1⟩ := iht fuel s _ hs0
      ((HeadIs.of_ne_nil (by simp)).mono (fun k hk => trivial))
      (by simp only [rank, List.length_append, List.length_cons, List.length_nil] at hfuel ⊢
          omega)
    simp only [Option.some.injEq] at e1
    obtain ⟨n, line, s2, e2, h2⟩ := ihd fuel s1 (t1 :: q) h1
      ⟨t1, q, rfl, by simp [Follow, ht1]⟩
      (by simp only [rank, List.length_append, List.length_cons, List.length_nil] at hfuel ⊢
          omega)
      (type_str ty)
    have c2 := h2.cur
    have h3 := h2.next hq.ne_nil
    simp only [Target, Ok, parse_decl_stmt, e1, e2, c2, ht1, ne_eq, not_true_eq_false,
      ↓reduceIte]
    exact ⟨_, _, rfl, h3⟩
  case ty_int t1 ht1 =>
    intro fuel s q hs hq hfuel
    have hs0 := hs
    simp only [List.append_assoc, List.cons_append, List.nil_append] at hs0
    have c0 := hs0.cur
    have h1 := hs0.next hq.ne_nil
    simp only [Target, Ok, parse_type, c0, ht1, ↓reduceIte]
    exact ⟨_, _, rfl, h1⟩
  case ty_bool t1 ht1 =>
    intro fuel s q hs hq hfuel
    have hs0 := hs
    simp only [List.append_assoc, List.cons_append, List.nil_append] at hs0
    have c0 := hs0.cur
    have h1 := hs0.next hq.ne_nil
    simp only [Target, Ok, parse_type, c0, ht1, ↓reduceIte, reduceCtorEq]
    exact ⟨_, _, rfl, h1⟩
  case init_plain x hx hnew hlen =>
    intro fuel s q hs hq hfuel ty
    obtain ⟨t, r, rfl, hk⟩ := hq
    have hs0 := hs
    simp only [List.append_assoc, List.cons_append, List.nil_append] at hs0
    have c0 := hs0.cur
    have h1 := hs0.next (by simp)
    have c1 := h1.cur
    have h2 := h1.declare hnew hlen ty x.line
    have hk1 : t.type ≠ TOK_ASSIGN := hk.2.2.2.2.2
    simp only [parse_init_decl, c0, hx, c1, hk1, ne_eq, not_true_eq_false, ↓reduceIte]
    exact ⟨_, _, _, rfl, h2⟩
  case init_expr e x t1 hx ht1 he hnew hlen ihe =>
    intro fuel s q hs hq hfuel ty
    have hs0 := hs
    simp only [List.append_assoc, List.cons_append, List.nil_append] at hs0
    have c0 := hs0.cur
    have h1 := hs0.next (by simp)
    have c1 := h1.cur
    have h2 := h1.next (by simp [hq.ne_nil])
    obtain ⟨n, s2, e2, h3⟩ := ihe fuel _ q h2
      (hq.mono (fun k hk => ⟨hk.1, hk.2.1, hk.2.2.1, hk.2.2.2.1, hk.2.2.2.2.1⟩))
      (by simp only [rank, List.length_append, List.length_cons, List.length_nil] at hfuel ⊢
          omega)
    have h4 := h3.declare hnew hlen ty x.line
    simp only [parse_init_decl, c0, hx, c1, ht1, e2, ne_eq, not_true_eq_false, ↓reduceIte]
    exact ⟨_, _, _, rfl, h4⟩
  case assign e x t1 t2 hx hmem ht1 ht2 he ihe =>
    intro fuel s q hs hq hfuel
    have hs0 := hs
    simp only [List.append_assoc, List.cons_append, List.nil_append] at hs0
    have c0 := hs0.cur
    have d0 := hs0.declared hmem
    have h1 := hs0.next (by simp)
    have c1 := h1.cur
    have h2 := h1.next (by simp)
    obtain ⟨n, s2, e2, h3⟩ := ihe fuel _ _ h2 ⟨t2, _, rfl, by simp [Follow, ht2]⟩
      (by simp only [rank, List.length_append, List.length_cons, List.length_nil] at hfuel ⊢
          omega)
    have c3 := h3.cur
    have h4 := h3.next hq.ne_nil
    simp only [Target, Ok, parse_assign_stmt, c0, hx, d0, c1, ht1, e2, c3, ht2, ne_eq,
      not_true_eq_false, Bool.not_true, Bool.false_eq_true, ↓reduceIte]
    exact ⟨_, _, rfl, h4⟩
  case for_stmt i c u w t1 t2 t3 t4 t5 t6 t7 ht1 ht2 ht3 ht4 ht5 ht6 ht7 hn hi hc hu hw
      ihi ihc ihu ihw =>
    intro fuel s q hs hq hfuel
    obtain ⟨f, rfl⟩ : ∃ f, fuel = f + 1 := ⟨fuel - 1, by simp only [rank] at hfuel; omega⟩
    have hs0 := hs
    simp only [List.append_assoc, List.cons_append, List.nil_append] at hs0
    have c0 := hs0.cur
    have hs1 := hs0.next (by simp)
    have c1 := hs1.cur
    have hs2 := hs1.next (by simp)
    obtain ⟨n2, s2, e2, h2⟩ := ihi f _ _ hs2 ⟨t3, _, rfl, by simp [Follow, ht3]⟩
      (by simp only [rank, List.length_append, List.length_cons, List.length_nil] at hfuel ⊢
          omega)
    have c2 := h2.cur
    have h3 := h2.next (by simp)
    obtain ⟨n3, s3, e3, h4⟩ := ihc f _ _ h3 ⟨t4, _, rfl, by simp [Follow, ht4]⟩
      (by simp only [rank, List.length_append, List.length_cons, List.length_nil] at hfuel ⊢
          omega)
    have c4 := h4.cur
    have h5 := h4.next (by simp)
    obtain ⟨n4, s4, e4, h6⟩ := ihu f _ _ h5 ⟨t5, _, rfl, by simp [Follow, ht5]⟩
      (by simp only [rank, List.length_append, List.length_cons, List.length_nil] at hfuel ⊢
          omega)
    have c6 := h6.cur
    have h7 := h6.next (by simp)
    have c7 := h7.cur
    have h8 := h7.next (by simp)
    obtain ⟨x, s6, e6, h9⟩ := complete_block _ _ _ _ ihw hn f _ (t7 :: q) h8
      ⟨t7, q, rfl, Or.inr (Or.inl ht7)⟩
      (by simp only [rank, List.length_append, List.length_cons, List.length_nil] at hfuel ⊢
          omega)
    have c9 := h9.cur
    have h10 := h9.next hq.ne_nil
    simp only [Target, Ok, parse_for_stmt, c0, ht1, c1, ht2, e2, c2, ht3, e3, c4, ht4, e4, c6,
      ht5, c7, ht6, e6, c9, ht7, ne_eq, not_true_eq_false, ↓reduceIte]
    exact ⟨_, _, rfl, h10⟩
  case for_init_decl t d ht hd iht ihd =>
    intro fuel s q hs hq hfuel
    obtain ⟨tt, r, rfl, hk⟩ := parses_first ht
    have hs0 := hs
    simp only [List.append_assoc, List.cons_append, List.nil_append] at hs0
    have c0 := hs0.cur
    have hc : s.current_token.type = TOK_INT ∨ s.current_token.type = TOK_BOOL := by
      rw [c0]; exact hk
    obtain ⟨ty, s1, e1, h1⟩ := iht fuel s (d ++ q) (by rw [← List.append_assoc]; exact hs)
      ((HeadIs.of_ne_nil (by simp [hq.ne_nil])).mono (fun k hk => trivial))
      (by simp only [rank, List.length_append, List.length_cons, List.length_nil] at hfuel ⊢
          omega)
    simp only [Option.some.injEq] at e1
    obtain ⟨n, line, s2, e2, h2⟩ := ihd fuel s1 q h1 (hq.mono (fun k hk => hk))
      (by simp only [rank, List.length_append, List.length_cons, List.length_nil] at hfuel ⊢
          omega)
      (type_str ty)
    simp only [Target, Ok, for_init, if_pos hc, e1, e2]
    exact ⟨_, _, rfl, h2⟩
  case for_init_assign e x t1 hx hmem ht1 he ihe =>
    intro fuel s q hs hq hfuel
    have hs0 := hs
    simp only [List.append_assoc, List.cons_append, List.nil_append] at hs0
    have c0 := hs0.cur
    have d0 := hs0.declared hmem
    have h1 := hs0.next (by simp)
    have c1 := h1.cur
    have h2 := h1.next (by simp [hq.ne_nil])
    obtain ⟨n, s2, e2, h3⟩ := ihe fuel _ q h2
      (hq.mono (fun k hk => ⟨hk.1, hk.2.1, hk.2.2.1, hk.2.2.2.1, hk.2.2.2.2.1⟩))
      (by simp only [rank, List.length_append, List.length_cons, List.length_nil] at hfuel ⊢
          omega)
    simp only [Target, Ok, for_init, c0, hx, d0, c1, ht1, e2, ne_eq, not_true_eq_false,
      Bool.not_true, Bool.false_eq_true, ↓reduceIte, reduceCtorEq, or_self]
    exact ⟨_, _, rfl, h3⟩
  case update e x t1 hx hmem ht1 he ihe =>
    intro fuel s q hs hq hfuel
    have hs0 := hs
    simp only [List.append_assoc, List.cons_append, List.nil_append] at hs0
    have c0 := hs0.cur
    have d0 := hs0.declared hmem
    have h1 := hs0.next (by simp)
    have c1 := h1.cur
    have h2 := h1.next (by simp [hq.ne_nil])
    obtain ⟨n, s2, e2, h3⟩ := ihe fuel _ q h2 (hq.mono (fun k hk => hk))
      (by simp only [rank, List.length_append, List.length_cons, List.length_nil] at hfuel ⊢
          omega)
    simp only [Target, Ok, for_update, c0, hx, d0, c1, ht1, e2, ne_eq, not_true_eq_false,
      Bool.not_true, Bool.false_eq_true, ↓reduceIte]
    exact ⟨_, _, rfl, h3⟩
  case expr ih =>
    intro fuel s q hs hq hfuel
    obtain ⟨f, rfl⟩ : ∃ f, fuel = f + 1 := ⟨fuel - 1, by simp only [rank] at hfuel; omega⟩
    obtain ⟨n, s1, e1, h1⟩ := ih f s q hs (hq.mono (fun k hk => hk))
      (by simp only [rank] at hfuel ⊢; omega)
    exact ⟨n, s1, by simp only [parse_expr, e1], h1⟩
  case eq_expr a b ha hb iha ihb =>
    intro fuel s q hs hq hfuel
    obtain ⟨f, rfl⟩ : ∃ f, fuel = f + 1 := ⟨fuel - 1, by simp only [rank] at hfuel; omega⟩
    have hs0 := hs
    simp only [List.append_assoc, List.cons_append, List.nil_append] at hs0
    obtain ⟨n, s1, e1, h1⟩ := iha f s (b ++ q) hs0
      ((parses_first hb).follow hq (fun k hk => by simp [Follow, hk])
        (fun k hk => ⟨hk.1, hk.2.1, hk.2.2.1, hk.2.2.2.1⟩))
      (by simp only [rank, List.length_append] at hfuel ⊢; omega)
    have h2 := ihb f s1 q h1 (hq.mono (fun k hk => hk))
      (by simp only [rank, List.length_append] at hfuel ⊢; omega) n
    simp only [Target, Ok, parse_eq_expr, e1]
    exact h2
  case eq_nil =>
    intro fuel s q hs hq hfuel acc
    obtain ⟨f, rfl⟩ : ∃ f, fuel = f + 1 := ⟨fuel - 1, by simp only [rank] at hfuel; omega⟩
    obtain ⟨t, r, rfl, hk⟩ := hq
    have hs0 := hs
    simp only [List.append_assoc, List.cons_append, List.nil_append] at hs0
    have c0 := hs0.cur
    simp only [Target, Ok, parse_eq_loop, c0, hk.2.2.2.2, ↓reduceIte]
    exact ⟨_, _, rfl, hs0⟩
  case eq_cons a b t1 ht1 ha hb iha ihb =>
    intro fuel s q hs hq hfuel acc
    obtain ⟨f, rfl⟩ : ∃ f, fuel = f + 1 := ⟨fuel - 1, by simp only [rank] at hfuel; omega⟩
    have hs0 := hs
    simp only [List.append_assoc, List.cons_append, List.nil_append] at hs0
    have c0 := hs0.cur
    have hs1 := hs0.next (by simp [hq.ne_nil])
    obtain ⟨n, s1, e1, h1⟩ := iha f _ (b ++ q) hs1
      ((parses_first hb).follow hq (fun k hk => by simp [Follow, hk])
        (fun k hk => ⟨hk.1, hk.2.1, hk.2.2.1, hk.2.2.2.1⟩))
      (by simp only [rank, List.length_append, List.length_cons, List.length_nil] at hfuel ⊢
          omega)
    have h2 := ihb f s1 q h1 hq
      (by simp only [rank, List.length_append, List.length_cons, List.length_nil] at hfuel ⊢
          omega)
    simp only [Target, Ok, parse_eq_loop, c0, ht1, if_true, e1]
    exact h2 _
  case rel_expr a b ha hb iha ihb =>
    intro fuel s q hs hq hfuel
    obtain ⟨f, rfl⟩ : ∃ f, fuel = f + 1 := ⟨fuel - 1, by simp only [rank] at hfuel; omega⟩
    have hs0 := hs
    simp only [List.append_assoc, List.cons_append, List.nil_append] at hs0
    obtain ⟨n, s1, e1, h1⟩ := iha f s (b ++ q) hs0
      ((parses_first hb).follow hq
        (fun k hk => by rcases hk with hk | hk <;> simp [Follow, hk])
        (fun k hk => ⟨hk.1, hk.2.1⟩))
      (by simp only [rank, List.length_append] at hfuel ⊢; omega)
    have h2 := ihb f s1 q h1 (hq.mono (fun k hk => hk))
      (by simp only [rank, List.length_append] at hfuel ⊢; omega) n
    simp only [Target, Ok, parse_rel_expr, e1]
    exact h2
  case rel_nil =>
    intro fuel s q hs hq hfuel acc
    obtain ⟨f, rfl⟩ : ∃ f, fuel = f + 1 := ⟨fuel - 1, by simp only [rank] at hfuel; omega⟩
    obtain ⟨t, r, rfl, hk⟩ := hq
    have hs0 := hs
    simp only [List.append_assoc, List.cons_append, List.nil_append] at hs0
    have c0 := hs0.cur
    simp only [Target, Ok, parse_rel_loop, c0, hk.2.2.1, hk.2.2.2, or_self, ↓reduceIte]
    exact ⟨_, _, rfl, hs0⟩
  case rel_cons a b t1 ht1 ha hb iha ihb =>
    intro fuel s q hs hq hfuel acc
    obtain ⟨f, rfl⟩ : ∃ f, fuel = f + 1 := ⟨fuel - 1, by simp only [rank] at hfuel; omega⟩
    have hs0 := hs
    simp only [List.append_assoc, List.cons_append, List.nil_append] at hs0
    have c0 := hs0.cur
    have hc : s.current_token.type = TOK_GT ∨ s.current_token.type = TOK_GTE := by
      rw [c0]; exact ht1
    have hs1 := hs0.next (by simp [hq.ne_nil])
    obtain ⟨n, s1, e1, h1⟩ := iha f _ (b ++ q) hs1
      ((parses_first hb).follow hq
        (fun k hk => by rcases hk with hk | hk <;> simp [Follow, hk])
        (fun k hk => ⟨hk.1, hk.2.1⟩))
      (by simp only [rank, List.length_append, List.length_cons, List.length_nil] at hfuel ⊢
          omega)
    have h2 := ihb f s1 q h1 hq
      (by simp only [rank, List.length_append, List.length_cons, List.length_nil] at hfuel ⊢
          omega)
    simp only [Target, Ok, parse_rel_loop, if_pos hc, e1]
    exact h2 _
  case add_expr a b ha hb iha ihb =>
    intro fuel s q hs hq hfuel
    obtain ⟨f, rfl⟩ : ∃ f, fuel = f + 1 := ⟨fuel - 1, by simp only [rank] at hfuel; omega⟩
    have hs0 := hs
    simp only [List.append_assoc, List.cons_append, List.nil_append] at hs0
    obtain ⟨n, s1, e1, h1⟩ := iha f s (b ++ q) hs0
      ((parses_first hb).follow hq (fun k hk => by simp [Follow, hk]) (fun k hk => hk.1))
      (by simp only [rank, List.length_append] at hfuel ⊢; omega)
    have h2 := ihb f s1 q h1 (hq.mono (fun k hk => hk))
      (by simp only [rank, List.length_append] at hfuel ⊢; omega) n
    simp only [Target, Ok, parse_add_expr, e1]
    exact h2
  case add_nil =>
    intro fuel s q hs hq hfuel acc
    obtain ⟨f, rfl⟩ : ∃ f, fuel = f + 1 := ⟨fuel - 1, by simp only [rank] at hfuel; omega⟩
    obtain ⟨t, r, rfl, hk⟩ := hq
    have hs0 := hs
    simp only [List.append_assoc, List.cons_append, List.nil_append] at hs0
    have c0 := hs0.cur
    simp only [Target, Ok, parse_add_loop, c0, hk.2, ↓reduceIte]
    exact ⟨_, _, rfl, hs0⟩
  case add_cons a b t1 ht1 ha hb iha ihb =>
    intro fuel s q hs hq hfuel acc
    obtain ⟨f, rfl⟩ : ∃ f, fuel = f + 1 := ⟨fuel - 1, by simp only [rank] at hfuel; omega⟩
    have hs0 := hs
    simp only [List.append_assoc, List.cons_append, List.nil_append] at hs0
    have c0 := hs0.cur
    have hs1 := hs0.next (by simp [hq.ne_nil])
    obtain ⟨n, s1, e1, h1⟩ := iha f _ (b ++ q) hs1
      ((parses_first hb).follow hq (fun k hk => by simp [Follow, hk]) (fun k hk => hk.1))
      (by simp only [rank, List.length_append, List.length_cons, List.length_nil] at hfuel ⊢
          omega)
    have h2 := ihb f s1 q h1 hq
      (by simp only [rank, List.length_append, List.length_cons, List.length_nil] at hfuel ⊢
          omega)
    simp only [Target, Ok, parse_add_loop, c0, ht1, if_true, e1]
    exact h2 _
  case mul_expr a b ha hb iha ihb =>
    intro fuel s q hs hq hfuel
    obtain ⟨f, rfl⟩ : ∃ f, fuel = f + 1 := ⟨fuel - 1, by simp only [rank] at hfuel; omega⟩
    have hs0 := hs
    simp only [List.append_assoc, List.cons_append, List.nil_append] at hs0
    obtain ⟨n, s1, e1, h1⟩ := iha f s (b ++ q) hs0
      ((parses_first hb).follow hq (fun k hk => trivial) (fun k hk => trivial))
      (by simp only [rank, List.length_append] at hfuel ⊢; omega)
    have h2 := ihb f s1 q h1 (hq.mono (fun k hk => hk))
      (by simp only [rank, List.length_append] at hfuel ⊢; omega) n
    simp only [Target, Ok, parse_mul_expr, e1]
    exact h2
  case mul_nil =>
    intro fuel s q hs hq hfuel acc
    obtain ⟨f, rfl⟩ : ∃ f, fuel = f + 1 := ⟨fuel - 1, by simp only [rank] at hfuel; omega⟩
    obtain ⟨t, r, rfl, hk⟩ := hq
    have hs0 := hs
    simp only [List.append_assoc, List.cons_append, List.nil_append] at hs0
    have c0 := hs0.cur
    have hk1 : t.type ≠ TOK_MUL := hk
    simp only [Target, Ok, parse_mul_loop, c0, hk1, ↓reduceIte]
    exact ⟨_, _, rfl, hs0⟩
  case mul_cons a b t1 ht1 ha hb iha ihb =>
    intro fuel s q hs hq hfuel acc
    obtain ⟨f, rfl⟩ : ∃ f, fuel = f + 1 := ⟨fuel - 1, by simp only [rank] at hfuel; omega⟩
    have hs0 := hs
    simp only [List.append_assoc, List.cons_append, List.nil_append] at hs0
    have c0 := hs0.cur
    have hs1 := hs0.next (by simp [hq.ne_nil])
    obtain ⟨n, s1, e1, h1⟩ := iha f _ (b ++ q) hs1
      ((parses_first hb).follow hq (fun k hk => trivial) (fun k hk => trivial))
      (by simp only [rank, List.length_append, List.length_cons, List.length_nil] at hfuel ⊢
          omega)
    have h2 := ihb f s1 q h1 hq
      (by simp only [rank, List.length_append, List.length_cons, List.length_nil] at hfuel ⊢
          omega)
    simp only [Target, Ok, parse_mul_loop, c0, ht1, if_true, e1]
    exact h2 _
  case prim_id x hx hmem =>
    intro fuel s q hs hq hfuel
    obtain ⟨f, rfl⟩ : ∃ f, fuel = f + 1 := ⟨fuel - 1, by simp only [rank] at hfuel; omega⟩
    have hs0 := hs
    simp only [List.append_assoc, List.cons_append, List.nil_append] at hs0
    have c0 := hs0.cur
    have d0 := hs0.declared hmem
    have h1 := hs0.next hq.ne_nil
    simp only [Target, Ok, parse_prim_expr, c0, hx, d0, Bool.not_true, Bool.false_eq_true,
      ↓reduceIte]
    exact ⟨_, _, rfl, h1⟩
  case prim_lit t1 ht1 =>
    intro fuel s q hs hq hfuel
    obtain ⟨f, rfl⟩ : ∃ f, fuel = f + 1 := ⟨fuel - 1, by simp only [rank] at hfuel; omega⟩
    have hs0 := hs
    simp only [List.append_assoc, List.cons_append, List.nil_append] at hs0
    have c0 := hs0.cur
    have h1 := hs0.next hq.ne_nil
    rcases ht1 with hk | hk | hk
    · simp only [Target, Ok, parse_prim_expr, parse_lit, c0, hk, ↓reduceIte, reduceCtorEq,
        true_or]
      exact ⟨_, _, rfl, h1⟩
    · simp only [Target, Ok, parse_prim_expr, parse_lit, c0, hk, ↓reduceIte, reduceCtorEq,
        true_or, or_true]
      exact ⟨_, _, rfl, h1⟩
    · simp only [Target, Ok, parse_prim_expr, parse_lit, c0, hk, ↓reduceIte, reduceCtorEq,
        true_or, or_true]
      exact ⟨_, _, rfl, h1⟩
  case prim_paren e t1 t2 ht1 ht2 he ihe =>
    intro fuel s q hs hq hfuel
    obtain ⟨f, rfl⟩ : ∃ f, fuel = f + 1 := ⟨fuel - 1, by simp only [rank] at hfuel; omega⟩
    have hs0 := hs
    simp only [List.append_assoc, List.cons_append, List.nil_append] at hs0
    have c0 := hs0.cur
    have hs1 := hs0.next (by simp)
    obtain ⟨n, s1, e1, h1⟩ := ihe f _ _ hs1 ⟨t2, _, rfl, by simp [Follow, ht2]⟩
      (by simp only [rank, List.length_append, List.length_cons, List.length_nil] at hfuel ⊢
          omega)
    have c1 := h1.cur
    have h2 := h1.next hq.ne_nil
    simp only [Target, Ok, parse_prim_expr, c0, ht1, e1, c1, ht2, ne_eq, not_true_eq_false,
      ↓reduceIte, reduceCtorEq, or_self]
    exact ⟨_, _, rfl, h2⟩

/-- The state in which `parse_prog` is called when it starts on a fresh state: the
cursor is on the first token, nothing is declared, the collector is empty. -/
theorem fresh_ready (s : State) (toks : List Token) (eof : Token)
    (htoks : s.token_list = toks ++ [eof]) (hidx : s.token_index = -1)
    (hsym : s.symbol_table = []) (herr : s.errors = []) :
    Ready (next_token s) [] (toks ++ [eof]) := by
  have hlen : 0 < (toks ++ [eof]).length := by simp
  rw [next_token_eq, if_pos (by rw [hidx, htoks]; omega)]
  have h0 : (s.token_index + 1).toNat = 0 := by rw [hidx]; rfl
  refine ⟨by dsimp only; omega, ?_, ?_, ?_, herr⟩
  · show List.drop (s.token_index + 1).toNat s.token_list = toks ++ [eof]
    rw [h0, htoks]; rfl
  · dsimp only
    rw [h0, htoks, List.drop_zero]
    cases toks <;> rfl
  · show Upl.names _ = []
    simp [Upl.names, hsym]

/-- Completeness of `parse_prog` on a token-level derivation. -/
theorem complete_prog (toks : List Token) (eof : Token) (G1 : List Str) (s : State)
    (h : Parses MAX_STMTS MAX_SYMBOLS NT.Prog [] toks G1) (heof : eof.type = TOK_EOF)
    (htoks : s.token_list = toks ++ [eof]) (hidx : s.token_index = -1)
    (hsym : s.symbol_table = []) (herr : s.errors = [])
    (fuel : Nat) (hfuel : 4 * toks.length ≤ fuel) :
    ∃ root s2, parse_prog fuel (next_token s) = some (some root, s2) ∧ s2.errors = [] ∧
      s2.current_token.type = TOK_EOF ∧ Upl.names s2 = G1 := by
  obtain ⟨root, s2, e, h2⟩ := complete_all h fuel (next_token s) [eof]
    (fresh_ready s toks eof htoks hidx hsym herr) ⟨eof, [], rfl, trivial⟩
    (by simp only [rank]; omega)
  exact ⟨root, s2, e, h2.errors, by rw [h2.cur]; exact heof, h2.names⟩

/-! ## From the grammar and the scan to token-level derivations -/

theorem kinds_nil_inv {w : List Token} (h : kinds w = []) : w = [] := by
  simpa [kinds] using h

theorem kinds_cons_inv {w : List Token} {k : TokenType} {ks : List TokenType}
    (h : kinds w = k :: ks) : ∃ t r, w = t :: r ∧ t.type = k ∧ kinds r = ks := by
  cases w with
  | nil => simp [kinds] at h
  | cons t r =>
    simp only [kinds, List.map_cons, List.cons.injEq] at h
    exact ⟨t, r, rfl, h.1, h.2⟩

theorem kinds_append_inv {w : List Token} {a b : List TokenType} (h : kinds w = a ++ b) :
    ∃ w1 w2, w = w1 ++ w2 ∧ kinds w1 = a ∧ kinds w2 = b := by
  induction a generalizing w with
  | nil => exact ⟨[], w, rfl, rfl, h⟩
  | cons k a ih =>
    obtain ⟨t, r, rfl, ht, hr⟩ := kinds_cons_inv h
    obtain ⟨w1, w2, rfl, h1, h2⟩ := ih hr
    exact ⟨t :: w1, w2, rfl, by simp [kinds, ht, ← h1], h2⟩

theorem scan_append_some {sc sc1 : Scope} {a b : List Token}
    (h : scope_scan sc (a ++ b) = some sc1) :
    ∃ m, scope_scan sc a = some m ∧ scope_scan m b = some sc1 := by
  rw [scope_scan_append] at h
  cases hm : scope_scan sc a with
  | none => rw [hm] at h; cases h
  | some m => rw [hm] at h; exact ⟨m, rfl, h⟩

theorem scope_step_count {sc sc1 : Scope} {t : Token} (h : scope_step sc t = some sc1) :
    sc.count ≤ sc1.count := by
  obtain ⟨G, p, a⟩ := sc
  unfold scope_step at h
  split_ifs at h <;> cases h <;> simp [Scope.count] <;> (cases p <;> simp)

theorem scope_scan_count {sc sc1 : Scope} {w : List Token} (h : scope_scan sc w = some sc1) :
    sc.count ≤ sc1.count := by
  induction w generalizing sc with
  | nil => simp only [scope_scan, Option.some.injEq] at h; rw [h]
  | cons t r ih =>
    simp only [scope_scan] at h
    cases hm : scope_step sc t with
    | none => rw [hm] at h; cases h
    | some m =>
      rw [hm] at h
      exact Nat.le_trans (scope_step_count hm) (ih h)

theorem scan_nil {sc sc1 : Scope} (h : scope_scan sc [] = some sc1) : sc1 = sc := by
  simp only [scope_scan, Option.some.injEq] at h
  exact h.symm

theorem scan_plain {G : List Str} {p : Option Str} {a : Bool} (t : Token) {r : List Token}
    (h : t.type ≠ TOK_INT ∧ t.type ≠ TOK_BOOL ∧ t.type ≠ TOK_ID ∧ t.type ≠ TOK_SEMICOLON) :
    scope_scan ⟨G, p, a⟩ (t :: r) = scope_scan ⟨G, p, false⟩ r := by
  simp [scope_scan, scope_step, h.1, h.2.1, h.2.2.1, h.2.2.2]

theorem scan_semicolon {G : List Str} {p : Option Str} {a : Bool} (t : Token)
    {r : List Token} (h : t.type = TOK_SEMICOLON) :
    scope_scan ⟨G, p, a⟩ (t :: r) = scope_scan ⟨G ++ p.toList, none, false⟩ r := by
  simp [scope_scan, scope_step, h]

theorem scan_type {G : List Str} {p : Option Str} {a : Bool} (t : Token) {r : List Token}
    (h : t.type = TOK_INT ∨ t.type = TOK_BOOL) :
    scope_scan ⟨G, p, a⟩ (t :: r) = scope_scan ⟨G, p, true⟩ r := by
  simp [scope_scan, scope_step, h]

theorem scan_use {G : List Str} {p : Option Str} (t : Token) {r : List Token} {sc1 : Scope}
    (h : t.type = TOK_ID) (hs : scope_scan ⟨G, p, false⟩ (t :: r) = some sc1) :
    t.text ∈ G ∧ scope_scan ⟨G, p, false⟩ r = some sc1 := by
  by_cases hm : t.text ∈ G
  · refine ⟨hm, ?_⟩
    simpa [scope_scan, scope_step, h, hm] using hs
  · simp [scope_scan, scope_step, h, hm] at hs

theorem scan_decl {G : List Str} (t : Token) {r : List Token} {sc1 : Scope}
    (h : t.type = TOK_ID) (hs : scope_scan ⟨G, none, true⟩ (t :: r) = some sc1) :
    t.text ∉ G ∧ scope_scan ⟨G, some t.text, false⟩ r = some sc1 := by
  by_cases hm : t.text ∈ G
  · simp [scope_scan, scope_step, h, hm] at hs
  · refine ⟨hm, ?_⟩
    simpa [scope_scan, scope_step, h, hm] using hs

theorem derives_bridge {B M : Nat} {nt : NT} {ks : List TokenType} (h : Derives B nt ks) :
    ∀ w, kinds w = ks → Bridge B M nt w := by
  induction h
  case prog n ks hn hd ih =>
    intro w hk
    simp only [List.append_assoc, List.cons_append, List.nil_append] at hk
    obtain ⟨t1, r, rfl, ht1, hk⟩ := kinds_cons_inv hk
    obtain ⟨ww, r, rfl, hkw, hk⟩ := kinds_append_inv hk
    obtain ⟨t2, r, rfl, ht2, hk⟩ := kinds_cons_inv hk
    obtain rfl := kinds_nil_inv hk
    intro G sc1 hscan hcap
    rw [scan_plain t1 (by rw [ht1]; decide)] at hscan
    obtain ⟨m, hm, hscan⟩ := scan_append_some hscan
    obtain ⟨G1, rfl, pw⟩ := ih ww hkw G m hm (Nat.le_trans (scope_scan_count hscan) hcap)
    rw [scan_plain t2 (by rw [ht2]; decide)] at hscan
    obtain rfl := scan_nil hscan
    refine ⟨G1, rfl, ?_⟩
    have hp := Parses.prog ht1 ht2 hn pw
    simp only [List.append_assoc, List.cons_append, List.nil_append] at hp
    exact hp
  case stmts_nil =>
    intro w hk G sc1 hscan hcap
    obtain rfl := kinds_nil_inv hk
    obtain rfl := scan_nil hscan
    exact ⟨G, rfl, Parses.stmts_nil⟩
  case stmts_cons n a b ha hb iha ihb =>
    intro w hk G sc1 hscan hcap
    obtain ⟨wa, wb, rfl, hka, hkb⟩ := kinds_append_inv hk
    obtain ⟨m, hm, hscan⟩ := scan_append_some hscan
    obtain ⟨G1, rfl, pa⟩ := iha wa hka G m hm (Nat.le_trans (scope_scan_count hscan) hcap)
    obtain ⟨G2, rfl, pb⟩ := ihb wb hkb G1 sc1 hscan hcap
    exact ⟨G2, rfl, Parses.stmts_cons pa pb⟩
  case stmt_if w hd ih =>
    intro w0 hk G sc1 hscan hcap
    obtain ⟨G1, rfl, p⟩ := ih w0 hk G sc1 hscan hcap
    exact ⟨G1, rfl, Parses.stmt_if p⟩
  case stmt_do w hd ih =>
    intro w0 hk G sc1 hscan hcap
    obtain ⟨G1, rfl, p⟩ := ih w0 hk G sc1 hscan hcap
    exact ⟨G1, rfl, Parses.stmt_do p⟩
  case stmt_print w hd ih =>
    intro w0 hk G sc1 hscan hcap
    obtain ⟨G1, rfl, p⟩ := ih w0 hk G sc1 hscan hcap
    exact ⟨G1, rfl, Parses.stmt_print p⟩
  case stmt_decl w hd ih =>
    intro w0 hk G sc1 hscan hcap
    obtain ⟨G1, rfl, p⟩ := ih w0 hk G sc1 hscan hcap
    exact ⟨G1, rfl, Parses.stmt_decl p⟩
  case stmt_for w hd ih =>
    intro w0 hk G sc1 hscan hcap
    obtain ⟨G1, rfl, p⟩ := ih w0 hk G sc1 hscan hcap
    exact ⟨G1, rfl, Parses.stmt_for p⟩
  case stmt_assign w hd ih =>
    intro w0 hk G sc1 hscan hcap
    obtain ⟨G1, rfl, p⟩ := ih w0 hk G sc1 hscan hcap
    exact ⟨G1, rfl, Parses.stmt_assign p⟩
  case if_only a hd ih =>
    intro w0 hk G sc1 hscan hcap
    obtain ⟨G1, rfl, p⟩ := ih w0 hk G sc1 hscan hcap
    exact ⟨G1, rfl, Parses.if_only p⟩
  case if_else a b ha hb iha ihb =>
    intro w hk G sc1 hscan hcap
    obtain ⟨wa, wb, rfl, hka, hkb⟩ := kinds_append_inv hk
    obtain ⟨m, hm, hscan⟩ := scan_append_some hscan
    obtain ⟨G1, rfl, pa⟩ := iha wa hka G m hm (Nat.le_trans (scope_scan_count hscan) hcap)
    obtain ⟨G2, rfl, pb⟩ := ihb wb hkb G1 sc1 hscan hcap
    exact ⟨G2, rfl, Parses.if_else pa pb⟩
  case if_then n e w hn he hw ihe ihw =>
    intro w0 hk
    simp only [List.append_assoc, List.cons_append, List.nil_append] at hk
    obtain ⟨t1, r, rfl, ht1, hk⟩ := kinds_cons_inv hk
    obtain ⟨t2, r, rfl, ht2, hk⟩ := kinds_cons_inv hk
    obtain ⟨we, r, rfl, hke, hk⟩ := kinds_append_inv hk
    obtain ⟨t3, r, rfl, ht3, hk⟩ := kinds_cons_inv hk
    obtain ⟨t4, r, rfl, ht4, hk⟩ := kinds_cons_inv hk
    obtain ⟨t5, r, rfl, ht5, hk⟩ := kinds_cons_inv hk
    obtain ⟨ww, r, rfl, hkw, hk⟩ := kinds_append_inv hk
    obtain ⟨t6, r, rfl, ht6, hk⟩ := kinds_cons_inv hk
    obtain rfl := kinds_nil_inv hk
    intro G sc1 hscan hcap
    rw [scan_plain t1 (by rw [ht1]; decide), scan_plain t2 (by rw [ht2]; decide)] at hscan
    obtain ⟨m, hm, hscan⟩ := scan_append_some hscan
    obtain ⟨rfl, pe⟩ := ihe we hke G none m hm
    rw [scan_plain t3 (by rw [ht3]; decide), scan_plain t4 (by rw [ht4]; decide),
      scan_plain t5 (by rw [ht5]; decide)] at hscan
    obtain ⟨m, hm, hscan⟩ := scan_append_some hscan
    obtain ⟨G1, rfl, pw⟩ := ihw ww hkw G m hm (Nat.le_trans (scope_scan_count hscan) hcap)
    rw [scan_plain t6 (by rw [ht6]; decide)] at hscan
    obtain rfl := scan_nil hscan
    refine ⟨G1, rfl, ?_⟩
    have hp := Parses.if_then ht1 ht2 ht3 ht4 ht5 ht6 hn pe pw
    simp only [List.append_assoc, List.cons_append, List.nil_append] at hp
    exact hp
  case else_opt n w hn hw ihw =>
    intro w0 hk
    simp only [List.append_assoc, List.cons_append, List.nil_append] at hk
    obtain ⟨t1, r, rfl, ht1, hk⟩ := kinds_cons_inv hk
    obtain ⟨t2, r, rfl, ht2, hk⟩ := kinds_cons_inv hk
    obtain ⟨ww, r, rfl, hkw, hk⟩ := kinds_append_inv hk
    obtain ⟨t3, r, rfl, ht3, hk⟩ := kinds_cons_inv hk
    obtain rfl := kinds_nil_inv hk
    intro G sc1 hscan hcap
    rw [scan_plain t1 (by rw [ht1]; decide), scan_plain t2 (by rw [ht2]; decide)] at hscan
    obtain ⟨m, hm, hscan⟩ := scan_append_some hscan
    obtain ⟨G1, rfl, pw⟩ := ihw ww hkw G m hm (Nat.le_trans (scope_scan_count hscan) hcap)
    rw [scan_plain t3 (by rw [ht3]; decide)] at hscan
    obtain rfl := scan_nil hscan
    refine ⟨G1, rfl, ?_⟩
    have hp := Parses.else_opt ht1 ht2 ht3 hn pw
    simp only [List.append_assoc, List.cons_append, List.nil_append] at hp
    exact hp
  case do_while n w e hn hw he ihw ihe =>
    intro w0 hk
    simp only [List.append_assoc, List.cons_append, List.nil_append] at hk
    obtain ⟨t1, r, rfl, ht1, hk⟩ := kinds_cons_inv hk
    obtain ⟨t2, r, rfl, ht2, hk⟩ := kinds_cons_inv hk
    obtain ⟨ww, r, rfl, hkw, hk⟩ := kinds_append_inv hk
    obtain ⟨t3, r, rfl, ht3, hk⟩ := kinds_cons_inv hk
    obtain ⟨t4, r, rfl, ht4, hk⟩ := kinds_cons_inv hk
    obtain ⟨t5, r, rfl, ht5, hk⟩ := kinds_cons_inv hk
    obtain ⟨we, r, rfl, hke, hk⟩ := kinds_append_inv hk
    obtain ⟨t6, r, rfl, ht6, hk⟩ := kinds_cons_inv hk
    obtain ⟨t7, r, rfl, ht7, hk⟩ := kinds_cons_inv hk
    obtain rfl := kinds_nil_inv hk
    intro G sc1 hscan hcap
    rw [scan_plain t1 (by rw [ht1]; decide), scan_plain t2 (by rw [ht2]; decide)] at hscan
    obtain ⟨m, hm, hscan⟩ := scan_append_some hscan
    obtain ⟨G1, rfl, pw⟩ := ihw ww hkw G m hm (Nat.le_trans (scope_scan_count hscan) hcap)
    rw [scan_plain t3 (by rw [ht3]; decide), scan_plain t4 (by rw [ht4]; decide),
      scan_plain t5 (by rw [ht5]; decide)] at hscan
    obtain ⟨m, hm, hscan⟩ := scan_append_some hscan
    obtain ⟨rfl, pe⟩ := ihe we hke G1 none m hm
    rw [scan_plain t6 (by rw [ht6]; decide), scan_semicolon t7 ht7] at hscan
    obtain rfl := scan_nil hscan
    refine ⟨G1, by simp, ?_⟩
    have hp := Parses.do_while ht1 ht2 ht3 ht4 ht5 ht6 ht7 hn pw pe
    simp only [List.append_assoc, List.cons_append, List.nil_append] at hp
    exact hp
  case print e he ihe =>
    intro w0 hk
    simp only [List.append_assoc, List.cons_append, List.nil_append] at hk
    obtain ⟨t1, r, rfl, ht1, hk⟩ := kinds_cons_inv hk
    obtain ⟨t2, r, rfl, ht2, hk⟩ := kinds_cons_inv hk
    obtain ⟨we, r, rfl, hke, hk⟩ := kinds_append_inv hk
    obtain ⟨t3, r, rfl, ht3, hk⟩ := kinds_cons_inv hk
    obtain ⟨t4, r, rfl, ht4, hk⟩ := kinds_cons_inv hk
    obtain rfl := kinds_nil_inv hk
    intro G sc1 hscan hcap
    rw [scan_plain t1 (by rw [ht1]; decide), scan_plain t2 (by rw [ht2]; decide)] at hscan
    obtain ⟨m, hm, hscan⟩ := scan_append_some hscan
    obtain ⟨rfl, pe⟩ := ihe we hke G none m hm
    rw [scan_plain t3 (by rw [ht3]; decide), scan_semicolon t4 ht4] at hscan
    obtain rfl := scan_nil hscan
    refine ⟨G, by simp, ?_⟩
    have hp := Parses.print ht1 ht2 ht3 ht4 pe
    simp only [List.append_assoc, List.cons_append, List.nil_append] at hp
    exact hp
  case decl t d ht hd iht ihd =>
    intro w0 hk
    simp only [List.append_assoc, List.cons_append, List.nil_append] at hk
    obtain ⟨wt, r, rfl, hkt, hk⟩ := kinds_append_inv hk
    obtain ⟨wd, r, rfl, hkd, hk⟩ := kinds_append_inv hk
    obtain ⟨t1, r, rfl, ht1, hk⟩ := kinds_cons_inv hk
    obtain rfl := kinds_nil_inv hk
    intro G sc1 hscan hcap
    obtain ⟨m, hm, hscan⟩ := scan_append_some hscan
    obtain ⟨rfl, pt⟩ := iht wt hkt G m hm (Nat.le_trans (scope_scan_count hscan) hcap)
    obtain ⟨m, hm, hscan⟩ := scan_append_some hscan
    obtain ⟨x, rfl, pd⟩ := ihd wd hkd G m hm (Nat.le_trans (scope_scan_count hscan) hcap)
    rw [scan_semicolon t1 ht1] at hscan
    obtain rfl := scan_nil hscan
    refine ⟨G ++ [x], by simp, ?_⟩
    have hp := Parses.decl ht1 pt pd
    simp only [List.append_assoc, List.cons_append, List.nil_append] at hp
    exact hp
  case ty_int =>
    intro w0 hk
    obtain ⟨t1, r, rfl, ht1, hk⟩ := kinds_cons_inv hk
    obtain rfl := kinds_nil_inv hk
    intro G sc1 hscan hcap
    rw [scan_type t1 (Or.inl ht1)] at hscan
    obtain rfl := scan_nil hscan
    exact ⟨rfl, Parses.ty_int ht1⟩
  case ty_bool =>
    intro w0 hk
    obtain ⟨t1, r, rfl, ht1, hk⟩ := kinds_cons_inv hk
    obtain rfl := kinds_nil_inv hk
    intro G sc1 hscan hcap
    rw [scan_type t1 (Or.inr ht1)] at hscan
    obtain rfl := scan_nil hscan
    exact ⟨rfl, Parses.ty_bool ht1⟩
  case init_plain =>
    intro w0 hk
    obtain ⟨x, r, rfl, hx, hk⟩ := kinds_cons_inv hk
    obtain rfl := kinds_nil_inv hk
    intro G sc1 hscan hcap
    obtain ⟨hnew, hscan⟩ := scan_decl x hx hscan
    obtain rfl := scan_nil hscan
    refine ⟨x.text, rfl, Parses.init_plain hx hnew ?_⟩
    simp only [Scope.count, Option.toList, List.length_cons, List.length_nil] at hcap
    omega
  case init_expr e he ihe =>
    intro w0 hk
    simp only [List.append_assoc, List.cons_append, List.nil_append] at hk
    obtain ⟨x, r, rfl, hx, hk⟩ := kinds_cons_inv hk
    obtain ⟨t1, we, rfl, ht1, hke⟩ := kinds_cons_inv hk
    intro G sc1 hscan hcap
    obtain ⟨hnew, hscan⟩ := scan_decl x hx hscan
    rw [scan_plain t1 (by rw [ht1]; decide)] at hscan
    obtain ⟨rfl, pe⟩ := ihe we hke G (some x.text) sc1 hscan
    refine ⟨x.text, rfl, ?_⟩
    have hlen : G.length < M := by
      simp only [Scope.count, Option.toList, List.length_cons, List.length_nil] at hcap
      omega
    have hp := Parses.init_expr hx ht1 pe hnew hlen
    simp only [List.append_assoc, List.cons_append, List.nil_append] at hp
    exact hp
  case assign e he ihe =>
    intro w0 hk
    simp only [List.append_assoc, List.cons_append, List.nil_append] at hk
    obtain ⟨x, r, rfl, hx, hk⟩ := kinds_cons_inv hk
    obtain ⟨t1, r, rfl, ht1, hk⟩ := kinds_cons_inv hk
    obtain ⟨we, r, rfl, hke, hk⟩ := kinds_append_inv hk
    obtain ⟨t2, r, rfl, ht2, hk⟩ := kinds_cons_inv hk
    obtain rfl := kinds_nil_inv hk
    intro G sc1 hscan hcap
    obtain ⟨hmem, hscan⟩ := scan_use x hx hscan
    rw [scan_plain t1 (by rw [ht1]; decide)] at hscan
    obtain ⟨m, hm, hscan⟩ := scan_append_some hscan
    obtain ⟨rfl, pe⟩ := ihe we hke G none m hm
    rw [scan_semicolon t2 ht2] at hscan
    obtain rfl := scan_nil hscan
    refine ⟨G, by simp, ?_⟩
    have hp := Parses.assign hx hmem ht1 ht2 pe
    simp only [List.append_assoc, List.cons_append, List.nil_append] at hp
    exact hp
  case for_stmt n i c u w hn hi hc hu hw ihi ihc ihu ihw =>
    intro w0 hk
    simp only [List.append_assoc, List.cons_append, List.nil_append] at hk
    obtain ⟨t1, r, rfl, ht1, hk⟩ := kinds_cons_inv hk
    obtain ⟨t2, r, rfl, ht2, hk⟩ := kinds_cons_inv hk
    obtain ⟨wi, r, rfl, hki, hk⟩ := kinds_append_inv hk
    obtain ⟨t3, r, rfl, ht3, hk⟩ := kinds_cons_inv hk
    obtain ⟨wc, r, rfl, hkc, hk⟩ := kinds_append_inv hk
    obtain ⟨t4, r, rfl, ht4, hk⟩ := kinds_cons_inv hk
    obtain ⟨wu, r, rfl, hku, hk⟩ := kinds_append_inv hk
    obtain ⟨t5, r, rfl, ht5, hk⟩ := kinds_cons_inv hk
    obtain ⟨t6, r, rfl, ht6, hk⟩ := kinds_cons_inv hk
    obtain ⟨ww, r, rfl, hkw, hk⟩ := kinds_append_inv hk
    obtain ⟨t7, r, rfl, ht7, hk⟩ := kinds_cons_inv hk
    obtain rfl := kinds_nil_inv hk
    intro G sc1 hscan hcap
    rw [scan_plain t1 (by rw [ht1]; decide), scan_plain t2 (by rw [ht2]; decide)] at hscan
    obtain ⟨m, hm, hscan⟩ := scan_append_some hscan
    obtain ⟨p, rfl, pi⟩ := ihi wi hki G m hm (Nat.le_trans (scope_scan_count hscan) hcap)
    rw [scan_semicolon t3 ht3] at hscan
    obtain ⟨m, hm, hscan⟩ := scan_append_some hscan
    obtain ⟨rfl, pc⟩ := ihc wc hkc _ none m hm
    rw [scan_semicolon t4 ht4] at hscan
    simp only [Option.toList, List.append_nil] at hscan
    obtain ⟨m, hm, hscan⟩ := scan_append_some hscan
    obtain ⟨rfl, pu⟩ := ihu wu hku _ none m hm
    rw [scan_plain t5 (by rw [ht5]; decide), scan_plain t6 (by rw [ht6]; decide)] at hscan
    obtain ⟨m, hm, hscan⟩ := scan_append_some hscan
    obtain ⟨G2, rfl, pw⟩ := ihw ww hkw _ m hm (Nat.le_trans (scope_scan_count hscan) hcap)
    rw [scan_plain t7 (by rw [ht7]; decide)] at hscan
    obtain rfl := scan_nil hscan
    refine ⟨G2, rfl, ?_⟩
    have hp := Parses.for_stmt ht1 ht2 ht3 ht4 ht5 ht6 ht7 hn pi pc pu pw
    simp only [List.append_assoc, List.cons_append, List.nil_append] at hp
    exact hp
  case for_init_decl t d ht hd iht ihd =>
    intro w0 hk G sc1 hscan hcap
    obtain ⟨wt, wd, rfl, hkt, hkd⟩ := kinds_append_inv hk
    obtain ⟨m, hm, hscan⟩ := scan_append_some hscan
    obtain ⟨rfl, pt⟩ := iht wt hkt G m hm (Nat.le_trans (scope_scan_count hscan) hcap)
    obtain ⟨x, rfl, pd⟩ := ihd wd hkd G sc1 hscan hcap
    exact ⟨some x, rfl, Parses.for_init_decl pt pd⟩
  case for_init_assign e he ihe =>
    intro w0 hk
    simp only [List.append_assoc, List.cons_append, List.nil_append] at hk
    obtain ⟨x, r, rfl, hx, hk⟩ := kinds_cons_inv hk
    obtain ⟨t1, we, rfl, ht1, hke⟩ := kinds_cons_inv hk
    intro G sc1 hscan hcap
    obtain ⟨hmem, hscan⟩ := scan_use x hx hscan
    rw [scan_plain t1 (by rw [ht1]; decide)] at hscan
    obtain ⟨rfl, pe⟩ := ihe we hke G none sc1 hscan
    refine ⟨none, rfl, ?_⟩
    have hp := Parses.for_init_assign hx hmem ht1 pe
    simp only [List.append_assoc, List.cons_append, List.nil_append] at hp
    simpa using hp
  case update e he ihe =>
    intro w0 hk
    simp only [List.append_assoc, List.cons_append, List.nil_append] at hk
    obtain ⟨x, r, rfl, hx, hk⟩ := kinds_cons_inv hk
    obtain ⟨t1, we, rfl, ht1, hke⟩ := kinds_cons_inv hk
    intro G p sc1 hscan
    obtain ⟨hmem, hscan⟩ := scan_use x hx hscan
    rw [scan_plain t1 (by rw [ht1]; decide)] at hscan
    obtain ⟨rfl, pe⟩ := ihe we hke G p sc1 hscan
    refine ⟨rfl, ?_⟩
    have hp := Parses.update hx hmem ht1 pe
    simp only [List.append_assoc, List.cons_append, List.nil_append] at hp
    exact hp
  case expr w hd ih =>
    intro w0 hk G p sc1 hscan
    obtain ⟨rfl, pe⟩ := ih w0 hk G p sc1 hscan
    exact ⟨rfl, Parses.expr pe⟩
  case eq_expr a b ha hb iha ihb =>
    intro w0 hk G p sc1 hscan
    obtain ⟨wa, wb, rfl, hka, hkb⟩ := kinds_append_inv hk
    obtain ⟨m, hm, hscan⟩ := scan_append_some hscan
    obtain ⟨rfl, pa⟩ := iha wa hka G p m hm
    obtain ⟨rfl, pb⟩ := ihb wb hkb G p sc1 hscan
    exact ⟨rfl, Parses.eq_expr pa pb⟩
  case eq_nil =>
    intro w0 hk G p sc1 hscan
    obtain rfl := kinds_nil_inv hk
    obtain rfl := scan_nil hscan
    exact ⟨rfl, Parses.eq_nil⟩
  case eq_cons a b ha hb iha ihb =>
    intro w0 hk
    simp only [List.append_assoc, List.cons_append, List.nil_append] at hk
    obtain ⟨t1, r, rfl, ht1, hk⟩ := kinds_cons_inv hk
    obtain ⟨wa, wb, rfl, hka, hkb⟩ := kinds_append_inv hk
    intro G p sc1 hscan
    rw [scan_plain t1 (by rw [ht1]; decide)] at hscan
    obtain ⟨m, hm, hscan⟩ := scan_append_some hscan
    obtain ⟨rfl, pa⟩ := iha wa hka G p m hm
    obtain ⟨rfl, pb⟩ := ihb wb hkb G p sc1 hscan
    refine ⟨rfl, ?_⟩
    have hp := Parses.eq_cons ht1 pa pb
    simp only [List.append_assoc, List.cons_append, List.nil_append] at hp
    exact hp
  case rel_expr a b ha hb iha ihb =>
    intro w0 hk G p sc1 hscan
    obtain ⟨wa, wb, rfl, hka, hkb⟩ := kinds_append_inv hk
    obtain ⟨m, hm, hscan⟩ := scan_append_some hscan
    obtain ⟨rfl, pa⟩ := iha wa hka G p m hm
    obtain ⟨rfl, pb⟩ := ihb wb hkb G p sc1 hscan
    exact ⟨rfl, Parses.rel_expr pa pb⟩
  case rel_nil =>
    intro w0 hk G p sc1 hscan
    obtain rfl := kinds_nil_inv hk
    obtain rfl := scan_nil hscan
    exact ⟨rfl, Parses.rel_nil⟩
  case rel_gt a b ha hb iha ihb =>
    intro w0 hk
    simp only [List.append_assoc, List.cons_append, List.nil_append] at hk
    obtain ⟨t1, r, rfl, ht1, hk⟩ := kinds_cons_inv hk
    obtain ⟨wa, wb, rfl, hka, hkb⟩ := kinds_append_inv hk
    intro G p sc1 hscan
    rw [scan_plain t1 (by rw [ht1]; decide)] at hscan
    obtain ⟨m, hm, hscan⟩ := scan_append_some hscan
    obtain ⟨rfl, pa⟩ := iha wa hka G p m hm
    obtain ⟨rfl, pb⟩ := ihb wb hkb G p sc1 hscan
    refine ⟨rfl, ?_⟩
    have hp := Parses.rel_cons (Or.inl ht1) pa pb
    simp only [List.append_assoc, List.cons_append, List.nil_append] at hp
    exact hp
  case rel_gte a b ha hb iha ihb =>
    intro w0 hk
    simp only [List.append_assoc, List.cons_append, List.nil_append] at hk
    obtain ⟨t1, r, rfl, ht1, hk⟩ := kinds_cons_inv hk
    obtain ⟨wa, wb, rfl, hka, hkb⟩ := kinds_append_inv hk
    intro G p sc1 hscan
    rw [scan_plain t1 (by rw [ht1]; decide)] at hscan
    obtain ⟨m, hm, hscan⟩ := scan_append_some hscan
    obtain ⟨rfl, pa⟩ := iha wa hka G p m hm
    obtain ⟨rfl, pb⟩ := ihb wb hkb G p sc1 hscan
    refine ⟨rfl, ?_⟩
    have hp := Parses.rel_cons (Or.inr ht1) pa pb
    simp only [List.append_assoc, List.cons_append, List.nil_append] at hp
    exact hp
  case add_expr a b ha hb iha ihb =>
    intro w0 hk G p sc1 hscan
    obtain ⟨wa, wb, rfl, hka, hkb⟩ := kinds_append_inv hk
    obtain ⟨m, hm, hscan⟩ := scan_append_some hscan
    obtain ⟨rfl, pa⟩ := iha wa hka G p m hm
    obtain ⟨rfl, pb⟩ := ihb wb hkb G p sc1 hscan
    exact ⟨rfl, Parses.add_expr pa pb⟩
  case add_nil =>
    intro w0 hk G p sc1 hscan
    obtain rfl := kinds_nil_inv hk
    obtain rfl := scan_nil hscan
    exact ⟨rfl, Parses.add_nil⟩
  case add_cons a b ha hb iha ihb =>
    intro w0 hk
    simp only [List.append_assoc, List.cons_append, List.nil_append] at hk
    obtain ⟨t1, r, rfl, ht1, hk⟩ := kinds_cons_inv hk
    obtain ⟨wa, wb, rfl, hka, hkb⟩ := kinds_append_inv hk
    intro G p sc1 hscan
    rw [scan_plain t1 (by rw [ht1]; decide)] at hscan
    obtain ⟨m, hm, hscan⟩ := scan_append_some hscan
    obtain ⟨rfl, pa⟩ := iha wa hka G p m hm
    obtain ⟨rfl, pb⟩ := ihb wb hkb G p sc1 hscan
    refine ⟨rfl, ?_⟩
    have hp := Parses.add_cons ht1 pa pb
    simp only [List.append_assoc, List.cons_append, List.nil_append] at hp
    exact hp
  case mul_expr a b ha hb iha ihb =>
    intro w0 hk G p sc1 hscan
    obtain ⟨wa, wb, rfl, hka, hkb⟩ := kinds_append_inv hk
    obtain ⟨m, hm, hscan⟩ := scan_append_some hscan
    obtain ⟨rfl, pa⟩ := iha wa hka G p m hm
    obtain ⟨rfl, pb⟩ := ihb wb hkb G p sc1 hscan
    exact ⟨rfl, Parses.mul_expr pa pb⟩
  case mul_nil =>
    intro w0 hk G p sc1 hscan
    obtain rfl := kinds_nil_inv hk
    obtain rfl := scan_nil hscan
    exact ⟨rfl, Parses.mul_nil⟩
  case mul_cons a b ha hb iha ihb =>
    intro w0 hk
    simp only [List.append_assoc, List.cons_append, List.nil_append] at hk
    obtain ⟨t1, r, rfl, ht1, hk⟩ := kinds_cons_inv hk
    obtain ⟨wa, wb, rfl, hka, hkb⟩ := kinds_append_inv hk
    intro G p sc1 hscan
    rw [scan_plain t1 (by rw [ht1]; decide)] at hscan
    obtain ⟨m, hm, hscan⟩ := scan_append_some hscan
    obtain ⟨rfl, pa⟩ := iha wa hka G p m hm
    obtain ⟨rfl, pb⟩ := ihb wb hkb G p sc1 hscan
    refine ⟨rfl, ?_⟩
    have hp := Parses.mul_cons ht1 pa pb
    simp only [List.append_assoc, List.cons_append, List.nil_append] at hp
    exact hp
  case prim_id =>
    intro w0 hk
    obtain ⟨x, r, rfl, hx, hk⟩ := kinds_cons_inv hk
    obtain rfl := kinds_nil_inv hk
    intro G p sc1 hscan
    obtain ⟨hmem, hscan⟩ := scan_use x hx hscan
    obtain rfl := scan_nil hscan
    exact ⟨rfl, Parses.prim_id hx hmem⟩
  case prim_num =>
    intro w0 hk
    obtain ⟨t1, r, rfl, ht1, hk⟩ := kinds_cons_inv hk
    obtain rfl := kinds_nil_inv hk
    intro G p sc1 hscan
    rw [scan_plain t1 (by rw [ht1]; decide)] at hscan
    obtain rfl := scan_nil hscan
    exact ⟨rfl, Parses.prim_lit (Or.inl ht1)⟩
  case prim_true =>
    intro w0 hk
    obtain ⟨t1, r, rfl, ht1, hk⟩ := kinds_cons_inv hk
    obtain rfl := kinds_nil_inv hk
    intro G p sc1 hscan
    rw [scan_plain t1 (by rw [ht1]; decide)] at hscan
    obtain rfl := scan_nil hscan
    exact ⟨rfl, Parses.prim_lit (Or.inr (Or.inl ht1))⟩
  case prim_false =>
    intro w0 hk
    obtain ⟨t1, r, rfl, ht1, hk⟩ := kinds_cons_inv hk
    obtain rfl := kinds_nil_inv hk
    intro G p sc1 hscan
    rw [scan_plain t1 (by rw [ht1]; decide)] at hscan
    obtain rfl := scan_nil hscan
    exact ⟨rfl, Parses.prim_lit (Or.inr (Or.inr ht1))⟩
  case prim_paren e he ihe =>
    intro w0 hk
    simp only [List.append_assoc, List.cons_append, List.nil_append] at hk
    obtain ⟨t1, r, rfl, ht1, hk⟩ := kinds_cons_inv hk
    obtain ⟨we, r, rfl, hke, hk⟩ := kinds_append_inv hk
    obtain ⟨t2, r, rfl, ht2, hk⟩ := kinds_cons_inv hk
    obtain rfl := kinds_nil_inv hk
    intro G p sc1 hscan
    rw [scan_plain t1 (by rw [ht1]; decide)] at hscan
    obtain ⟨m, hm, hscan⟩ := scan_append_some hscan
    obtain ⟨rfl, pe⟩ := ihe we hke G p m hm
    rw [scan_plain t2 (by rw [ht2]; decide)] at hscan
    obtain rfl := scan_nil hscan
    refine ⟨rfl, ?_⟩
    have hp := Parses.prim_paren ht1 ht2 pe
    simp only [List.append_assoc, List.cons_append, List.nil_append] at hp
    exact hp

/-- C2 (parser completeness). Let `toks` be tokens whose kinds are derivable from `Prog`
in the grammar with at most 100 statements in every block, on which the scope scan
succeeds (no name is declared twice, every identifier that is used was declared by an
earlier, completed declaration) having seen at most 100 declared names. In a fresh
state (cursor before the first token, empty symbol table, empty collector) whose token
list is `toks` followed by an end-of-input token, `parse_prog`, called as `main` calls
it and given four units of fuel for each token, returns a non-NULL tree, records no
diagnostic and leaves the cursor on the end-of-input token. -/
theorem parser_complete (toks : List Token) (eof : Token) (sc : Scope) (s : State)
    (fuel : Nat)
    (hgram : Derives MAX_STMTS NT.Prog (kinds toks))
    (hscan : scope_scan scope_start toks = some sc)
    (hcount : sc.declared.length ≤ MAX_SYMBOLS)
    (heof : eof.type = TOK_EOF)
    (htoks : s.token_list = toks ++ [eof]) (hidx : s.token_index = -1)
    (hsym : s.symbol_table = []) (herr : s.errors = [])
    (hfuel : 4 * toks.length ≤ fuel) :
    ∃ root s2, parse_prog fuel (next_token s) = some (some root, s2) ∧ s2.errors = [] ∧
      s2.current_token.type = TOK_EOF := by
  obtain ⟨G0, e0, _⟩ := derives_bridge (M := sc.count) hgram toks rfl [] sc hscan
    (Nat.le_refl _)
  have hcap : sc.count ≤ MAX_SYMBOLS := by
    rw [e0] at hcount ⊢
    simpa [Scope.count] using hcount
  obtain ⟨G1, e1, hp⟩ := derives_bridge (M := MAX_SYMBOLS) hgram toks rfl [] sc hscan hcap
  obtain ⟨root, s2, e, he, hk, _⟩ :=
    complete_prog toks eof G1 s hp heof htoks hidx hsym herr fuel hfuel
  exact ⟨root, s2, e, he, hk⟩

theorem parser_complete_witness :
    ∃ root s2,
      parse_prog 40 (next_token { initial_state with
        token_list := [⟨TOK_BEGIN, "begin".toList, 1⟩, ⟨TOK_INT, "int".toList, 1⟩,
          ⟨TOK_ID, "x".toList, 1⟩, ⟨TOK_SEMICOLON, ";".toList, 1⟩, ⟨TOK_ID, "x".toList, 2⟩,
          ⟨TOK_ASSIGN, "=".toList, 2⟩, ⟨TOK_NUM, "1".toList, 2⟩,
          ⟨TOK_SEMICOLON, ";".toList, 2⟩, ⟨TOK_END, "end".toList, 3⟩, ⟨TOK_EOF, [], 3⟩] })
        = some (some root, s2) ∧ s2.errors = [] ∧ s2.current_token.type = TOK_EOF := by
  have hd : Derives MAX_STMTS NT.Prog _ :=
    Derives.prog (n := 2) (by decide)
      (Derives.stmts_cons (Derives.stmt_decl (Derives.decl Derives.ty_int Derives.init_plain))
        (Derives.stmts_cons
          (Derives.stmt_assign (Derives.assign (Derives.expr (Derives.eq_expr
            (Derives.rel_expr (Derives.add_expr (Derives.mul_expr Derives.prim_num
              Derives.mul_nil) Derives.add_nil) Derives.rel_nil) Derives.eq_nil))))
          Derives.stmts_nil))
  exact parser_complete
    [⟨TOK_BEGIN, "begin".toList, 1⟩, ⟨TOK_INT, "int".toList, 1⟩,
      ⟨TOK_ID, "x".toList, 1⟩, ⟨TOK_SEMICOLON, ";".toList, 1⟩, ⟨TOK_ID, "x".toList, 2⟩,
      ⟨TOK_ASSIGN, "=".toList, 2⟩, ⟨TOK_NUM, "1".toList, 2⟩,
      ⟨TOK_SEMICOLON, ";".toList, 2⟩, ⟨TOK_END, "end".toList, 3⟩]
    ⟨TOK_EOF, [], 3⟩ ⟨["x".toList], none, false⟩ _ 40 hd rfl (by decide) rfl rfl rfl
    rfl rfl (by decide)

/-! ## End-to-end scenarios -/

/-- C17 (scenario A): the run on `begin int x = 5; print(x); end` reports success, records
no diagnostic, and the tree is `Prog` with the one child `Stmts`, whose children are
`DeclStmt(Type_int, InitDecl(x, Num(5)))` and `PrintStmt(Id(x))`, in this order. -/
theorem scenario_declaration_and_print :
    (main "begin int x = 5; print(x); end".toList).map
      (fun r => (r.syntax_yes, r.exit_code, r.state.errors, r.root))
      = some (true, 0, [],
          some (make_node "Prog" [make_node "Stmts"
            [make_node "DeclStmt" [make_node "Type_int" [],
                make_node "InitDecl" [leaf "x".toList, make_node "Num" [leaf "5".toList]]],
             make_node "PrintStmt" [make_node "Id" [leaf "x".toList]]]])) := by
  rfl

/-- C18 (scenario B): the run on the one-line input `begin int x = 5 print(x); end` reports
failure with exactly one diagnostic, `Expected ';'` at line 1. Recovery skips the rest of
the line, `end` and the end-of-input token included: the cursor ends past all 12 tokens,
and `parse_prog` returns NULL without a diagnostic `Expected 'end'`. -/
theorem scenario_missing_semicolon :
    (main "begin int x = 5 print(x); end".toList).map
      (fun r => (r.syntax_yes, r.exit_code, r.state.errors, r.root, r.state.token_index,
        r.state.token_list.length, r.state.current_token.type))
      = some (false, 1, [⟨1, "Expected ';'".toList⟩], none, 12, 12, TOK_EOF) := by
  rfl

/-- C19 (scenario C): the run on `begin bool ok = true; if (ok) then { print(1); } end`
reports success, records no diagnostic, and the second statement of the tree is an
`IfStmt` node with two child slots: `IfThen(Id(ok), Stmts(PrintStmt(Num(1))))` and the
else slot, which is NULL. -/
theorem scenario_if_without_else :
    (main "begin bool ok = true; if (ok) then \x7b print(1); \x7d end".toList).map
      (fun r => (r.syntax_yes, r.exit_code, r.state.errors, r.root))
      = some (true, 0, [],
          some (make_node "Prog" [make_node "Stmts"
            [make_node "DeclStmt" [make_node "Type_bool" [],
                make_node "InitDecl" [leaf "ok".toList, make_node "True" []]],
             Node.mk "IfStmt".toList
               [some (make_node "IfThen" [make_node "Id" [leaf "ok".toList],
                  make_node "Stmts"
                    [make_node "PrintStmt" [make_node "Num" [leaf "1".toList]]]]),
                none]]])) := by
  rfl

/-! ## `print_errors` -/

theorem add_symbol_new (name type : Str) (line : Nat) (s : State)
    (hroom : s.symbol_table.length < MAX_SYMBOLS)
    (hnew : is_variable_declared name s = false) :
    add_symbol name type line s
      = { s with symbol_table := s.symbol_table ++ [⟨name, type, line⟩] } := by
  unfold is_variable_declared at hnew
  unfold add_symbol
  rw [if_neg (by omega), hnew]
  rfl

/-- C12 (insert/lookup law). `is_variable_declared` is a function of its argument and
the table alone (the C function writes no global) and is false for every name on the
empty table. On a table with fewer than 100 symbols that does not hold `name`,
`add_symbol(name, type, line)` appends exactly the entry `(name, type, line)` and changes
nothing else in the globals, so no diagnostic is recorded; afterwards the lookup of `name`
is true and the lookup of every other name is what it was. -/
theorem symbol_table_insert_lookup :
    (∀ (name : Str) (s : State), is_variable_declared name (init_symbol_table s) = false) ∧
    (∀ (name : Str) (s t : State), s.symbol_table = t.symbol_table →
      is_variable_declared name s = is_variable_declared name t) ∧
    ∀ (name type : Str) (line : Nat) (s : State),
      s.symbol_table.length < MAX_SYMBOLS → is_variable_declared name s = false →
        add_symbol name type line s
          = { s with symbol_table := s.symbol_table ++ [⟨name, type, line⟩] } ∧
        (add_symbol name type line s).errors = s.errors ∧
        is_variable_declared name (add_symbol name type line s) = true ∧
        ∀ n, n ≠ name →
          is_variable_declared n (add_symbol name type line s) = is_variable_declared n s := by
  refine ⟨fun name s => rfl, ?_, ?_⟩
  · intro name s t h
    unfold is_variable_declared
    rw [h]
  · intro name type line s hroom hnew
    have e := add_symbol_new name type line s hroom hnew
    refine ⟨e, by rw [e], ?_, ?_⟩
    · rw [e]
      simp [is_variable_declared]
    · intro n hn
      rw [e]
      simp only [is_variable_declared, List.any_append, List.any_cons, List.any_nil,
        Bool.or_false]
      have : decide (name = n) = false := by simpa using fun e1 => hn e1.symm
      rw [this, Bool.or_false]

theorem add_symbol_table (name type : Str) (line : Nat) (s : State) :
    (add_symbol name type line s).symbol_table = s.symbol_table ∨
      ((add_symbol name type line s).symbol_table = s.symbol_table ++ [⟨name, type, line⟩]
        ∧ s.symbol_table.length < MAX_SYMBOLS ∧ name ∉ Upl.names s) := by
  unfold add_symbol
  split
  · exact Or.inl (add_error_symbol_table _ _ _)
  · split
    · exact Or.inl (add_error_symbol_table _ _ _)
    · next h1 h2 =>
      refine Or.inr ⟨rfl, by omega, ?_⟩
      intro hm
      exact h2 ((is_declared_iff name s).2 hm)

theorem add_symbols_extends (calls : List (Str × Str × Nat)) (s : State) :
    s.symbol_table <+: (add_symbols calls s).symbol_table := by
  induction calls generalizing s with
  | nil => exact List.prefix_refl _
  | cons c calls ih =>
    show s.symbol_table <+: (add_symbols calls (add_symbol c.1 c.2.1 c.2.2 s)).symbol_table
    refine List.IsPrefix.trans ?_ (ih _)
    rcases add_symbol_table c.1 c.2.1 c.2.2 s with h | ⟨h, _, _⟩
    · rw [h]
    · rw [h]; exact List.prefix_append _ _

theorem add_symbols_invariant (calls : List (Str × Str × Nat)) (s : State)
    (h1 : (Upl.names s).Nodup) (h2 : s.symbol_table.length ≤ MAX_SYMBOLS) :
    (Upl.names (add_symbols calls s)).Nodup ∧
      (add_symbols calls s).symbol_table.length ≤ MAX_SYMBOLS := by
  induction calls generalizing s with
  | nil => exact ⟨h1, h2⟩
  | cons c calls ih =>
    show (Upl.names (add_symbols calls (add_symbol c.1 c.2.1 c.2.2 s))).Nodup ∧ _
    apply ih
    · rcases add_symbol_table c.1 c.2.1 c.2.2 s with h | ⟨h, _, hn⟩
      · unfold Upl.names at h1 ⊢; rw [h]; exact h1
      · unfold Upl.names at h1 hn ⊢
        rw [h, List.map_append, List.map_cons, List.map_nil]
        exact List.Nodup.append h1 (List.nodup_singleton _)
          (by simpa [List.Disjoint] using hn)
    · rcases add_symbol_table c.1 c.2.1 c.2.2 s with h | ⟨h, hl, _⟩
      · rw [h]; exact h2
      · rw [h, List.length_append, List.length_cons, List.length_nil]; omega

/-- C13: whatever `add_symbol` calls follow `init_symbol_table`, the names of the table
are pairwise different and the table holds at most 100 symbols; further calls leave the
table they find as a prefix of the table they produce, so no symbol is removed or
changed; and on a table of 100 symbols `add_symbol` is the call
`add_error(line, "Too many variables declared")`, which leaves the table as it is. -/
theorem symbol_table_invariant (calls : List (Str × Str × Nat)) (s0 : State) :
    (Upl.names (add_symbols calls (init_symbol_table s0))).Nodup ∧
    (add_symbols calls (init_symbol_table s0)).symbol_table.length ≤ MAX_SYMBOLS ∧
    (∀ more, (add_symbols calls (init_symbol_table s0)).symbol_table
      <+: (add_symbols more (add_symbols calls (init_symbol_table s0))).symbol_table) ∧
    ∀ (name type : Str) (line : Nat) (s : State), s.symbol_table.length = MAX_SYMBOLS →
      add_symbol name type line s = add_error line "Too many variables declared".toList s ∧
      (add_symbol name type line s).symbol_table = s.symbol_table := by
  obtain ⟨h1, h2⟩ := add_symbols_invariant calls (init_symbol_table s0)
    (by simp [Upl.names, init_symbol_table]) (by simp [init_symbol_table])
  refine ⟨h1, h2, fun more => add_symbols_extends more _, ?_⟩
  intro name type line s hs
  have e : add_symbol name type line s
      = add_error line "Too many variables declared".toList s := by
    unfold add_symbol
    rw [if_pos (by omega)]
  exact ⟨e, by rw [e, add_error_symbol_table]⟩

/-! ## One iteration of the lexer loop, independently of the globals -/

theorem c_string_of_no_nul (n : Nat) (m : Str) (hnul : ∀ c ∈ m, c ≠ '\x00') :
    c_string n m = m.take n := by
  unfold c_string
  have : m.takeWhile (fun c => decide (c ≠ '\x00')) = m := by
    apply List.takeWhile_eq_self_iff.mpr
    intro c hc
    simpa using hnul c hc
  rw [this]

theorem scan_run_split (p : Char → Bool) (text : Str) (file : List Char) :
    ∃ run, file = run ++ (scan_run p text file).2 ∧ (∀ x ∈ run, p x = true) ∧
      (text.length ≤ MAX_TOKEN_LEN - 1 →
        (scan_run p text file).1 = (text ++ run).take (MAX_TOKEN_LEN - 1)) := by
  induction file generalizing text with
  | nil =>
    refine ⟨[], by simp [scan_run], by simp, ?_⟩
    intro h
    simp only [scan_run, List.append_nil]
    exact (List.take_of_length_le h).symm
  | cons c file ih =>
    simp only [scan_run]
    by_cases hp : p c = true
    · rw [if_pos hp]
      obtain ⟨run, h1, h2, h3⟩ := ih (if text.length < MAX_TOKEN_LEN - 1 then text ++ [c] else text)
      refine ⟨c :: run, by rw [List.cons_append, ← h1], ?_, ?_⟩
      · intro x hx
        rcases List.mem_cons.1 hx with hx | hx
        · rw [hx]; exact hp
        · exact h2 x hx
      · intro hlen
        by_cases hl : text.length < MAX_TOKEN_LEN - 1
        · rw [if_pos hl] at h3 ⊢
          rw [h3 (by simp only [List.length_append, List.length_cons, List.length_nil]; omega)]
          simp
        · rw [if_neg hl] at h3 ⊢
          rw [h3 hlen]
          have e : text.length = MAX_TOKEN_LEN - 1 := by omega
          rw [← e, List.take_left' rfl, List.take_left' rfl]
    · rw [if_neg hp]
      refine ⟨[], rfl, by simp, ?_⟩
      intro h
      simp only [List.append_nil]
      exact (List.take_of_length_le h).symm

theorem skip_line_comment_split (file : List Char) :
    ∃ consumed, file = consumed ++ (skip_line_comment file).1 ∧
      consumed.count '\n' = if (skip_line_comment file).2 then 1 else 0 := by
  induction file with
  | nil => exact ⟨[], rfl, rfl⟩
  | cons c file ih =>
    by_cases hc : c = '\n'
    · have e : skip_line_comment (c :: file) = (file, true) := by
        simp [skip_line_comment, hc]
      rw [e]
      exact ⟨[c], rfl, by simp [hc]⟩
    · have e : skip_line_comment (c :: file) = skip_line_comment file := by
        simp [skip_line_comment, hc]
      rw [e]
      obtain ⟨consumed, h1, h2⟩ := ih
      refine ⟨c :: consumed, by rw [List.cons_append, ← h1], ?_⟩
      rw [List.count_cons_of_ne (fun e => hc e.symm), h2]

theorem skip_block_comment_split (prev : Char) (file : List Char) :
    ∃ consumed rest found, file = consumed ++ rest ∧
      ∀ line, skip_block_comment prev file line = (rest, line + consumed.count '\n', found) := by
  induction file generalizing prev with
  | nil => exact ⟨[], [], false, rfl, fun line => rfl⟩
  | cons c file ih =>
    by_cases hc : (prev = '*' && c = '/') = true
    · refine ⟨[c], file, true, rfl, ?_⟩
      intro line
      simp only [skip_block_comment]
      rw [if_pos hc]
      have : c ≠ '\n' := by
        intro e
        subst e
        simp at hc
      simp [List.count_cons_of_ne (fun e1 => this e1.symm)]
    · obtain ⟨consumed, rest, found, h1, h2⟩ := ih c
      refine ⟨c :: consumed, rest, found, by rw [List.cons_append, ← h1], ?_⟩
      intro line
      simp only [skip_block_comment]
      rw [if_neg hc, h2]
      by_cases e : c = '\n'
      · subst e
        simp only [if_true, List.count_cons_self, Prod.mk.injEq, and_true, true_and]
        omega
      · rw [if_neg e, List.count_cons_of_ne (fun e1 => e e1.symm)]

theorem step_effect_token (c : Char) (file consumed rest : List Char) (k : TokenType)
    (text : Str) (hsplit : c :: file = consumed ++ rest) (hne : consumed ≠ [])
    (hnl : '\n' ∉ consumed)
    (htext : c_string (MAX_TOKEN_LEN - 1) text = c_string (MAX_TOKEN_LEN - 1) consumed)
    (h : ∀ s : State, (lex_step c file s).1 = rest ∧ (lex_step c file s).2.line = s.line ∧
      (lex_step c file s).2.token_list = (add_token k text s.line s).token_list) :
    StepEffect c file consumed rest (some k) := by
  refine ⟨hsplit, hne, fun _ => hnl, fun s => ?_⟩
  obtain ⟨a, b, d⟩ := h s
  refine ⟨a, ?_, ?_⟩
  · rw [b, List.count_eq_zero_of_not_mem hnl, Nat.add_zero]
  · rw [d]
    simp only [add_token, Option.toList, List.map_cons, List.map_nil, htext]

theorem step_effect_single (c : Char) (file : List Char) (k : TokenType) (hn : c ≠ '\n')
    (h : ∀ s : State, lex_step c file s = (file, add_token k [c] s.line s)) :
    StepEffect c file [c] file (some k) := by
  refine step_effect_token c file [c] file k [c] rfl (by simp) ?_ rfl ?_
  · simpa using fun e => hn e.symm
  · intro s
    rw [h s]
    exact ⟨rfl, rfl, rfl⟩

theorem step_effect_unsupported (c : Char) (file : List Char) (hn : c ≠ '\n')
    (h : ∀ s : State, lex_step c file s = (file, unsupported c s)) :
    StepEffect c file [c] file (some TOK_ERROR) := by
  refine step_effect_token c file [c] file TOK_ERROR [c] rfl (by simp) ?_ rfl ?_
  · simpa using fun e => hn e.symm
  · intro s
    rw [h s]
    exact ⟨rfl, by simp only [unsupported, add_error_line]; rfl,
      by simp only [unsupported, add_error_token_list]⟩

theorem isalnum_ne_newline (c : Char) (h : isalnum c = true) : c ≠ '\n' := by
  intro e
  subst e
  revert h
  decide

theorem isdigit_isalnum (c : Char) (h : isdigit c = true) : isalnum c = true := by
  unfold isalnum
  rw [h, Bool.or_true]

theorem isalpha_isalnum (c : Char) (h : isalpha c = true) : isalnum c = true := by
  unfold isalnum
  rw [h, Bool.true_or]

/-- The lexeme stored for a run of letters and digits that the scanning loop cut at 99
characters is the C string of the whole run. -/
theorem c_string_run (l : List Char) (h : ∀ x ∈ l, isalnum x = true) :
    c_string (MAX_TOKEN_LEN - 1) (l.take (MAX_TOKEN_LEN - 1)) = c_string (MAX_TOKEN_LEN - 1) l := by
  rw [c_string_of_no_nul _ _ (fun x hx => isalnum_ne_nul x (h x (List.mem_of_mem_take hx))),
    c_string_of_no_nul _ _ (fun x hx => isalnum_ne_nul x (h x hx)), List.take_take,
    Nat.min_self]

/-- One iteration of the lexer loop reads a nonempty prefix of the input, advances the
line counter by the newlines it reads and appends at most one token, in a way that does
not depend on the globals. -/
theorem lex_step_effect (c : Char) (file : List Char) :
    ∃ consumed rest tok, StepEffect c file consumed rest tok := by
  by_cases h1 : c = '\n'
  · refine ⟨[c], file, none, rfl, by simp, fun h => absurd rfl h, fun s => ?_⟩
    have e : lex_step c file s = (file, { s with line := s.line + 1 }) := by
      unfold lex_step
      rw [if_pos h1]
    rw [e, h1]
    exact ⟨rfl, by simp, by simp⟩
  by_cases h2 : isspace c = true
  · refine ⟨[c], file, none, rfl, by simp, fun h => absurd rfl h, fun s => ?_⟩
    have e : lex_step c file s = (file, s) := by
      unfold lex_step
      rw [if_neg h1, if_pos h2]
    rw [e, List.count_cons_of_ne (fun e1 => h1 e1.symm)]
    exact ⟨rfl, by simp, by simp⟩
  by_cases h3 : c = '/'
  · rcases file with _ | ⟨d, file1⟩
    · refine ⟨_, _, _, step_effect_unsupported c [] h1 (fun s => ?_)⟩
      unfold lex_step
      rw [if_neg h1, if_neg h2, if_pos h3]
    by_cases hd1 : d = '/'
    · subst hd1
      obtain ⟨consumed, hfile, hcount⟩ := skip_line_comment_split file1
      refine ⟨c :: '/' :: consumed, (skip_line_comment file1).1, none, ?_, by simp,
        fun h => absurd rfl h, fun s => ?_⟩
      · rw [List.cons_append, List.cons_append, ← hfile]
      · have e : lex_step c ('/' :: file1) s = ((skip_line_comment file1).1,
            if (skip_line_comment file1).2 then { s with line := s.line + 1 } else s) := by
          unfold lex_step
          rw [if_neg h1, if_neg h2, if_pos h3]
          rfl
        rw [e, List.count_cons_of_ne (fun e1 => h1 e1.symm),
          List.count_cons_of_ne (by decide), hcount]
        refine ⟨rfl, ?_, ?_⟩
        · dsimp only
          split <;> rfl
        · dsimp only
          split <;> simp
    by_cases hd2 : d = '*'
    · subst hd2
      obtain ⟨consumed, rest, found, hfile, hskip⟩ := skip_block_comment_split '\x00' file1
      refine ⟨c :: '*' :: consumed, rest, none, ?_, by simp, fun h => absurd rfl h,
        fun s => ?_⟩
      · rw [List.cons_append, List.cons_append, ← hfile]
      · have e : lex_step c ('*' :: file1) s = (rest,
            if found then { s with line := s.line + consumed.count '\n' }
            else add_error (s.line + consumed.count '\n') "Unterminated block comment".toList
              { s with line := s.line + consumed.count '\n' }) := by
          unfold lex_step
          rw [if_neg h1, if_neg h2, if_pos h3]
          simp only [hskip]
        rw [e, List.count_cons_of_ne (fun e1 => h1 e1.symm),
          List.count_cons_of_ne (by decide)]
        refine ⟨rfl, ?_, ?_⟩
        · dsimp only
          split
          · rfl
          · rw [add_error_line]
        · dsimp only
          split
          · simp
          · rw [add_error_token_list]; simp
    · refine ⟨_, _, _, step_effect_unsupported c (d :: file1) h1 (fun s => ?_)⟩
      unfold lex_step
      rw [if_neg h1, if_neg h2, if_pos h3]
      split
      · next heq => exact absurd (List.cons.inj heq).1 hd1
      · next heq => exact absurd (List.cons.inj heq).1 hd2
      · rfl
  by_cases h4 : isalpha c = true
  · obtain ⟨run, hfile, hall, htext⟩ := scan_run_split isalnum [c] file
    have htext1 := htext (by simp [MAX_TOKEN_LEN])
    have hal : ∀ x ∈ c :: run, isalnum x = true := by
      intro x hx
      rcases List.mem_cons.1 hx with hx | hx
      · rw [hx]; exact isalpha_isalnum c h4
      · exact hall x hx
    have hsplit : c :: file = (c :: run) ++ (scan_run isalnum [c] file).2 := by
      rw [List.cons_append, ← hfile]
    have hnl : '\n' ∉ c :: run := fun hm => isalnum_ne_newline _ (hal _ hm) rfl
    have hcs : c_string (MAX_TOKEN_LEN - 1) (scan_run isalnum [c] file).1
        = c_string (MAX_TOKEN_LEN - 1) (c :: run) := by
      rw [htext1]
      exact c_string_run (c :: run) hal
    cases hk : keyword_type (scan_run isalnum [c] file).1 with
    | some k =>
      refine ⟨_, _, _, step_effect_token c file _ _ k _ hsplit (by simp) hnl hcs
        (fun s => ?_)⟩
      have e : lex_step c file s = ((scan_run isalnum [c] file).2,
          add_token k (scan_run isalnum [c] file).1 s.line s) := by
        unfold lex_step
        rw [if_neg h1, if_neg h2, if_neg h3, if_pos h4]
        simp only [hk]
      rw [e]
      exact ⟨rfl, rfl, rfl⟩
    | none =>
      by_cases hv : ident_valid (scan_run isalnum [c] file).1 = true
      · refine ⟨_, _, _, step_effect_token c file _ _ TOK_ID _ hsplit (by simp) hnl hcs
          (fun s => ?_)⟩
        have e : lex_step c file s = ((scan_run isalnum [c] file).2,
            add_token TOK_ID (scan_run isalnum [c] file).1 s.line s) := by
          unfold lex_step
          rw [if_neg h1, if_neg h2, if_neg h3, if_pos h4]
          simp only [hk, hv, if_true]
        rw [e]
        exact ⟨rfl, rfl, rfl⟩
      · refine ⟨_, _, _, step_effect_token c file _ _ TOK_ERROR _ hsplit (by simp) hnl
          hcs (fun s => ?_)⟩
        have e : lex_step c file s = ((scan_run isalnum [c] file).2,
            add_error s.line ("Invalid identifier: ".toList ++ (scan_run isalnum [c] file).1)
              (add_token TOK_ERROR (scan_run isalnum [c] file).1 s.line s)) := by
          unfold lex_step
          rw [if_neg h1, if_neg h2, if_neg h3, if_pos h4]
          simp only [hk, hv, Bool.false_eq_true, if_false]
        rw [e]
        exact ⟨rfl, by rw [add_error_line]; rfl, by rw [add_error_token_list]⟩
  by_cases h5 : isdigit c = true
  · obtain ⟨run, hfile, hall, htext⟩ := scan_run_split isdigit [c] file
    have htext1 := htext (by simp [MAX_TOKEN_LEN])
    have hal : ∀ x ∈ c :: run, isalnum x = true := by
      intro x hx
      rcases List.mem_cons.1 hx with hx | hx
      · rw [hx]; exact isdigit_isalnum c h5
      · exact isdigit_isalnum x (hall x hx)
    have hsplit : c :: file = (c :: run) ++ (scan_run isdigit [c] file).2 := by
      rw [List.cons_append, ← hfile]
    have hnl : '\n' ∉ c :: run := fun hm => isalnum_ne_newline _ (hal _ hm) rfl
    have hcs : c_string (MAX_TOKEN_LEN - 1) (scan_run isdigit [c] file).1
        = c_string (MAX_TOKEN_LEN - 1) (c :: run) := by
      rw [htext1]
      exact c_string_run (c :: run) hal
    refine ⟨_, _, _, step_effect_token c file _ _ TOK_NUM _ hsplit (by simp) hnl hcs
      (fun s => ?_)⟩
    have e : lex_step c file s = ((scan_run isdigit [c] file).2,
        add_token TOK_NUM (scan_run isdigit [c] file).1 s.line s) := by
      unfold lex_step
      rw [if_neg h1, if_neg h2, if_neg h3, if_neg h4, if_pos h5]
    rw [e]
    exact ⟨rfl, rfl, rfl⟩
  by_cases h6 : c = '='
  · rcases file with _ | ⟨d, file1⟩
    · refine ⟨_, _, _, step_effect_single c [] TOK_ASSIGN h1 (fun s => ?_)⟩
      unfold lex_step
      rw [if_neg h1, if_neg h2, if_neg h3, if_neg h4, if_neg h5, if_pos h6]
      subst h6
      rfl
    by_cases hd : d = '='
    · subst hd
      refine ⟨_, _, _, step_effect_token c ('=' :: file1) [c, '='] file1 TOK_EQ [c, '='] rfl
        (by simp) ?_ rfl (fun s => ?_)⟩
      · simp only [List.mem_cons, List.mem_singleton, List.not_mem_nil, or_false, not_or]
        exact ⟨fun e1 => h1 e1.symm, by decide⟩
      · have e : lex_step c ('=' :: file1) s = (file1, add_token TOK_EQ [c, '='] s.line s) := by
          unfold lex_step
          rw [if_neg h1, if_neg h2, if_neg h3, if_neg h4, if_neg h5, if_pos h6]
          subst h6
          rfl
        rw [e]
        exact ⟨rfl, rfl, rfl⟩
    · refine ⟨_, _, _, step_effect_single c (d :: file1) TOK_ASSIGN h1 (fun s => ?_)⟩
      unfold lex_step
      rw [if_neg h1, if_neg h2, if_neg h3, if_neg h4, if_neg h5, if_pos h6]
      subst h6
      split
      · next heq => exact absurd (List.cons.inj heq).1 hd
      · rfl
  by_cases h7 : c = '>'
  · rcases file with _ | ⟨d, file1⟩
    · refine ⟨_, _, _, step_effect_single c [] TOK_GT h1 (fun s => ?_)⟩
      unfold lex_step
      rw [if_neg h1, if_neg h2, if_neg h3, if_neg h4, if_neg h5, if_neg h6, if_pos h7]
      subst h7
      rfl
    by_cases hd : d = '='
    · subst hd
      refine ⟨_, _, _, step_effect_token c ('=' :: file1) [c, '='] file1 TOK_GTE [c, '='] rfl
        (by simp) ?_ rfl (fun s => ?_)⟩
      · simp only [List.mem_cons, List.mem_singleton, List.not_mem_nil, or_false, not_or]
        exact ⟨fun e1 => h1 e1.symm, by decide⟩
      · have e : lex_step c ('=' :: file1) s = (file1, add_token TOK_GTE [c, '='] s.line s) := by
          unfold lex_step
          rw [if_neg h1, if_neg h2, if_neg h3, if_neg h4, if_neg h5, if_neg h6, if_pos h7]
          subst h7
          rfl
        rw [e]
        exact ⟨rfl, rfl, rfl⟩
    · refine ⟨_, _, _, step_effect_single c (d :: file1) TOK_GT h1 (fun s => ?_)⟩
      unfold lex_step
      rw [if_neg h1, if_neg h2, if_neg h3, if_neg h4, if_neg h5, if_neg h6, if_pos h7]
      subst h7
      split
      · next heq => exact absurd (List.cons.inj heq).1 hd
      · rfl
  by_cases h8 : c = '+'
  · refine ⟨_, _, _, step_effect_single c file TOK_PLUS h1 (fun s => ?_)⟩
    unfold lex_step
    rw [if_neg h1, if_neg h2, if_neg h3, if_neg h4, if_neg h5, if_neg h6, if_neg h7,
      if_pos h8]
    subst h8
    rfl
  by_cases h9 : c = '*'
  · refine ⟨_, _, _, step_effect_single c file TOK_MUL h1 (fun s => ?_)⟩
    unfold lex_step
    rw [if_neg h1, if_neg h2, if_neg h3, if_neg h4, if_neg h5, if_neg h6, if_neg h7,
      if_neg h8, if_pos h9]
    subst h9
    rfl
  by_cases h10 : c = '('
  · refine ⟨_, _, _, step_effect_single c file TOK_LPAREN h1 (fun s => ?_)⟩
    unfold lex_step
    rw [if_neg h1, if_neg h2, if_neg h3, if_neg h4, if_neg h5, if_neg h6, if_neg h7,
      if_neg h8, if_neg h9, if_pos h10]
    subst h10
    rfl
  by_cases h11 : c = ')'
  · refine ⟨_, _, _, step_effect_single c file TOK_RPAREN h1 (fun s => ?_)⟩
    unfold lex_step
    rw [if_neg h1, if_neg h2, if_neg h3, if_neg h4, if_neg h5, if_neg h6, if_neg h7,
      if_neg h8, if_neg h9, if_neg h10, if_pos h11]
    subst h11
    rfl
  by_cases h12 : c = '\x7b'
  · refine ⟨_, _, _, step_effect_single c file TOK_LBRACE h1 (fun s => ?_)⟩
    unfold lex_step
    rw [if_neg h1, if_neg h2, if_neg h3, if_neg h4, if_neg h5, if_neg h6, if_neg h7,
      if_neg h8, if_neg h9, if_neg h10, if_neg h11, if_pos h12]
    subst h12
    rfl
  by_cases h13 : c = '\x7d'
  · refine ⟨_, _, _, step_effect_single c file TOK_RBRACE h1 (fun s => ?_)⟩
    unfold lex_step
    rw [if_neg h1, if_neg h2, if_neg h3, if_neg h4, if_neg h5, if_neg h6, if_neg h7,
      if_neg h8, if_neg h9, if_neg h10, if_neg h11, if_neg h12, if_pos h13]
    subst h13
    rfl
  by_cases h14 : c = ';'
  · refine ⟨_, _, _, step_effect_single c file TOK_SEMICOLON h1 (fun s => ?_)⟩
    unfold lex_step
    rw [if_neg h1, if_neg h2, if_neg h3, if_neg h4, if_neg h5, if_neg h6, if_neg h7,
      if_neg h8, if_neg h9, if_neg h10, if_neg h11, if_neg h12, if_neg h13, if_pos h14]
    subst h14
    rfl
  by_cases h15 : c = '<'
  · refine ⟨_, _, _, step_effect_unsupported c file h1 (fun s => ?_)⟩
    unfold lex_step
    rw [if_neg h1, if_neg h2, if_neg h3, if_neg h4, if_neg h5, if_neg h6, if_neg h7,
      if_neg h8, if_neg h9, if_neg h10, if_neg h11, if_neg h12, if_neg h13, if_neg h14,
      if_pos h15]
  · refine ⟨_, _, _, step_effect_unsupported c file h1 (fun s => ?_)⟩
    unfold lex_step
    rw [if_neg h1, if_neg h2, if_neg h3, if_neg h4, if_neg h5, if_neg h6, if_neg h7,
      if_neg h8, if_neg h9, if_neg h10, if_neg h11, if_neg h12, if_neg h13, if_neg h14,
      if_neg h15]

/-! ## Token lines -/

theorem lex_step_lexed_to (pre : List Char) (c : Char) (file : List Char) (s : State)
    (offs : List Nat) (h : LexedTo (pre ++ c :: file) pre s offs) :
    ∃ consumed offs1, c :: file = consumed ++ (lex_step c file s).1 ∧
      LexedTo (pre ++ c :: file) (pre ++ consumed) (lex_step c file s).2 offs1 := by
  obtain ⟨consumed, rest, tok, hsplit, hne, hnl, heff⟩ := lex_step_effect c file
  obtain ⟨e1, e2, e3⟩ := heff s
  obtain ⟨hline, htoks, hoffs, hpw⟩ := h
  have hcl : 0 < consumed.length := List.length_pos.2 hne
  cases tok with
  | none =>
    refine ⟨consumed, offs, by rw [e1]; exact hsplit, ?_, ?_, ?_, hpw⟩
    · rw [e2, hline, List.count_append]; omega
    · rw [e3]; simpa using htoks
    · intro o ho
      have := hoffs o ho
      rw [List.length_append]; omega
  | some k =>
    have hn : '\n' ∉ consumed := hnl (by simp)
    refine ⟨consumed, offs ++ [pre.length], by rw [e1]; exact hsplit, ?_, ?_, ?_, ?_⟩
    · rw [e2, hline, List.count_append]; omega
    · rw [e3]
      refine List.rel_append htoks (List.Forall₂.cons ?_ List.Forall₂.nil)
      have hdrop : ((pre ++ c :: file).drop pre.length).take consumed.length = consumed := by
        rw [List.drop_left, hsplit, List.take_left]
      refine ⟨?_, consumed.length, hcl, ?_, ?_, ?_⟩
      · show s.line = _
        rw [hline, List.take_left]
      · rw [hsplit]; simp only [List.length_append]; omega
      · rw [hdrop]
      · rw [hdrop]; exact hn
    · intro o ho
      rw [List.length_append]
      rcases List.mem_append.1 ho with ho | ho
      · have := hoffs o ho; omega
      · simp only [List.mem_singleton] at ho; omega
    · rw [List.pairwise_append]
      refine ⟨hpw, List.pairwise_singleton _ _, ?_⟩
      intro a ha b hb
      simp only [List.mem_singleton] at hb
      rw [hb]
      exact hoffs a ha

theorem tokenize_loop_lexed_to (fuel : Nat) (pre cur : List Char) (s s1 : State)
    (offs : List Nat) (h : tokenize_loop fuel cur s = some s1)
    (hinv : LexedTo (pre ++ cur) pre s offs) :
    ∃ offs1, LexedTo (pre ++ cur) (pre ++ cur) s1 offs1 := by
  induction fuel generalizing pre cur s offs with
  | zero =>
    cases cur with
    | nil =>
      simp only [tokenize_loop, Option.some.injEq] at h
      subst h
      exact ⟨offs, by simpa using hinv⟩
    | cons c file => simp [tokenize_loop] at h
  | succ fuel ih =>
    cases cur with
    | nil =>
      simp only [tokenize_loop, Option.some.injEq] at h
      subst h
      exact ⟨offs, by simpa using hinv⟩
    | cons c file =>
      simp only [tokenize_loop] at h
      obtain ⟨consumed, offs1, hsplit, hinv1⟩ := lex_step_lexed_to pre c file s offs hinv
      have e : pre ++ c :: file = (pre ++ consumed) ++ (lex_step c file s).1 := by
        rw [hsplit, List.append_assoc]
      rw [e] at hinv1
      obtain ⟨offs2, h2⟩ := ih (pre ++ consumed) _ _ offs1 h hinv1
      rw [← e] at h2
      exact ⟨offs2, h2⟩

theorem forall₂_mem_left {α β : Type} {R : α → β → Prop} {l1 : List α} {l2 : List β}
    (h : List.Forall₂ R l1 l2) {a : α} (ha : a ∈ l1) : ∃ b ∈ l2, R a b := by
  induction h with
  | nil => simp at ha
  | cons hr _ ih =>
    rcases List.mem_cons.1 ha with ha | ha
    · subst ha; exact ⟨_, by simp, hr⟩
    · obtain ⟨b, hb, hab⟩ := ih ha
      exact ⟨b, by simp [hb], hab⟩

theorem count_take_le (input : List Char) {a b : Nat} (h : a ≤ b) :
    (input.take a).count '\n' ≤ (input.take b).count '\n' := by
  have : input.take a = (input.take b).take a := by
    rw [List.take_take, Nat.min_eq_left h]
  rw [this]
  exact List.Sublist.count_le (List.take_sublist _ _) _

theorem token_at_lines_sorted (input : List Char) (toks : List Token) (offs : List Nat)
    (h : List.Forall₂ (TokenAt input) toks offs) (hpw : offs.Pairwise (fun a b => a < b)) :
    (toks.map (fun t => t.line)).Pairwise (fun a b => a ≤ b) := by
  induction h with
  | nil => simp
  | cons hr hrest ih =>
    rename_i t o ts os
    rw [List.pairwise_cons] at hpw
    rw [List.map_cons, List.pairwise_cons]
    refine ⟨?_, ih hpw.2⟩
    intro l hl
    obtain ⟨t1, ht1, rfl⟩ := List.mem_map.1 hl
    obtain ⟨o1, ho1, hr1⟩ := forall₂_mem_left hrest ht1
    rw [hr.1, hr1.1]
    have := count_take_le input (Nat.le_of_lt (hpw.1 o1 ho1))
    omega

/-- C14 (on inputs that do not overflow the line counter): for an input with fewer than
2147483647 (`INT_MAX`) newline characters the lexer returns, and in its token list every
token before the end-of-input token starts at an offset of the input, the offsets
increasing along the list, such that the token's line is 1 plus the number of newlines
before that offset (newlines inside comments are characters of the input like any
other) and its lexeme is the C string of the characters read there; the end-of-input
token has line 1 plus the number of newlines of the input. Hence all lines are
positive, at most `INT_MAX`, and non-decreasing along the list. On an input with more
newlines `line++` overflows the `int` counter, and the lines of `upl.c` are no longer
these numbers. -/
theorem token_lines (file : List Char) (hfile : file.count '\n' < 2147483647) :
    ∃ s1 toks offs, tokenize_file file initial_state = some s1 ∧
      s1.token_list = toks ++ [⟨TOK_EOF, [], 1 + file.count '\n'⟩] ∧
      (∀ t ∈ toks, t.type ≠ TOK_EOF) ∧
      List.Forall₂ (TokenAt file) toks offs ∧ offs.Pairwise (fun a b => a < b) ∧
      (∀ t ∈ s1.token_list, 1 ≤ t.line ∧ t.line ≤ 2147483647) ∧
      (s1.token_list.map (fun t => t.line)).Pairwise (fun a b => a ≤ b) := by
  obtain ⟨s, hs⟩ := tokenize_loop_total file.length file initial_state (Nat.le_refl _)
  obtain ⟨offs, hline, htoks, hoffs, hpw⟩ := tokenize_loop_lexed_to file.length [] file
    initial_state s [] hs
    ⟨rfl, by simp [initial_state], by simp, List.Pairwise.nil⟩
  obtain ⟨toks0, e0, hne⟩ := tokenize_loop_extends _ _ _ _ hs
  simp only [List.nil_append] at hline htoks
  have hsorted := token_at_lines_sorted file s.token_list offs htoks hpw
  have hle : ∀ t ∈ s.token_list, t.line ≤ 1 + file.count '\n' := by
    intro t ht
    obtain ⟨o, _, hr⟩ := forall₂_mem_left htoks ht
    rw [hr.1]
    have := List.Sublist.count_le (List.take_sublist o file) '\n'
    omega
  refine ⟨add_token TOK_EOF [] s.line s, s.token_list, offs, ?_, ?_, ?_, htoks, hpw, ?_, ?_⟩
  · unfold tokenize_file
    rw [hs]
  · simp [add_token, hline, c_string]
  · intro t ht
    apply hne
    rw [e0] at ht
    simpa [initial_state] using ht
  · intro t ht
    simp only [add_token, List.mem_append, List.mem_singleton] at ht
    rcases ht with ht | ht
    · have h1 := hle t ht
      obtain ⟨o, _, hr⟩ := forall₂_mem_left htoks ht
      rw [hr.1] at h1 ⊢; omega
    · rw [ht]; show 1 ≤ s.line ∧ s.line ≤ 2147483647; omega
  · simp only [add_token, List.map_append, List.map_cons, List.map_nil]
    rw [List.pairwise_append]
    refine ⟨hsorted, List.pairwise_singleton _ _, ?_⟩
    intro a ha b hb
    simp only [List.mem_singleton] at hb
    obtain ⟨t, ht, rfl⟩ := List.mem_map.1 ha
    rw [hb, hline]
    exact hle t ht

theorem token_lines_witness :
    ∃ s1 toks, tokenize_file "x\n/* \n */ y".toList initial_state = some s1 ∧
      s1.token_list = toks ++ [⟨TOK_EOF, [], 1 + "x\n/* \n */ y".toList.count '\n'⟩] ∧
      (∀ t ∈ s1.token_list, 1 ≤ t.line ∧ t.line ≤ 2147483647) ∧
      (s1.token_list.map (fun t => t.line)).Pairwise (fun a b => a ≤ b) :=
  let ⟨s1, toks, _, h1, h2, _, _, _, h6, h7⟩ :=
    token_lines "x\n/* \n */ y".toList (by decide)
  ⟨s1, toks, h1, h2, h6, h7⟩

/-! ## Comments -/

theorem parse_print_stmt_tree (fuel : Nat) (s : State) (n : Node) (s1 : State)
    (h : parse_print_stmt fuel s = some (some n, s1)) : StmtTree n := by
  simp only [parse_print_stmt] at h
  repeat' split at h
  all_goals try cases h
  all_goals exact StmtTree.print _

theorem parse_decl_stmt_tree (fuel : Nat) (s : State) (n : Node) (s1 : State)
    (h : parse_decl_stmt fuel s = some (some n, s1)) : StmtTree n := by
  simp only [parse_decl_stmt] at h
  repeat' split at h
  all_goals try cases h
  all_goals exact StmtTree.decl _ _

theorem parse_assign_stmt_tree (fuel : Nat) (s : State) (n : Node) (s1 : State)
    (h : parse_assign_stmt fuel s = some (some n, s1)) : StmtTree n := by
  simp only [parse_assign_stmt] at h
  repeat' split at h
  all_goals try cases h
  all_goals exact StmtTree.assign _ _

theorem stmts_or_empty_tree (l : List Node) (h : ∀ n ∈ l, StmtTree n) :
    BlockTree (stmts_or_empty (if l.length = 0 then none else some (make_node "Stmts" l))) := by
  cases l with
  | nil => exact BlockTree.mk [] (by simp)
  | cons a l => exact BlockTree.mk (a :: l) h

set_option maxHeartbeats 4000000 in
theorem tree_stmt (fuel : Nat) : TreeStmt fuel := by
  induction fuel with
  | zero =>
    constructor <;> intros <;>
      simp_all [parse_stmts, parse_stmts_loop, parse_stmt, parse_if_stmt, parse_if_then,
        parse_else_opt, parse_do_while_stmt, parse_for_stmt]
  | succ fuel ih =>
    obtain ⟨i1, i2, i3, i4, i5, i6, i7, i8⟩ := ih
    constructor
    · intro s r s1 h
      simp only [parse_stmts] at h
      split at h
      · cases h
      · next l s2 heq =>
        have hl := i2 [] s l s2 (by simp) heq
        have hb := stmts_or_empty_tree l hl
        split at h <;> cases h
        · next hz => rw [if_pos hz] at hb; exact hb
        · next hz => rw [if_neg hz] at hb; exact hb
    · intro acc s l s1 hacc h
      simp only [parse_stmts_loop] at h
      repeat' split at h
      all_goals try cases h
      all_goals first
        | exact hacc
        | exact i2 _ _ _ _ hacc h
        | (refine i2 _ _ _ _ ?_ h
           intro n hn
           rcases List.mem_append.1 hn with hn | hn
           · exact hacc n hn
           · simp only [List.mem_singleton] at hn
             rw [hn]
             exact i3 _ _ _ (by assumption))
    · intro s n s1 h
      simp only [parse_stmt] at h
      repeat' split at h
      all_goals try (simp only [fail_here, Option.some.injEq, Prod.mk.injEq] at h; cases h.1)
      · exact i4 _ _ _ h
      · exact i7 _ _ _ h
      · exact parse_print_stmt_tree _ _ _ _ h
      · exact parse_decl_stmt_tree _ _ _ _ h
      · exact i8 _ _ _ h
      · exact parse_assign_stmt_tree _ _ _ _ h
    · intro s n s1 h
      simp only [parse_if_stmt] at h
      repeat' split at h
      all_goals try cases h
      obtain ⟨cond, block, rfl, hb⟩ := i5 _ _ _ (by assumption)
      exact StmtTree.if_stmt cond block _ hb (i6 _ _ _ (by assumption))
    · intro s n s1 h
      simp only [parse_if_then] at h
      repeat' split at h
      all_goals try cases h
      exact ⟨_, _, rfl, i1 _ _ _ (by assumption)⟩
    · intro s e s1 h
      simp only [parse_else_opt] at h
      repeat' split at h
      all_goals try cases h
      all_goals first
        | exact ElseTree.absent
        | exact ElseTree.present _ (i1 _ _ _ (by assumption))
    · intro s n s1 h
      simp only [parse_do_while_stmt] at h
      repeat' split at h
      all_goals try cases h
      all_goals exact StmtTree.do_while _ _ (i1 _ _ _ (by assumption))
    · intro s n s1 h
      simp only [parse_for_stmt] at h
      repeat' split at h
      all_goals try cases h
      all_goals exact StmtTree.for_stmt _ _ _ _ (i1 _ _ _ (by assumption))

theorem parse_prog_tree (fuel : Nat) (s : State) (root : Node) (s1 : State)
    (h : parse_prog fuel s = some (some root, s1)) : ProgTree root := by
  simp only [parse_prog] at h
  repeat' split at h
  all_goals try cases h
  all_goals exact ProgTree.mk _ ((tree_stmt fuel).stmts _ _ _ (by assumption))

/-- In a run of the statement loop that leaves the collector empty, every iteration
stores one statement: the list grows by the number of statements the tokens read are
made of. -/
theorem parse_stmts_loop_count (fuel : Nat) :
    ∀ acc s l s1, WellFormed s → parse_stmts_loop fuel acc s = some (l, s1) → s1.errors = [] →
      ∃ k w, l.length = acc.length + k ∧ rest s = w ++ rest s1 ∧
        Parses MAX_STMTS MAX_SYMBOLS (NT.Stmts k) (names s) w (names s1) := by
  induction fuel with
  | zero =>
    intro acc s l s1 hs h he
    simp [parse_stmts_loop] at h
  | succ fuel ih =>
    intro acc s l s1 hs h he
    have hbad := (bad_stable.keeps_stmt fuel).loop
    simp only [parse_stmts_loop] at h
    split at h
    · split at h
      · simp only [Option.some.injEq, Prod.mk.injEq] at h
        obtain ⟨_, rfl⟩ := h
        exact absurd he (fail_here_bad _ s hs)
      · split at h
        · cases h
        · next stmt s2 heq =>
          have hs2 : WellFormed s2 := (wellFormed_stable.keeps_stmt fuel).stmt _ _ _ heq hs
          have he2 : s2.errors = [] := by
            by_contra hne
            exact hbad _ _ _ _ h hne he
          obtain ⟨_, w1, r1, p1⟩ := (sound_stmt fuel).stmt s stmt s2 hs heq he2
          obtain ⟨k, w2, hl, r2, p2⟩ := ih (acc ++ [stmt]) s2 l s1 hs2 h he
          refine ⟨k + 1, w1 ++ w2, ?_, ?_, Parses.stmts_cons p1 p2⟩
          · rw [hl, List.length_append, List.length_cons, List.length_nil]; omega
          · rw [r1, r2, List.append_assoc]
        · next s2 heq =>
          exfalso
          have hb2 : s2.errors ≠ [] := (fails_stmt fuel).stmt s s2 hs heq
          refine hbad _ _ _ _ h ?_ he
          split
          · exact skip_bad _ hb2
          · exact hb2
    · simp only [Option.some.injEq, Prod.mk.injEq] at h
      obtain ⟨rfl, rfl⟩ := h
      exact ⟨0, [], rfl, rfl, Parses.stmts_nil⟩

theorem stmts_count_zero_iff {B M k : Nat} {G G1 : List Str} {w : List Token}
    (h : Parses B M (NT.Stmts k) G w G1) : k = 0 ↔ w = [] := by
  cases h with
  | stmts_nil => simp
  | stmts_cons ha hb =>
    obtain ⟨t, r, e, _⟩ := parses_first ha
    rw [e]
    simp

/-- C20: `begin end` parses successfully to `Prog` over a `Stmts` node without children.
In every tree that `parse_prog` returns, the program body and the body of every `if`,
`else`, `do`-`while` and `for` is a non-NULL node labelled `Stmts` whose children are
statement nodes. And whenever a call of `parse_stmts` leaves the collector empty, the
`Stmts` node that its callers put in the block position has as many children as the
tokens of the block make up statements: none exactly when the block has no token. -/
theorem empty_blocks_explicit :
    (main "begin end".toList).map (fun r => (r.syntax_yes, r.state.errors, r.root))
      = some (true, [], some (make_node "Prog" [make_node "Stmts" []])) ∧
    (∀ fuel s root s1, parse_prog fuel s = some (some root, s1) → ProgTree root) ∧
    ∀ fuel s r s1, WellFormed s → parse_stmts fuel s = some (r, s1) → s1.errors = [] →
      ∃ k w, rest s = w ++ rest s1 ∧
        Parses MAX_STMTS MAX_SYMBOLS (NT.Stmts k) (names s) w (names s1) ∧
        (stmts_or_empty r).label = "Stmts".toList ∧
        (stmts_or_empty r).children.length = k ∧ (k = 0 ↔ w = []) := by
  refine ⟨rfl, parse_prog_tree, ?_⟩
  intro fuel s r s1 hs h he
  cases fuel with
  | zero => simp [parse_stmts] at h
  | succ fuel =>
    simp only [parse_stmts] at h
    split at h
    · cases h
    · next l s2 heq =>
      have e2 : s2 = s1 := by
        split at h <;> simp only [Option.some.injEq, Prod.mk.injEq] at h <;> exact h.2
      subst e2
      obtain ⟨k, w, hl, hr, hp⟩ := parse_stmts_loop_count fuel [] s l s2 hs heq he
      refine ⟨k, w, hr, hp, ?_, ?_, stmts_count_zero_iff hp⟩
      · split at h <;> simp only [Option.some.injEq, Prod.mk.injEq] at h <;>
          obtain ⟨rfl, _⟩ := h <;> rfl
      · simp only [List.length_nil, Nat.zero_add] at hl
        split at h <;> simp only [Option.some.injEq, Prod.mk.injEq] at h <;>
          obtain ⟨rfl, _⟩ := h
        · rename_i hz _
          rw [← hl, hz]
          rfl
        · rw [← hl]
          simp [stmts_or_empty, make_node, Node.children]

/-! ## The marker array of `print_errors` -/

theorem print_errors_loop_none (errors : List (Int × Str)) (printed_lines : List Bool)
    (hlen : printed_lines.length = MAX_ERRORS) :
    print_errors_loop errors printed_lines = none
      ↔ ∃ e ∈ errors, e.1 < 0 ∨ (MAX_ERRORS : Int) ≤ e.1 := by
  induction errors generalizing printed_lines with
  | nil => simp [print_errors_loop]
  | cons e errors ih =>
    obtain ⟨line, message⟩ := e
    by_cases hneg : line < 0
    · simp [print_errors_loop, hneg]
    by_cases he : line.toNat < MAX_ERRORS
    · have hget : printed_lines[line.toNat]?
          = some (printed_lines.get ⟨line.toNat, by omega⟩) :=
        List.getElem?_eq_getElem (by omega)
      have hnot : ¬ (line < 0 ∨ (MAX_ERRORS : Int) ≤ line) := by omega
      simp only [print_errors_loop, if_neg hneg, hget, List.mem_cons, exists_eq_or_imp,
        hnot, false_or]
      cases printed_lines.get ⟨line.toNat, by omega⟩
      · simp only [Option.map_eq_none']
        exact ih _ (by simpa using hlen)
      · exact ih _ hlen
    · have hget : printed_lines[line.toNat]? = none := List.getElem?_eq_none (by omega)
      have hle : (MAX_ERRORS : Int) ≤ line := by omega
      simp [print_errors_loop, hneg, hget, hle]

/-- C26 (amended): `print_errors` reads and writes `printed_lines[errors[i].line]` in an
array of 100 (`MAX_ERRORS`) entries, with the `int` line as the index. For every content
of the collector an access falls outside the array exactly when some recorded line is
negative or is 100 or more; so when all recorded lines are between 0 and 99 every access
is in bounds and the function returns. The file made of 99 newlines followed by `@` is a
run that prints `no` (hence calls `print_errors`) with the lexical diagnostic of line
100 in the collector, where the access is outside the array. -/
theorem print_errors_marker_bounds :
    (∀ errors : List (Int × Str),
      print_errors_loop errors (List.replicate MAX_ERRORS false) = none
        ↔ ∃ e ∈ errors, e.1 < 0 ∨ 100 ≤ e.1)
    ∧ (∀ errors : List (Int × Str), (∀ e ∈ errors, 0 ≤ e.1 ∧ e.1 < 100) →
        (print_errors_loop errors (List.replicate MAX_ERRORS false)).isSome)
    ∧ (main (List.replicate 99 '\n' ++ ['@'])).map
          (fun r => (r.syntax_yes, r.state.errors, print_errors r.state))
        = some (false, [⟨100, "Unsupported operator: @".toList⟩], none) := by
  have key : ∀ errors : List (Int × Str),
      print_errors_loop errors (List.replicate MAX_ERRORS false) = none
        ↔ ∃ e ∈ errors, e.1 < 0 ∨ 100 ≤ e.1 :=
    fun errors => print_errors_loop_none errors _ (by simp)
  refine ⟨key, ?_, by rfl⟩
  intro errors h
  rw [Option.isSome_iff_ne_none, Ne, key]
  rintro ⟨e, he, hle⟩
  have := h e he
  omega

/-- C26 (counterexample): a collector whose only diagnostic has the line -2147483647,
which is below 100: the access `printed_lines[line]` is outside the array. -/
theorem negative_line_out_of_bounds :
    (∀ e ∈ [((-2147483647 : Int), "Unsupported operator: @".toList)], e.1 < 100)
    ∧ print_errors_loop [(-2147483647, "Unsupported operator: @".toList)]
        (List.replicate MAX_ERRORS false) = none := by
  constructor
  · decide
  · rfl

/-! ## Lexemes longer than the token buffer -/

theorem c_string_length_le (n : Nat) (m : Str) : (c_string n m).length ≤ n := by
  unfold c_string
  rw [List.length_take]
  exact Nat.min_le_left _ _

theorem lex_step_text_length (s s1 : State) (h : LexStep s s1)
    (hs : ∀ t ∈ s.token_list, t.text.length ≤ MAX_TOKEN_LEN - 1) :
    ∀ t ∈ s1.token_list, t.text.length ≤ MAX_TOKEN_LEN - 1 := by
  cases h with
  | skip l h => exact hs
  | unterminated l h => rw [add_error_token_list]; exact hs
  | token k text hk hk2 =>
    intro t ht
    simp only [add_token, List.mem_append, List.mem_singleton] at ht
    rcases ht with ht | ht
    · exact hs t ht
    · rw [ht]; exact c_string_length_le _ _
  | error text msg =>
    intro t ht
    rw [add_error_token_list] at ht
    simp only [add_token, List.mem_append, List.mem_singleton] at ht
    rcases ht with ht | ht
    · exact hs t ht
    · rw [ht]; exact c_string_length_le _ _

theorem tokenize_file_text_length (input : List Char) (s1 : State)
    (h : tokenize_file input initial_state = some s1) :
    ∀ t ∈ s1.token_list, t.text.length ≤ MAX_TOKEN_LEN - 1 := by
  unfold tokenize_file at h
  split at h
  · cases h
  · rename_i s0 h0
    simp only [Option.some.injEq] at h
    subst h
    have key := tokenize_loop_induction
      (fun _ s => ∀ t ∈ s.token_list, t.text.length ≤ MAX_TOKEN_LEN - 1)
      (fun _ a b ha hab => lex_step_text_length a b hab ha)
      _ _ initial_state initial_state s0 (by simp [initial_state]) h0
    intro t ht
    simp only [add_token, List.mem_append, List.mem_singleton] at ht
    rcases ht with ht | ht
    · exact key t ht
    · rw [ht]; exact c_string_length_le _ _

/-- The scanning loop on a maximal run of any length: the buffer receives the run's
characters up to 99 in all, and the whole run is read. -/
theorem scan_run_take (p : Char → Bool) (cs file : List Char) (text : Str)
    (hcs : ∀ x ∈ cs, p x = true) (hlen : text.length ≤ MAX_TOKEN_LEN - 1)
    (hmax : ∀ x ∈ file.head?, p x = false) :
    scan_run p text (cs ++ file) = ((text ++ cs).take (MAX_TOKEN_LEN - 1), file) := by
  induction cs generalizing text with
  | nil =>
    rw [List.append_nil, List.take_of_length_le hlen]
    cases file with
    | nil => simp [scan_run]
    | cons x file =>
      have hx : p x = false := hmax x (by simp)
      simp [scan_run, hx]
  | cons x cs ih =>
    have hx : p x = true := hcs x (by simp)
    have hrest : ∀ y ∈ cs, p y = true := fun y hy => hcs y (by simp [hy])
    by_cases hl : text.length < MAX_TOKEN_LEN - 1
    · have e : scan_run p text (x :: cs ++ file) = scan_run p (text ++ [x]) (cs ++ file) := by
        show scan_run p text (x :: (cs ++ file)) = _
        simp only [scan_run, hx, if_true, hl]
      have hl1 : (text ++ [x]).length ≤ MAX_TOKEN_LEN - 1 := by
        rw [List.length_append, List.length_singleton]; omega
      rw [e, ih (text ++ [x]) hrest hl1, List.append_assoc, List.singleton_append]
    · have e : scan_run p text (x :: cs ++ file) = scan_run p text (cs ++ file) := by
        show scan_run p text (x :: (cs ++ file)) = _
        simp only [scan_run, hx, if_true, hl, if_false]
      have e1 : text.length = MAX_TOKEN_LEN - 1 := by omega
      rw [e, ih text hrest hlen, ← e1, List.take_left' rfl, List.take_left' rfl]

theorem keyword_type_long (text : Str) (h : 5 < text.length) : keyword_type text = none := by
  rw [keyword_type_eq_reserved]
  unfold reserved_kind
  rw [Option.map_eq_none', List.find?_eq_none]
  intro p hp
  have hshort : ∀ q ∈ reserved_words, q.1.toList.length ≤ 5 := by decide
  have := hshort p hp
  intro e
  simp only [decide_eq_true_eq] at e
  rw [e] at this
  omega

theorem isdigit_branch (c : Char) (h : isdigit c = true) :
    c ≠ '\n' ∧ isspace c = false ∧ c ≠ '/' ∧ isalpha c = false := by
  have ha : isalpha c = false := by
    cases hc : isalpha c with
    | false => rfl
    | true => rw [isalpha_not_isdigit c hc] at h; cases h
  unfold isdigit at h
  simp only [Bool.and_eq_true, decide_eq_true_eq] at h
  refine ⟨?_, ?_, ?_, ha⟩
  · intro e; subst e; revert h; decide
  · unfold isspace
    simp only [Bool.or_eq_false_iff, decide_eq_false_iff_not, Bool.and_eq_false_iff]
    omega
  · intro e; subst e; revert h; decide

theorem take_run_text (l : List Char) (h : ∀ x ∈ l, isalnum x = true) :
    c_string (MAX_TOKEN_LEN - 1) (l.take (MAX_TOKEN_LEN - 1)) = l.take (MAX_TOKEN_LEN - 1) := by
  rw [c_string_of_no_nul _ _ (fun x hx => isalnum_ne_nul x (h x (List.mem_of_mem_take hx))),
    List.take_take, Nat.min_self]

/-- The identifier branch of the lexer loop on a maximal run `c :: cs` of more than 99
letters and digits: the buffer holds the first 99 characters, which are too long for a
keyword, and the identifier check runs on them. -/
theorem lex_step_long_word (c : Char) (cs file : List Char) (s : State)
    (hc : isalpha c = true) (hcs : ∀ x ∈ cs, isalnum x = true)
    (hlong : 99 < (c :: cs).length) (hmax : ∀ x ∈ file.head?, isalnum x = false) :
    lex_step c (cs ++ file) s =
      (file,
        if ident_valid ((c :: cs).take 99) then add_token TOK_ID ((c :: cs).take 99) s.line s
        else add_error s.line ("Invalid identifier: ".toList ++ (c :: cs).take 99)
              (add_token TOK_ERROR ((c :: cs).take 99) s.line s)) := by
  obtain ⟨h1, h2, h3⟩ := isalpha_branch c hc
  have hscan : scan_run isalnum [c] (cs ++ file) = ((c :: cs).take 99, file) :=
    scan_run_take isalnum cs file [c] hcs (by simp [MAX_TOKEN_LEN]) hmax
  have hkw : keyword_type ((c :: cs).take 99) = none :=
    keyword_type_long _ (by rw [List.length_take]; omega)
  unfold lex_step
  rw [if_neg h1, if_neg (by simp [h2]), if_neg h3, if_pos hc]
  simp only [hscan, hkw]
  split <;> rfl

theorem lex_step_long_number (c : Char) (cs file : List Char) (s : State)
    (hc : isdigit c = true) (hcs : ∀ x ∈ cs, isdigit x = true)
    (hmax : ∀ x ∈ file.head?, isdigit x = false) :
    lex_step c (cs ++ file) s = (file, add_token TOK_NUM ((c :: cs).take 99) s.line s) := by
  obtain ⟨h1, h2, h3, h4⟩ := isdigit_branch c hc
  have hscan : scan_run isdigit [c] (cs ++ file) = ((c :: cs).take 99, file) :=
    scan_run_take isdigit cs file [c] hcs (by simp [MAX_TOKEN_LEN]) hmax
  unfold lex_step
  rw [if_neg h1, if_neg (by simp [h2]), if_neg h3, if_neg (by simp [h4]), if_pos hc]
  simp only [hscan]

/-- C28: every token of a lexed file has a lexeme of at most 99 characters. One
iteration of the lexer loop on a maximal run `c :: cs` of more than 99 characters reads
the whole run (the unread input is what follows the run) and appends exactly one token,
whose lexeme is the run's first 99 characters. For a run of letters and digits that
starts with a letter the kind is decided on those 99 characters alone: an identifier
token and no diagnostic when they are letters followed only by digits, whatever follows
in the run, and an error token otherwise. For a run of digits the token is a number and
there is no diagnostic. -/
theorem lexeme_truncation (c : Char) (cs file : List Char) (s : State)
    (hlong : 99 < (c :: cs).length) :
    (∀ input s1, tokenize_file input initial_state = some s1 →
      ∀ t ∈ s1.token_list, t.text.length ≤ 99)
    ∧ (isalpha c = true → (∀ x ∈ cs, isalnum x = true) →
        (∀ x ∈ file.head?, isalnum x = false) →
        (lex_step c (cs ++ file) s).1 = file
        ∧ (ident_valid ((c :: cs).take 99) = true ↔ letters_then_digits ((c :: cs).take 99))
        ∧ (letters_then_digits ((c :: cs).take 99) →
            (lex_step c (cs ++ file) s).2 =
              { s with token_list :=
                  s.token_list ++ [⟨TOK_ID, (c :: cs).take 99, s.line⟩] })
        ∧ (¬ letters_then_digits ((c :: cs).take 99) →
            (lex_step c (cs ++ file) s).2 =
              add_error s.line ("Invalid identifier: ".toList ++ (c :: cs).take 99)
                { s with token_list :=
                    s.token_list ++ [⟨TOK_ERROR, (c :: cs).take 99, s.line⟩] }))
    ∧ (isdigit c = true → (∀ x ∈ cs, isdigit x = true) →
        (∀ x ∈ file.head?, isdigit x = false) →
        lex_step c (cs ++ file) s =
          (file, { s with token_list :=
                    s.token_list ++ [⟨TOK_NUM, (c :: cs).take 99, s.line⟩] })) := by
  refine ⟨fun input s1 h => tokenize_file_text_length input s1 h, ?_, ?_⟩
  · intro hc hcs hmax
    have hall : ∀ x ∈ c :: cs, isalnum x = true := by
      intro x hx
      rcases List.mem_cons.1 hx with e | e
      · rw [e]; exact isalpha_isalnum c hc
      · exact hcs x e
    have htext := take_run_text (c :: cs) hall
    have hstep := lex_step_long_word c cs file s hc hcs hlong hmax
    have hiff : ident_valid ((c :: cs).take 99) = true
        ↔ letters_then_digits ((c :: cs).take 99) := by
      have e : (c :: cs).take 99 = c :: cs.take 98 := rfl
      rw [e]
      exact ident_valid_iff c (cs.take 98) hc (fun x hx => hcs x (List.mem_of_mem_take hx))
    refine ⟨by rw [hstep], hiff, ?_, ?_⟩
    · intro hl
      rw [hstep, if_pos (hiff.2 hl)]
      simp only [add_token]
      rw [show (99 : Nat) = MAX_TOKEN_LEN - 1 from rfl, htext]
    · intro hl
      have hv : ¬ ident_valid ((c :: cs).take 99) = true := fun h => hl (hiff.1 h)
      rw [hstep, if_neg hv]
      simp only [add_token]
      rw [show (99 : Nat) = MAX_TOKEN_LEN - 1 from rfl, htext]
  · intro hc hcs hmax
    have hall : ∀ x ∈ c :: cs, isalnum x = true := by
      intro x hx
      rcases List.mem_cons.1 hx with e | e
      · rw [e]; exact isdigit_isalnum c hc
      · exact isdigit_isalnum x (hcs x e)
    have htext := take_run_text (c :: cs) hall
    rw [lex_step_long_number c cs file s hc hcs hmax]
    simp only [add_token]
    rw [show (99 : Nat) = MAX_TOKEN_LEN - 1 from rfl, htext]

theorem lexeme_truncation_witness :
    99 < ('a' :: (List.replicate 97 'a' ++ ['1', 'b'])).length
    ∧ (lex_step 'a' ((List.replicate 97 'a' ++ ['1', 'b']) ++ [';']) initial_state).1 = [';']
    ∧ (lex_step 'a' ((List.replicate 97 'a' ++ ['1', 'b']) ++ [';']) initial_state).2 =
        { initial_state with token_list := [⟨TOK_ID, List.replicate 98 'a' ++ ['1'], 1⟩] } :=
  ⟨by decide,
    ((lexeme_truncation 'a' (List.replicate 97 'a' ++ ['1', 'b']) [';'] initial_state
      (by decide)).2.1 (by decide) (by decide) (by decide)).1,
    ((lexeme_truncation 'a' (List.replicate 97 'a' ++ ['1', 'b']) [';'] initial_state
      (by decide)).2.1 (by decide) (by decide) (by decide)).2.2.1
        ⟨List.replicate 98 'a', ['1'], by decide, by decide, by decide, by decide⟩⟩

/-! ## Invariants of the diagnostic collector -/

theorem collector_step_extends (c : CollectorStep) (s : State) :
    s.errors <+: (collector_step c s).errors := by
  cases c with
  | add line message =>
    by_cases ha : Accepts line message s
    · rw [collector_step, add_error_of_accepts _ _ _ ha]
      exact List.prefix_append _ _
    · rw [collector_step, add_error_of_not_accepts _ _ _ ha]
  | reset => exact List.prefix_refl _

theorem collector_run_extends (steps : List CollectorStep) (s : State) :
    s.errors <+: (collector_run steps s).errors := by
  induction steps generalizing s with
  | nil => exact List.prefix_refl _
  | cons c steps ih =>
    exact (collector_step_extends c s).trans (ih (collector_step c s))

theorem collector_run_append (a b : List CollectorStep) (s : State) :
    collector_run (a ++ b) s = collector_run b (collector_run a s) := by
  simp [collector_run, List.foldl_append]

theorem collector_step_bound (c : CollectorStep) (s : State)
    (h : s.errors.length ≤ MAX_ERRORS) : (collector_step c s).errors.length ≤ MAX_ERRORS := by
  cases c with
  | add line message =>
    by_cases ha : Accepts line message s
    · rw [collector_step, add_error_of_accepts _ _ _ ha]
      have := ha.1
      show (s.errors ++ [_]).length ≤ MAX_ERRORS
      rw [List.length_append, List.length_singleton]
      omega
    · rw [collector_step, add_error_of_not_accepts _ _ _ ha]
      exact h
  | reset => exact h

theorem collector_step_lines (c : CollectorStep) (s : State)
    (hc : ∀ line message, c = CollectorStep.add line message → 1 ≤ line)
    (h : ∀ e ∈ s.errors, 1 ≤ e.line) : ∀ e ∈ (collector_step c s).errors, 1 ≤ e.line := by
  cases c with
  | add line message =>
    by_cases ha : Accepts line message s
    · rw [collector_step, add_error_of_accepts _ _ _ ha]
      intro e he
      have he1 : e ∈ s.errors ++ [⟨line, c_string 255 message⟩] := he
      rcases List.mem_append.1 he1 with h1 | h1
      · exact h e h1
      · simp only [List.mem_singleton] at h1
        rw [h1]
        exact hc line message rfl
    · rw [collector_step, add_error_of_not_accepts _ _ _ ha]
      exact h
  | reset => exact h

theorem collector_run_invariant (steps : List CollectorStep) (s : State)
    (hlen : s.errors.length ≤ MAX_ERRORS) (hnd : s.errors.Nodup) :
    (collector_run steps s).errors.length ≤ MAX_ERRORS
    ∧ (collector_run steps s).errors.Nodup
    ∧ ((∀ e ∈ s.errors, 1 ≤ e.line) →
        (∀ line message, CollectorStep.add line message ∈ steps → 1 ≤ line) →
        ∀ e ∈ (collector_run steps s).errors, 1 ≤ e.line) := by
  induction steps generalizing s with
  | nil => exact ⟨hlen, hnd, fun h _ => h⟩
  | cons c steps ih =>
    have hnd1 : (collector_step c s).errors.Nodup := by
      cases c with
      | add line message => exact stable_errors_nodup.error line message s hnd
      | reset => exact hnd
    obtain ⟨h1, h2, h3⟩ := ih (collector_step c s) (collector_step_bound c s hlen) hnd1
    refine ⟨h1, h2, ?_⟩
    intro hl hpos
    apply h3
    · apply collector_step_lines c s _ hl
      intro line message e
      exact hpos line message (by rw [e]; simp)
    · intro line message hm
      exact hpos line message (by simp [hm])

/-- C25 (counterexample): `add_error(5, "a")` followed by `add_error(0, "b")` records a
diagnostic with line 0, because line 0 is rejected only while `last_error_line` is 0. -/
theorem collector_records_line_zero :
    (collector_run [CollectorStep.add 5 ['a'], CollectorStep.add 0 ['b']]
      initial_state).errors = [⟨5, ['a']⟩, ⟨0, ['b']⟩] := by
  rfl

/-! ## Declarations with an initializer -/

theorem ExprStable.keeps_report {P : State → Prop} (hP : ExprStable P) (line : Nat) (msg : Str)
    (s : State) (h : P s) : P (report line msg s) := by
  unfold Upl.report
  split
  · exact hP.error _ _ _ h
  · exact h

theorem ExprStable.keeps_fail {P : State → Prop} (hP : ExprStable P) (msg : String)
    (s : State) (h : P s) : P (fail_here msg s).2 := hP.skip _ (hP.keeps_report _ _ _ h)

theorem ExprStable.keeps_lit {P : State → Prop} (hP : ExprStable P) (s : State) (h : P s) :
    P (parse_lit s).2 := by
  unfold Upl.parse_lit
  split_ifs
  · exact hP.next _ h
  · exact hP.next _ h
  · exact hP.next _ h
  · exact hP.keeps_fail _ _ h

theorem ExprStable.keeps_all {P : State → Prop} (hP : ExprStable P) (fuel : Nat) :
    KeepsExpr P fuel := by
  induction fuel with
  | zero =>
    constructor <;> intros <;> intro s r s1 h <;>
      simp [parse_expr, parse_eq_expr, parse_eq_loop, parse_rel_expr, parse_rel_loop,
        parse_add_expr, parse_add_loop, parse_mul_expr, parse_mul_loop, parse_prim_expr] at h
  | succ fuel ih =>
    obtain ⟨i1, i2, i3, i4, i5, i6, i7, i8, i9, i10⟩ := ih
    constructor
    all_goals
      intros
      intro s r s1 h hs
      simp only [parse_expr, parse_eq_expr, parse_eq_loop, parse_rel_expr, parse_rel_loop,
        parse_add_expr, parse_add_loop, parse_mul_expr, parse_mul_loop, parse_prim_expr] at h
      repeat' split at h
    all_goals try (first
      | cases h
      | (have e := congrArg Prod.snd (Option.some.inj h); subst e))
    all_goals
      repeat (first
        | assumption
        | apply hP.next
        | apply hP.skip
        | apply hP.keeps_fail
        | apply hP.keeps_report
        | apply hP.keeps_lit
        | refine i1 _ _ _ (by assumption) ?_
        | refine i2 _ _ _ (by assumption) ?_
        | refine i3 _ _ _ _ (by assumption) ?_
        | refine i4 _ _ _ (by assumption) ?_
        | refine i5 _ _ _ _ (by assumption) ?_
        | refine i6 _ _ _ (by assumption) ?_
        | refine i7 _ _ _ _ (by assumption) ?_
        | refine i8 _ _ _ (by assumption) ?_
        | refine i9 _ _ _ _ (by assumption) ?_
        | refine i10 _ _ _ (by assumption) ?_)

theorem table_expr_stable (table : List Symbol) :
    ExprStable (fun s => s.symbol_table = table) where
  next := fun s h => by rw [next_token_symbol_table]; exact h
  skip := fun s h => by rw [skip_to_sync_symbol_table]; exact h
  error := fun line msg s h => by rw [add_error_symbol_table]; exact h

/-- The expression parser never changes the symbol table. -/
theorem parse_expr_symbol_table (fuel : Nat) (s : State) (r : Option Node) (s1 : State)
    (h : parse_expr fuel s = some (r, s1)) : s1.symbol_table = s.symbol_table :=
  ((table_expr_stable s.symbol_table).keeps_all fuel).expr s r s1 h rfl
theorem add_symbol_current_token (name type : Str) (line : Nat) (s : State) :
    (add_symbol name type line s).current_token = s.current_token := by
  unfold add_symbol
  split_ifs
  · exact add_error_current_token _ _ _
  · exact add_error_current_token _ _ _
  · rfl

theorem report_symbol_table (line : Nat) (msg : Str) (s : State) :
    (report line msg s).symbol_table = s.symbol_table := by
  unfold report
  split
  · exact add_error_symbol_table _ _ _
  · rfl

/-- An undeclared identifier at the head of an expression: the expression fails with
the guarded report of `parse_prim_expr` and its recovery. -/
theorem parse_expr_undeclared (f : Nat) (s : State) (hid : s.current_token.type = TOK_ID)
    (hun : is_variable_declared s.current_token.text s = false) :
    parse_expr (f + 6) s = some (none, skip_to_sync (report s.current_token.line
      ("Undeclared variable: ".toList ++ s.current_token.text) s)) := by
  simp [parse_expr, parse_eq_expr, parse_rel_expr, parse_add_expr, parse_mul_expr,
    parse_prim_expr, hid, hun]

/-- C27: a declaration `Type ID = Expr` at the cursor, as a statement
(`parse_decl_stmt`) or as a for-initializer (`for_init`). The initializer is parsed
from a state whose symbol table is the one before the declaration, and the expression
parser never changes the table; so a use of the declared name at the head of its own
initializer fails as an undeclared variable unless the name was declared before. When
the initializer fails, both functions return NULL with the table unchanged. When it
succeeds, `add_symbol` is called on the state the initializer left, before the `;` is
looked at: the for-initializer returns that state, a missing `;` makes the statement
fail with the table `add_symbol` left, and with the `;` the statement succeeds. For a
new name and a table with room, `add_symbol` appends the name. -/
theorem declaration_after_initializer (fuel : Nat) (s : State)
    (hty : s.current_token.type = TOK_INT ∨ s.current_token.type = TOK_BOOL)
    (hid : (next_token s).current_token.type = TOK_ID)
    (hassign : (next_token (next_token s)).current_token.type = TOK_ASSIGN) :
    let name := (next_token s).current_token.text
    let line := (next_token s).current_token.line
    let type := if s.current_token.type = TOK_INT then "int".toList else "bool".toList
    let type_node :=
      if s.current_token.type = TOK_INT then make_node "Type_int" [] else make_node "Type_bool" []
    let s0 := next_token (next_token (next_token s))
    s0.symbol_table = s.symbol_table
    ∧ (∀ r s2, parse_expr fuel s0 = some (r, s2) → s2.symbol_table = s.symbol_table)
    ∧ (∀ f, fuel = f + 6 → s0.current_token.type = TOK_ID →
        is_variable_declared s0.current_token.text s = false →
        parse_expr fuel s0 = some (none, skip_to_sync (report s0.current_token.line
          ("Undeclared variable: ".toList ++ s0.current_token.text) s0)))
    ∧ (∀ s2, parse_expr fuel s0 = some (none, s2) →
        parse_decl_stmt fuel s = some (none, skip_to_sync (skip_to_sync s2))
        ∧ for_init fuel s = some (none, skip_to_sync (skip_to_sync s2))
        ∧ (skip_to_sync (skip_to_sync s2)).symbol_table = s.symbol_table)
    ∧ (∀ e s2, parse_expr fuel s0 = some (some e, s2) →
        for_init fuel s = some (some (make_node "ForInit"
            [type_node, make_node "InitDecl" [leaf name, e]]), add_symbol name type line s2)
        ∧ (s2.current_token.type ≠ TOK_SEMICOLON →
            parse_decl_stmt fuel s = some (none, skip_to_sync
              (report line "Expected ';'".toList (add_symbol name type line s2)))
            ∧ (skip_to_sync (report line "Expected ';'".toList
                (add_symbol name type line s2))).symbol_table
              = (add_symbol name type line s2).symbol_table)
        ∧ (s2.current_token.type = TOK_SEMICOLON →
            parse_decl_stmt fuel s = some (some (make_node "DeclStmt"
              [type_node, make_node "InitDecl" [leaf name, e]]),
              next_token (add_symbol name type line s2)))
        ∧ (is_variable_declared name s = false → s.symbol_table.length < MAX_SYMBOLS →
            (add_symbol name type line s2).symbol_table
              = s.symbol_table ++ [⟨name, type, line⟩])) := by
  intro name line type type_node s0
  have h0 : s0.symbol_table = s.symbol_table := by
    simp only [s0, next_token_symbol_table]
  have hexpr : ∀ r s2, parse_expr fuel s0 = some (r, s2) → s2.symbol_table = s.symbol_table :=
    fun r s2 h => (parse_expr_symbol_table fuel s0 r s2 h).trans h0
  have hdecl : ∀ q : State, is_variable_declared s0.current_token.text q
      = q.symbol_table.any (fun sym => sym.name = s0.current_token.text) := fun q => rfl
  have htype : parse_type s = (some type_node, next_token s) := by
    rcases hty with h | h
    · simp [parse_type, type_node, h]
    · simp [parse_type, type_node, h]
  have hstr : type_str type_node = type := by
    rcases hty with h | h
    · simp only [type_node, type, h, if_true]; rfl
    · simp only [type_node, type, h]; rfl
  refine ⟨h0, hexpr, ?_, ?_, ?_⟩
  · intro f hf hid0 hun
    rw [hf]
    apply parse_expr_undeclared f s0 hid0
    rw [hdecl, h0]
    exact hun
  · intro s2 h2
    have hinit : parse_init_decl fuel type (next_token s) = some (none, line, skip_to_sync s2) := by
      simp only [parse_init_decl, hid, hassign, ne_eq, not_true_eq_false, if_false, if_true]
      rw [show next_token (next_token (next_token s)) = s0 from rfl, h2]
    refine ⟨?_, ?_, ?_⟩
    · simp only [parse_decl_stmt, htype, hstr, hinit]
    · simp only [for_init, hty, if_true, htype, hstr, hinit]
    · rw [skip_to_sync_symbol_table, skip_to_sync_symbol_table]
      exact hexpr _ _ h2
  · intro e s2 h2
    have hinit : parse_init_decl fuel type (next_token s)
        = some (some (make_node "InitDecl" [leaf name, e]), line,
            add_symbol name type line s2) := by
      simp only [parse_init_decl, hid, hassign, ne_eq, not_true_eq_false, if_false, if_true]
      rw [show next_token (next_token (next_token s)) = s0 from rfl, h2]
    refine ⟨?_, ?_, ?_, ?_⟩
    · simp only [for_init, hty, if_true, htype, hstr, hinit]
    · intro hsemi
      refine ⟨?_, ?_⟩
      · simp only [parse_decl_stmt, htype, hstr, hinit, add_symbol_current_token, ne_eq, hsemi,
          not_false_eq_true, if_true]
      · rw [skip_to_sync_symbol_table, report_symbol_table]
    · intro hsemi
      simp only [parse_decl_stmt, htype, hstr, hinit, add_symbol_current_token, ne_eq, hsemi,
        not_true_eq_false, if_false]
    · intro hnew hroom
      have e2 := hexpr _ _ h2
      have hn : ¬ s2.symbol_table.length ≥ MAX_SYMBOLS := by rw [e2]; omega
      have hd : ¬ (s2.symbol_table.any (fun sym => sym.name = name)) = true := by
        rw [e2]
        unfold is_variable_declared at hnew
        rw [hnew]
        simp
      unfold add_symbol
      rw [if_neg hn, if_neg hd, e2]

theorem declaration_after_initializer_witness :
    parse_expr 6 (next_token (next_token (next_token
        { initial_state with
            token_list := [⟨TOK_INT, "int".toList, 1⟩, ⟨TOK_ID, ['x'], 1⟩, ⟨TOK_ASSIGN, ['='], 1⟩,
              ⟨TOK_ID, ['x'], 1⟩, ⟨TOK_SEMICOLON, [';'], 1⟩, ⟨TOK_EOF, [], 1⟩],
            current_token := ⟨TOK_INT, "int".toList, 1⟩, token_index := 0 })))
      = some (none, skip_to_sync (report 1 "Undeclared variable: x".toList
          (next_token (next_token (next_token
            { initial_state with
              token_list := [⟨TOK_INT, "int".toList, 1⟩, ⟨TOK_ID, ['x'], 1⟩,
                ⟨TOK_ASSIGN, ['='], 1⟩, ⟨TOK_ID, ['x'], 1⟩, ⟨TOK_SEMICOLON, [';'], 1⟩,
                ⟨TOK_EOF, [], 1⟩],
              current_token := ⟨TOK_INT, "int".toList, 1⟩, token_index := 0 }))))) :=
  (declaration_after_initializer 6
    { initial_state with
        token_list := [⟨TOK_INT, "int".toList, 1⟩, ⟨TOK_ID, ['x'], 1⟩, ⟨TOK_ASSIGN, ['='], 1⟩,
          ⟨TOK_ID, ['x'], 1⟩, ⟨TOK_SEMICOLON, [';'], 1⟩, ⟨TOK_EOF, [], 1⟩],
        current_token := ⟨TOK_INT, "int".toList, 1⟩, token_index := 0 }
    (Or.inl rfl) rfl rfl).2.2.1 0 rfl rfl rfl

/-- Runs that show the order of C27: `int x = x;` reports the use of `x` in its own
initializer and declares nothing; a declaration that lacks only its `;` leaves `x`
declared, so the later `x = 1;` is accepted; after a failed initializer `x` is not
declared, so the later `x = 1;` is reported. -/
theorem scenario_initializer_order :
    (main "begin\nint x = x;\nend".toList).map
        (fun r => (r.state.errors, r.state.symbol_table))
      = some ([⟨2, "Undeclared variable: x".toList⟩, ⟨3, "Expected 'end'".toList⟩], [])
    ∧ (main "begin\nint x = 5\nprint(0);\nprint(0);\nx = 1;\nend".toList).map
        (fun r => (r.state.errors, r.state.symbol_table))
      = some ([⟨2, "Expected ';'".toList⟩], [⟨['x'], "int".toList, 2⟩])
    ∧ (main "begin\nint x = ;\nprint(0);\nprint(0);\nprint(0);\nx = 1;\nend".toList).map
        (fun r => (r.state.errors, r.state.symbol_table))
      = some ([⟨2, "Invalid primary expression".toList⟩,
          ⟨6, "Undeclared variable: x".toList⟩, ⟨7, "Expected 'end'".toList⟩], []) := by
  refine ⟨?_, ?_, ?_⟩ <;> rfl

/-! ## The recovery jump `skip_to_sync` -/

theorem skip_same_line_eq (line : Nat) (l : List Token) (i : Int) :
    skip_same_line line l i
      = i + ((l.takeWhile (fun t => decide (t.line = line))).length : Int) := by
  induction l generalizing i with
  | nil => simp [skip_same_line]
  | cons t l ih =>
    simp only [skip_same_line]
    by_cases h : t.line = line
    · rw [if_pos h, ih, List.takeWhile_cons_of_pos (by simpa using h)]
      simp only [List.length_cons, Nat.cast_add, Nat.cast_one]
      omega
    · rw [if_neg h, List.takeWhile_cons_of_neg (by simpa using h)]
      simp

theorem takeWhile_get (p : Token → Bool) (l : List Token) :
    (∀ m, m < (l.takeWhile p).length → ∃ t, l[m]? = some t ∧ p t = true)
    ∧ (∀ t, l[(l.takeWhile p).length]? = some t → p t = false) := by
  induction l with
  | nil => simp
  | cons x l ih =>
    by_cases hx : p x = true
    · rw [List.takeWhile_cons_of_pos hx]
      refine ⟨?_, ?_⟩
      · intro m hm
        cases m with
        | zero => exact ⟨x, by simp, hx⟩
        | succ m =>
          simp only [List.length_cons, Nat.add_lt_add_iff_right] at hm
          simpa using ih.1 m hm
      · intro t ht
        simp only [List.length_cons, List.getElem?_cons_succ] at ht
        exact ih.2 t ht
    · rw [List.takeWhile_cons_of_neg hx]
      refine ⟨by simp, ?_⟩
      intro t ht
      simp only [List.length_nil, List.getElem?_cons_zero, Option.some.injEq] at ht
      rw [← ht]
      simpa using hx

/-- C23: `skip_to_sync` from a cursor inside the token list whose token is
`current_token`, with `L` the line of that token. The new `token_index` is some `j`
greater than the old one; every token from the old cursor up to `j` is on line `L`;
when `j` is inside the list, the token at `j` is not on line `L` and is the new
`current_token`; when all the remaining tokens are on line `L`, `j` is the token count,
and then `current_token` is the made-up end-of-input token (empty lexeme, line of the
line counter). The token list, the symbol table, the collector, `last_error_line` and
the line counter are unchanged. -/
theorem skip_to_sync_spec (s : State) (n : Nat) (hidx : s.token_index = (n : Int))
    (hlt : n < s.token_list.length) (hcur : s.token_list[n]? = some s.current_token) :
    ∃ j : Nat, (skip_to_sync s).token_index = (j : Int)
      ∧ n < j ∧ j ≤ s.token_list.length
      ∧ (∀ i, n ≤ i → i < j →
          ∃ t, s.token_list[i]? = some t ∧ t.line = s.current_token.line)
      ∧ (j < s.token_list.length →
          s.token_list[j]? = some (skip_to_sync s).current_token
          ∧ (skip_to_sync s).current_token.line ≠ s.current_token.line)
      ∧ ((∀ i t, n ≤ i → s.token_list[i]? = some t → t.line = s.current_token.line) →
          j = s.token_list.length)
      ∧ (j = s.token_list.length → (skip_to_sync s).current_token = ⟨TOK_EOF, [], s.line⟩)
      ∧ (skip_to_sync s).token_list = s.token_list
      ∧ (skip_to_sync s).symbol_table = s.symbol_table
      ∧ (skip_to_sync s).errors = s.errors
      ∧ (skip_to_sync s).last_error_line = s.last_error_line
      ∧ (skip_to_sync s).line = s.line := by
  obtain ⟨hrun, hstop⟩ :=
    takeWhile_get (fun t => decide (t.line = s.current_token.line)) (s.token_list.drop n)
  have hk : skip_same_line s.current_token.line (s.token_list.drop s.token_index.toNat)
      s.token_index = ((n + ((s.token_list.drop n).takeWhile
        (fun t => decide (t.line = s.current_token.line))).length : Nat) : Int) := by
    rw [skip_same_line_eq, hidx]
    simp
  generalize hkdef : ((s.token_list.drop n).takeWhile
    (fun t => decide (t.line = s.current_token.line))).length = k at hk hrun hstop
  have hkpos : 0 < k := by
    rw [← hkdef]
    have hd : s.token_list.drop n = s.current_token :: s.token_list.drop (n + 1) := by
      rw [List.drop_eq_getElem_cons hlt]
      congr 1
      have := List.getElem?_eq_getElem hlt
      rw [hcur] at this
      exact (Option.some.inj this).symm
    rw [hd, List.takeWhile_cons_of_pos (by simp)]
    simp
  have hkle : n + k ≤ s.token_list.length := by
    rw [← hkdef]
    have := (List.takeWhile_prefix (fun t => decide (t.line = s.current_token.line))
      (l := s.token_list.drop n)).length_le
    rw [List.length_drop] at this
    omega
  have hget : ∀ m, (s.token_list.drop n)[m]? = s.token_list[n + m]? := fun m => by
    rw [List.getElem?_drop]
  have hat : n + k < s.token_list.length →
      s.token_list[n + k]? = some (skip_to_sync s).current_token
      ∧ (skip_to_sync s).current_token.line ≠ s.current_token.line := by
    intro hj
    have hcur1 : (skip_to_sync s).current_token = s.token_list.get ⟨n + k, hj⟩ := by
      unfold skip_to_sync
      dsimp only
      rw [hk, if_pos (by omega)]
      dsimp only
      rw [Int.toNat_ofNat, List.getD_eq_getElem _ _ hj]
      rfl
    have hsome : s.token_list[n + k]? = some (s.token_list.get ⟨n + k, hj⟩) :=
      List.getElem?_eq_getElem hj
    refine ⟨by rw [hcur1]; exact hsome, ?_⟩
    have := hstop (s.token_list.get ⟨n + k, hj⟩) (by rw [hget]; exact hsome)
    rw [hcur1]
    simpa using this
  refine ⟨n + k, ?_, by omega, hkle, ?_, hat, ?_, ?_, ?_, ?_, ?_, ?_, ?_⟩
  · unfold skip_to_sync
    dsimp only
    rw [hk]
    split <;> rfl
  · intro i h1 h2
    obtain ⟨t, ht, hp⟩ := hrun (i - n) (by omega)
    rw [hget, show n + (i - n) = i by omega] at ht
    exact ⟨t, ht, by simpa using hp⟩
  · intro hall
    by_contra hne
    have hj : n + k < s.token_list.length := by omega
    obtain ⟨h1, h2⟩ := hat hj
    exact h2 (hall (n + k) _ (by omega) h1)
  · intro hj
    unfold skip_to_sync
    dsimp only
    rw [hk, if_neg (by omega)]
    rfl
  · unfold skip_to_sync; dsimp only; split <;> rfl
  · exact skip_to_sync_symbol_table s
  · exact skip_to_sync_errors s
  · exact skip_to_sync_last_error_line s
  · unfold skip_to_sync; dsimp only; split <;> rfl

theorem skip_to_sync_spec_witness :
    ∃ j : Nat, (skip_to_sync { initial_state with
        token_list := [⟨TOK_PRINT, "print".toList, 1⟩, ⟨TOK_LPAREN, ['('], 1⟩,
          ⟨TOK_END, "end".toList, 2⟩, ⟨TOK_EOF, [], 2⟩],
        current_token := ⟨TOK_PRINT, "print".toList, 1⟩, token_index := 0 }).token_index
          = (j : Int) ∧ 0 < j ∧ j ≤ 4 :=
  (skip_to_sync_spec { initial_state with
      token_list := [⟨TOK_PRINT, "print".toList, 1⟩, ⟨TOK_LPAREN, ['('], 1⟩,
        ⟨TOK_END, "end".toList, 2⟩, ⟨TOK_EOF, [], 2⟩],
      current_token := ⟨TOK_PRINT, "print".toList, 1⟩, token_index := 0 } 0 rfl
    (by decide) rfl).imp (fun j h => ⟨h.1, h.2.1, h.2.2.1⟩)

/-! ## Precedence and associativity in the expression trees -/

theorem parse_prim_operand (f : Nat) (s s0 : State) (h : IsOperand s0 s.current_token)
    (ht : s.symbol_table = s0.symbol_table) :
    parse_prim_expr (f + 1) s = some (some (operand_node s.current_token), next_token s) := by
  have hd : ∀ text, is_variable_declared text s = is_variable_declared text s0 := by
    intro text; unfold is_variable_declared; rw [ht]
  rcases h with h | h | h | ⟨h, h1⟩
  · simp [parse_prim_expr, parse_lit, operand_node, h]
  · simp [parse_prim_expr, parse_lit, operand_node, h]
  · simp [parse_prim_expr, parse_lit, operand_node, h]
  · simp [parse_prim_expr, operand_node, h, hd, h1]

theorem op_level_cases (k : TokenType) (h : 0 < op_level k) :
    k = TOK_EQ ∨ k = TOK_GT ∨ k = TOK_GTE ∨ k = TOK_PLUS ∨ k = TOK_MUL := by
  cases k <;> simp [op_level] at h ⊢

/-- C24: the expression `a op1 b op2 c` at the cursor, with operands that are literals
or declared identifiers, binary operators `op1` and `op2` among `==`, `>`, `>=`, `+`,
`*`, and a following token that is not a binary operator. When `op2` does not bind
tighter than `op1` (in particular when they are the same operator, or `>` and `>=`),
the tree is `Op2(Op1(a, b), c)`: operators of one level associate to the left and a
tighter `op1` is grouped first. When `op2` binds tighter than `op1`, the tree is
`Op1(a, Op2(b, c))`. The levels are `*` over `+` over `>` and `>=` over `==`. A
parenthesised expression returns the tree of the inner expression itself. -/
theorem expression_trees (f : Nat) (s : State)
    (ha : IsOperand s s.current_token)
    (hop1 : 0 < op_level (next_token s).current_token.type)
    (hb : IsOperand s (next_token (next_token s)).current_token)
    (hop2 : 0 < op_level (next_token (next_token (next_token s))).current_token.type)
    (hc : IsOperand s (next_token (next_token (next_token (next_token s)))).current_token)
    (hend : op_level (next_token (next_token (next_token (next_token
      (next_token s))))).current_token.type = 0) :
    let a := operand_node s.current_token
    let op1 := (next_token s).current_token.type
    let b := operand_node (next_token (next_token s)).current_token
    let op2 := (next_token (next_token (next_token s))).current_token.type
    let c := operand_node (next_token (next_token (next_token (next_token s)))).current_token
    parse_expr (f + 12) s
      = some (some (if op_level op2 ≤ op_level op1 then op_node op2 (op_node op1 a b) c
                    else op_node op1 a (op_node op2 b c)),
          next_token (next_token (next_token (next_token (next_token s)))))
    ∧ (∀ fuel (p : State) (e : Node) (p1 : State),
        p.current_token.type = TOK_LPAREN →
        parse_expr fuel (next_token p) = some (some e, p1) →
        p1.current_token.type = TOK_RPAREN →
        parse_prim_expr (fuel + 1) p = some (some e, next_token p1)) := by
  intro a op1 b op2 c
  have pa := fun g => parse_prim_operand g s s ha rfl
  have pb := fun g => parse_prim_operand g (next_token (next_token s)) s hb
    (by simp [next_token_symbol_table])
  have pc := fun g => parse_prim_operand g
    (next_token (next_token (next_token (next_token s)))) s hc
    (by simp [next_token_symbol_table])
  have hz : ∀ k, 0 < op_level k → ¬ (next_token (next_token (next_token (next_token
      (next_token s))))).current_token.type = k := by
    intro k hk e; rw [e] at hend; omega
  have z1 := hz TOK_EQ (by decide)
  have z2 := hz TOK_GT (by decide)
  have z3 := hz TOK_GTE (by decide)
  have z4 := hz TOK_PLUS (by decide)
  have z5 := hz TOK_MUL (by decide)
  refine ⟨?_, ?_⟩
  · rcases op_level_cases _ hop1 with e1 | e1 | e1 | e1 | e1 <;>
      rcases op_level_cases _ hop2 with e2 | e2 | e2 | e2 | e2 <;>
      simp [parse_expr, parse_eq_expr, parse_eq_loop, parse_rel_expr, parse_rel_loop,
        parse_add_expr, parse_add_loop, parse_mul_expr, parse_mul_loop, pa, pb, pc,
        z1, z2, z3, z4, z5, op_node, op_level, e1, e2, a, b, c, op1, op2]
  · intro fuel p e p1 h1 h2 h3
    simp [parse_prim_expr, h1, h2, h3]

theorem expression_trees_witness :
    parse_expr 12 { initial_state with
        token_list := [⟨TOK_NUM, ['1'], 1⟩, ⟨TOK_PLUS, ['+'], 1⟩, ⟨TOK_NUM, ['2'], 1⟩,
          ⟨TOK_MUL, ['*'], 1⟩, ⟨TOK_NUM, ['3'], 1⟩, ⟨TOK_SEMICOLON, [';'], 1⟩,
          ⟨TOK_EOF, [], 1⟩],
        current_token := ⟨TOK_NUM, ['1'], 1⟩, token_index := 0 }
      = some (some (make_node "AddExpr" [make_node "Num" [leaf ['1']],
            make_node "MulExpr" [make_node "Num" [leaf ['2']], make_node "Num" [leaf ['3']]]]),
          { initial_state with
            token_list := [⟨TOK_NUM, ['1'], 1⟩, ⟨TOK_PLUS, ['+'], 1⟩, ⟨TOK_NUM, ['2'], 1⟩,
              ⟨TOK_MUL, ['*'], 1⟩, ⟨TOK_NUM, ['3'], 1⟩, ⟨TOK_SEMICOLON, [';'], 1⟩,
              ⟨TOK_EOF, [], 1⟩],
            current_token := ⟨TOK_SEMICOLON, [';'], 1⟩, token_index := 5 }) :=
  (expression_trees 0 { initial_state with
        token_list := [⟨TOK_NUM, ['1'], 1⟩, ⟨TOK_PLUS, ['+'], 1⟩, ⟨TOK_NUM, ['2'], 1⟩,
          ⟨TOK_MUL, ['*'], 1⟩, ⟨TOK_NUM, ['3'], 1⟩, ⟨TOK_SEMICOLON, [';'], 1⟩,
          ⟨TOK_EOF, [], 1⟩],
        current_token := ⟨TOK_NUM, ['1'], 1⟩, token_index := 0 }
    (Or.inl rfl) (by decide) (Or.inl rfl) (by decide) (Or.inl rfl) rfl).1

/-- Runs that show the trees of C24: `1 + 2 * 3`, `1 * 2 + 3`, `1 + 2 + 3`,
`1 == 2 > 3` and `(1 + 2) * 3` as the argument of `print`. -/
theorem scenario_expression_trees :
    (main "begin print(1 + 2 * 3); print(1 * 2 + 3); print(1 + 2 + 3); print(1 == 2 > 3); print((1 + 2) * 3); end".toList).map
        (fun r => (r.syntax_yes, r.root))
      = some (true, some (make_node "Prog" [make_node "Stmts" [
          make_node "PrintStmt" [make_node "AddExpr" [make_node "Num" [leaf ['1']],
            make_node "MulExpr" [make_node "Num" [leaf ['2']], make_node "Num" [leaf ['3']]]]],
          make_node "PrintStmt" [make_node "AddExpr" [
            make_node "MulExpr" [make_node "Num" [leaf ['1']], make_node "Num" [leaf ['2']]],
            make_node "Num" [leaf ['3']]]],
          make_node "PrintStmt" [make_node "AddExpr" [
            make_node "AddExpr" [make_node "Num" [leaf ['1']], make_node "Num" [leaf ['2']]],
            make_node "Num" [leaf ['3']]]],
          make_node "PrintStmt" [make_node "EqExpr" [make_node "Num" [leaf ['1']],
            make_node "Gt" [make_node "Num" [leaf ['2']], make_node "Num" [leaf ['3']]]]],
          make_node "PrintStmt" [make_node "MulExpr" [
            make_node "AddExpr" [make_node "Num" [leaf ['1']], make_node "Num" [leaf ['2']]],
            make_node "Num" [leaf ['3']]]]]])) := by
  rfl

/-! ## Termination of the parser -/

theorem rest_length (s : State) : (rest s).length = s.token_list.length - s.token_index.toNat := by
  unfold rest
  rw [List.length_drop]

theorem next_token_token_list (s : State) : (next_token s).token_list = s.token_list := by
  unfold next_token
  split <;> rfl

theorem skip_to_sync_token_list (s : State) : (skip_to_sync s).token_list = s.token_list := by
  unfold skip_to_sync
  dsimp only
  split <;> rfl

theorem next_token_index_le (s : State) : s.token_index ≤ (next_token s).token_index := by
  unfold next_token
  split
  · dsimp only; omega
  · exact Int.le_refl _

theorem skip_to_sync_index_le (s : State) : s.token_index ≤ (skip_to_sync s).token_index := by
  have := (skip_same_line_bounds s.current_token.line
    (s.token_list.drop s.token_index.toNat) s.token_index).1
  unfold skip_to_sync
  dsimp only
  split <;> exact this

theorem within_stable (tokens : List Token) (bound : Nat) : Stable (Within tokens bound) where
  next := fun s h => by
    refine ⟨wellFormed_stable.next s h.1, by rw [next_token_token_list]; exact h.2.1, ?_⟩
    have h3 := h.2.2
    have := next_token_index_le s
    rw [rest_length] at h3 ⊢
    rw [next_token_token_list]
    omega
  skip := fun s h => by
    refine ⟨wellFormed_stable.skip s h.1, by rw [skip_to_sync_token_list]; exact h.2.1, ?_⟩
    have h3 := h.2.2
    have := skip_to_sync_index_le s
    rw [rest_length] at h3 ⊢
    rw [skip_to_sync_token_list]
    omega
  error := fun line msg s h => by
    refine ⟨wellFormed_stable.error line msg s h.1, by rw [add_error_token_list]; exact h.2.1, ?_⟩
    have h3 := h.2.2
    rw [rest_length] at h3 ⊢
    rw [add_error_token_list, add_error_token_index]
    exact h3
  symbol := fun sym s h => ⟨wellFormed_stable.symbol sym s h.1, h.2.1, h.2.2⟩
  reset := fun s h => ⟨wellFormed_stable.reset s h.1, h.2.1, h.2.2⟩

theorem strict_stable (tokens : List Token) (bound : Nat) : Stable (Strict tokens bound) where
  next := fun s h => ⟨(within_stable tokens (bound - 1)).next s h.1, h.2⟩
  skip := fun s h => ⟨(within_stable tokens (bound - 1)).skip s h.1, h.2⟩
  error := fun line msg s h => ⟨(within_stable tokens (bound - 1)).error line msg s h.1, h.2⟩
  symbol := fun sym s h => ⟨(within_stable tokens (bound - 1)).symbol sym s h.1, h.2⟩
  reset := fun s h => ⟨(within_stable tokens (bound - 1)).reset s h.1, h.2⟩

theorem Strict.within {tokens : List Token} {bound : Nat} {s : State}
    (h : Strict tokens bound s) : Within tokens bound s :=
  ⟨h.1.1, h.1.2.1, by have := h.1.2.2; omega⟩

/-- Consuming a token that is not the end of input leaves one token fewer. -/
theorem next_token_strict (tokens : List Token) (bound : Nat) (s : State)
    (h : Within tokens bound s) (hk : s.current_token.type ≠ TOK_EOF) :
    Strict tokens bound (next_token s) := by
  have e := rest_next s h.1 hk
  have h3 := h.2.2
  rw [e, List.length_cons] at h3
  exact ⟨⟨wellFormed_stable.next s h.1, by rw [next_token_token_list]; exact h.2.1, by omega⟩,
    by omega⟩

theorem rest_ne_nil (s : State) (h : WellFormed s) (hk : s.current_token.type ≠ TOK_EOF) :
    ∃ r, rest s = s.current_token :: r := ⟨_, rest_next s h hk⟩

/-- The recovery jump from a cursor on a token of the list moves on by at least one
token. -/
theorem skip_to_sync_strict (tokens : List Token) (bound : Nat) (s : State)
    (h : Within tokens bound s) (hk : s.current_token.type ≠ TOK_EOF) :
    Strict tokens bound (skip_to_sync s) := by
  obtain ⟨r, hr⟩ := rest_ne_nil s h.1 hk
  have h3 := h.2.2
  have hidx : s.token_index + 1 ≤ (skip_to_sync s).token_index := by
    have e : (skip_to_sync s).token_index = skip_same_line s.current_token.line
        (s.token_list.drop s.token_index.toNat) s.token_index := by
      unfold skip_to_sync; dsimp only; split <;> rfl
    have hr1 : s.token_list.drop s.token_index.toNat = s.current_token :: r := hr
    rw [e, hr1, skip_same_line, if_pos rfl]
    exact (skip_same_line_bounds _ _ _).1
  have hlen : (rest s).length = r.length + 1 := by rw [hr]; rfl
  have hw := (within_stable tokens bound).skip s h
  have hi := h.1.index
  refine ⟨⟨hw.1, hw.2.1, ?_⟩, by omega⟩
  rw [rest_length] at hlen h3 ⊢
  rw [skip_to_sync_token_list]
  omega

theorem report_fields (line : Nat) (msg : Str) (s : State) :
    (report line msg s).current_token = s.current_token := by
  unfold report
  split
  · exact add_error_current_token _ _ _
  · rfl

theorem fail_here_strict (tokens : List Token) (bound : Nat) (s : State)
    (h : Within tokens bound s) (hk : s.current_token.type ≠ TOK_EOF) (msg : String) :
    Strict tokens bound (fail_here msg s).2 :=
  skip_to_sync_strict tokens bound _ ((within_stable tokens bound).report _ _ s h)
    (by rw [report_fields]; exact hk)

theorem report_skip_strict (tokens : List Token) (bound : Nat) (s : State)
    (h : Within tokens bound s) (hk : s.current_token.type ≠ TOK_EOF) (line : Nat) (msg : Str) :
    Strict tokens bound (skip_to_sync (report line msg s)) :=
  skip_to_sync_strict tokens bound _ ((within_stable tokens bound).report _ _ s h)
    (by rw [report_fields]; exact hk)

theorem reset_within (tokens : List Token) (bound : Nat) (s : State)
    (h : Within tokens bound s) : Within tokens bound (reset_last_error_line s) :=
  (within_stable tokens bound).reset_last_error_line s h

theorem next_strict_eq (tokens : List Token) (bound : Nat) (s : State)
    (h : Within tokens bound s) (k : TokenType) (hk : s.current_token.type = k)
    (hne : k ≠ TOK_EOF) : Strict tokens bound (next_token s) :=
  next_token_strict tokens bound s h (by rw [hk]; exact hne)

theorem next_strict_not (tokens : List Token) (bound : Nat) (s : State)
    (h : Within tokens bound s) (k : TokenType) (hk : ¬ s.current_token.type ≠ k)
    (hne : k ≠ TOK_EOF) : Strict tokens bound (next_token s) :=
  next_token_strict tokens bound s h (by rw [not_not.1 hk]; exact hne)

theorem next_strict_or (tokens : List Token) (bound : Nat) (s : State)
    (h : Within tokens bound s) (k1 k2 : TokenType)
    (hk : s.current_token.type = k1 ∨ s.current_token.type = k2)
    (h1 : k1 ≠ TOK_EOF) (h2 : k2 ≠ TOK_EOF) : Strict tokens bound (next_token s) := by
  rcases hk with e | e
  · exact next_strict_eq tokens bound s h k1 e h1
  · exact next_strict_eq tokens bound s h k2 e h2

theorem parse_type_strict (tokens : List Token) (bound : Nat) (s : State) (type : Node)
    (s1 : State) (h : parse_type s = (some type, s1)) (hW : Within tokens bound s) :
    Strict tokens bound s1 := by
  unfold parse_type at h
  split_ifs at h with h1 h2
  · cases h
    exact next_strict_eq tokens bound s hW _ h1 (by decide)
  · cases h
    exact next_strict_eq tokens bound s hW _ h2 (by decide)
  · simp [fail_here] at h
theorem parse_type_advances (tokens : List Token) (bound : Nat) (s : State) (r : Option Node)
    (s1 : State) (h : parse_type s = (r, s1)) (hW : Within tokens bound s)
    (hk : s.current_token.type ≠ TOK_EOF) : Strict tokens bound s1 := by
  have e := congrArg Prod.snd h
  simp only at e
  subst e
  unfold parse_type
  split_ifs
  · exact next_token_strict tokens bound s hW hk
  · exact next_token_strict tokens bound s hW hk
  · exact fail_here_strict tokens bound s hW hk _

/-- The statements without a block move the cursor on. -/
theorem simple_advances (fuel : Nat) :
    Advances (parse_print_stmt fuel) ∧ Advances (parse_decl_stmt fuel) ∧
    Advances (parse_assign_stmt fuel) := by
  refine ⟨?_, ?_, ?_⟩
  all_goals
    intro tokens bound s r s1 h hW hk
    have hP := strict_stable tokens bound
    have hnext := next_token_strict tokens bound s hW hk
    have hskip := report_skip_strict tokens bound s hW hk
    have htype := fun r s1 h => parse_type_advances tokens bound s r s1 h hW hk
    have i1 : ∀ s r s1, parse_expr fuel s = some (r, s1) → Strict tokens bound s →
      Strict tokens bound s1 := (hP.keeps_expr fuel).expr
    have i2 := hP.parse_init_decl fuel
    simp only [parse_print_stmt, parse_decl_stmt, parse_assign_stmt] at h
    repeat' split at h
  all_goals try cases h
  all_goals
    with_reducible repeat (first
      | assumption
      | exact hskip _ _
      | refine htype _ _ (by assumption)
      | apply hP.next
      | apply hP.skip
      | apply hP.report
      | refine i1 _ _ _ (by assumption) ?_
      | refine i2 _ _ _ _ _ (by assumption) ?_)

/-- The compound statements move the cursor on. -/
theorem block_advances (fuel : Nat) :
    Advances (parse_if_then fuel) ∧ Advances (parse_if_stmt fuel) ∧
    Advances (parse_do_while_stmt fuel) ∧ Advances (parse_for_stmt fuel) := by
  have hthen : ∀ fuel, Advances (parse_if_then fuel) := by
    intro fuel tokens bound s r s1 h hW hk
    cases fuel with
    | zero => simp [parse_if_then] at h
    | succ fuel =>
      have hP := strict_stable tokens bound
      have hnext := next_token_strict tokens bound s hW hk
      have hskip := report_skip_strict tokens bound s hW hk
      have i1 : ∀ s r s1, parse_expr fuel s = some (r, s1) → Strict tokens bound s →
        Strict tokens bound s1 := (hP.keeps_expr fuel).expr
      have i2 : ∀ s r s1, parse_stmts fuel s = some (r, s1) → Strict tokens bound s →
        Strict tokens bound s1 := (hP.keeps_stmt fuel).stmts
      simp only [parse_if_then] at h
      repeat' split at h
      all_goals try cases h
      all_goals
        with_reducible repeat (first
          | assumption
          | exact hskip _ _
          | apply hP.next
          | apply hP.skip
          | apply hP.report
          | refine i1 _ _ _ (by assumption) ?_
          | refine i2 _ _ _ (by assumption) ?_)
  refine ⟨hthen fuel, ?_, ?_, ?_⟩
  · intro tokens bound s r s1 h hW hk
    cases fuel with
    | zero => simp [parse_if_stmt] at h
    | succ fuel =>
      have hP := strict_stable tokens bound
      have i1 : ∀ s r s1, parse_else_opt fuel s = some (r, s1) → Strict tokens bound s →
        Strict tokens bound s1 := (hP.keeps_stmt fuel).else_opt
      have i2 := fun r s1 h => hthen fuel tokens bound s r s1 h hW hk
      simp only [parse_if_stmt] at h
      repeat' split at h
      all_goals try cases h
      all_goals
        with_reducible repeat (first
          | assumption
          | refine i2 _ _ (by assumption)
          | refine i1 _ _ _ (by assumption) ?_)
  · intro tokens bound s r s1 h hW hk
    cases fuel with
    | zero => simp [parse_do_while_stmt] at h
    | succ fuel =>
      have hP := strict_stable tokens bound
      have hnext := next_token_strict tokens bound s hW hk
      have hskip := report_skip_strict tokens bound s hW hk
      have i1 : ∀ s r s1, parse_expr fuel s = some (r, s1) → Strict tokens bound s →
        Strict tokens bound s1 := (hP.keeps_expr fuel).expr
      have i2 : ∀ s r s1, parse_stmts fuel s = some (r, s1) → Strict tokens bound s →
        Strict tokens bound s1 := (hP.keeps_stmt fuel).stmts
      simp only [parse_do_while_stmt] at h
      repeat' split at h
      all_goals try cases h
      all_goals
        with_reducible repeat (first
          | assumption
          | exact hskip _ _
          | apply hP.next
          | apply hP.skip
          | apply hP.report
          | refine i1 _ _ _ (by assumption) ?_
          | refine i2 _ _ _ (by assumption) ?_)
  · intro tokens bound s r s1 h hW hk
    cases fuel with
    | zero => simp [parse_for_stmt] at h
    | succ fuel =>
      have hP := strict_stable tokens bound
      have hnext := next_token_strict tokens bound s hW hk
      have hskip := report_skip_strict tokens bound s hW hk
      have i1 : ∀ s r s1, parse_expr fuel s = some (r, s1) → Strict tokens bound s →
        Strict tokens bound s1 := (hP.keeps_expr fuel).expr
      have i2 : ∀ s r s1, parse_stmts fuel s = some (r, s1) → Strict tokens bound s →
        Strict tokens bound s1 := (hP.keeps_stmt fuel).stmts
      have p4 : ∀ s r s1, for_init fuel s = some (r, s1) → Strict tokens bound s →
        Strict tokens bound s1 := (hP.keeps_simple fuel).2.2.2.1
      have p5 : ∀ s r s1, for_update fuel s = some (r, s1) → Strict tokens bound s →
        Strict tokens bound s1 := (hP.keeps_simple fuel).2.2.2.2
      simp only [parse_for_stmt] at h
      repeat' split at h
      all_goals try cases h
      all_goals
        with_reducible repeat (first
          | assumption
          | exact hskip _ _
          | apply hP.next
          | apply hP.skip
          | apply hP.report
          | refine i1 _ _ _ (by assumption) ?_
          | refine i2 _ _ _ (by assumption) ?_
          | refine p4 _ _ _ (by assumption) ?_
          | refine p5 _ _ _ (by assumption) ?_)

/-- Every call of `parse_stmt` away from the end of input moves the cursor on by at
least one token, whether it returns a statement or NULL. -/
theorem parse_stmt_advances (fuel : Nat) : Advances (parse_stmt fuel) := by
  intro tokens bound s0 r s1 h hW0 hk0
  cases fuel with
  | zero => simp [parse_stmt] at h
  | succ fuel =>
    have hW := reset_within tokens bound s0 hW0
    have hk : (reset_last_error_line s0).current_token.type ≠ TOK_EOF := by
      rw [reset_current]; exact hk0
    have hskip := report_skip_strict tokens bound _ hW hk
    obtain ⟨p1, p2, p3⟩ := simple_advances fuel
    obtain ⟨b1, b2, b3, b4⟩ := block_advances fuel
    simp only [parse_stmt] at h
    repeat' split at h
    all_goals try cases h
    all_goals
      first
        | exact hskip _ _
        | exact p1 _ _ _ _ _ h hW hk
        | exact p2 _ _ _ _ _ h hW hk
        | exact p3 _ _ _ _ _ h hW hk
        | exact b2 _ _ _ _ _ h hW hk
        | exact b3 _ _ _ _ _ h hW hk
        | exact b4 _ _ _ _ _ h hW hk
theorem Total.strict {α : Type} {f : Nat → State → Option α} {rank fuel : Nat}
    (h : Total f rank fuel) (tokens : List Token) (bound : Nat) (s : State)
    (hs : Strict tokens bound s) (hb : 8 * bound + rank ≤ fuel + 16) : f fuel s ≠ none :=
  h tokens (bound - 1) s hs.1 (by have := hs.2; omega)

set_option maxHeartbeats 4000000 in
/-- With fuel for the remaining tokens every expression function returns. -/
theorem total_expr (fuel : Nat) :
    Total parse_expr 14 fuel ∧ Total parse_eq_expr 13 fuel
    ∧ (∀ n, Total (fun f s => parse_eq_loop f n s) 9 fuel)
    ∧ Total parse_rel_expr 12 fuel
    ∧ (∀ n, Total (fun f s => parse_rel_loop f n s) 9 fuel)
    ∧ Total parse_add_expr 11 fuel
    ∧ (∀ n, Total (fun f s => parse_add_loop f n s) 9 fuel)
    ∧ Total parse_mul_expr 10 fuel
    ∧ (∀ n, Total (fun f s => parse_mul_loop f n s) 9 fuel)
    ∧ Total parse_prim_expr 9 fuel := by
  induction fuel with
  | zero =>
    refine ⟨?_, ?_, ?_, ?_, ?_, ?_, ?_, ?_, ?_, ?_⟩
    all_goals
      intros
      intro tokens bound s hW hb
      omega
  | succ fuel ih =>
    obtain ⟨t1, t2, t3, t4, t5, t6, t7, t8, t9, t10⟩ := ih
    have u1 := t1.strict
    have u2 := t2.strict
    have u3 := fun n => (t3 n).strict
    have u4 := t4.strict
    have u5 := fun n => (t5 n).strict
    have u6 := t6.strict
    have u7 := fun n => (t7 n).strict
    have u8 := t8.strict
    have u9 := fun n => (t9 n).strict
    have u10 := t10.strict
    unfold Total at t1 t2 t3 t4 t5 t6 t7 t8 t9 t10
    beta_reduce at t3 t5 t7 t9
    refine ⟨?_, ?_, ?_, ?_, ?_, ?_, ?_, ?_, ?_, ?_⟩
    all_goals
      intros
      intro tokens bound s hW hb h
      have hP := within_stable tokens bound
      have hS := strict_stable tokens bound
      have hn1 := next_strict_eq tokens bound s hW
      have hn2 := next_strict_not tokens bound s hW
      have hn3 := next_strict_or tokens bound s hW
      obtain ⟨w1, w2, w3, w4, w5, w6, w7, w8, w9, w10⟩ := hP.keeps_expr fuel
      obtain ⟨s1, s2, s3, s4, s5, s6, s7, s8, s9, s10⟩ := hS.keeps_expr fuel
      unfold Keeps at w1 w2 w3 w4 w5 w6 w7 w8 w9 w10 s1 s2 s3 s4 s5 s6 s7 s8 s9 s10
      simp only [parse_expr, parse_eq_expr, parse_eq_loop, parse_rel_expr, parse_rel_loop,
        parse_add_expr, parse_add_loop, parse_mul_expr, parse_mul_loop, parse_prim_expr] at h
      repeat' split at h
    all_goals try cases h
    all_goals
      first
        | (refine absurd (by with_reducible assumption) (t1 tokens bound _ ?_ (by omega))
           with_reducible repeat (first
            | assumption
            | apply hP.next
            | apply hP.skip
            | apply hP.report
            | refine w1 _ _ _ (by assumption) ?_
            | refine w2 _ _ _ (by assumption) ?_
            | refine w3 _ _ _ _ (by assumption) ?_
            | refine w4 _ _ _ (by assumption) ?_
            | refine w5 _ _ _ _ (by assumption) ?_
            | refine w6 _ _ _ (by assumption) ?_
            | refine w7 _ _ _ _ (by assumption) ?_
            | refine w8 _ _ _ (by assumption) ?_
            | refine w9 _ _ _ _ (by assumption) ?_
            | refine w10 _ _ _ (by assumption) ?_)
           done)
        | (refine absurd (by with_reducible assumption) (t2 tokens bound _ ?_ (by omega))
           with_reducible repeat (first
            | assumption
            | apply hP.next
            | apply hP.skip
            | apply hP.report
            | refine w1 _ _ _ (by assumption) ?_
            | refine w2 _ _ _ (by assumption) ?_
            | refine w3 _ _ _ _ (by assumption) ?_
            | refine w4 _ _ _ (by assumption) ?_
            | refine w5 _ _ _ _ (by assumption) ?_
            | refine w6 _ _ _ (by assumption) ?_
            | refine w7 _ _ _ _ (by assumption) ?_
            | refine w8 _ _ _ (by assumption) ?_
            | refine w9 _ _ _ _ (by assumption) ?_
            | refine w10 _ _ _ (by assumption) ?_)
           done)
        | (refine absurd (by with_reducible assumption) (t3 _ tokens bound _ ?_ (by omega))
           with_reducible repeat (first
            | assumption
            | apply hP.next
            | apply hP.skip
            | apply hP.report
            | refine w1 _ _ _ (by assumption) ?_
            | refine w2 _ _ _ (by assumption) ?_
            | refine w3 _ _ _ _ (by assumption) ?_
            | refine w4 _ _ _ (by assumption) ?_
            | refine w5 _ _ _ _ (by assumption) ?_
            | refine w6 _ _ _ (by assumption) ?_
            | refine w7 _ _ _ _ (by assumption) ?_
            | refine w8 _ _ _ (by assumption) ?_
            | refine w9 _ _ _ _ (by assumption) ?_
            | refine w10 _ _ _ (by assumption) ?_)
           done)
        | (refine absurd (by with_reducible assumption) (t4 tokens bound _ ?_ (by omega))
           with_reducible repeat (first
            | assumption
            | apply hP.next
            | apply hP.skip
            | apply hP.report
            | refine w1 _ _ _ (by assumption) ?_
            | refine w2 _ _ _ (by assumption) ?_
            | refine w3 _ _ _ _ (by assumption) ?_
            | refine w4 _ _ _ (by assumption) ?_
            | refine w5 _ _ _ _ (by assumption) ?_
            | refine w6 _ _ _ (by assumption) ?_
            | refine w7 _ _ _ _ (by assumption) ?_
            | refine w8 _ _ _ (by assumption) ?_
            | refine w9 _ _ _ _ (by assumption) ?_
            | refine w10 _ _ _ (by assumption) ?_)
           done)
        | (refine absurd (by with_reducible assumption) (t5 _ tokens bound _ ?_ (by omega))
           with_reducible repeat (first
            | assumption
            | apply hP.next
            | apply hP.skip
            | apply hP.report
            | refine w1 _ _ _ (by assumption) ?_
            | refine w2 _ _ _ (by assumption) ?_
            | refine w3 _ _ _ _ (by assumption) ?_
            | refine w4 _ _ _ (by assumption) ?_
            | refine w5 _ _ _ _ (by assumption) ?_
            | refine w6 _ _ _ (by assumption) ?_
            | refine w7 _ _ _ _ (by assumption) ?_
            | refine w8 _ _ _ (by assumption) ?_
            | refine w9 _ _ _ _ (by assumption) ?_
            | refine w10 _ _ _ (by assumption) ?_)
           done)
        | (refine absurd (by with_reducible assumption) (t6 tokens bound _ ?_ (by omega))
           with_reducible repeat (first
            | assumption
            | apply hP.next
            | apply hP.skip
            | apply hP.report
            | refine w1 _ _ _ (by assumption) ?_
            | refine w2 _ _ _ (by assumption) ?_
            | refine w3 _ _ _ _ (by assumption) ?_
            | refine w4 _ _ _ (by assumption) ?_
            | refine w5 _ _ _ _ (by assumption) ?_
            | refine w6 _ _ _ (by assumption) ?_
            | refine w7 _ _ _ _ (by assumption) ?_
            | refine w8 _ _ _ (by assumption) ?_
            | refine w9 _ _ _ _ (by assumption) ?_
            | refine w10 _ _ _ (by assumption) ?_)
           done)
        | (refine absurd (by with_reducible assumption) (t7 _ tokens bound _ ?_ (by omega))
           with_reducible repeat (first
            | assumption
            | apply hP.next
            | apply hP.skip
            | apply hP.report
            | refine w1 _ _ _ (by assumption) ?_
            | refine w2 _ _ _ (by assumption) ?_
            | refine w3 _ _ _ _ (by assumption) ?_
            | refine w4 _ _ _ (by assumption) ?_
            | refine w5 _ _ _ _ (by assumption) ?_
            | refine w6 _ _ _ (by assumption) ?_
            | refine w7 _ _ _ _ (by assumption) ?_
            | refine w8 _ _ _ (by assumption) ?_
            | refine w9 _ _ _ _ (by assumption) ?_
            | refine w10 _ _ _ (by assumption) ?_)
           done)
        | (refine absurd (by with_reducible assumption) (t8 tokens bound _ ?_ (by omega))
           with_reducible repeat (first
            | assumption
            | apply hP.next
            | apply hP.skip
            | apply hP.report
            | refine w1 _ _ _ (by assumption) ?_
            | refine w2 _ _ _ (by assumption) ?_
            | refine w3 _ _ _ _ (by assumption) ?_
            | refine w4 _ _ _ (by assumption) ?_
            | refine w5 _ _ _ _ (by assumption) ?_
            | refine w6 _ _ _ (by assumption) ?_
            | refine w7 _ _ _ _ (by assumption) ?_
            | refine w8 _ _ _ (by assumption) ?_
            | refine w9 _ _ _ _ (by assumption) ?_
            | refine w10 _ _ _ (by assumption) ?_)
           done)
        | (refine absurd (by with_reducible assumption) (t9 _ tokens bound _ ?_ (by omega))
           with_reducible repeat (first
            | assumption
            | apply hP.next
            | apply hP.skip
            | apply hP.report
            | refine w1 _ _ _ (by assumption) ?_
            | refine w2 _ _ _ (by assumption) ?_
            | refine w3 _ _ _ _ (by assumption) ?_
            | refine w4 _ _ _ (by assumption) ?_
            | refine w5 _ _ _ _ (by assumption) ?_
            | refine w6 _ _ _ (by assumption) ?_
            | refine w7 _ _ _ _ (by assumption) ?_
            | refine w8 _ _ _ (by assumption) ?_
            | refine w9 _ _ _ _ (by assumption) ?_
            | refine w10 _ _ _ (by assumption) ?_)
           done)
        | (refine absurd (by with_reducible assumption) (t10 tokens bound _ ?_ (by omega))
           with_reducible repeat (first
            | assumption
            | apply hP.next
            | apply hP.skip
            | apply hP.report
            | refine w1 _ _ _ (by assumption) ?_
            | refine w2 _ _ _ (by assumption) ?_
            | refine w3 _ _ _ _ (by assumption) ?_
            | refine w4 _ _ _ (by assumption) ?_
            | refine w5 _ _ _ _ (by assumption) ?_
            | refine w6 _ _ _ (by assumption) ?_
            | refine w7 _ _ _ _ (by assumption) ?_
            | refine w8 _ _ _ (by assumption) ?_
            | refine w9 _ _ _ _ (by assumption) ?_
            | refine w10 _ _ _ (by assumption) ?_)
           done)
        | (refine absurd (by with_reducible assumption) (u1 tokens bound _ ?_ (by omega))
           with_reducible repeat (first
            | assumption
            | exact hn1 _ (by assumption) (by decide)
            | exact hn2 _ (by assumption) (by decide)
            | exact hn3 _ _ (by assumption) (by decide) (by decide)
            | apply hS.next
            | apply hS.skip
            | apply hS.report
            | refine s1 _ _ _ (by assumption) ?_
            | refine s2 _ _ _ (by assumption) ?_
            | refine s3 _ _ _ _ (by assumption) ?_
            | refine s4 _ _ _ (by assumption) ?_
            | refine s5 _ _ _ _ (by assumption) ?_
            | refine s6 _ _ _ (by assumption) ?_
            | refine s7 _ _ _ _ (by assumption) ?_
            | refine s8 _ _ _ (by assumption) ?_
            | refine s9 _ _ _ _ (by assumption) ?_
            | refine s10 _ _ _ (by assumption) ?_)
           done)
        | (refine absurd (by with_reducible assumption) (u2 tokens bound _ ?_ (by omega))
           with_reducible repeat (first
            | assumption
            | exact hn1 _ (by assumption) (by decide)
            | exact hn2 _ (by assumption) (by decide)
            | exact hn3 _ _ (by assumption) (by decide) (by decide)
            | apply hS.next
            | apply hS.skip
            | apply hS.report
            | refine s1 _ _ _ (by assumption) ?_
            | refine s2 _ _ _ (by assumption) ?_
            | refine s3 _ _ _ _ (by assumption) ?_
            | refine s4 _ _ _ (by assumption) ?_
            | refine s5 _ _ _ _ (by assumption) ?_
            | refine s6 _ _ _ (by assumption) ?_
            | refine s7 _ _ _ _ (by assumption) ?_
            | refine s8 _ _ _ (by assumption) ?_
            | refine s9 _ _ _ _ (by assumption) ?_
            | refine s10 _ _ _ (by assumption) ?_)
           done)
        | (refine absurd (by with_reducible assumption) (u3 _ tokens bound _ ?_ (by omega))
           with_reducible repeat (first
            | assumption
            | exact hn1 _ (by assumption) (by decide)
            | exact hn2 _ (by assumption) (by decide)
            | exact hn3 _ _ (by assumption) (by decide) (by decide)
            | apply hS.next
            | apply hS.skip
            | apply hS.report
            | refine s1 _ _ _ (by assumption) ?_
            | refine s2 _ _ _ (by assumption) ?_
            | refine s3 _ _ _ _ (by assumption) ?_
            | refine s4 _ _ _ (by assumption) ?_
            | refine s5 _ _ _ _ (by assumption) ?_
            | refine s6 _ _ _ (by assumption) ?_
            | refine s7 _ _ _ _ (by assumption) ?_
            | refine s8 _ _ _ (by assumption) ?_
            | refine s9 _ _ _ _ (by assumption) ?_
            | refine s10 _ _ _ (by assumption) ?_)
           done)
        | (refine absurd (by with_reducible assumption) (u4 tokens bound _ ?_ (by omega))
           with_reducible repeat (first
            | assumption
            | exact hn1 _ (by assumption) (by decide)
            | exact hn2 _ (by assumption) (by decide)
            | exact hn3 _ _ (by assumption) (by decide) (by decide)
            | apply hS.next
            | apply hS.skip
            | apply hS.report
            | refine s1 _ _ _ (by assumption) ?_
            | refine s2 _ _ _ (by assumption) ?_
            | refine s3 _ _ _ _ (by assumption) ?_
            | refine s4 _ _ _ (by assumption) ?_
            | refine s5 _ _ _ _ (by assumption) ?_
            | refine s6 _ _ _ (by assumption) ?_
            | refine s7 _ _ _ _ (by assumption) ?_
            | refine s8 _ _ _ (by assumption) ?_
            | refine s9 _ _ _ _ (by assumption) ?_
            | refine s10 _ _ _ (by assumption) ?_)
           done)
        | (refine absurd (by with_reducible assumption) (u5 _ tokens bound _ ?_ (by omega))
           with_reducible repeat (first
            | assumption
            | exact hn1 _ (by assumption) (by decide)
            | exact hn2 _ (by assumption) (by decide)
            | exact hn3 _ _ (by assumption) (by decide) (by decide)
            | apply hS.next
            | apply hS.skip
            | apply hS.report
            | refine s1 _ _ _ (by assumption) ?_
            | refine s2 _ _ _ (by assumption) ?_
            | refine s3 _ _ _ _ (by assumption) ?_
            | refine s4 _ _ _ (by assumption) ?_
            | refine s5 _ _ _ _ (by assumption) ?_
            | refine s6 _ _ _ (by assumption) ?_
            | refine s7 _ _ _ _ (by assumption) ?_
            | refine s8 _ _ _ (by assumption) ?_
            | refine s9 _ _ _ _ (by assumption) ?_
            | refine s10 _ _ _ (by assumption) ?_)
           done)
        | (refine absurd (by with_reducible assumption) (u6 tokens bound _ ?_ (by omega))
           with_reducible repeat (first
            | assumption
            | exact hn1 _ (by assumption) (by decide)
            | exact hn2 _ (by assumption) (by decide)
            | exact hn3 _ _ (by assumption) (by decide) (by decide)
            | apply hS.next
            | apply hS.skip
            | apply hS.report
            | refine s1 _ _ _ (by assumption) ?_
            | refine s2 _ _ _ (by assumption) ?_
            | refine s3 _ _ _ _ (by assumption) ?_
            | refine s4 _ _ _ (by assumption) ?_
            | refine s5 _ _ _ _ (by assumption) ?_
            | refine s6 _ _ _ (by assumption) ?_
            | refine s7 _ _ _ _ (by assumption) ?_
            | refine s8 _ _ _ (by assumption) ?_
            | refine s9 _ _ _ _ (by assumption) ?_
            | refine s10 _ _ _ (by assumption) ?_)
           done)
        | (refine absurd (by with_reducible assumption) (u7 _ tokens bound _ ?_ (by omega))
           with_reducible repeat (first
            | assumption
            | exact hn1 _ (by assumption) (by decide)
            | exact hn2 _ (by assumption) (by decide)
            | exact hn3 _ _ (by assumption) (by decide) (by decide)
            | apply hS.next
            | apply hS.skip
            | apply hS.report
            | refine s1 _ _ _ (by assumption) ?_
            | refine s2 _ _ _ (by assumption) ?_
            | refine s3 _ _ _ _ (by assumption) ?_
            | refine s4 _ _ _ (by assumption) ?_
            | refine s5 _ _ _ _ (by assumption) ?_
            | refine s6 _ _ _ (by assumption) ?_
            | refine s7 _ _ _ _ (by assumption) ?_
            | refine s8 _ _ _ (by assumption) ?_
            | refine s9 _ _ _ _ (by assumption) ?_
            | refine s10 _ _ _ (by assumption) ?_)
           done)
        | (refine absurd (by with_reducible assumption) (u8 tokens bound _ ?_ (by omega))
           with_reducible repeat (first
            | assumption
            | exact hn1 _ (by assumption) (by decide)
            | exact hn2 _ (by assumption) (by decide)
            | exact hn3 _ _ (by assumption) (by decide) (by decide)
            | apply hS.next
            | apply hS.skip
            | apply hS.report
            | refine s1 _ _ _ (by assumption) ?_
            | refine s2 _ _ _ (by assumption) ?_
            | refine s3 _ _ _ _ (by assumption) ?_
            | refine s4 _ _ _ (by assumption) ?_
            | refine s5 _ _ _ _ (by assumption) ?_
            | refine s6 _ _ _ (by assumption) ?_
            | refine s7 _ _ _ _ (by assumption) ?_
            | refine s8 _ _ _ (by assumption) ?_
            | refine s9 _ _ _ _ (by assumption) ?_
            | refine s10 _ _ _ (by assumption) ?_)
           done)
        | (refine absurd (by with_reducible assumption) (u9 _ tokens bound _ ?_ (by omega))
           with_reducible repeat (first
            | assumption
            | exact hn1 _ (by assumption) (by decide)
            | exact hn2 _ (by assumption) (by decide)
            | exact hn3 _ _ (by assumption) (by decide) (by decide)
            | apply hS.next
            | apply hS.skip
            | apply hS.report
            | refine s1 _ _ _ (by assumption) ?_
            | refine s2 _ _ _ (by assumption) ?_
            | refine s3 _ _ _ _ (by assumption) ?_
            | refine s4 _ _ _ (by assumption) ?_
            | refine s5 _ _ _ _ (by assumption) ?_
            | refine s6 _ _ _ (by assumption) ?_
            | refine s7 _ _ _ _ (by assumption) ?_
            | refine s8 _ _ _ (by assumption) ?_
            | refine s9 _ _ _ _ (by assumption) ?_
            | refine s10 _ _ _ (by assumption) ?_)
           done)
        | (refine absurd (by with_reducible assumption) (u10 tokens bound _ ?_ (by omega))
           with_reducible repeat (first
            | assumption
            | exact hn1 _ (by assumption) (by decide)
            | exact hn2 _ (by assumption) (by decide)
            | exact hn3 _ _ (by assumption) (by decide) (by decide)
            | apply hS.next
            | apply hS.skip
            | apply hS.report
            | refine s1 _ _ _ (by assumption) ?_
            | refine s2 _ _ _ (by assumption) ?_
            | refine s3 _ _ _ _ (by assumption) ?_
            | refine s4 _ _ _ (by assumption) ?_
            | refine s5 _ _ _ _ (by assumption) ?_
            | refine s6 _ _ _ (by assumption) ?_
            | refine s7 _ _ _ _ (by assumption) ?_
            | refine s8 _ _ _ (by assumption) ?_
            | refine s9 _ _ _ _ (by assumption) ?_
            | refine s10 _ _ _ (by assumption) ?_)
           done)

set_option maxHeartbeats 4000000 in
/-- With fuel for the remaining tokens the statements without a block return. -/
theorem total_simple (fuel : Nat) :
    (∀ type, Total (fun f s => parse_init_decl f type s) 6 fuel)
    ∧ Total parse_print_stmt 6 fuel ∧ Total parse_decl_stmt 6 fuel
    ∧ Total parse_assign_stmt 6 fuel ∧ Total for_init 6 fuel ∧ Total for_update 6 fuel := by
  have t1 := (total_expr fuel).1
  have u1 := t1.strict
  unfold Total at t1
  have key : ∀ type, Total (fun f s => parse_init_decl f type s) 6 fuel := by
    intro type tokens bound s hW hb h
    have hP := within_stable tokens bound
    have hS := strict_stable tokens bound
    have hn1 := next_strict_eq tokens bound s hW
    have hn2 := next_strict_not tokens bound s hW
    have hn3 := next_strict_or tokens bound s hW
    simp only [parse_init_decl] at h
    repeat' split at h
    all_goals try cases h
    all_goals
      first
        | (refine absurd (by with_reducible assumption) (t1 tokens bound _ ?_ (by omega))
           with_reducible repeat (first
            | assumption
            | apply hP.next
            | apply hP.skip
            | apply hP.report
            | apply hP.reset_last_error_line)
           done)
        | (refine absurd (by with_reducible assumption) (u1 tokens bound _ ?_ (by omega))
           with_reducible repeat (first
            | assumption
            | exact hn1 _ (by assumption) (by decide)
            | exact hn2 _ (by assumption) (by decide)
            | exact hn3 _ _ (by assumption) (by decide) (by decide)
            | apply hS.next
            | apply hS.skip
            | apply hS.report
            | apply hS.reset_last_error_line)
           done)
  have ti := key
  have ui := fun type => (key type).strict
  unfold Total at ti
  beta_reduce at ti ui
  refine ⟨key, ?_, ?_, ?_, ?_, ?_⟩
  all_goals
    intro tokens bound s hW hb h
    have hP := within_stable tokens bound
    have hS := strict_stable tokens bound
    have hn1 := next_strict_eq tokens bound s hW
    have hn2 := next_strict_not tokens bound s hW
    have hn3 := next_strict_or tokens bound s hW
    have htype := fun type s1 h => parse_type_strict tokens bound s type s1 h hW
    simp only [parse_print_stmt, parse_decl_stmt, parse_assign_stmt, for_init, for_update] at h
    repeat' split at h
  all_goals try cases h
  all_goals
    first
      | (refine absurd (by with_reducible assumption) (t1 tokens bound _ ?_ (by omega))
         with_reducible repeat (first
          | assumption
          | apply hP.next
          | apply hP.skip
          | apply hP.report
          | apply hP.reset_last_error_line
          | refine (hP.keeps_expr fuel).expr _ _ _ (by assumption) ?_
          | refine hP.parse_init_decl fuel _ _ _ _ _ (by assumption) ?_
          | refine hP.parse_type _ _ _ (by assumption) ?_)
         done)
      | (refine absurd (by with_reducible assumption) (ti _ tokens bound _ ?_ (by omega))
         with_reducible repeat (first
          | assumption
          | apply hP.next
          | apply hP.skip
          | apply hP.report
          | apply hP.reset_last_error_line
          | refine (hP.keeps_expr fuel).expr _ _ _ (by assumption) ?_
          | refine hP.parse_init_decl fuel _ _ _ _ _ (by assumption) ?_
          | refine hP.parse_type _ _ _ (by assumption) ?_)
         done)
      | (refine absurd (by with_reducible assumption) (u1 tokens bound _ ?_ (by omega))
         with_reducible repeat (first
          | assumption
          | exact hn1 _ (by assumption) (by decide)
          | exact hn2 _ (by assumption) (by decide)
          | exact hn3 _ _ (by assumption) (by decide) (by decide)
          | exact htype _ _ (by assumption)
          | apply hS.next
          | apply hS.skip
          | apply hS.report
          | apply hS.reset_last_error_line
          | refine (hS.keeps_expr fuel).expr _ _ _ (by assumption) ?_
          | refine hS.parse_init_decl fuel _ _ _ _ _ (by assumption) ?_
          | refine hS.parse_type _ _ _ (by assumption) ?_)
         done)
      | (refine absurd (by with_reducible assumption) (ui _ tokens bound _ ?_ (by omega))
         with_reducible repeat (first
          | assumption
          | exact hn1 _ (by assumption) (by decide)
          | exact hn2 _ (by assumption) (by decide)
          | exact hn3 _ _ (by assumption) (by decide) (by decide)
          | exact htype _ _ (by assumption)
          | apply hS.next
          | apply hS.skip
          | apply hS.report
          | apply hS.reset_last_error_line
          | refine (hS.keeps_expr fuel).expr _ _ _ (by assumption) ?_
          | refine hS.parse_init_decl fuel _ _ _ _ _ (by assumption) ?_
          | refine hS.parse_type _ _ _ (by assumption) ?_)
         done)

set_option maxHeartbeats 8000000 in
/-- With fuel for the remaining tokens the block functions return. -/
theorem total_stmt (fuel : Nat) :
    Total parse_stmts 13 fuel
    ∧ (∀ l, Total (fun f s => parse_stmts_loop f l s) 12 fuel)
    ∧ Total parse_stmt 11 fuel ∧ Total parse_if_stmt 10 fuel ∧ Total parse_if_then 9 fuel
    ∧ Total parse_else_opt 9 fuel ∧ Total parse_do_while_stmt 9 fuel
    ∧ Total parse_for_stmt 9 fuel := by
  induction fuel with
  | zero =>
    refine ⟨?_, ?_, ?_, ?_, ?_, ?_, ?_, ?_⟩
    all_goals
      intros
      intro tokens bound s hW hb
      omega
  | succ fuel ih =>
    obtain ⟨tb1, tb2, tb3, tb4, tb5, tb6, tb7, tb8⟩ := ih
    have ub1 := tb1.strict
    have ub2 := fun l => (tb2 l).strict
    have ub3 := tb3.strict
    have ub4 := tb4.strict
    have ub5 := tb5.strict
    have ub6 := tb6.strict
    have ub7 := tb7.strict
    have ub8 := tb8.strict
    have t1 := (total_expr fuel).1
    have u1 := t1.strict
    obtain ⟨-, tp1, tp2, tp3, tp4, tp5⟩ := total_simple fuel
    have up1 := tp1.strict
    have up2 := tp2.strict
    have up3 := tp3.strict
    have up4 := tp4.strict
    have up5 := tp5.strict
    unfold Total at tb1 tb2 tb3 tb4 tb5 tb6 tb7 tb8 t1 tp1 tp2 tp3 tp4 tp5
    beta_reduce at tb2 ub2
    refine ⟨?_, ?_, ?_, ?_, ?_, ?_, ?_, ?_⟩
    all_goals
      intros
      intro tokens bound s hW hb h
      have hP := within_stable tokens bound
      have hS := strict_stable tokens bound
      have hn1 := next_strict_eq tokens bound s hW
      have hn2 := next_strict_not tokens bound s hW
      have hn3 := next_strict_or tokens bound s hW
      have hadv := fun r s1 h hk => parse_stmt_advances fuel tokens bound s r s1 h hW hk
      have we := (hP.keeps_expr fuel).expr
      have se := (hS.keeps_expr fuel).expr
      obtain ⟨wp1, wp2, wp3, wp4, wp5⟩ := hP.keeps_simple fuel
      obtain ⟨sp1, sp2, sp3, sp4, sp5⟩ := hS.keeps_simple fuel
      obtain ⟨wb1, wb2, wb3, wb4, wb5, wb6, wb7, wb8⟩ := hP.keeps_stmt fuel
      obtain ⟨sb1, sb2, sb3, sb4, sb5, sb6, sb7, sb8⟩ := hS.keeps_stmt fuel
      unfold Keeps at we se wp1 wp2 wp3 wp4 wp5 sp1 sp2 sp3 sp4 sp5
      unfold Keeps at wb1 wb2 wb3 wb4 wb5 wb6 wb7 wb8 sb1 sb2 sb3 sb4 sb5 sb6 sb7 sb8
      simp only [parse_stmts, parse_stmts_loop, parse_stmt, parse_if_stmt, parse_if_then,
        parse_else_opt, parse_do_while_stmt, parse_for_stmt] at h
      repeat' split at h
    all_goals try cases h
    all_goals
      first
        | (refine absurd (by with_reducible assumption) (tb1 tokens bound _ ?_ (by omega))
           with_reducible repeat (first
            | assumption
            | apply hP.next
            | apply hP.skip
            | apply hP.report
            | apply hP.reset_last_error_line
            | refine we _ _ _ (by assumption) ?_
            | refine wp1 _ _ _ (by assumption) ?_
            | refine wp2 _ _ _ (by assumption) ?_
            | refine wp3 _ _ _ (by assumption) ?_
            | refine wp4 _ _ _ (by assumption) ?_
            | refine wp5 _ _ _ (by assumption) ?_
            | refine wb1 _ _ _ (by assumption) ?_
            | refine wb2 _ _ _ _ (by assumption) ?_
            | refine wb3 _ _ _ (by assumption) ?_
            | refine wb4 _ _ _ (by assumption) ?_
            | refine wb5 _ _ _ (by assumption) ?_
            | refine wb6 _ _ _ (by assumption) ?_
            | refine wb7 _ _ _ (by assumption) ?_
            | refine wb8 _ _ _ (by assumption) ?_)
           done)
        | (refine absurd (by with_reducible assumption) (tb2 _ tokens bound _ ?_ (by omega))
           with_reducible repeat (first
            | assumption
            | apply hP.next
            | apply hP.skip
            | apply hP.report
            | apply hP.reset_last_error_line
            | refine we _ _ _ (by assumption) ?_
            | refine wp1 _ _ _ (by assumption) ?_
            | refine wp2 _ _ _ (by assumption) ?_
            | refine wp3 _ _ _ (by assumption) ?_
            | refine wp4 _ _ _ (by assumption) ?_
            | refine wp5 _ _ _ (by assumption) ?_
            | refine wb1 _ _ _ (by assumption) ?_
            | refine wb2 _ _ _ _ (by assumption) ?_
            | refine wb3 _ _ _ (by assumption) ?_
            | refine wb4 _ _ _ (by assumption) ?_
            | refine wb5 _ _ _ (by assumption) ?_
            | refine wb6 _ _ _ (by assumption) ?_
            | refine wb7 _ _ _ (by assumption) ?_
            | refine wb8 _ _ _ (by assumption) ?_)
           done)
        | (refine absurd (by with_reducible assumption) (tb3 tokens bound _ ?_ (by omega))
           with_reducible repeat (first
            | assumption
            | apply hP.next
            | apply hP.skip
            | apply hP.report
            | apply hP.reset_last_error_line
            | refine we _ _ _ (by assumption) ?_
            | refine wp1 _ _ _ (by assumption) ?_
            | refine wp2 _ _ _ (by assumption) ?_
            | refine wp3 _ _ _ (by assumption) ?_
            | refine wp4 _ _ _ (by assumption) ?_
            | refine wp5 _ _ _ (by assumption) ?_
            | refine wb1 _ _ _ (by assumption) ?_
            | refine wb2 _ _ _ _ (by assumption) ?_
            | refine wb3 _ _ _ (by assumption) ?_
            | refine wb4 _ _ _ (by assumption) ?_
            | refine wb5 _ _ _ (by assumption) ?_
            | refine wb6 _ _ _ (by assumption) ?_
            | refine wb7 _ _ _ (by assumption) ?_
            | refine wb8 _ _ _ (by assumption) ?_)
           done)
        | (refine absurd (by with_reducible assumption) (tb4 tokens bound _ ?_ (by omega))
           with_reducible repeat (first
            | assumption
            | apply hP.next
            | apply hP.skip
            | apply hP.report
            | apply hP.reset_last_error_line
            | refine we _ _ _ (by assumption) ?_
            | refine wp1 _ _ _ (by assumption) ?_
            | refine wp2 _ _ _ (by assumption) ?_
            | refine wp3 _ _ _ (by assumption) ?_
            | refine wp4 _ _ _ (by assumption) ?_
            | refine wp5 _ _ _ (by assumption) ?_
            | refine wb1 _ _ _ (by assumption) ?_
            | refine wb2 _ _ _ _ (by assumption) ?_
            | refine wb3 _ _ _ (by assumption) ?_
            | refine wb4 _ _ _ (by assumption) ?_
            | refine wb5 _ _ _ (by assumption) ?_
            | refine wb6 _ _ _ (by assumption) ?_
            | refine wb7 _ _ _ (by assumption) ?_
            | refine wb8 _ _ _ (by assumption) ?_)
           done)
        | (refine absurd (by with_reducible assumption) (tb5 tokens bound _ ?_ (by omega))
           with_reducible repeat (first
            | assumption
            | apply hP.next
            | apply hP.skip
            | apply hP.report
            | apply hP.reset_last_error_line
            | refine we _ _ _ (by assumption) ?_
            | refine wp1 _ _ _ (by assumption) ?_
            | refine wp2 _ _ _ (by assumption) ?_
            | refine wp3 _ _ _ (by assumption) ?_
            | refine wp4 _ _ _ (by assumption) ?_
            | refine wp5 _ _ _ (by assumption) ?_
            | refine wb1 _ _ _ (by assumption) ?_
            | refine wb2 _ _ _ _ (by assumption) ?_
            | refine wb3 _ _ _ (by assumption) ?_
            | refine wb4 _ _ _ (by assumption) ?_
            | refine wb5 _ _ _ (by assumption) ?_
            | refine wb6 _ _ _ (by assumption) ?_
            | refine wb7 _ _ _ (by assumption) ?_
            | refine wb8 _ _ _ (by assumption) ?_)
           done)
        | (refine absurd (by with_reducible assumption) (tb6 tokens bound _ ?_ (by omega))
           with_reducible repeat (first
            | assumption
            | apply hP.next
            | apply hP.skip
            | apply hP.report
            | apply hP.reset_last_error_line
            | refine we _ _ _ (by assumption) ?_
            | refine wp1 _ _ _ (by assumption) ?_
            | refine wp2 _ _ _ (by assumption) ?_
            | refine wp3 _ _ _ (by assumption) ?_
            | refine wp4 _ _ _ (by assumption) ?_
            | refine wp5 _ _ _ (by assumption) ?_
            | refine wb1 _ _ _ (by assumption) ?_
            | refine wb2 _ _ _ _ (by assumption) ?_
            | refine wb3 _ _ _ (by assumption) ?_
            | refine wb4 _ _ _ (by assumption) ?_
            | refine wb5 _ _ _ (by assumption) ?_
            | refine wb6 _ _ _ (by assumption) ?_
            | refine wb7 _ _ _ (by assumption) ?_
            | refine wb8 _ _ _ (by assumption) ?_)
           done)
        | (refine absurd (by with_reducible assumption) (tb7 tokens bound _ ?_ (by omega))
           with_reducible repeat (first
            | assumption
            | apply hP.next
            | apply hP.skip
            | apply hP.report
            | apply hP.reset_last_error_line
            | refine we _ _ _ (by assumption) ?_
            | refine wp1 _ _ _ (by assumption) ?_
            | refine wp2 _ _ _ (by assumption) ?_
            | refine wp3 _ _ _ (by assumption) ?_
            | refine wp4 _ _ _ (by assumption) ?_
            | refine wp5 _ _ _ (by assumption) ?_
            | refine wb1 _ _ _ (by assumption) ?_
            | refine wb2 _ _ _ _ (by assumption) ?_
            | refine wb3 _ _ _ (by assumption) ?_
            | refine wb4 _ _ _ (by assumption) ?_
            | refine wb5 _ _ _ (by assumption) ?_
            | refine wb6 _ _ _ (by assumption) ?_
            | refine wb7 _ _ _ (by assumption) ?_
            | refine wb8 _ _ _ (by assumption) ?_)
           done)
        | (refine absurd (by with_reducible assumption) (tb8 tokens bound _ ?_ (by omega))
           with_reducible repeat (first
            | assumption
            | apply hP.next
            | apply hP.skip
            | apply hP.report
            | apply hP.reset_last_error_line
            | refine we _ _ _ (by assumption) ?_
            | refine wp1 _ _ _ (by assumption) ?_
            | refine wp2 _ _ _ (by assumption) ?_
            | refine wp3 _ _ _ (by assumption) ?_
            | refine wp4 _ _ _ (by assumption) ?_
            | refine wp5 _ _ _ (by assumption) ?_
            | refine wb1 _ _ _ (by assumption) ?_
            | refine wb2 _ _ _ _ (by assumption) ?_
            | refine wb3 _ _ _ (by assumption) ?_
            | refine wb4 _ _ _ (by assumption) ?_
            | refine wb5 _ _ _ (by assumption) ?_
            | refine wb6 _ _ _ (by assumption) ?_
            | refine wb7 _ _ _ (by assumption) ?_
            | refine wb8 _ _ _ (by assumption) ?_)
           done)
        | (refine absurd (by with_reducible assumption) (t1 tokens bound _ ?_ (by omega))
           with_reducible repeat (first
            | assumption
            | apply hP.next
            | apply hP.skip
            | apply hP.report
            | apply hP.reset_last_error_line
            | refine we _ _ _ (by assumption) ?_
            | refine wp1 _ _ _ (by assumption) ?_
            | refine wp2 _ _ _ (by assumption) ?_
            | refine wp3 _ _ _ (by assumption) ?_
            | refine wp4 _ _ _ (by assumption) ?_
            | refine wp5 _ _ _ (by assumption) ?_
            | refine wb1 _ _ _ (by assumption) ?_
            | refine wb2 _ _ _ _ (by assumption) ?_
            | refine wb3 _ _ _ (by assumption) ?_
            | refine wb4 _ _ _ (by assumption) ?_
            | refine wb5 _ _ _ (by assumption) ?_
            | refine wb6 _ _ _ (by assumption) ?_
            | refine wb7 _ _ _ (by assumption) ?_
            | refine wb8 _ _ _ (by assumption) ?_)
           done)
        | (refine absurd (by with_reducible assumption) (tp1 tokens bound _ ?_ (by omega))
           with_reducible repeat (first
            | assumption
            | apply hP.next
            | apply hP.skip
            | apply hP.report
            | apply hP.reset_last_error_line
            | refine we _ _ _ (by assumption) ?_
            | refine wp1 _ _ _ (by assumption) ?_
            | refine wp2 _ _ _ (by assumption) ?_
            | refine wp3 _ _ _ (by assumption) ?_
            | refine wp4 _ _ _ (by assumption) ?_
            | refine wp5 _ _ _ (by assumption) ?_
            | refine wb1 _ _ _ (by assumption) ?_
            | refine wb2 _ _ _ _ (by assumption) ?_
            | refine wb3 _ _ _ (by assumption) ?_
            | refine wb4 _ _ _ (by assumption) ?_
            | refine wb5 _ _ _ (by assumption) ?_
            | refine wb6 _ _ _ (by assumption) ?_
            | refine wb7 _ _ _ (by assumption) ?_
            | refine wb8 _ _ _ (by assumption) ?_)
           done)
        | (refine absurd (by with_reducible assumption) (tp2 tokens bound _ ?_ (by omega))
           with_reducible repeat (first
            | assumption
            | apply hP.next
            | apply hP.skip
            | apply hP.report
            | apply hP.reset_last_error_line
            | refine we _ _ _ (by assumption) ?_
            | refine wp1 _ _ _ (by assumption) ?_
            | refine wp2 _ _ _ (by assumption) ?_
            | refine wp3 _ _ _ (by assumption) ?_
            | refine wp4 _ _ _ (by assumption) ?_
            | refine wp5 _ _ _ (by assumption) ?_
            | refine wb1 _ _ _ (by assumption) ?_
            | refine wb2 _ _ _ _ (by assumption) ?_
            | refine wb3 _ _ _ (by assumption) ?_
            | refine wb4 _ _ _ (by assumption) ?_
            | refine wb5 _ _ _ (by assumption) ?_
            | refine wb6 _ _ _ (by assumption) ?_
            | refine wb7 _ _ _ (by assumption) ?_
            | refine wb8 _ _ _ (by assumption) ?_)
           done)
        | (refine absurd (by with_reducible assumption) (tp3 tokens bound _ ?_ (by omega))
           with_reducible repeat (first
            | assumption
            | apply hP.next
            | apply hP.skip
            | apply hP.report
            | apply hP.reset_last_error_line
            | refine we _ _ _ (by assumption) ?_
            | refine wp1 _ _ _ (by assumption) ?_
            | refine wp2 _ _ _ (by assumption) ?_
            | refine wp3 _ _ _ (by assumption) ?_
            | refine wp4 _ _ _ (by assumption) ?_
            | refine wp5 _ _ _ (by assumption) ?_
            | refine wb1 _ _ _ (by assumption) ?_
            | refine wb2 _ _ _ _ (by assumption) ?_
            | refine wb3 _ _ _ (by assumption) ?_
            | refine wb4 _ _ _ (by assumption) ?_
            | refine wb5 _ _ _ (by assumption) ?_
            | refine wb6 _ _ _ (by assumption) ?_
            | refine wb7 _ _ _ (by assumption) ?_
            | refine wb8 _ _ _ (by assumption) ?_)
           done)
        | (refine absurd (by with_reducible assumption) (tp4 tokens bound _ ?_ (by omega))
           with_reducible repeat (first
            | assumption
            | apply hP.next
            | apply hP.skip
            | apply hP.report
            | apply hP.reset_last_error_line
            | refine we _ _ _ (by assumption) ?_
            | refine wp1 _ _ _ (by assumption) ?_
            | refine wp2 _ _ _ (by assumption) ?_
            | refine wp3 _ _ _ (by assumption) ?_
            | refine wp4 _ _ _ (by assumption) ?_
            | refine wp5 _ _ _ (by assumption) ?_
            | refine wb1 _ _ _ (by assumption) ?_
            | refine wb2 _ _ _ _ (by assumption) ?_
            | refine wb3 _ _ _ (by assumption) ?_
            | refine wb4 _ _ _ (by assumption) ?_
            | refine wb5 _ _ _ (by assumption) ?_
            | refine wb6 _ _ _ (by assumption) ?_
            | refine wb7 _ _ _ (by assumption) ?_
            | refine wb8 _ _ _ (by assumption) ?_)
           done)
        | (refine absurd (by with_reducible assumption) (tp5 tokens bound _ ?_ (by omega))
           with_reducible repeat (first
            | assumption
            | apply hP.next
            | apply hP.skip
            | apply hP.report
            | apply hP.reset_last_error_line
            | refine we _ _ _ (by assumption) ?_
            | refine wp1 _ _ _ (by assumption) ?_
            | refine wp2 _ _ _ (by assumption) ?_
            | refine wp3 _ _ _ (by assumption) ?_
            | refine wp4 _ _ _ (by assumption) ?_
            | refine wp5 _ _ _ (by assumption) ?_
            | refine wb1 _ _ _ (by assumption) ?_
            | refine wb2 _ _ _ _ (by assumption) ?_
            | refine wb3 _ _ _ (by assumption) ?_
            | refine wb4 _ _ _ (by assumption) ?_
            | refine wb5 _ _ _ (by assumption) ?_
            | refine wb6 _ _ _ (by assumption) ?_
            | refine wb7 _ _ _ (by assumption) ?_
            | refine wb8 _ _ _ (by assumption) ?_)
           done)
        | (refine absurd (by with_reducible assumption) (ub1 tokens bound _ ?_ (by omega))
           with_reducible repeat (first
            | assumption
            | exact hn1 _ (by assumption) (by decide)
            | exact hn2 _ (by assumption) (by decide)
            | exact hn3 _ _ (by assumption) (by decide) (by decide)
            | exact hadv _ _ (by assumption) (by assumption : _ ∧ _ ∧ _).2.2
            | apply hS.next
            | apply hS.skip
            | apply hS.report
            | apply hS.reset_last_error_line
            | refine se _ _ _ (by assumption) ?_
            | refine sp1 _ _ _ (by assumption) ?_
            | refine sp2 _ _ _ (by assumption) ?_
            | refine sp3 _ _ _ (by assumption) ?_
            | refine sp4 _ _ _ (by assumption) ?_
            | refine sp5 _ _ _ (by assumption) ?_
            | refine sb1 _ _ _ (by assumption) ?_
            | refine sb2 _ _ _ _ (by assumption) ?_
            | refine sb3 _ _ _ (by assumption) ?_
            | refine sb4 _ _ _ (by assumption) ?_
            | refine sb5 _ _ _ (by assumption) ?_
            | refine sb6 _ _ _ (by assumption) ?_
            | refine sb7 _ _ _ (by assumption) ?_
            | refine sb8 _ _ _ (by assumption) ?_)
           done)
        | (refine absurd (by with_reducible assumption) (ub2 _ tokens bound _ ?_ (by omega))
           with_reducible repeat (first
            | assumption
            | exact hn1 _ (by assumption) (by decide)
            | exact hn2 _ (by assumption) (by decide)
            | exact hn3 _ _ (by assumption) (by decide) (by decide)
            | exact hadv _ _ (by assumption) (by assumption : _ ∧ _ ∧ _).2.2
            | apply hS.next
            | apply hS.skip
            | apply hS.report
            | apply hS.reset_last_error_line
            | refine se _ _ _ (by assumption) ?_
            | refine sp1 _ _ _ (by assumption) ?_
            | refine sp2 _ _ _ (by assumption) ?_
            | refine sp3 _ _ _ (by assumption) ?_
            | refine sp4 _ _ _ (by assumption) ?_
            | refine sp5 _ _ _ (by assumption) ?_
            | refine sb1 _ _ _ (by assumption) ?_
            | refine sb2 _ _ _ _ (by assumption) ?_
            | refine sb3 _ _ _ (by assumption) ?_
            | refine sb4 _ _ _ (by assumption) ?_
            | refine sb5 _ _ _ (by assumption) ?_
            | refine sb6 _ _ _ (by assumption) ?_
            | refine sb7 _ _ _ (by assumption) ?_
            | refine sb8 _ _ _ (by assumption) ?_)
           done)
        | (refine absurd (by with_reducible assumption) (ub3 tokens bound _ ?_ (by omega))
           with_reducible repeat (first
            | assumption
            | exact hn1 _ (by assumption) (by decide)
            | exact hn2 _ (by assumption) (by decide)
            | exact hn3 _ _ (by assumption) (by decide) (by decide)
            | exact hadv _ _ (by assumption) (by assumption : _ ∧ _ ∧ _).2.2
            | apply hS.next
            | apply hS.skip
            | apply hS.report
            | apply hS.reset_last_error_line
            | refine se _ _ _ (by assumption) ?_
            | refine sp1 _ _ _ (by assumption) ?_
            | refine sp2 _ _ _ (by assumption) ?_
            | refine sp3 _ _ _ (by assumption) ?_
            | refine sp4 _ _ _ (by assumption) ?_
            | refine sp5 _ _ _ (by assumption) ?_
            | refine sb1 _ _ _ (by assumption) ?_
            | refine sb2 _ _ _ _ (by assumption) ?_
            | refine sb3 _ _ _ (by assumption) ?_
            | refine sb4 _ _ _ (by assumption) ?_
            | refine sb5 _ _ _ (by assumption) ?_
            | refine sb6 _ _ _ (by assumption) ?_
            | refine sb7 _ _ _ (by assumption) ?_
            | refine sb8 _ _ _ (by assumption) ?_)
           done)
        | (refine absurd (by with_reducible assumption) (ub4 tokens bound _ ?_ (by omega))
           with_reducible repeat (first
            | assumption
            | exact hn1 _ (by assumption) (by decide)
            | exact hn2 _ (by assumption) (by decide)
            | exact hn3 _ _ (by assumption) (by decide) (by decide)
            | exact hadv _ _ (by assumption) (by assumption : _ ∧ _ ∧ _).2.2
            | apply hS.next
            | apply hS.skip
            | apply hS.report
            | apply hS.reset_last_error_line
            | refine se _ _ _ (by assumption) ?_
            | refine sp1 _ _ _ (by assumption) ?_
            | refine sp2 _ _ _ (by assumption) ?_
            | refine sp3 _ _ _ (by assumption) ?_
            | refine sp4 _ _ _ (by assumption) ?_
            | refine sp5 _ _ _ (by assumption) ?_
            | refine sb1 _ _ _ (by assumption) ?_
            | refine sb2 _ _ _ _ (by assumption) ?_
            | refine sb3 _ _ _ (by assumption) ?_
            | refine sb4 _ _ _ (by assumption) ?_
            | refine sb5 _ _ _ (by assumption) ?_
            | refine sb6 _ _ _ (by assumption) ?_
            | refine sb7 _ _ _ (by assumption) ?_
            | refine sb8 _ _ _ (by assumption) ?_)
           done)
        | (refine absurd (by with_reducible assumption) (ub5 tokens bound _ ?_ (by omega))
           with_reducible repeat (first
            | assumption
            | exact hn1 _ (by assumption) (by decide)
            | exact hn2 _ (by assumption) (by decide)
            | exact hn3 _ _ (by assumption) (by decide) (by decide)
            | exact hadv _ _ (by assumption) (by assumption : _ ∧ _ ∧ _).2.2
            | apply hS.next
            | apply hS.skip
            | apply hS.report
            | apply hS.reset_last_error_line
            | refine se _ _ _ (by assumption) ?_
            | refine sp1 _ _ _ (by assumption) ?_
            | refine sp2 _ _ _ (by assumption) ?_
            | refine sp3 _ _ _ (by assumption) ?_
            | refine sp4 _ _ _ (by assumption) ?_
            | refine sp5 _ _ _ (by assumption) ?_
            | refine sb1 _ _ _ (by assumption) ?_
            | refine sb2 _ _ _ _ (by assumption) ?_
            | refine sb3 _ _ _ (by assumption) ?_
            | refine sb4 _ _ _ (by assumption) ?_
            | refine sb5 _ _ _ (by assumption) ?_
            | refine sb6 _ _ _ (by assumption) ?_
            | refine sb7 _ _ _ (by assumption) ?_
            | refine sb8 _ _ _ (by assumption) ?_)
           done)
        | (refine absurd (by with_reducible assumption) (ub6 tokens bound _ ?_ (by omega))
           with_reducible repeat (first
            | assumption
            | exact hn1 _ (by assumption) (by decide)
            | exact hn2 _ (by assumption) (by decide)
            | exact hn3 _ _ (by assumption) (by decide) (by decide)
            | exact hadv _ _ (by assumption) (by assumption : _ ∧ _ ∧ _).2.2
            | apply hS.next
            | apply hS.skip
            | apply hS.report
            | apply hS.reset_last_error_line
            | refine se _ _ _ (by assumption) ?_
            | refine sp1 _ _ _ (by assumption) ?_
            | refine sp2 _ _ _ (by assumption) ?_
            | refine sp3 _ _ _ (by assumption) ?_
            | refine sp4 _ _ _ (by assumption) ?_
            | refine sp5 _ _ _ (by assumption) ?_
            | refine sb1 _ _ _ (by assumption) ?_
            | refine sb2 _ _ _ _ (by assumption) ?_
            | refine sb3 _ _ _ (by assumption) ?_
            | refine sb4 _ _ _ (by assumption) ?_
            | refine sb5 _ _ _ (by assumption) ?_
            | refine sb6 _ _ _ (by assumption) ?_
            | refine sb7 _ _ _ (by assumption) ?_
            | refine sb8 _ _ _ (by assumption) ?_)
           done)
        | (refine absurd (by with_reducible assumption) (ub7 tokens bound _ ?_ (by omega))
           with_reducible repeat (first
            | assumption
            | exact hn1 _ (by assumption) (by decide)
            | exact hn2 _ (by assumption) (by decide)
            | exact hn3 _ _ (by assumption) (by decide) (by decide)
            | exact hadv _ _ (by assumption) (by assumption : _ ∧ _ ∧ _).2.2
            | apply hS.next
            | apply hS.skip
            | apply hS.report
            | apply hS.reset_last_error_line
            | refine se _ _ _ (by assumption) ?_
            | refine sp1 _ _ _ (by assumption) ?_
            | refine sp2 _ _ _ (by assumption) ?_
            | refine sp3 _ _ _ (by assumption) ?_
            | refine sp4 _ _ _ (by assumption) ?_
            | refine sp5 _ _ _ (by assumption) ?_
            | refine sb1 _ _ _ (by assumption) ?_
            | refine sb2 _ _ _ _ (by assumption) ?_
            | refine sb3 _ _ _ (by assumption) ?_
            | refine sb4 _ _ _ (by assumption) ?_
            | refine sb5 _ _ _ (by assumption) ?_
            | refine sb6 _ _ _ (by assumption) ?_
            | refine sb7 _ _ _ (by assumption) ?_
            | refine sb8 _ _ _ (by assumption) ?_)
           done)
        | (refine absurd (by with_reducible assumption) (ub8 tokens bound _ ?_ (by omega))
           with_reducible repeat (first
            | assumption
            | exact hn1 _ (by assumption) (by decide)
            | exact hn2 _ (by assumption) (by decide)
            | exact hn3 _ _ (by assumption) (by decide) (by decide)
            | exact hadv _ _ (by assumption) (by assumption : _ ∧ _ ∧ _).2.2
            | apply hS.next
            | apply hS.skip
            | apply hS.report
            | apply hS.reset_last_error_line
            | refine se _ _ _ (by assumption) ?_
            | refine sp1 _ _ _ (by assumption) ?_
            | refine sp2 _ _ _ (by assumption) ?_
            | refine sp3 _ _ _ (by assumption) ?_
            | refine sp4 _ _ _ (by assumption) ?_
            | refine sp5 _ _ _ (by assumption) ?_
            | refine sb1 _ _ _ (by assumption) ?_
            | refine sb2 _ _ _ _ (by assumption) ?_
            | refine sb3 _ _ _ (by assumption) ?_
            | refine sb4 _ _ _ (by assumption) ?_
            | refine sb5 _ _ _ (by assumption) ?_
            | refine sb6 _ _ _ (by assumption) ?_
            | refine sb7 _ _ _ (by assumption) ?_
            | refine sb8 _ _ _ (by assumption) ?_)
           done)
        | (refine absurd (by with_reducible assumption) (u1 tokens bound _ ?_ (by omega))
           with_reducible repeat (first
            | assumption
            | exact hn1 _ (by assumption) (by decide)
            | exact hn2 _ (by assumption) (by decide)
            | exact hn3 _ _ (by assumption) (by decide) (by decide)
            | exact hadv _ _ (by assumption) (by assumption : _ ∧ _ ∧ _).2.2
            | apply hS.next
            | apply hS.skip
            | apply hS.report
            | apply hS.reset_last_error_line
            | refine se _ _ _ (by assumption) ?_
            | refine sp1 _ _ _ (by assumption) ?_
            | refine sp2 _ _ _ (by assumption) ?_
            | refine sp3 _ _ _ (by assumption) ?_
            | refine sp4 _ _ _ (by assumption) ?_
            | refine sp5 _ _ _ (by assumption) ?_
            | refine sb1 _ _ _ (by assumption) ?_
            | refine sb2 _ _ _ _ (by assumption) ?_
            | refine sb3 _ _ _ (by assumption) ?_
            | refine sb4 _ _ _ (by assumption) ?_
            | refine sb5 _ _ _ (by assumption) ?_
            | refine sb6 _ _ _ (by assumption) ?_
            | refine sb7 _ _ _ (by assumption) ?_
            | refine sb8 _ _ _ (by assumption) ?_)
           done)
        | (refine absurd (by with_reducible assumption) (up1 tokens bound _ ?_ (by omega))
           with_reducible repeat (first
            | assumption
            | exact hn1 _ (by assumption) (by decide)
            | exact hn2 _ (by assumption) (by decide)
            | exact hn3 _ _ (by assumption) (by decide) (by decide)
            | exact hadv _ _ (by assumption) (by assumption : _ ∧ _ ∧ _).2.2
            | apply hS.next
            | apply hS.skip
            | apply hS.report
            | apply hS.reset_last_error_line
            | refine se _ _ _ (by assumption) ?_
            | refine sp1 _ _ _ (by assumption) ?_
            | refine sp2 _ _ _ (by assumption) ?_
            | refine sp3 _ _ _ (by assumption) ?_
            | refine sp4 _ _ _ (by assumption) ?_
            | refine sp5 _ _ _ (by assumption) ?_
            | refine sb1 _ _ _ (by assumption) ?_
            | refine sb2 _ _ _ _ (by assumption) ?_
            | refine sb3 _ _ _ (by assumption) ?_
            | refine sb4 _ _ _ (by assumption) ?_
            | refine sb5 _ _ _ (by assumption) ?_
            | refine sb6 _ _ _ (by assumption) ?_
            | refine sb7 _ _ _ (by assumption) ?_
            | refine sb8 _ _ _ (by assumption) ?_)
           done)
        | (refine absurd (by with_reducible assumption) (up2 tokens bound _ ?_ (by omega))
           with_reducible repeat (first
            | assumption
            | exact hn1 _ (by assumption) (by decide)
            | exact hn2 _ (by assumption) (by decide)
            | exact hn3 _ _ (by assumption) (by decide) (by decide)
            | exact hadv _ _ (by assumption) (by assumption : _ ∧ _ ∧ _).2.2
            | apply hS.next
            | apply hS.skip
            | apply hS.report
            | apply hS.reset_last_error_line
            | refine se _ _ _ (by assumption) ?_
            | refine sp1 _ _ _ (by assumption) ?_
            | refine sp2 _ _ _ (by assumption) ?_
            | refine sp3 _ _ _ (by assumption) ?_
            | refine sp4 _ _ _ (by assumption) ?_
            | refine sp5 _ _ _ (by assumption) ?_
            | refine sb1 _ _ _ (by assumption) ?_
            | refine sb2 _ _ _ _ (by assumption) ?_
            | refine sb3 _ _ _ (by assumption) ?_
            | refine sb4 _ _ _ (by assumption) ?_
            | refine sb5 _ _ _ (by assumption) ?_
            | refine sb6 _ _ _ (by assumption) ?_
            | refine sb7 _ _ _ (by assumption) ?_
            | refine sb8 _ _ _ (by assumption) ?_)
           done)
        | (refine absurd (by with_reducible assumption) (up3 tokens bound _ ?_ (by omega))
           with_reducible repeat (first
            | assumption
            | exact hn1 _ (by assumption) (by decide)
            | exact hn2 _ (by assumption) (by decide)
            | exact hn3 _ _ (by assumption) (by decide) (by decide)
            | exact hadv _ _ (by assumption) (by assumption : _ ∧ _ ∧ _).2.2
            | apply hS.next
            | apply hS.skip
            | apply hS.report
            | apply hS.reset_last_error_line
            | refine se _ _ _ (by assumption) ?_
            | refine sp1 _ _ _ (by assumption) ?_
            | refine sp2 _ _ _ (by assumption) ?_
            | refine sp3 _ _ _ (by assumption) ?_
            | refine sp4 _ _ _ (by assumption) ?_
            | refine sp5 _ _ _ (by assumption) ?_
            | refine sb1 _ _ _ (by assumption) ?_
            | refine sb2 _ _ _ _ (by assumption) ?_
            | refine sb3 _ _ _ (by assumption) ?_
            | refine sb4 _ _ _ (by assumption) ?_
            | refine sb5 _ _ _ (by assumption) ?_
            | refine sb6 _ _ _ (by assumption) ?_
            | refine sb7 _ _ _ (by assumption) ?_
            | refine sb8 _ _ _ (by assumption) ?_)
           done)
        | (refine absurd (by with_reducible assumption) (up4 tokens bound _ ?_ (by omega))
           with_reducible repeat (first
            | assumption
            | exact hn1 _ (by assumption) (by decide)
            | exact hn2 _ (by assumption) (by decide)
            | exact hn3 _ _ (by assumption) (by decide) (by decide)
            | exact hadv _ _ (by assumption) (by assumption : _ ∧ _ ∧ _).2.2
            | apply hS.next
            | apply hS.skip
            | apply hS.report
            | apply hS.reset_last_error_line
            | refine se _ _ _ (by assumption) ?_
            | refine sp1 _ _ _ (by assumption) ?_
            | refine sp2 _ _ _ (by assumption) ?_
            | refine sp3 _ _ _ (by assumption) ?_
            | refine sp4 _ _ _ (by assumption) ?_
            | refine sp5 _ _ _ (by assumption) ?_
            | refine sb1 _ _ _ (by assumption) ?_
            | refine sb2 _ _ _ _ (by assumption) ?_
            | refine sb3 _ _ _ (by assumption) ?_
            | refine sb4 _ _ _ (by assumption) ?_
            | refine sb5 _ _ _ (by assumption) ?_
            | refine sb6 _ _ _ (by assumption) ?_
            | refine sb7 _ _ _ (by assumption) ?_
            | refine sb8 _ _ _ (by assumption) ?_)
           done)
        | (refine absurd (by with_reducible assumption) (up5 tokens bound _ ?_ (by omega))
           with_reducible repeat (first
            | assumption
            | exact hn1 _ (by assumption) (by decide)
            | exact hn2 _ (by assumption) (by decide)
            | exact hn3 _ _ (by assumption) (by decide) (by decide)
            | exact hadv _ _ (by assumption) (by assumption : _ ∧ _ ∧ _).2.2
            | apply hS.next
            | apply hS.skip
            | apply hS.report
            | apply hS.reset_last_error_line
            | refine se _ _ _ (by assumption) ?_
            | refine sp1 _ _ _ (by assumption) ?_
            | refine sp2 _ _ _ (by assumption) ?_
            | refine sp3 _ _ _ (by assumption) ?_
            | refine sp4 _ _ _ (by assumption) ?_
            | refine sp5 _ _ _ (by assumption) ?_
            | refine sb1 _ _ _ (by assumption) ?_
            | refine sb2 _ _ _ _ (by assumption) ?_
            | refine sb3 _ _ _ (by assumption) ?_
            | refine sb4 _ _ _ (by assumption) ?_
            | refine sb5 _ _ _ (by assumption) ?_
            | refine sb6 _ _ _ (by assumption) ?_
            | refine sb7 _ _ _ (by assumption) ?_
            | refine sb8 _ _ _ (by assumption) ?_)
           done)

/-- The fuel `main` passes is enough for `parse_prog` from every well-formed state. -/
theorem parse_prog_total (s : State) (h : WellFormed s) :
    ∃ root s1, parse_prog (parse_fuel s) s = some (root, s1) := by
  have hW : Within s.token_list (rest s).length s := ⟨h, rfl, Nat.le_refl _⟩
  have hlen : (rest s).length ≤ s.token_list.length := by rw [rest_length]; omega
  have tot := (total_stmt (parse_fuel s)).1.strict
  cases hr : parse_prog (parse_fuel s) s with
  | some r => exact ⟨r.1, r.2, rfl⟩
  | none =>
    exfalso
    unfold parse_prog at hr
    split at hr
    · cases hr
    · next hb =>
      split at hr
      · next hn =>
        exact tot s.token_list (rest s).length _
          (next_strict_not _ _ s hW TOK_BEGIN hb (by decide))
          (by unfold parse_fuel; omega) hn
      · split at hr <;> cases hr

theorem tokenize_total (file : List Char) :
    ∃ s0, tokenize_file file initial_state = some s0 := by
  obtain ⟨s1, h1⟩ := tokenize_loop_total file.length file initial_state (Nat.le_refl _)
  exact ⟨add_token TOK_EOF [] s1.line s1, by simp [tokenize_file, h1]⟩

theorem main_total (file : List Char) : ∃ r, main file = some r := by
  obtain ⟨s0, h0⟩ := tokenize_total file
  obtain ⟨hwf, -⟩ := lexed_start file s0 h0
  obtain ⟨root, s2, h2⟩ := parse_prog_total _ hwf
  unfold main
  simp only [h0, h2]
  split <;> exact ⟨_, rfl⟩

theorem strict_index_lt (s s1 : State) (hs : WellFormed s)
    (h : Strict s.token_list (rest s).length s1) : s.token_index < s1.token_index := by
  obtain ⟨⟨hw1, htl, hlen⟩, hpos⟩ := h
  have i0 := hs.index
  have i1 := hw1.index
  rw [rest_length] at hlen hpos
  rw [rest_length, htl] at hlen
  omega

theorem within_index_le (s s1 : State) (hs : WellFormed s)
    (h : Within s.token_list (rest s).length s1) (hne : s.token_index < s.token_list.length) :
    s.token_index ≤ s1.token_index := by
  obtain ⟨hw1, htl, hlen⟩ := h
  have i0 := hs.index
  have i1 := hw1.index
  rw [rest_length, rest_length, htl] at hlen
  omega

/-- C22: `parse_prog` terminates. From every well-formed state (the token list ends
with its only end-of-input token, lines are positive, the cursor is in the list or just
past it with `current_token` the token under it) `parse_prog` returns with the fuel
`main` gives it, and `main` returns a result for every file. Every call of `parse_stmt` made
by the statement loop (the current token is not the end of input) leaves the cursor
strictly further, whether it returns a statement or NULL, and the recovery jump that
may follow does not move it back. In every expression loop, consuming the operator and
parsing the operand leaves the cursor strictly further. -/
theorem parser_terminates :
    (∀ s, WellFormed s → ∃ root s1, parse_prog (parse_fuel s) s = some (root, s1))
    ∧ (∀ file, ∃ r, main file = some r)
    ∧ (∀ fuel s r s1, WellFormed s → s.current_token.type ≠ TOK_EOF →
        parse_stmt fuel s = some (r, s1) →
        s.token_index < s1.token_index ∧ s1.token_index ≤ (skip_to_sync s1).token_index)
    ∧ (∀ fuel s r s1, WellFormed s → s.current_token.type ≠ TOK_EOF →
        (parse_rel_expr fuel (next_token s) = some (r, s1)
          ∨ parse_add_expr fuel (next_token s) = some (r, s1)
          ∨ parse_mul_expr fuel (next_token s) = some (r, s1)
          ∨ parse_prim_expr fuel (next_token s) = some (r, s1)) →
        s.token_index < s1.token_index) := by
  refine ⟨parse_prog_total, main_total, ?_, ?_⟩
  · intro fuel s r s1 hs hk h
    have hW : Within s.token_list (rest s).length s := ⟨hs, rfl, Nat.le_refl _⟩
    exact ⟨strict_index_lt s s1 hs (parse_stmt_advances fuel _ _ s r s1 h hW hk),
      skip_to_sync_index_le s1⟩
  · intro fuel s r s1 hs hk h
    have hW : Within s.token_list (rest s).length s := ⟨hs, rfl, Nat.le_refl _⟩
    have hn := next_token_strict _ _ s hW hk
    have k := (strict_stable s.token_list (rest s).length).keeps_expr fuel
    apply strict_index_lt s s1 hs
    rcases h with h | h | h | h
    · exact k.rel _ _ _ h hn
    · exact k.add _ _ _ h hn
    · exact k.mul _ _ _ h hn
    · exact k.prim _ _ _ h hn

/-! ## The statement limit of a block -/

/-- C25 (amended): in every collector state reached from the empty collector by
`add_error` calls interleaved with resets of `last_error_line` to 0, there are at most
100 diagnostics and no two of them have both the same line and the same message; every
recorded line is at least 1 when every call was made with a line of at least 1; and any
further steps leave the recorded diagnostics as a prefix of the collector, so none is
removed, modified or reordered. -/
theorem collector_invariants (steps more : List CollectorStep) :
    (collector_run steps initial_state).errors.length ≤ MAX_ERRORS
    ∧ (collector_run steps initial_state).errors.Nodup
    ∧ ((∀ line message, CollectorStep.add line message ∈ steps → 1 ≤ line) →
        ∀ e ∈ (collector_run steps initial_state).errors, 1 ≤ e.line)
    ∧ (collector_run steps initial_state).errors
        <+: (collector_run (steps ++ more) initial_state).errors := by
  obtain ⟨h1, h2, h3⟩ := collector_run_invariant steps initial_state
    (by simp [initial_state]) (by simp [initial_state])
  refine ⟨h1, h2, h3 (by simp [initial_state]), ?_⟩
  rw [collector_run_append]
  exact collector_run_extends more _

end Upl
